import Mathlib

/-! Shallow embedding of `wxr.go` (package `wxr` of go-wxr-import).

`ParseWxr` decodes a WordPress WXR 1.2 export with `encoding/xml` and then fills in six
timestamp fields from their raw date strings with `time.Parse`.

The file has three layers.

* `time`: the part of the Go standard library package `time` that `ParseWxr` reaches:
  `time.Parse` for the two layouts used (`time.RFC1123Z` and `ISODATEFORMAT`), `time.Date`
  at location UTC and `Time.Unix`.
* `xml`: the part of `encoding/xml` that `xml.Unmarshal` runs for the struct types of
  `wxr.go`, working on the tokens that `Decoder.Token` delivers.
* the data model of `wxr.go` (struct by struct, field by field, with the bindings of the
  `xml:"..."` struct tags) and `ParseWxr` itself.

The two library layers follow the Go standard library as of Go 1.21: `copyValue` trims
white space and stores the zero value for empty character data, `time.Parse` checks the
range of a numeric zone offset and accepts a fractional second after the seconds, and
`time.Date` counts the days from the absolute epoch (`daysSinceEpoch`). The XML tokenizer
(`Decoder.Token`, with its namespace translation and its checks of well-formedness) and the
zone `time.Local` are parameters (`Env`).

Go `string` values are modelled by `String`; the parsers work on the list of characters.
The texts that reach them come out of the XML decoder, which only delivers valid UTF-8,
and every comparison the parsers make is against ASCII characters.
-/

set_option autoImplicit false

/-! ## Package `time` -/

namespace time

/-- Go `*time.Location` as far as `time.Parse` can produce one: `UTC`, `Local`, or the
    unnamed zone `FixedZone("", offset)`. -/
inductive Location where
  | UTC
  | Local
  | Fixed (offset : Int)
  deriving DecidableEq, Repr

/-- Go `time.Time` without a monotonic reading: `sec` counts seconds since
    January 1, year 1 00:00:00 UTC (field `ext`), `nsec` is the nanosecond part
    (field `wall`), `loc` the location. -/
structure Time where
  sec : Int
  nsec : Int
  loc : Location
  deriving DecidableEq, Repr

/-- The zero value `time.Time{}`: January 1, year 1, 00:00:00 UTC. -/
def Time.zero : Time := { sec := 0, nsec := 0, loc := Location.UTC }

def secondsPerMinute : Int := 60
def secondsPerHour : Int := 60 * secondsPerMinute
def secondsPerDay : Int := 24 * secondsPerHour
def daysPer400Years : Int := 365 * 400 + 97
def daysPer100Years : Int := 365 * 100 + 24
def daysPer4Years : Int := 365 * 4 + 1

/-- The year of the zero of the absolute clock, a multiple of 400 plus one. -/
def absoluteZeroYear : Int := -292277022399
def internalYear : Int := 1
/-- The constant `(absoluteZeroYear - internalYear) * 365.2425 * secondsPerDay`. -/
def absoluteToInternal : Int := -9223371966579724800
def unixToInternal : Int := (1969 * 365 + 1969 / 4 - 1969 / 100 + 1969 / 400) * secondsPerDay
def internalToUnix : Int := -unixToInternal

/-- Go `Time.Unix`: seconds since January 1, 1970 UTC. -/
def Time.Unix (t : Time) : Int := t.sec + internalToUnix

/-- Go `isLeap`. -/
def isLeap (year : Int) : Bool :=
  year % 4 == 0 && (year % 100 != 0 || year % 400 == 0)

/-- Go `daysBefore[m]`: days in a non-leap year before month `m + 1`. -/
def daysBefore (m : Int) : Int :=
  if m ≤ 0 then 0
  else if m = 1 then 31
  else if m = 2 then 31 + 28
  else if m = 3 then 31 + 28 + 31
  else if m = 4 then 31 + 28 + 31 + 30
  else if m = 5 then 31 + 28 + 31 + 30 + 31
  else if m = 6 then 31 + 28 + 31 + 30 + 31 + 30
  else if m = 7 then 31 + 28 + 31 + 30 + 31 + 30 + 31
  else if m = 8 then 31 + 28 + 31 + 30 + 31 + 30 + 31 + 31
  else if m = 9 then 31 + 28 + 31 + 30 + 31 + 30 + 31 + 31 + 30
  else if m = 10 then 31 + 28 + 31 + 30 + 31 + 30 + 31 + 31 + 30 + 31
  else if m = 11 then 31 + 28 + 31 + 30 + 31 + 30 + 31 + 31 + 30 + 31 + 30
  else 31 + 28 + 31 + 30 + 31 + 30 + 31 + 31 + 30 + 31 + 30 + 31

/-- Go `daysIn`. -/
def daysIn (m : Int) (year : Int) : Int :=
  if m = 2 ∧ isLeap year = true then 29
  else daysBefore m - daysBefore (m - 1)

/-- Go `norm`: `(hi, lo)` with `lo` brought into `[0, base)`. -/
def norm (hi lo base : Int) : Int × Int :=
  let (hi1, lo1) :=
    if lo < 0 then
      let n := (-lo - 1) / base + 1
      (hi - n, lo + n * base)
    else (hi, lo)
  if lo1 ≥ base then
    let n := lo1 / base
    (hi1 + n, lo1 - n * base)
  else (hi1, lo1)

/-- Go `daysSinceEpoch`: days from the absolute epoch to the start of `year`. -/
def daysSinceEpoch (year : Int) : Int :=
  let y0 := year - absoluteZeroYear
  let n400 := y0 / 400
  let y1 := y0 - 400 * n400
  let d0 := daysPer400Years * n400
  let n100 := y1 / 100
  let y2 := y1 - 100 * n100
  let d1 := d0 + daysPer100Years * n100
  let n4 := y2 / 4
  let y3 := y2 - 4 * n4
  let d2 := d1 + daysPer4Years * n4
  d2 + 365 * y3

/-- Go `time.Date(year, month, day, hour, min, sec, nsec, time.UTC)`. -/
def Date (year month day hour min sec nsec : Int) : Time :=
  let m := month - 1
  let (year, m) := norm year m 12
  let month := m + 1
  let (sec, nsec) := norm sec nsec 1000000000
  let (min, sec) := norm min sec 60
  let (hour, min) := norm hour min 60
  let (day, hour) := norm day hour 24
  let d := daysSinceEpoch year
  let d := d + daysBefore (month - 1)
  let d := if isLeap year = true ∧ month ≥ 3 then d + 1 else d
  let d := d + (day - 1)
  let abs := d * secondsPerDay
  let abs := abs + (hour * secondsPerHour + min * secondsPerMinute + sec)
  let unix := abs + (absoluteToInternal + internalToUnix)
  { sec := unix + unixToInternal, nsec := nsec, loc := Location.UTC }

/-- Go `Time.addSec` (no overflow is possible for the values `Parse` produces). -/
def Time.addSec (t : Time) (d : Int) : Time := { t with sec := t.sec + d }

/-- Go `isDigit(s, 0)` on the head character. -/
def isDigitChar (c : Char) : Bool := '0' ≤ c && c ≤ '9'

/-- Value of a decimal digit, `int(c - '0')`. -/
def digitVal (c : Char) : Int := (c.toNat : Int) - 48

/-- Go `getnum`: a one- or two-digit number; `fixed` demands two digits. -/
def getnum (s : List Char) (fixed : Bool) : Option (Int × List Char) :=
  match s with
  | [] => none
  | c0 :: rest0 =>
    if isDigitChar c0 = false then none
    else
      match rest0 with
      | [] => if fixed then none else some (digitVal c0, rest0)
      | c1 :: rest1 =>
        if isDigitChar c1 = false then
          if fixed then none else some (digitVal c0, rest0)
        else some (digitVal c0 * 10 + digitVal c1, rest1)

/-- Go `atoi` on a text made only of digits: the decimal value, or `none` when another
    character occurs or the text is empty. -/
def atoiDigits : List Char → Int → Option Int
  | [], acc => some acc
  | c :: cs, acc => if isDigitChar c then atoiDigits cs (acc * 10 + digitVal c) else none

/-- Go `cutspace`. -/
def cutspace : List Char → List Char
  | ' ' :: cs => cutspace cs
  | cs => cs

/-- Go `skip(value, pfx)`: removes the layout text `pfx` from the front of `value`,
    treating runs of spaces as equivalent. `cut` is true right after a space of `pfx` was
    handled: the further spaces of that run of `pfx` are dropped by the same
    `cutspace(pfx)`. -/
def skipFrom : List Char → List Char → Bool → Option (List Char)
  | value, [], _ => some value
  | value, ' ' :: pfx, true => skipFrom value pfx true
  | value, ' ' :: pfx, false =>
    match value with
    | [] => skipFrom [] pfx true
    | v :: vs => if v = ' ' then skipFrom (cutspace (v :: vs)) pfx true else none
  | value, p :: pfx, _ =>
    match value with
    | [] => none
    | v :: vs => if v = p then skipFrom vs pfx false else none

/-- Go `skip`. -/
def skip (value pfx : List Char) : Option (List Char) := skipFrom value pfx false

/-- Go `match`: equality of two texts of the same length ignoring ASCII case. -/
def matchFold : List Char → List Char → Bool
  | [], _ => true
  | _ :: _, [] => true
  | c1 :: s1, c2 :: s2 =>
    if c1 = c2 then matchFold s1 s2
    else
      let l1 := c1.toNat ||| 32
      let l2 := c2.toNat ||| 32
      if l1 ≠ l2 ∨ l1 < 97 ∨ l1 > 122 then false else matchFold s1 s2

/-- Go `lookup`, from index `i` of the table on. -/
def lookupFrom : List (List Char) → Int → List Char → Option (Int × List Char)
  | [], _, _ => none
  | v :: tab, i, val =>
    if val.length ≥ v.length ∧ matchFold (val.take v.length) v = true then
      some (i, val.drop v.length)
    else lookupFrom tab (i + 1) val

/-- Go `lookup`. -/
def lookup (tab : List (List Char)) (val : List Char) : Option (Int × List Char) :=
  lookupFrom tab 0 val

def shortDayNames : List (List Char) :=
  ["Sun".toList, "Mon".toList, "Tue".toList, "Wed".toList, "Thu".toList, "Fri".toList,
   "Sat".toList]

def shortMonthNames : List (List Char) :=
  ["Jan".toList, "Feb".toList, "Mar".toList, "Apr".toList, "May".toList, "Jun".toList,
   "Jul".toList, "Aug".toList, "Sep".toList, "Oct".toList, "Nov".toList, "Dec".toList]

/-- The layout elements (`std...` chunk codes) that occur in the two layouts of `wxr.go`. -/
inductive Std where
  | stdWeekDay      -- "Mon"
  | stdZeroDay      -- "02"
  | stdMonth        -- "Jan"
  | stdZeroMonth    -- "01"
  | stdLongYear     -- "2006"
  | stdHour         -- "15"
  | stdZeroMinute   -- "04"
  | stdZeroSecond   -- "05"
  | stdNumTZ        -- "-0700"
  deriving DecidableEq, Repr

/-- A layout after repeated `nextStdChunk`: the literal text before each layout element and
    the element. Neither layout of `wxr.go` has text after its last element. -/
abbrev Layout := List (List Char × Std)

/-- The Go constant `time.RFC1123Z = "Mon, 02 Jan 2006 15:04:05 -0700"`. -/
def RFC1123Z : Layout :=
  [([], Std.stdWeekDay), ([',', ' '], Std.stdZeroDay), ([' '], Std.stdMonth),
   ([' '], Std.stdLongYear), ([' '], Std.stdHour), ([':'], Std.stdZeroMinute),
   ([':'], Std.stdZeroSecond), ([' '], Std.stdNumTZ)]

/-- The variables of `time.Parse`. -/
structure ParseState where
  year : Int := 0
  month : Int := -1
  day : Int := -1
  hour : Int := 0
  min : Int := 0
  sec : Int := 0
  nsec : Int := 0
  zoneOffset : Int := -1
  deriving DecidableEq, Repr

/-- Go `parseNanoseconds(value, n)` followed by `value = value[n:]`, for a `value` whose
    first character is `.` or `,` and whose second is a digit: `ds` is the text after the
    separator. At most nine digits count; all digits are consumed. -/
def parseFraction (ds : List Char) : Option (Int × List Char) :=
  let digits := ds.takeWhile isDigitChar
  let used := digits.take 9
  match atoiDigits used 0 with
  | none => none
  | some ns => some (ns * 10 ^ (9 - used.length), ds.dropWhile isDigitChar)

/-- One round of the loop of `time.Parse` for layout element `std` on the rest `value` of
    the input (the literal text before the element is already skipped). `none` is a parse
    error (`errBad` or a range error). -/
def parseStd (std : Std) (st : ParseState) (value : List Char) :
    Option (ParseState × List Char) :=
  match std with
  | Std.stdWeekDay =>
    match lookup shortDayNames value with
    | none => none
    | some (_, rest) => some (st, rest)
  | Std.stdZeroDay =>
    match getnum value true with
    | none => none
    | some (d, rest) => some ({ st with day := d }, rest)
  | Std.stdMonth =>
    match lookup shortMonthNames value with
    | none => none
    | some (m, rest) => some ({ st with month := m + 1 }, rest)
  | Std.stdZeroMonth =>
    match getnum value true with
    | none => none
    | some (m, rest) => if m ≤ 0 ∨ 12 < m then none else some ({ st with month := m }, rest)
  | Std.stdLongYear =>
    if value.length < 4 then none
    else
      match atoiDigits (value.take 4) 0 with
      | none => none
      | some y => some ({ st with year := y }, value.drop 4)
  | Std.stdHour =>
    match getnum value false with
    | none => none
    | some (h, rest) => if h < 0 ∨ 24 ≤ h then none else some ({ st with hour := h }, rest)
  | Std.stdZeroMinute =>
    match getnum value true with
    | none => none
    | some (m, rest) => if m < 0 ∨ 60 ≤ m then none else some ({ st with min := m }, rest)
  | Std.stdZeroSecond =>
    match getnum value true with
    | none => none
    | some (s, rest) =>
      if s < 0 ∨ 60 ≤ s then none
      else
        match rest with
        | c :: d :: more =>
          if (c = '.' ∨ c = ',') ∧ isDigitChar d = true then
            match parseFraction (d :: more) with
            | none => none
            | some (ns, rest1) => some ({ st with sec := s, nsec := ns }, rest1)
          else some ({ st with sec := s }, rest)
        | _ => some ({ st with sec := s }, rest)
  | Std.stdNumTZ =>
    match value with
    | sign :: h0 :: h1 :: m0 :: m1 :: rest =>
      match getnum [h0, h1] true, getnum [m0, m1] true with
      | some (hr, _), some (mm, _) =>
        if hr > 24 ∨ mm > 60 then none
        else
          let off := (hr * 60 + mm) * 60
          if sign = '+' then some ({ st with zoneOffset := off }, rest)
          else if sign = '-' then some ({ st with zoneOffset := -off }, rest)
          else none
      | _, _ => none
    | _ => none

/-- The loop of `time.Parse` over the layout; at the end of the layout the input must be
    used up ("extra text" otherwise). -/
def parseLoop : Layout → ParseState → List Char → Option ParseState
  | [], st, value => if value.isEmpty then some st else none
  | (pfx, std) :: layout, st, value =>
    match skip value pfx with
    | none => none
    | some value1 =>
      match parseStd std st value1 with
      | none => none
      | some (st1, value2) => parseLoop layout st1 value2

/-- Go `time.Parse(layout, value)`: the time and whether an error is returned. Every error
    return of `time.Parse` is `return Time{}, err`. `localOffset` is the offset of the
    zone `time.Local` at a Unix time (`local.lookup`), which decides the location the
    result carries when the input states an offset. -/
def Parse (localOffset : Int → Int) (layout : Layout) (value : String) : Time × Bool :=
  match parseLoop layout {} value.toList with
  | none => (Time.zero, true)
  | some st =>
    let month := if st.month < 0 then 1 else st.month
    let day := if st.day < 0 then 1 else st.day
    if day < 1 ∨ day > daysIn month st.year then (Time.zero, true)
    else if st.zoneOffset ≠ -1 then
      let t := (Date st.year month day st.hour st.min st.sec st.nsec).addSec (-st.zoneOffset)
      if localOffset t.Unix = st.zoneOffset then ({ t with loc := Location.Local }, false)
      else ({ t with loc := Location.Fixed st.zoneOffset }, false)
    else (Date st.year month day st.hour st.min st.sec st.nsec, false)

end time

/-- The constant `ISODATEFORMAT = "2006-01-02 15:04:05"` of `wxr.go`. -/
def ISODATEFORMAT : time.Layout :=
  [([], time.Std.stdLongYear), (['-'], time.Std.stdZeroMonth), (['-'], time.Std.stdZeroDay),
   ([' '], time.Std.stdHour), ([':'], time.Std.stdZeroMinute), ([':'], time.Std.stdZeroSecond)]


/-! ## Package `strconv` and `strings.TrimSpace` -/

namespace strconv

/-- Decimal value of a text of digits `0`..`9` (the loop of `ParseUint` in base 10);
    `none` on any other character. -/
def digits : List Char → Int → Option Int
  | [], acc => some acc
  | c :: cs, acc =>
    if '0' ≤ c ∧ c ≤ '9' then digits cs (acc * 10 + ((c.toNat : Int) - 48)) else none

/-- Go `strconv.ParseInt(s, 10, 32)`: `none` is a syntax or range error. An optional sign,
    then at least one digit; the value must lie in `[-2^31, 2^31 - 1]`. -/
def ParseInt32 (s : List Char) : Option Int :=
  match s with
  | [] => none
  | c :: cs =>
    let neg := c = '-'
    let body := if c = '+' ∨ c = '-' then cs else c :: cs
    if body.isEmpty then none
    else
      match digits body 0 with
      | none => none
      | some un =>
        if ¬ neg ∧ un ≥ 2147483648 then none
        else if neg ∧ un > 2147483648 then none
        else some (if neg then -un else un)

/-- Go `strconv.ParseBool`. -/
def ParseBool (s : String) : Option Bool :=
  if s = "1" ∨ s = "t" ∨ s = "T" ∨ s = "TRUE" ∨ s = "true" ∨ s = "True" then some true
  else if s = "0" ∨ s = "f" ∨ s = "F" ∨ s = "FALSE" ∨ s = "false" ∨ s = "False" then
    some false
  else none

/-- Go `unicode.IsSpace`. -/
def isSpace (c : Char) : Bool :=
  let n := c.toNat
  n = 9 ∨ n = 10 ∨ n = 11 ∨ n = 12 ∨ n = 13 ∨ n = 32 ∨ n = 133 ∨ n = 160 ∨ n = 5760 ∨
  (8192 ≤ n ∧ n ≤ 8202) ∨ n = 8232 ∨ n = 8233 ∨ n = 8239 ∨ n = 8287 ∨ n = 12288

/-- Go `strings.TrimSpace`. -/
def TrimSpace (s : List Char) : List Char :=
  ((s.dropWhile isSpace).reverse.dropWhile isSpace).reverse

end strconv

/-! ## Package `encoding/xml` -/

namespace xml

/-- Go `xml.Name`. -/
structure Name where
  Space : String := ""
  Local : String := ""
  deriving DecidableEq, Repr

/-- Go `xml.Attr`. -/
structure Attr where
  Name : Name
  Value : String
  deriving DecidableEq, Repr

/-- Go `xml.StartElement`. -/
structure StartElement where
  Name : Name
  Attr : List Attr := []
  deriving DecidableEq, Repr

/-- The tokens `Decoder.Token` delivers, grouped by element. `Decoder.Token` (in the
    strict mode `Unmarshal` uses) checks that every end tag matches its start tag, so the
    tokens between a `StartElement` and its `EndElement` form the `content` of the element.
    `ended` says that the `EndElement` is delivered: it is `false` when `Token` fails (a
    syntax error or the end of the input) after the content shown. `Other` stands for a
    `Comment`, `ProcInst` or `Directive` token. -/
inductive Node where
  | CharData (data : String)
  | Other
  | Element (start : StartElement) (content : List Node) (ended : Bool)

/-- Go `copyValue` into an `int32`: the empty text gives 0, otherwise
    `strconv.ParseInt(strings.TrimSpace(src), 10, 32)`. `none` is the error return. -/
def copyInt32 (src : String) : Option Int :=
  if src.isEmpty then some 0 else strconv.ParseInt32 (strconv.TrimSpace src.toList)

/-- Go `copyValue` into a `bool`: the empty text gives `false`, otherwise
    `strconv.ParseBool(strings.TrimSpace(src))`. -/
def copyBool (src : String) : Option Bool :=
  if src.isEmpty then some false
  else strconv.ParseBool (String.mk (strconv.TrimSpace src.toList))

/-- The token loop of `Decoder.unmarshal` for a value of kind string, int or bool: character
    data is appended to `data`, a child element is passed over with `Decoder.Skip`, other
    tokens are ignored. `none`: `Skip` ran into the failure of `Token`. -/
def collect : List Node → String → Option String
  | [], data => some data
  | Node.CharData t :: ns, data => collect ns (data ++ t)
  | Node.Other :: ns, data => collect ns data
  | Node.Element _ _ ended :: ns, data => if ended then collect ns data else none

/-- The character data `unmarshal` hands to `copyValue` for an element decoded into a
    string, int or bool; `none` when `Token` fails before the element's end tag. -/
def leafData (content : List Node) (ended : Bool) : Option String :=
  match collect content "" with
  | none => none
  | some data => if ended then some data else none

/-- One element field of a struct type (`fieldInfo` with flag `fElement`, no parents):
    namespace and name from the struct tag, and `Decoder.unmarshal` into that field, which
    gives the struct afterwards and whether no error was returned. -/
structure FieldInfo (σ : Type) where
  xmlns : String
  name : String
  unmarshal : σ → StartElement → List Node → Bool → σ × Bool

/-- One attribute field (`fAttr`) of kind string. -/
structure AttrInfo (σ : Type) where
  xmlns : String
  name : String
  set : σ → String → σ

/-- Go `typeInfo` of a struct type: the fields bound by the `xml` struct tags, in declaration
    order. Fields tagged `xml:"-"` are absent. -/
structure TypeInfo (σ : Type) where
  attrs : List (AttrInfo σ) := []
  chardata : Option (σ → String → σ) := none
  fields : List (FieldInfo σ)

/-- A field whose decoding does not read the struct: `Decoder.unmarshal` decodes the
    element into the field's value (`value`; `none` is an error return, which leaves the
    struct as it was) and the value is stored into the field (`store`). All fields of
    `wxr.go` are of this kind. -/
def field {σ τ : Type} (xmlns name : String)
    (value : StartElement → List Node → Bool → Option τ) (store : σ → τ → σ) : FieldInfo σ :=
  { xmlns := xmlns, name := name,
    unmarshal := fun sv start content ended =>
      match value start content ended with
      | none => (sv, false)
      | some x => (store sv x, true) }

/-- Decoding into a `string`: `copyValue` stores the character data as it is. -/
def stringValue (_ : StartElement) (content : List Node) (ended : Bool) : Option String :=
  leafData content ended

/-- Decoding into an `int32`. -/
def int32Value (_ : StartElement) (content : List Node) (ended : Bool) : Option Int :=
  match leafData content ended with
  | none => none
  | some data => copyInt32 data

/-- Decoding into a `bool`. -/
def boolValue (_ : StartElement) (content : List Node) (ended : Bool) : Option Bool :=
  match leafData content ended with
  | none => none
  | some data => copyBool data

/-- Decoding into a new element of a slice of structs: the slice grows by a zero element
    and the element is decoded in place; on an error the slice is cut back
    (`v.SetLen(n)`), so nothing is stored. -/
def elemValue {τ : Type} (zero : τ)
    (elem : τ → StartElement → List Node → Bool → τ × Bool)
    (start : StartElement) (content : List Node) (ended : Bool) : Option τ :=
  if (elem zero start content ended).2 then some (elem zero start content ended).1 else none

/-- A field of kind string bound to elements of the namespace `xmlns` (any namespace when
    `xmlns` is empty). -/
def nsStringField {σ : Type} (xmlns : String) (name : String) (set : σ → String → σ) :
    FieldInfo σ :=
  field xmlns name stringValue set

/-- A field of kind string whose tag names no namespace. -/
def stringField {σ : Type} (name : String) (set : σ → String → σ) : FieldInfo σ :=
  field "" name stringValue set

/-- A field of kind `int32`. -/
def int32Field {σ : Type} (name : String) (set : σ → Int → σ) : FieldInfo σ :=
  field "" name int32Value set

/-- A field of kind `bool`. -/
def boolField {σ : Type} (name : String) (set : σ → Bool → σ) : FieldInfo σ :=
  field "" name boolValue set

/-- A field that is a slice of structs: a decoded element is appended. -/
def sliceField {σ τ : Type} (name : String) (get : σ → List τ) (set : σ → List τ → σ)
    (zero : τ) (elem : τ → StartElement → List Node → Bool → τ × Bool) : FieldInfo σ :=
  field "" name (elemValue zero elem) (fun sv x => set sv (get sv ++ [x]))

/-- Go `Decoder.unmarshalPath` without parents: the first element field, in declaration
    order, whose namespace is empty or equal to the element's and whose name is the
    element's local name, consumes the element. `none`: not consumed. -/
def unmarshalPath {σ : Type} : List (FieldInfo σ) → σ → StartElement → List Node → Bool →
    Option (σ × Bool)
  | [], _, _, _, _ => none
  | f :: fs, sv, start, content, ended =>
    if f.xmlns ≠ "" ∧ f.xmlns ≠ start.Name.Space then unmarshalPath fs sv start content ended
    else if f.name = start.Name.Local then some (f.unmarshal sv start content ended)
    else unmarshalPath fs sv start content ended

/-- The attribute fields one attribute is assigned to. -/
def assignAttr {σ : Type} : List (AttrInfo σ) → σ → Attr → σ
  | [], sv, _ => sv
  | f :: fs, sv, a =>
    if a.Name.Local = f.name ∧ (f.xmlns = "" ∨ f.xmlns = a.Name.Space) then
      assignAttr fs (f.set sv a.Value) a
    else assignAttr fs sv a

/-- The "assign attributes" loop of `Decoder.unmarshal` for a struct. -/
def assignAttrs {σ : Type} (attrs : List (AttrInfo σ)) : σ → List Attr → σ
  | sv, [] => sv
  | sv, a :: as => assignAttrs attrs (assignAttr attrs sv a) as

/-- The token loop of `Decoder.unmarshal` for a struct: the struct so far, the character
    data so far, and whether no error occurred. -/
def structLoop {σ : Type} (ti : TypeInfo σ) : σ → String → List Node → σ × String × Bool
  | sv, data, [] => (sv, data, true)
  | sv, data, Node.CharData t :: ns => structLoop ti sv (data ++ t) ns
  | sv, data, Node.Other :: ns => structLoop ti sv data ns
  | sv, data, Node.Element start content ended :: ns =>
    match unmarshalPath ti.fields sv start content ended with
    | some (sv1, ok) => if ok then structLoop ti sv1 data ns else (sv1, data, false)
    | none => if ended then structLoop ti sv data ns else (sv, data, false)

/-- Go `Decoder.unmarshal` into a struct value `sv` for the element `start`. -/
def unmarshalStruct {σ : Type} (ti : TypeInfo σ) (sv : σ) (start : StartElement)
    (content : List Node) (ended : Bool) : σ × Bool :=
  let sv0 := assignAttrs ti.attrs sv start.Attr
  match structLoop ti sv0 "" content with
  | (sv1, data, ok) =>
    if ok ∧ ended then
      match ti.chardata with
      | some set => (set sv1 data, true)
      | none => (sv1, true)
    else (sv1, false)

end xml

/-! ## The data model of `wxr.go`

Every struct of `wxr.go` with its fields in declaration order; the default of each field is
the Go zero value, so `{}` is the zero value of the struct. `int32` fields hold an `Int`
(the decoder only stores values `strconv.ParseInt` accepted for 32 bits). -/

structure Author where
  Id : Int := 0
  Login : String := ""
  Email : String := ""
  DisplayName : String := ""
  FirstName : String := ""
  LastName : String := ""
  deriving DecidableEq, Repr

structure Category where
  Id : Int := 0
  NiceName : String := ""
  Parent : String := ""
  Name : String := ""
  deriving DecidableEq, Repr

structure Tag where
  Id : Int := 0
  Slug : String := ""
  Name : String := ""
  deriving DecidableEq, Repr

structure ItemCategory where
  Domain : String := ""
  NiceName : String := ""
  DisplayName : String := ""
  deriving DecidableEq, Repr

structure PostMeta where
  Key : String := ""
  Value : String := ""
  deriving DecidableEq, Repr

structure Comment where
  Id : Int := 0
  Author : String := ""
  AuthorEmail : String := ""
  AuthorUrl : String := ""
  AuthorIp : String := ""
  DateString : String := ""
  Date : time.Time := time.Time.zero
  DateGmtString : String := ""
  DateGmt : time.Time := time.Time.zero
  Content : String := ""
  Approved : Bool := false
  Type_ : String := ""
  Parent : Int := 0
  UserId : Int := 0
  deriving DecidableEq, Repr

structure Item where
  Title : String := ""
  Link : String := ""
  PubDateString : String := ""
  PubDate : time.Time := time.Time.zero
  Creator : String := ""
  Guid : String := ""
  Description : String := ""
  Content : String := ""
  Excerpt : String := ""
  PostId : Int := 0
  PostDateString : String := ""
  PostDate : time.Time := time.Time.zero
  PostDateGmtString : String := ""
  PostDateGmt : time.Time := time.Time.zero
  CommentStatus : String := ""
  PingStatus : String := ""
  PostName : String := ""
  Status : String := ""
  PostParent : Int := 0
  MenuOrder : Int := 0
  PostType : String := ""
  PostPassword : String := ""
  IsSticky : Bool := false
  AttachmentUrl : String := ""
  Categories : List ItemCategory := []
  PostMetas : List PostMeta := []
  Comments : List Comment := []
  deriving DecidableEq, Repr

structure Channel where
  Title : String := ""
  Link : String := ""
  Description : String := ""
  PubDateString : String := ""
  PubDate : time.Time := time.Time.zero
  Language : String := ""
  WxrVersion : String := ""
  BaseSiteUrl : String := ""
  BaseBlogUrl : String := ""
  Generator : String := ""
  Authors : List Author := []
  Categories : List Category := []
  Tags : List Tag := []
  Items : List Item := []
  deriving DecidableEq, Repr

/-- Root tag, which is an `<rss>` tag in the XML. -/
structure Wxr where
  Channels : List Channel := []
  deriving DecidableEq, Repr

/-! ### The bindings of the `xml:"..."` struct tags -/

def Author.typeInfo : xml.TypeInfo Author :=
  { fields := [
      xml.int32Field "author_id" (fun v x => { v with Id := x }),
      xml.stringField "author_login" (fun v x => { v with Login := x }),
      xml.stringField "author_email" (fun v x => { v with Email := x }),
      xml.stringField "author_display_name" (fun v x => { v with DisplayName := x }),
      xml.stringField "author_first_name" (fun v x => { v with FirstName := x }),
      xml.stringField "author_last_name" (fun v x => { v with LastName := x })] }

def Category.typeInfo : xml.TypeInfo Category :=
  { fields := [
      xml.int32Field "term_id" (fun v x => { v with Id := x }),
      xml.stringField "category_nicename" (fun v x => { v with NiceName := x }),
      xml.stringField "category_parent" (fun v x => { v with Parent := x }),
      xml.stringField "cat_name" (fun v x => { v with Name := x })] }

def Tag.typeInfo : xml.TypeInfo Tag :=
  { fields := [
      xml.int32Field "term_id" (fun v x => { v with Id := x }),
      xml.stringField "tag_slug" (fun v x => { v with Slug := x }),
      xml.stringField "tag_name" (fun v x => { v with Name := x })] }

def ItemCategory.typeInfo : xml.TypeInfo ItemCategory :=
  { attrs := [
      { xmlns := "", name := "domain", set := fun v x => { v with Domain := x } },
      { xmlns := "", name := "nicename", set := fun v x => { v with NiceName := x } }],
    chardata := some (fun v x => { v with DisplayName := x }),
    fields := [] }

def PostMeta.typeInfo : xml.TypeInfo PostMeta :=
  { fields := [
      xml.stringField "meta_key" (fun v x => { v with Key := x }),
      xml.stringField "meta_value" (fun v x => { v with Value := x })] }

def Comment.typeInfo : xml.TypeInfo Comment :=
  { fields := [
      xml.int32Field "comment_id" (fun v x => { v with Id := x }),
      xml.stringField "comment_author" (fun v x => { v with Author := x }),
      xml.stringField "comment_author_email" (fun v x => { v with AuthorEmail := x }),
      xml.stringField "comment_author_url" (fun v x => { v with AuthorUrl := x }),
      xml.stringField "comment_author_ip" (fun v x => { v with AuthorIp := x }),
      xml.stringField "comment_date" (fun v x => { v with DateString := x }),
      xml.stringField "comment_date_gmt" (fun v x => { v with DateGmtString := x }),
      xml.stringField "comment_content" (fun v x => { v with Content := x }),
      xml.boolField "comment_approved" (fun v x => { v with Approved := x }),
      xml.stringField "comment_type" (fun v x => { v with Type_ := x }),
      xml.int32Field "comment_parent" (fun v x => { v with Parent := x }),
      xml.int32Field "comment_user_id" (fun v x => { v with UserId := x })] }

def Item.typeInfo : xml.TypeInfo Item :=
  { fields := [
      xml.stringField "title" (fun v x => { v with Title := x }),
      xml.stringField "link" (fun v x => { v with Link := x }),
      xml.stringField "pubDate" (fun v x => { v with PubDateString := x }),
      xml.stringField "creator" (fun v x => { v with Creator := x }),
      xml.stringField "guid" (fun v x => { v with Guid := x }),
      xml.stringField "description" (fun v x => { v with Description := x }),
      xml.nsStringField "http://purl.org/rss/1.0/modules/content/" "encoded"
        (fun v x => { v with Content := x }),
      xml.nsStringField "http://wordpress.org/export/1.2/excerpt/" "encoded"
        (fun v x => { v with Excerpt := x }),
      xml.int32Field "post_id" (fun v x => { v with PostId := x }),
      xml.stringField "post_date" (fun v x => { v with PostDateString := x }),
      xml.stringField "post_date_gmt" (fun v x => { v with PostDateGmtString := x }),
      xml.stringField "comment_status" (fun v x => { v with CommentStatus := x }),
      xml.stringField "ping_status" (fun v x => { v with PingStatus := x }),
      xml.stringField "post_name" (fun v x => { v with PostName := x }),
      xml.stringField "status" (fun v x => { v with Status := x }),
      xml.int32Field "post_parent" (fun v x => { v with PostParent := x }),
      xml.int32Field "menu_order" (fun v x => { v with MenuOrder := x }),
      xml.stringField "post_type" (fun v x => { v with PostType := x }),
      xml.stringField "post_password" (fun v x => { v with PostPassword := x }),
      xml.boolField "is_sticky" (fun v x => { v with IsSticky := x }),
      xml.stringField "attachment_url" (fun v x => { v with AttachmentUrl := x }),
      xml.sliceField "category" (fun v => v.Categories) (fun v x => { v with Categories := x })
        {} (xml.unmarshalStruct ItemCategory.typeInfo),
      xml.sliceField "postmeta" (fun v => v.PostMetas) (fun v x => { v with PostMetas := x })
        {} (xml.unmarshalStruct PostMeta.typeInfo),
      xml.sliceField "comment" (fun v => v.Comments) (fun v x => { v with Comments := x })
        {} (xml.unmarshalStruct Comment.typeInfo)] }

def Channel.typeInfo : xml.TypeInfo Channel :=
  { fields := [
      xml.stringField "title" (fun v x => { v with Title := x }),
      xml.stringField "link" (fun v x => { v with Link := x }),
      xml.stringField "description" (fun v x => { v with Description := x }),
      xml.stringField "pubDate" (fun v x => { v with PubDateString := x }),
      xml.stringField "language" (fun v x => { v with Language := x }),
      xml.stringField "wxr_version" (fun v x => { v with WxrVersion := x }),
      xml.stringField "base_site_url" (fun v x => { v with BaseSiteUrl := x }),
      xml.stringField "base_blog_url" (fun v x => { v with BaseBlogUrl := x }),
      xml.stringField "generator" (fun v x => { v with Generator := x }),
      xml.sliceField "author" (fun v => v.Authors) (fun v x => { v with Authors := x })
        {} (xml.unmarshalStruct Author.typeInfo),
      xml.sliceField "category" (fun v => v.Categories) (fun v x => { v with Categories := x })
        {} (xml.unmarshalStruct Category.typeInfo),
      xml.sliceField "tag" (fun v => v.Tags) (fun v x => { v with Tags := x })
        {} (xml.unmarshalStruct Tag.typeInfo),
      xml.sliceField "item" (fun v => v.Items) (fun v x => { v with Items := x })
        {} (xml.unmarshalStruct Item.typeInfo)] }

def Wxr.typeInfo : xml.TypeInfo Wxr :=
  { fields := [
      xml.sliceField "channel" (fun v => v.Channels) (fun v x => { v with Channels := x })
        {} (xml.unmarshalStruct Channel.typeInfo)] }

namespace xml

/-- Go `xml.Unmarshal(data, &wxr)` on the tokens of `data`: `Decoder.unmarshal` looks for the
    first start element (an error when `Token` fails first) and decodes it into `wxr`; the
    struct type `Wxr` has no `XMLName` field, so the element's name is not checked. The
    result is `wxr` afterwards and whether the returned error is `nil`. -/
def Unmarshal : List Node → Wxr → Wxr × Bool
  | [], wxr => (wxr, false)
  | Node.Element start content ended :: _, wxr =>
    unmarshalStruct Wxr.typeInfo wxr start content ended
  | _ :: ns, wxr => Unmarshal ns wxr

/-- The tokens `Decoder.Token` delivers for the input `data` up to its first failure. The
    tokenizer itself is the parameter `lex`; on the empty input the first read already
    reports the end of the input, so there is no token. -/
def tokens (lex : List UInt8 → List Node) (data : List UInt8) : List Node :=
  match data with
  | [] => []
  | _ => lex data

end xml

/-! ## `ParseWxr` -/

/-- What `ParseWxr` takes from its surroundings: the XML tokenizer of `encoding/xml` (the
    tokens of a non-empty input up to the first failure of `Decoder.Token`) and the zone
    `time.Local` of the process (its offset at a Unix time). -/
structure Env where
  lex : List UInt8 → List xml.Node
  localOffset : Int → Int

/-- A Go `for i := range s` loop with `n` iterations left, the next one at index `i`;
    `none` is a run-time panic in the body. -/
def forRangeFrom {σ : Type} (body : Nat → σ → Option σ) : Nat → Nat → σ → Option σ
  | 0, _, s => some s
  | n + 1, i, s =>
    match body i s with
    | none => none
    | some s1 => forRangeFrom body n (i + 1) s1

/-- A Go `for i := range s` loop over a slice of length `n`. -/
def forRange {σ : Type} (n : Nat) (body : Nat → σ → Option σ) (s : σ) : Option σ :=
  forRangeFrom body n 0 s

/-- An assignment through `s[i]`: `none` is the panic "index out of range". -/
def setAt {α : Type} : List α → Nat → (α → Option α) → Option (List α)
  | [], _, _ => none
  | a :: l, 0, f =>
    match f a with
    | none => none
    | some b => some (b :: l)
  | a :: l, i + 1, f =>
    match setAt l i f with
    | none => none
    | some l1 => some (a :: l1)

/-- An assignment below `wxr.Channels[channelIndex]`. -/
def Wxr.atChannel (wxr : Wxr) (channelIndex : Nat) (f : Channel → Option Channel) :
    Option Wxr :=
  match setAt wxr.Channels channelIndex f with
  | none => none
  | some cs => some { wxr with Channels := cs }

/-- An assignment below `channel.Items[itemIndex]`. -/
def Channel.atItem (channel : Channel) (itemIndex : Nat) (f : Item → Option Item) :
    Option Channel :=
  match setAt channel.Items itemIndex f with
  | none => none
  | some is => some { channel with Items := is }

/-- An assignment below `item.Comments[commentIndex]`. -/
def Item.atComment (item : Item) (commentIndex : Nat) (f : Comment → Option Comment) :
    Option Item :=
  match setAt item.Comments commentIndex f with
  | none => none
  | some cs => some { item with Comments := cs }

/-- An assignment to a field of `wxr.Channels[channelIndex].Items[itemIndex]`. -/
def Wxr.setItem (wxr : Wxr) (channelIndex itemIndex : Nat) (f : Item → Item) : Option Wxr :=
  wxr.atChannel channelIndex (fun c => c.atItem itemIndex (fun i => some (f i)))

/-- An assignment to a field of
    `wxr.Channels[channelIndex].Items[itemIndex].Comments[commentIndex]`. -/
def Wxr.setComment (wxr : Wxr) (channelIndex itemIndex commentIndex : Nat)
    (f : Comment → Comment) : Option Wxr :=
  wxr.atChannel channelIndex (fun c => c.atItem itemIndex (fun i =>
    i.atComment commentIndex (fun k => some (f k))))

/-- The element the range loop over `wxr.Channels` copies into `channel`. -/
def Wxr.channelAt (wxr : Wxr) (channelIndex : Nat) : Option Channel :=
  wxr.Channels[channelIndex]?

/-- The element the range loop over `channel.Items` copies into `item`: `channel.Items`
    shares its elements with `wxr.Channels[channelIndex].Items`. -/
def Wxr.itemAt (wxr : Wxr) (channelIndex itemIndex : Nat) : Option Item :=
  match wxr.Channels[channelIndex]? with
  | none => none
  | some c => c.Items[itemIndex]?

/-- The element the range loop over `item.Comments` copies into `comment`. -/
def Wxr.commentAt (wxr : Wxr) (channelIndex itemIndex commentIndex : Nat) : Option Comment :=
  match wxr.itemAt channelIndex itemIndex with
  | none => none
  | some i => i.Comments[commentIndex]?

/-- The body of the loop over `item.Comments` (lines 155-159). -/
def commentBody (env : Env) (channelIndex itemIndex commentIndex : Nat) (wxr : Wxr) :
    Option Wxr := do
  let comment ← wxr.commentAt channelIndex itemIndex commentIndex
  let commentDate := (time.Parse env.localOffset ISODATEFORMAT comment.DateString).1
  let wxr ← wxr.setComment channelIndex itemIndex commentIndex
    (fun k => { k with Date := commentDate })
  let commentDateGmt := (time.Parse env.localOffset ISODATEFORMAT comment.DateGmtString).1
  wxr.setComment channelIndex itemIndex commentIndex (fun k => { k with DateGmt := commentDateGmt })

/-- The body of the loop over `channel.Items` (lines 145-160). -/
def itemBody (env : Env) (channelIndex itemIndex : Nat) (wxr : Wxr) : Option Wxr := do
  let item ← wxr.itemAt channelIndex itemIndex
  let pubDate := (time.Parse env.localOffset time.RFC1123Z item.PubDateString).1
  let wxr ← wxr.setItem channelIndex itemIndex (fun i => { i with PubDate := pubDate })
  let postDate := (time.Parse env.localOffset ISODATEFORMAT item.PostDateString).1
  let wxr ← wxr.setItem channelIndex itemIndex (fun i => { i with PostDate := postDate })
  let postDateGmt := (time.Parse env.localOffset ISODATEFORMAT item.PostDateGmtString).1
  let wxr ← wxr.setItem channelIndex itemIndex (fun i => { i with PostDateGmt := postDateGmt })
  forRange item.Comments.length (commentBody env channelIndex itemIndex) wxr

/-- The body of the loop over `wxr.Channels` (lines 141-161). -/
def channelBody (env : Env) (channelIndex : Nat) (wxr : Wxr) : Option Wxr := do
  let channel ← wxr.channelAt channelIndex
  let pubDate := (time.Parse env.localOffset time.RFC1123Z channel.PubDateString).1
  let wxr ← wxr.atChannel channelIndex (fun c => some { c with PubDate := pubDate })
  forRange channel.Items.length (itemBody env channelIndex) wxr

/-- The "Parse date strings" loop of `ParseWxr` (lines 140-162). -/
def parseDateStrings (env : Env) (wxr : Wxr) : Option Wxr :=
  forRange wxr.Channels.length (channelBody env) wxr

/-- The structure `xml.Unmarshal(data, &wxr)` leaves in `var wxr Wxr`; the error it returns
    is discarded (line 137). -/
def decoded (env : Env) (data : List UInt8) : Wxr :=
  (xml.Unmarshal (xml.tokens env.lex data) {}).1

/-- Go `ParseWxr(data)`. `none` stands for a run-time panic: `ParseWxr` has no error
    result. -/
def ParseWxr (env : Env) (data : List UInt8) : Option Wxr :=
  parseDateStrings env (decoded env data)

/-! ### The date fields, entity by entity

What the date loop is meant to compute, written as a map over the three nested
collections. -/

/-- `time.Parse` with the error dropped, as in `t, _ := time.Parse(layout, s)`. -/
def parseDate (env : Env) (layout : time.Layout) (s : String) : time.Time :=
  (time.Parse env.localOffset layout s).1

def Comment.withDates (env : Env) (k : Comment) : Comment :=
  { k with Date := parseDate env ISODATEFORMAT k.DateString,
           DateGmt := parseDate env ISODATEFORMAT k.DateGmtString }

def Item.withDates (env : Env) (i : Item) : Item :=
  { i with PubDate := parseDate env time.RFC1123Z i.PubDateString,
           PostDate := parseDate env ISODATEFORMAT i.PostDateString,
           PostDateGmt := parseDate env ISODATEFORMAT i.PostDateGmtString,
           Comments := i.Comments.map (Comment.withDates env) }

def Channel.withDates (env : Env) (c : Channel) : Channel :=
  { c with PubDate := parseDate env time.RFC1123Z c.PubDateString,
           Items := c.Items.map (Item.withDates env) }

def Wxr.withDates (env : Env) (w : Wxr) : Wxr :=
  { w with Channels := w.Channels.map (Channel.withDates env) }

/-- The list after the iterations `i, i+1, ..., i+n-1` of a loop whose iteration `j` replaces
    element `j` by its image under `f`. -/
def mapRange {α : Type} (f : α → α) : Nat → Nat → List α → List α
  | _, 0, l => l
  | i, n + 1, l =>
    match l[i]? with
    | none => mapRange f (i + 1) n l
    | some a => mapRange f (i + 1) n (l.set i (f a))

/-- `wxr` with `wxr.Channels[ci]` replaced by `c`. -/
def Wxr.putChannel (w : Wxr) (ci : Nat) (c : Channel) : Wxr :=
  { w with Channels := w.Channels.set ci c }

/-- `channel` with `channel.Items[ii]` replaced by `i`. -/
def Channel.putItem (c : Channel) (ii : Nat) (i : Item) : Channel :=
  { c with Items := c.Items.set ii i }

/-- `item` with `item.Comments[ki]` replaced by `k`. -/
def Item.putComment (i : Item) (ki : Nat) (k : Comment) : Item :=
  { i with Comments := i.Comments.set ki k }

/-- The list with element `i` replaced by its image under `g` (unchanged when `i` is out of
    range). -/
def modifyAt {α : Type} : List α → Nat → (α → α) → List α
  | [], _, _ => []
  | a :: l, 0, g => g a :: l
  | a :: l, i + 1, g => a :: modifyAt l i g

def Wxr.modChannel (w : Wxr) (ci : Nat) (g : Channel → Channel) : Wxr :=
  { w with Channels := modifyAt w.Channels ci g }

def Wxr.modItem (w : Wxr) (ci ii : Nat) (g : Item → Item) : Wxr :=
  w.modChannel ci (fun c => { c with Items := modifyAt c.Items ii g })

def Wxr.modComment (w : Wxr) (ci ii ki : Nat) (g : Comment → Comment) : Wxr :=
  w.modItem ci ii (fun i => { i with Comments := modifyAt i.Comments ki g })

/-- The six date fields of a document, each with the position of its entity. -/
inductive DateField where
  | channelPubDate (ci : Nat)
  | itemPubDate (ci ii : Nat)
  | itemPostDate (ci ii : Nat)
  | itemPostDateGmt (ci ii : Nat)
  | commentDate (ci ii ki : Nat)
  | commentDateGmt (ci ii ki : Nat)
  deriving DecidableEq, Repr

/-- The layout `ParseWxr` parses the field with. -/
def DateField.layout : DateField → time.Layout
  | DateField.channelPubDate _ => time.RFC1123Z
  | DateField.itemPubDate _ _ => time.RFC1123Z
  | DateField.itemPostDate _ _ => ISODATEFORMAT
  | DateField.itemPostDateGmt _ _ => ISODATEFORMAT
  | DateField.commentDate _ _ _ => ISODATEFORMAT
  | DateField.commentDateGmt _ _ _ => ISODATEFORMAT

/-- The structure with the raw date string of the field replaced by `s`. -/
def Wxr.setDateString (w : Wxr) : DateField → String → Wxr
  | DateField.channelPubDate ci, s => w.modChannel ci (fun c => { c with PubDateString := s })
  | DateField.itemPubDate ci ii, s => w.modItem ci ii (fun i => { i with PubDateString := s })
  | DateField.itemPostDate ci ii, s => w.modItem ci ii (fun i => { i with PostDateString := s })
  | DateField.itemPostDateGmt ci ii, s =>
    w.modItem ci ii (fun i => { i with PostDateGmtString := s })
  | DateField.commentDate ci ii ki, s =>
    w.modComment ci ii ki (fun k => { k with DateString := s })
  | DateField.commentDateGmt ci ii ki, s =>
    w.modComment ci ii ki (fun k => { k with DateGmtString := s })

/-- The structure with the timestamp of the field replaced by `t`. -/
def Wxr.setTimestamp (w : Wxr) : DateField → time.Time → Wxr
  | DateField.channelPubDate ci, t => w.modChannel ci (fun c => { c with PubDate := t })
  | DateField.itemPubDate ci ii, t => w.modItem ci ii (fun i => { i with PubDate := t })
  | DateField.itemPostDate ci ii, t => w.modItem ci ii (fun i => { i with PostDate := t })
  | DateField.itemPostDateGmt ci ii, t => w.modItem ci ii (fun i => { i with PostDateGmt := t })
  | DateField.commentDate ci ii ki, t => w.modComment ci ii ki (fun k => { k with Date := t })
  | DateField.commentDateGmt ci ii ki, t =>
    w.modComment ci ii ki (fun k => { k with DateGmt := t })

/-- The timestamp of the field, when its entity exists. -/
def Wxr.timestamp (w : Wxr) : DateField → Option time.Time
  | DateField.channelPubDate ci => (w.channelAt ci).map (fun c => c.PubDate)
  | DateField.itemPubDate ci ii => (w.itemAt ci ii).map (fun i => i.PubDate)
  | DateField.itemPostDate ci ii => (w.itemAt ci ii).map (fun i => i.PostDate)
  | DateField.itemPostDateGmt ci ii => (w.itemAt ci ii).map (fun i => i.PostDateGmt)
  | DateField.commentDate ci ii ki => (w.commentAt ci ii ki).map (fun k => k.Date)
  | DateField.commentDateGmt ci ii ki => (w.commentAt ci ii ki).map (fun k => k.DateGmt)

/-- The raw date string of the field, when its entity exists. -/
def Wxr.dateString (w : Wxr) : DateField → Option String
  | DateField.channelPubDate ci => (w.channelAt ci).map (fun c => c.PubDateString)
  | DateField.itemPubDate ci ii => (w.itemAt ci ii).map (fun i => i.PubDateString)
  | DateField.itemPostDate ci ii => (w.itemAt ci ii).map (fun i => i.PostDateString)
  | DateField.itemPostDateGmt ci ii => (w.itemAt ci ii).map (fun i => i.PostDateGmtString)
  | DateField.commentDate ci ii ki => (w.commentAt ci ii ki).map (fun k => k.DateString)
  | DateField.commentDateGmt ci ii ki => (w.commentAt ci ii ki).map (fun k => k.DateGmtString)

/-! ### The document seen as a tree

The notions the statements about the decoder use: the child elements of an element in
document order, those of a given name, and the text content of an element. -/

namespace xml

/-- A child element: its start tag, its content and whether its end tag is delivered. -/
structure Elem where
  start : StartElement
  content : List Node
  ended : Bool

/-- The child elements among `content`, in document order. -/
def elements : List Node → List Elem
  | [] => []
  | Node.Element start content ended :: ns => ⟨start, content, ended⟩ :: elements ns
  | _ :: ns => elements ns

/-- The start tags with local name `name`, in any namespace. -/
def byName (name : String) (s : StartElement) : Bool :=
  decide (s.Name.Local = name)

/-- The start tags with local name `name` in the namespace `space`. -/
def byNameIn (space name : String) (s : StartElement) : Bool :=
  decide (s.Name.Space = space ∧ s.Name.Local = name)

/-- The child elements with local name `name` (in any namespace), in document order. -/
def named (name : String) (content : List Node) : List Elem :=
  (elements content).filter (fun e => byName name e.start)

/-- The child elements with local name `name` in the namespace `space`. -/
def namedIn (space name : String) (content : List Node) : List Elem :=
  (elements content).filter (fun e => byNameIn space name e.start)

/-- The text content of an element: its character data in document order, without the
    content of its child elements. -/
def text : List Node → String
  | [] => ""
  | Node.CharData t :: ns => t ++ text ns
  | _ :: ns => text ns

/-- The text of the last element of `es`, the empty text when there is none. -/
def lastText (es : List Elem) : String :=
  match es.getLast? with
  | none => ""
  | some e => text e.content

/-- The value of the last attribute with local name `name`. -/
def attrValue (name : String) (attrs : List Attr) : Option String :=
  ((attrs.filter (fun a => decide (a.Name.Local = name))).getLast?).map (fun a => a.Value)

/-- Every child element among `content` is complete (its end tag is delivered). -/
def allEnded (content : List Node) : Bool :=
  (elements content).all (fun e => e.ended)

/-- The first start element among the top-level tokens: the root element. -/
def root : List Node → Option Elem
  | [] => none
  | Node.Element start content ended :: _ => some ⟨start, content, ended⟩
  | _ :: ns => root ns

/-- What a loop over the child elements computes from a start value `b`. -/
def foldElements {β : Type} (upd : β → StartElement → List Node → Bool → β) :
    β → List Node → β
  | b, [] => b
  | b, Node.Element start content ended :: ns => foldElements upd (upd b start content ended) ns
  | b, _ :: ns => foldElements upd b ns

/-- Go's condition for the field `f` to consume an element with start tag `s`: the
    namespace of the tag is empty or the element's, and the name is the element's local
    name. -/
def FieldInfo.binds {σ : Type} (f : FieldInfo σ) (s : StartElement) : Prop :=
  (f.xmlns = "" ∨ f.xmlns = s.Name.Space) ∧ f.name = s.Name.Local

/-- The same condition for a struct tag with namespace `xmlns` and name `name`. -/
def bindsTo (xmlns name : String) (s : StartElement) : Bool :=
  (xmlns == "" || xmlns == s.Name.Space) && name == s.Name.Local

/-- Some field of the list carries the struct tag with namespace `xmlns` and name
    `name`. -/
def hasTag {σ : Type} (fields : List (FieldInfo σ)) (xmlns name : String) : Bool :=
  fields.any (fun f => f.xmlns == xmlns && f.name == name)

/-- An update that acts on the elements selected by `bound` only. -/
def updIf {β : Type} (bound : StartElement → Bool)
    (new : β → StartElement → List Node → Bool → β) :
    β → StartElement → List Node → Bool → β :=
  fun b s c e => if bound s then new b s c e else b

/-- The new value of a string field after a bound element: its text content. -/
def newText (_ : String) (_ : StartElement) (content : List Node) (_ : Bool) : String :=
  text content

/-- The new value of an `int32` field after a bound element (decoded without error). -/
def newInt32 (_ : Int) (_ : StartElement) (content : List Node) (_ : Bool) : Int :=
  (copyInt32 (text content)).getD 0

/-- The new value of a `bool` field after a bound element (decoded without error). -/
def newBool (_ : Bool) (_ : StartElement) (content : List Node) (_ : Bool) : Bool :=
  (copyBool (text content)).getD false

/-- The new value of a slice field after a bound element: the decoded element appended. -/
def newElem {τ : Type} (dec : Elem → τ) (b : List τ) (start : StartElement)
    (content : List Node) (ended : Bool) : List τ :=
  b ++ [dec ⟨start, content, ended⟩]

/-- The field `f`, whenever it consumes an element without error, changes the projection
    `proj` of the struct as `upd` says. -/
def Respects {σ β : Type} (proj : σ → β) (upd : β → StartElement → List Node → Bool → β)
    (f : FieldInfo σ) : Prop :=
  ∀ sv s c e, f.binds s → (f.unmarshal sv s c e).2 = true →
    proj (f.unmarshal sv s c e).1 = upd (proj sv) s c e

end xml

/-- The `Author` decoded from an `author` element into a zero value. -/
def Author.decode (e : xml.Elem) : Author :=
  (xml.unmarshalStruct Author.typeInfo {} e.start e.content e.ended).1

def Category.decode (e : xml.Elem) : Category :=
  (xml.unmarshalStruct Category.typeInfo {} e.start e.content e.ended).1

def Tag.decode (e : xml.Elem) : Tag :=
  (xml.unmarshalStruct Tag.typeInfo {} e.start e.content e.ended).1

def ItemCategory.decode (e : xml.Elem) : ItemCategory :=
  (xml.unmarshalStruct ItemCategory.typeInfo {} e.start e.content e.ended).1

def PostMeta.decode (e : xml.Elem) : PostMeta :=
  (xml.unmarshalStruct PostMeta.typeInfo {} e.start e.content e.ended).1

def Comment.decode (e : xml.Elem) : Comment :=
  (xml.unmarshalStruct Comment.typeInfo {} e.start e.content e.ended).1

def Item.decode (e : xml.Elem) : Item :=
  (xml.unmarshalStruct Item.typeInfo {} e.start e.content e.ended).1

def Channel.decode (e : xml.Elem) : Channel :=
  (xml.unmarshalStruct Channel.typeInfo {} e.start e.content e.ended).1

/-! ### Example documents -/

/-- A complete element without attributes and without namespace. -/
def xml.el (name : String) (content : List xml.Node) : xml.Node :=
  xml.Node.Element { Name := { Local := name } } content true

/-- A complete element holding just the text `text`. -/
def xml.txt (name : String) (text : String) : xml.Node :=
  xml.el name [xml.Node.CharData text]

/-- The namespace of `content:encoded`. -/
abbrev contentNS : String := "http://purl.org/rss/1.0/modules/content/"

/-- The namespace of `excerpt:encoded`. -/
abbrev excerptNS : String := "http://wordpress.org/export/1.2/excerpt/"

/-- The namespace of the `wp:` elements of a WXR 1.2 export. -/
abbrev wpNS : String := "http://wordpress.org/export/1.2/"

/-- The namespace of `dc:creator`. -/
abbrev dcNS : String := "http://purl.org/dc/elements/1.1/"

/-- A complete element without attributes in the namespace `space`. -/
def xml.elIn (space name : String) (content : List xml.Node) : xml.Node :=
  xml.Node.Element { Name := { Space := space, Local := name } } content true

/-- A complete element in the namespace `space` holding just the text `text`. -/
def xml.txtIn (space name : String) (text : String) : xml.Node :=
  xml.elIn space name [xml.Node.CharData text]

/-- A `wp:author` element. -/
def authorNode (id login email display first last : String) : xml.Node :=
  xml.elIn wpNS "author" [xml.txtIn wpNS "author_id" id, xml.txtIn wpNS "author_login" login,
    xml.txtIn wpNS "author_email" email, xml.txtIn wpNS "author_display_name" display,
    xml.txtIn wpNS "author_first_name" first, xml.txtIn wpNS "author_last_name" last]

/-- A `wp:category` element of a channel. -/
def categoryNode (id nicename parent name : String) : xml.Node :=
  xml.elIn wpNS "category" [xml.txtIn wpNS "term_id" id,
    xml.txtIn wpNS "category_nicename" nicename, xml.txtIn wpNS "category_parent" parent,
    xml.txtIn wpNS "cat_name" name]

/-- A `wp:tag` element. -/
def tagNode (id slug name : String) : xml.Node :=
  xml.elIn wpNS "tag" [xml.txtIn wpNS "term_id" id, xml.txtIn wpNS "tag_slug" slug,
    xml.txtIn wpNS "tag_name" name]

/-- A `category` element of an item, `<category domain="d" nicename="n">text</category>`. -/
def itemCategoryNode (domain nicename text : String) : xml.Node :=
  xml.Node.Element
    { Name := { Local := "category" },
      Attr := [{ Name := { Local := "domain" }, Value := domain },
               { Name := { Local := "nicename" }, Value := nicename }] }
    [xml.Node.CharData text] true

/-- An `item` element in the shape of the items of `example.xml`. -/
def itemNode (title link creator guid content postId postType : String)
    (more : List xml.Node) : xml.Node :=
  xml.el "item" ([xml.Node.CharData "\n", xml.txt "title" title, xml.txt "link" link,
    xml.txt "pubDate" "Sun, 06 Jul 2014 23:32:34 +0000", xml.txtIn dcNS "creator" creator,
    xml.txt "guid" guid, xml.el "description" [],
    xml.txtIn contentNS "encoded" content, xml.txtIn excerptNS "encoded" "",
    xml.txtIn wpNS "post_id" postId, xml.txtIn wpNS "post_date" "2014-07-06 23:32:34",
    xml.txtIn wpNS "post_date_gmt" "2014-07-06 23:32:34",
    xml.txtIn wpNS "comment_status" "open", xml.txtIn wpNS "ping_status" "open",
    xml.txtIn wpNS "status" "publish", xml.txtIn wpNS "post_parent" "0",
    xml.txtIn wpNS "menu_order" "0", xml.txtIn wpNS "post_type" postType,
    xml.txtIn wpNS "is_sticky" "0"] ++ more)

/-- Modelled from the spec: the fixture `example.xml` that `wxr_test.go` reads is not among
    the sources. This document has the content the scenario of the spec and the
    assertions of `TestParseWxr` describe: one channel, the authors `johndoe` and
    `janedoe`, the categories `cat1` and `cat2` (the second with parent `cat1`), the tags
    `tag1` and `tag2`, and three items (two attachments and one post); the content of the
    post is the text `wxr_test.go` expects, with a line break after `post` and a backslash
    followed by `n` before ` character.`. -/
def fixtureDoc : List xml.Node :=
  [xml.Node.Other, xml.Node.CharData "\n",
   xml.el "rss" [xml.Node.CharData "\n",
     xml.el "channel" [xml.Node.CharData "\n\t",
       xml.txt "title" "Example", xml.txt "link" "http://example.com",
       xml.txt "description" "Example Site",
       xml.txt "pubDate" "Sun, 06 Jul 2014 23:32:34 +0000",
       xml.txt "language" "en-US", xml.txtIn wpNS "wxr_version" "1.2",
       xml.txtIn wpNS "base_site_url" "http://example.com",
       xml.txtIn wpNS "base_blog_url" "http://example.com",
       authorNode "1" "johndoe" "johndoe@example.com" "John Doe" "John" "Doe",
       authorNode "2" "janedoe" "janedoe@example.com" "Jane Doe" "Jane" "Doe",
       categoryNode "1" "cat1" "" "Category 1", categoryNode "2" "cat2" "cat1" "Category 2",
       tagNode "3" "tag1" "Tag 1", tagNode "4" "tag2" "Tag 2",
       xml.txt "generator" "http://wordpress.org/?v=3.9.1",
       itemNode "Attachment Title 1" "http://example.com/2014/07/06/post1/image1.jpg"
         "johndoe" "http://example.com/wp-content/uploads/2014/07/image1.jpg" "" "2"
         "attachment" [],
       itemNode "Attachment Title 2" "http://example.com/2014/07/06/post1/image2.jpg"
         "janedoe" "http://example.com/wp-content/uploads/2014/07/image2.jpg" "" "3"
         "attachment" [],
       itemNode "Post 1" "http://example.com/2014/07/06/post1/" "johndoe"
         "http://example.com/?p=1"
         "Content of the post\nIncluding line breaks, which is translated to \\n character."
         "1" "post"
         [itemCategoryNode "category" "cat1" "Category 1",
          itemCategoryNode "post_tag" "tag1" "Tag 1"]]]]

/-- An environment whose tokenizer delivers `fixtureDoc` for every non-empty input;
    `time.Local` is UTC. -/
def fixtureEnv : Env :=
  { lex := fun _ => fixtureDoc, localOffset := fun _ => 0 }

/-- The tokens of a well-formed document with three channels; the item of the second
    channel has the `post_id` text `id`:
    `<rss><channel><title>A</title></channel>`
    `<channel><title>B</title><item><title>first</title><post_id>id</post_id></item></channel>`
    `<channel><title>C</title></channel></rss>`. -/
def postIdDoc (id : String) : List xml.Node :=
  [xml.el "rss" [
    xml.el "channel" [xml.txt "title" "A"],
    xml.el "channel" [xml.txt "title" "B",
      xml.el "item" [xml.txt "title" "first", xml.txt "post_id" id]],
    xml.el "channel" [xml.txt "title" "C"]]]

/-- An environment whose tokenizer delivers `postIdDoc "1"` for inputs of one byte and
    `postIdDoc "abc"` for all others. -/
def postIdEnv : Env :=
  { lex := fun data => if data.length = 1 then postIdDoc "1" else postIdDoc "abc",
    localOffset := fun _ => 0 }

/-- The tokens of a document whose only item carries three `encoded` elements: one in the
    excerpt namespace, one in the content namespace and, last, an unqualified one. -/
def encodedDoc : List xml.Node :=
  [xml.el "rss" [xml.el "channel" [xml.el "item" [
    xml.txtIn excerptNS "encoded" "the excerpt",
    xml.txtIn contentNS "encoded" "the content",
    xml.txt "encoded" "unqualified"]]]]

/-- An environment whose tokenizer delivers `encodedDoc`. -/
def encodedEnv : Env :=
  { lex := fun _ => encodedDoc, localOffset := fun _ => 0 }

/-- A `wp:postmeta` element with one key and one value. -/
def postMetaNode (key value : String) : xml.Node :=
  xml.elIn wpNS "postmeta" [xml.txtIn wpNS "meta_key" key, xml.txtIn wpNS "meta_value" value]

/-- The tokens of a document whose only item carries three `postmeta` elements, the last two
    with the same key. -/
def postMetaDoc : List xml.Node :=
  [xml.el "rss" [xml.el "channel" [xml.el "item" [xml.txt "title" "Post 1",
    postMetaNode "_edit_last" "1", xml.Node.CharData "\n", postMetaNode "color" "red",
    xml.txtIn wpNS "post_id" "1", postMetaNode "color" "blue"]]]]

/-- An environment whose tokenizer delivers `postMetaDoc`. -/
def postMetaEnv : Env :=
  { lex := fun _ => postMetaDoc, localOffset := fun _ => 0 }

/-- A `wp:comment` element with its two date texts. -/
def commentNode (id date dateGmt : String) : xml.Node :=
  xml.elIn wpNS "comment" [xml.txtIn wpNS "comment_id" id,
    xml.txtIn wpNS "comment_date" date, xml.txtIn wpNS "comment_date_gmt" dateGmt,
    xml.txtIn wpNS "comment_approved" "1"]

/-- The tokens of a document with two channels. The first has an item with two comments
    (the first comment with equal date texts, the second with different ones) and an item
    without comments; the second channel has no items. -/
def commentDoc : List xml.Node :=
  [xml.el "rss" [
    xml.el "channel" [
      xml.el "item" [xml.txtIn wpNS "post_date" "2014-07-06 23:32:34",
        xml.txtIn wpNS "post_date_gmt" "2014-07-06 23:32:34",
        commentNode "1" "2014-07-07 08:00:00" "2014-07-07 08:00:00",
        commentNode "2" "2014-07-07 10:15:30" "2014-07-07 08:15:30"],
      xml.el "item" [xml.txtIn wpNS "post_date" "2014-07-07 01:32:34",
        xml.txtIn wpNS "post_date_gmt" "2014-07-06 23:32:34"]],
    xml.el "channel" []]]

/-- An environment whose tokenizer delivers `commentDoc`; `time.Local` is two hours east
    of UTC. -/
def commentEnv : Env :=
  { lex := fun _ => commentDoc, localOffset := fun _ => 7200 }

/-- The tokens of a well-formed document with one channel that carries all eight text
    fields and one item; the item repeats the names `title`, `link` and `description` and
    has the `post_id` text `id`:
    `<rss><channel><title>Blog</title><link>http://blog.example</link>`
    `<description>A blog</description><language>en</language>`
    `<wp:wxr_version>1.2</wp:wxr_version><wp:base_site_url>http://site.example</wp:base_site_url>`
    `<wp:base_blog_url>http://blog.example</wp:base_blog_url><generator>gen</generator>`
    `<item><title>Post</title><link>http://blog.example/p</link>`
    `<description>A post</description><wp:post_id>id</wp:post_id></item></channel></rss>`. -/
def channelFieldsDoc (id : String) : List xml.Node :=
  [xml.el "rss" [xml.el "channel" [
    xml.txt "title" "Blog", xml.txt "link" "http://blog.example",
    xml.txt "description" "A blog", xml.txt "language" "en",
    xml.txtIn wpNS "wxr_version" "1.2", xml.txtIn wpNS "base_site_url" "http://site.example",
    xml.txtIn wpNS "base_blog_url" "http://blog.example", xml.txt "generator" "gen",
    xml.el "item" [xml.txt "title" "Post", xml.txt "link" "http://blog.example/p",
      xml.txt "description" "A post", xml.txtIn wpNS "post_id" id]]]]

/-- An environment whose tokenizer delivers `channelFieldsDoc "7"` for inputs of one byte
    and `channelFieldsDoc "abc"` for all others. -/
def channelFieldsEnv : Env :=
  { lex := fun data => if data.length = 1 then channelFieldsDoc "7" else channelFieldsDoc "abc",
    localOffset := fun _ => 0 }

/-- The tokens of a well-formed document with one channel, one item and two comments; the
    second comment has the `comment_approved` text `approved`:
    `<rss><channel><title>Blog</title><item><title>p</title>`
    `<comment><comment_id>1</comment_id><comment_approved>1</comment_approved></comment>`
    `<comment><comment_id>2</comment_id><comment_approved>approved</comment_approved></comment>`
    `</item></channel></rss>`. -/
def approvedDoc (approved : String) : List xml.Node :=
  [xml.el "rss" [xml.el "channel" [xml.txt "title" "Blog",
    xml.el "item" [xml.txt "title" "p",
      xml.el "comment" [xml.txt "comment_id" "1", xml.txt "comment_approved" "1"],
      xml.el "comment" [xml.txt "comment_id" "2", xml.txt "comment_approved" approved]]]]]

/-- An environment whose tokenizer delivers `approvedDoc "0"` for inputs of one byte and
    `approvedDoc "spam"` for all others. -/
def approvedEnv : Env :=
  { lex := fun data => if data.length = 1 then approvedDoc "0" else approvedDoc "spam",
    localOffset := fun _ => 0 }

/-- An environment whose tokenizer delivers `postIdDoc "3000000000"`. -/
def postIdRangeEnv : Env :=
  { lex := fun _ => postIdDoc "3000000000", localOffset := fun _ => 0 }

/-- The tokens of a well-formed document with one channel and two items. The first item has
    a `category` element with attributes, three `encoded` elements (unqualified, in the
    content namespace, in the excerpt namespace) and two `postmeta` elements with the key
    `color`; the second item has the `post_id` text `id`. -/
def siblingItemDoc (id : String) : List xml.Node :=
  [xml.el "rss" [xml.el "channel" [
    xml.el "item" [xml.txt "title" "first",
      itemCategoryNode "category" "cat1" "Category 1",
      xml.txt "encoded" "unqualified",
      xml.txtIn contentNS "encoded" "the content",
      xml.txtIn excerptNS "encoded" "the excerpt",
      postMetaNode "color" "red", postMetaNode "color" "blue"],
    xml.el "item" [xml.txt "title" "second", xml.txtIn wpNS "post_id" id]]]]

/-- An environment whose tokenizer delivers `siblingItemDoc "2"` for inputs of one byte and
    `siblingItemDoc "abc"` for all others. -/
def siblingItemEnv : Env :=
  { lex := fun data => if data.length = 1 then siblingItemDoc "2" else siblingItemDoc "abc",
    localOffset := fun _ => 0 }

/-- Whether the decoder gets past a child of the root element without error: a `channel`
    element has to decode without error; any other element is passed over with
    `Decoder.Skip` and has to be complete; character data and other tokens always pass. -/
def xml.rootChildOk : xml.Node → Bool
  | xml.Node.Element start content ended =>
    if start.Name.Local = "channel" then
      (xml.unmarshalStruct Channel.typeInfo {} start content ended).2
    else ended
  | _ => true

/-- The content of the root element before its first child on which the decoder fails; all
    of the content when there is no such child. -/
def xml.beforeFailure (content : List xml.Node) : List xml.Node :=
  content.takeWhile xml.rootChildOk

/-- The tokens of an input that ends inside the second channel:
    `<rss><channel><title>A</title></channel><channel><title>B</title><item><title>fir`. -/
def truncatedDoc : List xml.Node :=
  [xml.Node.Element { Name := { Local := "rss" } } [
    xml.el "channel" [xml.txt "title" "A"],
    xml.Node.Element { Name := { Local := "channel" } } [xml.txt "title" "B",
      xml.Node.Element { Name := { Local := "item" } } [
        xml.Node.Element { Name := { Local := "title" } } [xml.Node.CharData "fir"] false]
        false] false] false]

/-- An environment whose tokenizer delivers `truncatedDoc`. -/
def truncatedEnv : Env :=
  { lex := fun _ => truncatedDoc, localOffset := fun _ => 0 }

/-- Whether the struct loop for `ti` gets past the node without error: a child element
    that a field consumes has to decode without error (`sv` is the struct decoded into;
    for the fields of `wxr.go` the error does not depend on it), a child element that no
    field consumes is passed over with `Decoder.Skip` and has to be complete, and
    character data and other tokens always pass. -/
def xml.passes {σ : Type} (ti : xml.TypeInfo σ) (sv : σ) : xml.Node → Bool
  | xml.Node.Element start content ended =>
    match xml.unmarshalPath ti.fields sv start content ended with
    | some r => r.2
    | none => ended
  | _ => true

/-! ### Fields without a source element -/

/-- Every field of the `Channel` `v` to which no child element among `c` is bound holds the
    zero value of its type; the timestamp `PubDate` goes with the element `pubDate`. -/
def Channel.zeroWhereUnbound (c : List xml.Node) (v : Channel) : Prop :=
  (xml.named "title" c = [] → v.Title = "") ∧
  (xml.named "link" c = [] → v.Link = "") ∧
  (xml.named "description" c = [] → v.Description = "") ∧
  (xml.named "pubDate" c = [] → v.PubDateString = "") ∧
  (xml.named "language" c = [] → v.Language = "") ∧
  (xml.named "wxr_version" c = [] → v.WxrVersion = "") ∧
  (xml.named "base_site_url" c = [] → v.BaseSiteUrl = "") ∧
  (xml.named "base_blog_url" c = [] → v.BaseBlogUrl = "") ∧
  (xml.named "generator" c = [] → v.Generator = "") ∧
  (xml.named "author" c = [] → v.Authors = []) ∧
  (xml.named "category" c = [] → v.Categories = []) ∧
  (xml.named "tag" c = [] → v.Tags = []) ∧
  (xml.named "item" c = [] → v.Items = []) ∧
  (xml.named "pubDate" c = [] → v.PubDate = time.Time.zero)

/-- Every field of the `Author` `v` to which no child element among `c` is bound holds the
    zero value of its type. -/
def Author.zeroWhereUnbound (c : List xml.Node) (v : Author) : Prop :=
  (xml.named "author_id" c = [] → v.Id = 0) ∧
  (xml.named "author_login" c = [] → v.Login = "") ∧
  (xml.named "author_email" c = [] → v.Email = "") ∧
  (xml.named "author_display_name" c = [] → v.DisplayName = "") ∧
  (xml.named "author_first_name" c = [] → v.FirstName = "") ∧
  (xml.named "author_last_name" c = [] → v.LastName = "")

/-- Every field of the `Category` `v` to which no child element among `c` is bound holds the
    zero value of its type. -/
def Category.zeroWhereUnbound (c : List xml.Node) (v : Category) : Prop :=
  (xml.named "term_id" c = [] → v.Id = 0) ∧
  (xml.named "category_nicename" c = [] → v.NiceName = "") ∧
  (xml.named "category_parent" c = [] → v.Parent = "") ∧
  (xml.named "cat_name" c = [] → v.Name = "")

/-- Every field of the `Tag` `v` to which no child element among `c` is bound holds the
    zero value of its type. -/
def Tag.zeroWhereUnbound (c : List xml.Node) (v : Tag) : Prop :=
  (xml.named "term_id" c = [] → v.Id = 0) ∧
  (xml.named "tag_slug" c = [] → v.Slug = "") ∧
  (xml.named "tag_name" c = [] → v.Name = "")

/-- Every field of the `Item` `v` to which no child element among `c` is bound holds the
    zero value of its type; the timestamps `PubDate`, `PostDate` and `PostDateGmt` go with
    the elements `pubDate`, `post_date` and `post_date_gmt`. -/
def Item.zeroWhereUnbound (c : List xml.Node) (v : Item) : Prop :=
  (xml.named "title" c = [] → v.Title = "") ∧
  (xml.named "link" c = [] → v.Link = "") ∧
  (xml.named "pubDate" c = [] → v.PubDateString = "") ∧
  (xml.named "creator" c = [] → v.Creator = "") ∧
  (xml.named "guid" c = [] → v.Guid = "") ∧
  (xml.named "description" c = [] → v.Description = "") ∧
  (xml.namedIn contentNS "encoded" c = [] → v.Content = "") ∧
  (xml.namedIn excerptNS "encoded" c = [] → v.Excerpt = "") ∧
  (xml.named "post_id" c = [] → v.PostId = 0) ∧
  (xml.named "post_date" c = [] → v.PostDateString = "") ∧
  (xml.named "post_date_gmt" c = [] → v.PostDateGmtString = "") ∧
  (xml.named "comment_status" c = [] → v.CommentStatus = "") ∧
  (xml.named "ping_status" c = [] → v.PingStatus = "") ∧
  (xml.named "post_name" c = [] → v.PostName = "") ∧
  (xml.named "status" c = [] → v.Status = "") ∧
  (xml.named "post_parent" c = [] → v.PostParent = 0) ∧
  (xml.named "menu_order" c = [] → v.MenuOrder = 0) ∧
  (xml.named "post_type" c = [] → v.PostType = "") ∧
  (xml.named "post_password" c = [] → v.PostPassword = "") ∧
  (xml.named "is_sticky" c = [] → v.IsSticky = false) ∧
  (xml.named "attachment_url" c = [] → v.AttachmentUrl = "") ∧
  (xml.named "category" c = [] → v.Categories = []) ∧
  (xml.named "postmeta" c = [] → v.PostMetas = []) ∧
  (xml.named "comment" c = [] → v.Comments = []) ∧
  (xml.named "pubDate" c = [] → v.PubDate = time.Time.zero) ∧
  (xml.named "post_date" c = [] → v.PostDate = time.Time.zero) ∧
  (xml.named "post_date_gmt" c = [] → v.PostDateGmt = time.Time.zero)

/-- Every field of the `ItemCategory` `v` whose attribute is not among the attributes of the
    start tag `s`, and `DisplayName` when the content `c` has no character data, holds the
    empty string. -/
def ItemCategory.zeroWhereUnbound (s : xml.StartElement) (c : List xml.Node)
    (v : ItemCategory) : Prop :=
  (xml.attrValue "domain" s.Attr = none → v.Domain = "") ∧
  (xml.attrValue "nicename" s.Attr = none → v.NiceName = "") ∧
  (xml.text c = "" → v.DisplayName = "")

/-- Every field of the `PostMeta` `v` to which no child element among `c` is bound holds the
    zero value of its type. -/
def PostMeta.zeroWhereUnbound (c : List xml.Node) (v : PostMeta) : Prop :=
  (xml.named "meta_key" c = [] → v.Key = "") ∧
  (xml.named "meta_value" c = [] → v.Value = "")

/-- Every field of the `Comment` `v` to which no child element among `c` is bound holds the
    zero value of its type; the timestamps `Date` and `DateGmt` go with the elements
    `comment_date` and `comment_date_gmt`. -/
def Comment.zeroWhereUnbound (c : List xml.Node) (v : Comment) : Prop :=
  (xml.named "comment_id" c = [] → v.Id = 0) ∧
  (xml.named "comment_author" c = [] → v.Author = "") ∧
  (xml.named "comment_author_email" c = [] → v.AuthorEmail = "") ∧
  (xml.named "comment_author_url" c = [] → v.AuthorUrl = "") ∧
  (xml.named "comment_author_ip" c = [] → v.AuthorIp = "") ∧
  (xml.named "comment_date" c = [] → v.DateString = "") ∧
  (xml.named "comment_date_gmt" c = [] → v.DateGmtString = "") ∧
  (xml.named "comment_content" c = [] → v.Content = "") ∧
  (xml.named "comment_approved" c = [] → v.Approved = false) ∧
  (xml.named "comment_type" c = [] → v.Type_ = "") ∧
  (xml.named "comment_parent" c = [] → v.Parent = 0) ∧
  (xml.named "comment_user_id" c = [] → v.UserId = 0) ∧
  (xml.named "comment_date" c = [] → v.Date = time.Time.zero) ∧
  (xml.named "comment_date_gmt" c = [] → v.DateGmt = time.Time.zero)

/-- The tokens of `<rss><channel><author/><category/><tag/><item><category/><postmeta/>`
    `<comment/></item></channel></rss>`: every entity is there, without any field. -/
def bareDoc : List xml.Node :=
  [xml.el "rss" [xml.el "channel" [xml.el "author" [], xml.el "category" [], xml.el "tag" [],
    xml.el "item" [xml.el "category" [], xml.el "postmeta" [], xml.el "comment" []]]]]

/-- An environment whose tokenizer delivers `bareDoc`. -/
def bareEnv : Env :=
  { lex := fun _ => bareDoc, localOffset := fun _ => 0 }

/-! ### Dates as the specification words them

The calendar by counting: the days of the years and months that have passed. -/

/-- A leap year of the (proleptic) Gregorian calendar. -/
def leapYear (y : Nat) : Bool :=
  y % 4 = 0 ∧ (y % 100 ≠ 0 ∨ y % 400 = 0)

/-- The number of days of year `y`. -/
def daysInYear (y : Nat) : Nat :=
  if leapYear y then 366 else 365

/-- The number of days of month `m` (1 to 12) of year `y`. -/
def daysInMonth (y m : Nat) : Nat :=
  if m = 2 then (if leapYear y then 29 else 28)
  else if m = 4 ∨ m = 6 ∨ m = 9 ∨ m = 11 then 30
  else 31

/-- The number of days from January 1 of year 0 to January 1 of year `y`. -/
def daysBeforeYear : Nat → Nat
  | 0 => 0
  | y + 1 => daysBeforeYear y + daysInYear y

/-- The number of days of year `y` in the months 1 to `m`. -/
def daysInMonthsUpTo (y : Nat) : Nat → Nat
  | 0 => 0
  | m + 1 => daysInMonthsUpTo y m + daysInMonth y (m + 1)

/-- The number of days from January 1 of year 0 to January 1, 1970
    (`daysBeforeYear 1970`, see `daysBeforeYear_1970`). -/
def daysBefore1970 : Nat := 719528

/-- The number of days from January 1, 1970 to the given day (negative before 1970). -/
def epochDay (y m d : Nat) : Int :=
  ((daysBeforeYear y + daysInMonthsUpTo y (m - 1) + (d - 1) : Nat) : Int) - daysBefore1970

/-- The seconds since January 1, 1970 00:00:00 UTC of the wall-clock reading
    `y-m-d h:mi:s` taken as UTC. -/
def epochSecondsUTC (y m d h mi s : Nat) : Int :=
  epochDay y m d * 86400 + h * 3600 + mi * 60 + s

/-- The decimal digit `k` as a character. -/
def digitChar (k : Nat) : Char := Char.ofNat (48 + k)

/-- Two decimal digits of `n`, followed by `rest`. -/
def twoDigits (n : Nat) (rest : List Char) : List Char :=
  digitChar (n / 10) :: digitChar (n % 10) :: rest

/-- Four decimal digits of `n`, followed by `rest`. -/
def fourDigits (n : Nat) (rest : List Char) : List Char :=
  digitChar (n / 1000) :: digitChar (n / 100 % 10) :: digitChar (n / 10 % 10) ::
    digitChar (n % 10) :: rest

/-- The text `Ddd, DD Mon YYYY HH:MM:SS +hhmm` (or `-hhmm` when `neg`): `wd` is the index
    of the day name (0 for `Sun`), `mon` the month (1 to 12), `oh` and `om` the hours and
    minutes of the offset. -/
def formatRFC1123Z (wd day mon year hh mm ss : Nat) (neg : Bool) (oh om : Nat) : String :=
  String.mk (time.shortDayNames.getD wd [] ++ (',' :: ' ' :: twoDigits day (' ' ::
    (time.shortMonthNames.getD (mon - 1) [] ++ (' ' :: fourDigits year (' ' ::
      twoDigits hh (':' :: twoDigits mm (':' :: twoDigits ss (' ' ::
        (if neg then '-' else '+') :: twoDigits oh (twoDigits om []))))))))))

/-- The offset `+hhmm` or `-hhmm` in seconds. -/
def offsetSeconds (neg : Bool) (oh om : Nat) : Int :=
  if neg then -(((oh * 60 + om) * 60 : Nat) : Int) else (((oh * 60 + om) * 60 : Nat) : Int)

/-- The text `YYYY-MM-DD HH:MM:SS`, each number with leading zeros. -/
def formatISO (year mon day hh mm ss : Nat) : String :=
  String.mk (fourDigits year ('-' :: twoDigits mon ('-' :: twoDigits day (' ' ::
    twoDigits hh (':' :: twoDigits mm (':' :: twoDigits ss []))))))

/-! ### A document with another text in the place of a date field -/

/-- The content with the content of every child element named `name` replaced by the
    text `s`. -/
def xml.setText (name s : String) : List xml.Node → List xml.Node
  | [] => []
  | xml.Node.Element start content ended :: ns =>
    (if start.Name.Local = name then xml.Node.Element start [xml.Node.CharData s] ended
     else xml.Node.Element start content ended) :: xml.setText name s ns
  | n :: ns => n :: xml.setText name s ns

/-- The content with the content of the `k`-th child element named `name` (counted from 0)
    changed by `g`; unchanged when there is no such child. -/
def xml.atChild (name : String) (g : List xml.Node → List xml.Node) :
    Nat → List xml.Node → List xml.Node
  | _, [] => []
  | k, xml.Node.Element start content ended :: ns =>
    if start.Name.Local = name then
      match k with
      | 0 => xml.Node.Element start (g content) ended :: ns
      | k + 1 => xml.Node.Element start content ended :: xml.atChild name g k ns
    else xml.Node.Element start content ended :: xml.atChild name g k ns
  | k, n :: ns => n :: xml.atChild name g k ns

/-- The tokens with the content of the root element changed by `g`. -/
def xml.atRoot (g : List xml.Node → List xml.Node) : List xml.Node → List xml.Node
  | [] => []
  | xml.Node.Element start content ended :: ns => xml.Node.Element start (g content) ended :: ns
  | n :: ns => n :: xml.atRoot g ns

/-- The name of the element a date field is bound to. -/
def DateField.tag : DateField → String
  | DateField.channelPubDate _ => "pubDate"
  | DateField.itemPubDate _ _ => "pubDate"
  | DateField.itemPostDate _ _ => "post_date"
  | DateField.itemPostDateGmt _ _ => "post_date_gmt"
  | DateField.commentDate _ _ _ => "comment_date"
  | DateField.commentDateGmt _ _ _ => "comment_date_gmt"

/-- The change of the content of the root element that puts the text `s` in the place of
    the date field: in the `channel` element (and, below it, the `item` and the `comment`
    element) at the position of the field's entity, every child element with the field's
    tag gets the content `s`. -/
def xml.dateEdit : DateField → String → List xml.Node → List xml.Node
  | DateField.channelPubDate ci, s => xml.atChild "channel" (xml.setText "pubDate" s) ci
  | DateField.itemPubDate ci ii, s =>
    xml.atChild "channel" (xml.atChild "item" (xml.setText "pubDate" s) ii) ci
  | DateField.itemPostDate ci ii, s =>
    xml.atChild "channel" (xml.atChild "item" (xml.setText "post_date" s) ii) ci
  | DateField.itemPostDateGmt ci ii, s =>
    xml.atChild "channel" (xml.atChild "item" (xml.setText "post_date_gmt" s) ii) ci
  | DateField.commentDate ci ii ki, s =>
    xml.atChild "channel" (xml.atChild "item"
      (xml.atChild "comment" (xml.setText "comment_date" s) ki) ii) ci
  | DateField.commentDateGmt ci ii ki, s =>
    xml.atChild "channel" (xml.atChild "item"
      (xml.atChild "comment" (xml.setText "comment_date_gmt" s) ki) ii) ci

/-- The document with the text `s` in the place of the date field. -/
def xml.withDateText (f : DateField) (s : String) (doc : List xml.Node) : List xml.Node :=
  xml.atRoot (xml.dateEdit f s) doc

/-- The `k`-th child element named `name` among `content`, as an option of its content. -/
def xml.childContent (name : String) (k : Nat) (content : List xml.Node) :
    Option (List xml.Node) :=
  ((xml.named name content)[k]?).map (fun el => el.content)

/-- The date elements in the place of a date field: the child elements with the field's
    tag of the element of the field's entity; none when the document has no such
    entity. -/
def xml.dateElements (f : DateField) (doc : List xml.Node) : List xml.Elem :=
  match xml.root doc with
  | none => []
  | some rootEl =>
    let entity : Option (List xml.Node) :=
      match f with
      | DateField.channelPubDate ci => xml.childContent "channel" ci rootEl.content
      | DateField.itemPubDate ci ii =>
        (xml.childContent "channel" ci rootEl.content).bind (xml.childContent "item" ii)
      | DateField.itemPostDate ci ii =>
        (xml.childContent "channel" ci rootEl.content).bind (xml.childContent "item" ii)
      | DateField.itemPostDateGmt ci ii =>
        (xml.childContent "channel" ci rootEl.content).bind (xml.childContent "item" ii)
      | DateField.commentDate ci ii ki =>
        ((xml.childContent "channel" ci rootEl.content).bind
          (xml.childContent "item" ii)).bind (xml.childContent "comment" ki)
      | DateField.commentDateGmt ci ii ki =>
        ((xml.childContent "channel" ci rootEl.content).bind
          (xml.childContent "item" ii)).bind (xml.childContent "comment" ki)
    match entity with
    | none => []
    | some content => xml.named f.tag content

/-- The struct loop for `ti` treats the two nodes alike up to `E`: they are the same
    token, or elements with the same start tag and the same end on which every field that
    consumes them reports the same error and stores the same up to `E`. -/
def xml.Alike {σ : Type} (ti : xml.TypeInfo σ) (E : σ → σ) : xml.Node → xml.Node → Prop
  | xml.Node.Element s1 c1 e1, xml.Node.Element s2 c2 e2 =>
    s1 = s2 ∧ e1 = e2 ∧ ∀ f ∈ ti.fields, f.binds s1 → ∀ a b, E a = E b →
      (f.unmarshal a s1 c1 e1).2 = (f.unmarshal b s2 c2 e2).2 ∧
      E (f.unmarshal a s1 c1 e1).1 = E (f.unmarshal b s2 c2 e2).1
  | xml.Node.CharData x, xml.Node.CharData y => x = y
  | xml.Node.Other, xml.Node.Other => True
  | _, _ => False

/-- Decoding the contents `cv` and `cs` into the zero value of a struct type gives the same
    error, and without error the struct for `cs` is the one for `cv` changed by `G`. -/
def xml.Related {σ : Type} (ti : xml.TypeInfo σ) (zero : σ) (G : σ → σ)
    (cv cs : List xml.Node) : Prop :=
  ∀ (st : xml.StartElement) (e : Bool),
    (xml.unmarshalStruct ti zero st cv e).2 = (xml.unmarshalStruct ti zero st cs e).2 ∧
    ((xml.unmarshalStruct ti zero st cs e).2 = true →
      (xml.unmarshalStruct ti zero st cs e).1 = G (xml.unmarshalStruct ti zero st cv e).1)

/-- The tokens of a document with one channel (title, publication date, link) that holds
    one item (title, publication date, post id, both post dates) with one comment whose
    `comment_date` has the text `date`:
    `<rss><channel><title>Blog</title><pubDate>Sun, 06 Jul 2014 23:32:34 +0000</pubDate>`
    `<link>http://blog.example</link><item><title>Post</title>`
    `<pubDate>Mon, 07 Jul 2014 01:02:03 +0000</pubDate><wp:post_id>7</wp:post_id>`
    `<wp:post_date>2014-07-07 01:02:03</wp:post_date>`
    `<wp:post_date_gmt>2014-07-07 01:02:03</wp:post_date_gmt>`
    `<wp:comment><wp:comment_id>1</wp:comment_id><wp:comment_author>Ann</wp:comment_author>`
    `<wp:comment_date>date</wp:comment_date>`
    `<wp:comment_date_gmt>2014-07-07 08:00:00</wp:comment_date_gmt></wp:comment>`
    `</item></channel></rss>`. -/
def datedDoc (date : String) : List xml.Node :=
  [xml.el "rss" [xml.el "channel" [
    xml.txt "title" "Blog",
    xml.txt "pubDate" "Sun, 06 Jul 2014 23:32:34 +0000",
    xml.txt "link" "http://blog.example",
    xml.el "item" [
      xml.txt "title" "Post",
      xml.txt "pubDate" "Mon, 07 Jul 2014 01:02:03 +0000",
      xml.txtIn wpNS "post_id" "7",
      xml.txtIn wpNS "post_date" "2014-07-07 01:02:03",
      xml.txtIn wpNS "post_date_gmt" "2014-07-07 01:02:03",
      xml.elIn wpNS "comment" [
        xml.txtIn wpNS "comment_id" "1",
        xml.txtIn wpNS "comment_author" "Ann",
        xml.txtIn wpNS "comment_date" date,
        xml.txtIn wpNS "comment_date_gmt" "2014-07-07 08:00:00"]]]]]

/-- An environment whose tokenizer delivers `datedDoc` with a well-formed `comment_date`
    for inputs of one byte and with the text `garbage` for all others; `time.Local` is
    UTC. -/
def datedEnv : Env :=
  { lex := fun data =>
      if data.length = 1 then datedDoc "2014-07-07 10:00:00" else datedDoc "garbage",
    localOffset := fun _ => 0 }

/-! ## Theorems -/

theorem mapRange_cons {α : Type} (f : α → α) (a : α) :
    ∀ (n i : Nat) (l : List α), mapRange f (i + 1) n (a :: l) = a :: mapRange f i n l := by
  intro n
  induction n with
  | zero => intro i l; rfl
  | succ n ih =>
    intro i l
    simp only [mapRange, List.getElem?_cons_succ]
    cases h : l[i]? with
    | none => simp [ih]
    | some b => simp [ih]

theorem mapRange_eq_map {α : Type} (f : α → α) :
    ∀ l : List α, mapRange f 0 l.length l = l.map f := by
  intro l
  induction l with
  | nil => rfl
  | cons a l ih => simp [mapRange, mapRange_cons, ih]

theorem setAt_eq_set {α : Type} (f : α → Option α) :
    ∀ (l : List α) (i : Nat) (a b : α), l[i]? = some a → f a = some b →
      setAt l i f = some (l.set i b) := by
  intro l
  induction l with
  | nil => intro i a b h; simp at h
  | cons x l ih =>
    intro i a b h hf
    cases i with
    | zero =>
      simp at h
      subst h
      simp [setAt, hf]
    | succ i =>
      simp at h
      simp [setAt, ih i a b h hf]

theorem set_getElem?_self {α : Type} :
    ∀ (l : List α) (i : Nat) (a : α), l[i]? = some a → l.set i a = l := by
  intro l
  induction l with
  | nil => intro i a h; simp at h
  | cons x l ih =>
    intro i a h
    cases i with
    | zero => simp at h; simp [h]
    | succ i => simp at h; simp [ih i a h]

theorem atChannel_eq (w : Wxr) (ci : Nat) (f : Channel → Option Channel) (c c1 : Channel)
    (hc : w.Channels[ci]? = some c) (hf : f c = some c1) :
    w.atChannel ci f = some (w.putChannel ci c1) := by
  simp [Wxr.atChannel, Wxr.putChannel, setAt_eq_set f w.Channels ci c c1 hc hf]

theorem atItem_eq (c : Channel) (ii : Nat) (f : Item → Option Item) (i i1 : Item)
    (hi : c.Items[ii]? = some i) (hf : f i = some i1) :
    c.atItem ii f = some (c.putItem ii i1) := by
  simp [Channel.atItem, Channel.putItem, setAt_eq_set f c.Items ii i i1 hi hf]

theorem atComment_eq (i : Item) (ki : Nat) (f : Comment → Option Comment) (k k1 : Comment)
    (hk : i.Comments[ki]? = some k) (hf : f k = some k1) :
    i.atComment ki f = some (i.putComment ki k1) := by
  simp [Item.atComment, Item.putComment, setAt_eq_set f i.Comments ki k k1 hk hf]

theorem setItem_eq (w : Wxr) (ci ii : Nat) (f : Item → Item) (c : Channel) (i : Item)
    (hc : w.Channels[ci]? = some c) (hi : c.Items[ii]? = some i) :
    w.setItem ci ii f = some (w.putChannel ci (c.putItem ii (f i))) := by
  unfold Wxr.setItem
  exact atChannel_eq w ci _ c _ hc (atItem_eq c ii _ i _ hi rfl)

theorem setComment_eq (w : Wxr) (ci ii ki : Nat) (f : Comment → Comment) (c : Channel)
    (i : Item) (k : Comment)
    (hc : w.Channels[ci]? = some c) (hi : c.Items[ii]? = some i)
    (hk : i.Comments[ki]? = some k) :
    w.setComment ci ii ki f =
      some (w.putChannel ci (c.putItem ii (i.putComment ki (f k)))) := by
  unfold Wxr.setComment
  exact atChannel_eq w ci _ c _ hc (atItem_eq c ii _ i _ hi (atComment_eq i ki _ k _ hk rfl))

theorem getElem?_set_same {α : Type} (l : List α) (i : Nat) (a b : α) (h : l[i]? = some a) :
    (l.set i b)[i]? = some b := by
  have hi : i < l.length := by
    by_contra hn
    rw [List.getElem?_eq_none (by omega)] at h
    cases h
  simp [List.getElem?_set, hi]

theorem putChannel_get (w : Wxr) (ci : Nat) (c c1 : Channel) (hc : w.Channels[ci]? = some c) :
    (w.putChannel ci c1).Channels[ci]? = some c1 :=
  getElem?_set_same _ _ _ _ hc

theorem putItem_get (c : Channel) (ii : Nat) (i i1 : Item) (hi : c.Items[ii]? = some i) :
    (c.putItem ii i1).Items[ii]? = some i1 :=
  getElem?_set_same _ _ _ _ hi

theorem putComment_get (i : Item) (ki : Nat) (k k1 : Comment) (hk : i.Comments[ki]? = some k) :
    (i.putComment ki k1).Comments[ki]? = some k1 :=
  getElem?_set_same _ _ _ _ hk

theorem putChannel_putChannel (w : Wxr) (ci : Nat) (c c1 : Channel) :
    (w.putChannel ci c).putChannel ci c1 = w.putChannel ci c1 := by
  simp [Wxr.putChannel, List.set_set]

theorem putItem_putItem (c : Channel) (ii : Nat) (i i1 : Item) :
    (c.putItem ii i).putItem ii i1 = c.putItem ii i1 := by
  simp [Channel.putItem, List.set_set]

theorem putComment_putComment (i : Item) (ki : Nat) (k k1 : Comment) :
    (i.putComment ki k).putComment ki k1 = i.putComment ki k1 := by
  simp [Item.putComment, List.set_set]

theorem commentBody_eq (env : Env) (ci ii ki : Nat) (w : Wxr) (c : Channel) (i : Item)
    (k : Comment) (hc : w.Channels[ci]? = some c) (hi : c.Items[ii]? = some i)
    (hk : i.Comments[ki]? = some k) :
    commentBody env ci ii ki w =
      some (w.putChannel ci (c.putItem ii (i.putComment ki (k.withDates env)))) := by
  have hread : w.commentAt ci ii ki = some k := by
    simp [Wxr.commentAt, Wxr.itemAt, hc, hi, hk]
  unfold commentBody
  simp only [hread, Option.bind_eq_bind, Option.some_bind]
  rw [setComment_eq w ci ii ki _ c i k hc hi hk]
  simp only [Option.some_bind]
  rw [setComment_eq _ ci ii ki _ _ _ _ (putChannel_get _ _ _ _ hc)
    (putItem_get _ _ _ _ hi) (putComment_get _ _ _ _ hk)]
  simp [Comment.withDates, parseDate, putChannel_putChannel, putItem_putItem,
    putComment_putComment]

theorem putComments_self (w : Wxr) (ci ii : Nat) (c : Channel) (i : Item)
    (hc : w.Channels[ci]? = some c) (hi : c.Items[ii]? = some i) :
    w.putChannel ci (c.putItem ii i) = w := by
  have h1 : c.putItem ii i = c := by
    simp [Channel.putItem, set_getElem?_self _ _ _ hi]
  rw [h1]
  simp [Wxr.putChannel, set_getElem?_self _ _ _ hc]

theorem commentLoop_eq (env : Env) (ci ii : Nat) :
    ∀ (n ki : Nat) (w : Wxr) (c : Channel) (i : Item),
      w.Channels[ci]? = some c → c.Items[ii]? = some i → ki + n ≤ i.Comments.length →
      forRangeFrom (commentBody env ci ii) n ki w =
        some (w.putChannel ci (c.putItem ii
          { i with Comments := mapRange (Comment.withDates env) ki n i.Comments })) := by
  intro n
  induction n with
  | zero =>
    intro ki w c i hc hi _
    simp only [forRangeFrom, mapRange]
    rw [putComments_self w ci ii c i hc hi]
  | succ n ih =>
    intro ki w c i hc hi hlen
    have hk : i.Comments[ki]? = some (i.Comments[ki]) :=
      List.getElem?_eq_getElem (by omega)
    rw [forRangeFrom, commentBody_eq env ci ii ki w c i _ hc hi hk]
    simp only
    rw [ih (ki + 1) _ _ _ (putChannel_get _ _ _ _ hc) (putItem_get _ _ _ _ hi)
      (by simp [Item.putComment]; omega)]
    simp [putChannel_putChannel, putItem_putItem, Item.putComment, mapRange, hk]

theorem itemBody_eq (env : Env) (ci ii : Nat) (w : Wxr) (c : Channel) (i : Item)
    (hc : w.Channels[ci]? = some c) (hi : c.Items[ii]? = some i) :
    itemBody env ci ii w = some (w.putChannel ci (c.putItem ii (i.withDates env))) := by
  have hread : w.itemAt ci ii = some i := by simp [Wxr.itemAt, hc, hi]
  unfold itemBody
  simp only [hread, Option.bind_eq_bind, Option.some_bind]
  rw [setItem_eq w ci ii _ c i hc hi]
  simp only [Option.some_bind]
  rw [setItem_eq _ ci ii _ _ _ (putChannel_get _ _ _ _ hc) (putItem_get _ _ _ _ hi)]
  simp only [Option.some_bind]
  rw [setItem_eq _ ci ii _ _ _ (putChannel_get _ _ _ _ (putChannel_get _ _ _ _ hc))
    (putItem_get _ _ _ _ (putItem_get _ _ _ _ hi))]
  simp only [Option.some_bind, forRange]
  rw [commentLoop_eq env ci ii _ 0 _ _ _
    (putChannel_get _ _ _ _ (putChannel_get _ _ _ _ (putChannel_get _ _ _ _ hc)))
    (putItem_get _ _ _ _ (putItem_get _ _ _ _ (putItem_get _ _ _ _ hi))) (by simp)]
  simp [putChannel_putChannel, putItem_putItem, Item.withDates, parseDate, mapRange_eq_map]

theorem putItems_self (w : Wxr) (ci : Nat) (c : Channel) (hc : w.Channels[ci]? = some c) :
    w.putChannel ci c = w := by
  simp [Wxr.putChannel, set_getElem?_self _ _ _ hc]

theorem itemLoop_eq (env : Env) (ci : Nat) :
    ∀ (n ii : Nat) (w : Wxr) (c : Channel),
      w.Channels[ci]? = some c → ii + n ≤ c.Items.length →
      forRangeFrom (itemBody env ci) n ii w =
        some (w.putChannel ci
          { c with Items := mapRange (Item.withDates env) ii n c.Items }) := by
  intro n
  induction n with
  | zero =>
    intro ii w c hc _
    simp only [forRangeFrom, mapRange]
    rw [putItems_self w ci c hc]
  | succ n ih =>
    intro ii w c hc hlen
    have hi : c.Items[ii]? = some (c.Items[ii]) := List.getElem?_eq_getElem (by omega)
    rw [forRangeFrom, itemBody_eq env ci ii w c _ hc hi]
    simp only
    rw [ih (ii + 1) _ _ (putChannel_get _ _ _ _ hc) (by simp [Channel.putItem]; omega)]
    simp [putChannel_putChannel, Channel.putItem, mapRange, hi]

theorem channelBody_eq (env : Env) (ci : Nat) (w : Wxr) (c : Channel)
    (hc : w.Channels[ci]? = some c) :
    channelBody env ci w = some (w.putChannel ci (c.withDates env)) := by
  unfold channelBody
  simp only [Wxr.channelAt, hc, Option.bind_eq_bind, Option.some_bind]
  rw [atChannel_eq w ci
    (fun c1 => some { c1 with PubDate := (time.Parse env.localOffset time.RFC1123Z c.PubDateString).1 })
    c _ hc rfl]
  simp only [Option.some_bind, forRange]
  rw [itemLoop_eq env ci _ 0 _ _ (putChannel_get _ _ _ _ hc) (by simp)]
  simp [putChannel_putChannel, Channel.withDates, parseDate, mapRange_eq_map]

theorem channelLoop_eq (env : Env) :
    ∀ (n ci : Nat) (w : Wxr), ci + n ≤ w.Channels.length →
      forRangeFrom (channelBody env) n ci w =
        some { w with Channels := mapRange (Channel.withDates env) ci n w.Channels } := by
  intro n
  induction n with
  | zero => intro ci w _; rfl
  | succ n ih =>
    intro ci w hlen
    have hc : w.Channels[ci]? = some (w.Channels[ci]) := List.getElem?_eq_getElem (by omega)
    rw [forRangeFrom, channelBody_eq env ci w _ hc]
    simp only
    rw [ih (ci + 1) _ (by simp [Wxr.putChannel]; omega)]
    simp [Wxr.putChannel, mapRange, hc]

/-- The date loop never panics and computes the entity-wise map. -/
theorem parseDateStrings_eq (env : Env) (w : Wxr) :
    parseDateStrings env w = some (w.withDates env) := by
  unfold parseDateStrings forRange
  rw [channelLoop_eq env _ 0 w (by simp)]
  simp [Wxr.withDates, mapRange_eq_map]

theorem ParseWxr_eq (env : Env) (data : List UInt8) :
    ParseWxr env data = some ((decoded env data).withDates env) :=
  parseDateStrings_eq env _

/-- Every error return of `time.Parse` gives the zero time. -/
theorem Parse_error_zero (lo : Int → Int) (layout : time.Layout) (s : String)
    (h : (time.Parse lo layout s).2 = true) : (time.Parse lo layout s).1 = time.Time.zero := by
  unfold time.Parse at h ⊢
  cases hp : time.parseLoop layout {} s.toList with
  | none => rfl
  | some st =>
    simp only [hp] at h ⊢
    split_ifs at h ⊢ <;> rfl

/-- C1: for every input, `ParseWxr` returns a result in which every channel (at every
    index) has `PubDate` equal to the parse of its `PubDateString` under `time.RFC1123Z`,
    every item of every channel has `PubDate` parsed under `time.RFC1123Z` and `PostDate`,
    `PostDateGmt` parsed from `PostDateString`, `PostDateGmtString` under `ISODATEFORMAT`,
    and every comment of every item has `Date`, `DateGmt` parsed from `DateString`,
    `DateGmtString` under `ISODATEFORMAT`; a parse that reports an error yields the zero
    time. No index is left out, and the result has the channels, items and comments of the
    decoded structure in number. -/
theorem C1_every_date_field_parsed (env : Env) (data : List UInt8) :
    ∃ r : Wxr, ParseWxr env data = some r ∧
      (∀ (ci : Nat) (c : Channel), r.Channels[ci]? = some c →
        c.PubDate = (time.Parse env.localOffset time.RFC1123Z c.PubDateString).1 ∧
        (∃ c0, (decoded env data).Channels[ci]? = some c0 ∧
          c.Items.length = c0.Items.length) ∧
        ∀ (ii : Nat) (i : Item), c.Items[ii]? = some i →
          i.PubDate = (time.Parse env.localOffset time.RFC1123Z i.PubDateString).1 ∧
          i.PostDate = (time.Parse env.localOffset ISODATEFORMAT i.PostDateString).1 ∧
          i.PostDateGmt = (time.Parse env.localOffset ISODATEFORMAT i.PostDateGmtString).1 ∧
          (∃ c0 i0, (decoded env data).Channels[ci]? = some c0 ∧ c0.Items[ii]? = some i0 ∧
            i.Comments.length = i0.Comments.length) ∧
          ∀ (ki : Nat) (k : Comment), i.Comments[ki]? = some k →
            k.Date = (time.Parse env.localOffset ISODATEFORMAT k.DateString).1 ∧
            k.DateGmt = (time.Parse env.localOffset ISODATEFORMAT k.DateGmtString).1) ∧
      r.Channels.length = (decoded env data).Channels.length ∧
      (∀ (layout : time.Layout) (s : String),
        (time.Parse env.localOffset layout s).2 = true →
        (time.Parse env.localOffset layout s).1 = time.Time.zero) := by
  refine ⟨_, ParseWxr_eq env data, ?_, by simp [Wxr.withDates], ?_⟩
  · intro ci c hc
    simp only [Wxr.withDates, List.getElem?_map, Option.map_eq_some'] at hc
    obtain ⟨c0, hc0, rfl⟩ := hc
    refine ⟨rfl, ⟨c0, hc0, by simp [Channel.withDates]⟩, ?_⟩
    intro ii i hi
    simp only [Channel.withDates, List.getElem?_map, Option.map_eq_some'] at hi
    obtain ⟨i0, hi0, rfl⟩ := hi
    refine ⟨rfl, rfl, rfl, ⟨c0, i0, hc0, hi0, by simp [Item.withDates]⟩, ?_⟩
    intro ki k hk
    simp only [Item.withDates, List.getElem?_map, Option.map_eq_some'] at hk
    obtain ⟨k0, _, rfl⟩ := hk
    exact ⟨rfl, rfl⟩
  · intro layout s h
    exact Parse_error_zero _ _ _ h

theorem map_modifyAt {α β : Type} (F : α → β) (g : α → α) (g1 : β → β)
    (h : ∀ a, F (g a) = g1 (F a)) :
    ∀ (l : List α) (i : Nat), (modifyAt l i g).map F = modifyAt (l.map F) i g1 := by
  intro l
  induction l with
  | nil => intro i; rfl
  | cons a l ih =>
    intro i
    cases i with
    | zero => simp [modifyAt, h]
    | succ i => simp [modifyAt, ih]

theorem modifyAt_modifyAt {α : Type} (g h : α → α) :
    ∀ (l : List α) (i : Nat), modifyAt (modifyAt l i g) i h = modifyAt l i (fun a => h (g a)) := by
  intro l
  induction l with
  | nil => intro i; rfl
  | cons a l ih =>
    intro i
    cases i with
    | zero => simp [modifyAt]
    | succ i => simp [modifyAt, ih]

theorem getElem?_modifyAt {α : Type} (g : α → α) :
    ∀ (l : List α) (i : Nat), (modifyAt l i g)[i]? = (l[i]?).map g := by
  intro l
  induction l with
  | nil => intro i; rfl
  | cons a l ih =>
    intro i
    cases i with
    | zero => simp [modifyAt]
    | succ i => simp [modifyAt, ih]

theorem withDates_modChannel (env : Env) (w : Wxr) (ci : Nat) (g g1 : Channel → Channel)
    (h : ∀ c, (g c).withDates env = g1 (c.withDates env)) :
    (w.modChannel ci g).withDates env = (w.withDates env).modChannel ci g1 := by
  simp [Wxr.withDates, Wxr.modChannel, map_modifyAt _ g g1 h]

theorem withDates_modItem (env : Env) (w : Wxr) (ci ii : Nat) (g g1 : Item → Item)
    (h : ∀ i, (g i).withDates env = g1 (i.withDates env)) :
    (w.modItem ci ii g).withDates env = (w.withDates env).modItem ci ii g1 := by
  unfold Wxr.modItem
  apply withDates_modChannel
  intro c
  simp [Channel.withDates, map_modifyAt _ g g1 h]

theorem withDates_modComment (env : Env) (w : Wxr) (ci ii ki : Nat) (g g1 : Comment → Comment)
    (h : ∀ k, (g k).withDates env = g1 (k.withDates env)) :
    (w.modComment ci ii ki g).withDates env = (w.withDates env).modComment ci ii ki g1 := by
  unfold Wxr.modComment
  apply withDates_modItem
  intro i
  simp [Item.withDates, map_modifyAt _ g g1 h]

theorem modChannel_modChannel (w : Wxr) (ci : Nat) (g h : Channel → Channel) :
    (w.modChannel ci g).modChannel ci h = w.modChannel ci (fun c => h (g c)) := by
  simp [Wxr.modChannel, modifyAt_modifyAt]

theorem modItem_modItem (w : Wxr) (ci ii : Nat) (g h : Item → Item) :
    (w.modItem ci ii g).modItem ci ii h = w.modItem ci ii (fun i => h (g i)) := by
  simp [Wxr.modItem, modChannel_modChannel, modifyAt_modifyAt]

theorem modComment_modComment (w : Wxr) (ci ii ki : Nat) (g h : Comment → Comment) :
    (w.modComment ci ii ki g).modComment ci ii ki h =
      w.modComment ci ii ki (fun k => h (g k)) := by
  simp [Wxr.modComment, modItem_modItem, modifyAt_modifyAt]

/-- Replacing one raw date string by a text `time.Parse` rejects changes, in the result of
    the date loop, that string and its timestamp (which becomes the zero time) only. -/
theorem withDates_setDateString (env : Env) (w : Wxr) (f : DateField) (s : String)
    (hbad : (time.Parse env.localOffset f.layout s).2 = true) :
    (w.setDateString f s).withDates env =
      ((w.withDates env).setDateString f s).setTimestamp f time.Time.zero := by
  have hz := Parse_error_zero _ _ _ hbad
  cases f with
  | channelPubDate ci =>
    simp only [Wxr.setDateString, Wxr.setTimestamp, modChannel_modChannel]
    apply withDates_modChannel
    intro c
    simp only [DateField.layout] at hz
    simp [Channel.withDates, parseDate, hz]
  | itemPubDate ci ii =>
    simp only [Wxr.setDateString, Wxr.setTimestamp, modItem_modItem]
    apply withDates_modItem
    intro i
    simp only [DateField.layout] at hz
    simp [Item.withDates, parseDate, hz]
  | itemPostDate ci ii =>
    simp only [Wxr.setDateString, Wxr.setTimestamp, modItem_modItem]
    apply withDates_modItem
    intro i
    simp only [DateField.layout] at hz
    simp [Item.withDates, parseDate, hz]
  | itemPostDateGmt ci ii =>
    simp only [Wxr.setDateString, Wxr.setTimestamp, modItem_modItem]
    apply withDates_modItem
    intro i
    simp only [DateField.layout] at hz
    simp [Item.withDates, parseDate, hz]
  | commentDate ci ii ki =>
    simp only [Wxr.setDateString, Wxr.setTimestamp, modComment_modComment]
    apply withDates_modComment
    intro k
    simp only [DateField.layout] at hz
    simp [Comment.withDates, parseDate, hz]
  | commentDateGmt ci ii ki =>
    simp only [Wxr.setDateString, Wxr.setTimestamp, modComment_modComment]
    apply withDates_modComment
    intro k
    simp only [DateField.layout] at hz
    simp [Comment.withDates, parseDate, hz]

theorem channelAt_modChannel (w : Wxr) (ci : Nat) (g : Channel → Channel) :
    (w.modChannel ci g).channelAt ci = (w.channelAt ci).map g := by
  simp [Wxr.channelAt, Wxr.modChannel, getElem?_modifyAt]

theorem itemAt_modItem (w : Wxr) (ci ii : Nat) (g : Item → Item) :
    (w.modItem ci ii g).itemAt ci ii = (w.itemAt ci ii).map g := by
  simp only [Wxr.itemAt, Wxr.modItem, Wxr.modChannel, getElem?_modifyAt]
  cases w.Channels[ci]? with
  | none => rfl
  | some c => simp [getElem?_modifyAt]

theorem commentAt_modComment (w : Wxr) (ci ii ki : Nat) (g : Comment → Comment) :
    (w.modComment ci ii ki g).commentAt ci ii ki = (w.commentAt ci ii ki).map g := by
  simp only [Wxr.commentAt, Wxr.modComment, itemAt_modItem]
  cases w.itemAt ci ii with
  | none => rfl
  | some i => simp [getElem?_modifyAt]

theorem timestamp_setTimestamp (w : Wxr) (f : DateField) (t t1 : time.Time)
    (h : (w.setTimestamp f t).timestamp f = some t1) : t1 = t := by
  cases f <;>
    simp only [Wxr.setTimestamp, Wxr.timestamp, channelAt_modChannel, itemAt_modItem,
      commentAt_modComment, Option.map_map, Option.map_eq_some', Function.comp] at h <;>
    obtain ⟨_, _, rfl⟩ := h <;> rfl

/-! ### The decoder -/

theorem collect_eq : ∀ (content : List xml.Node) (data d : String),
    xml.collect content data = some d → d = data ++ xml.text content := by
  intro content
  induction content with
  | nil => intro data d h; simp [xml.collect] at h; simp [xml.text, h]
  | cons n ns ih =>
    intro data d h
    cases n with
    | CharData t =>
      simp only [xml.collect] at h
      rw [ih _ _ h]
      simp [xml.text, String.append_assoc]
    | Other =>
      simp only [xml.collect] at h
      rw [ih _ _ h]
      simp [xml.text]
    | Element s c e =>
      simp only [xml.collect] at h
      split at h
      · rw [ih _ _ h]; simp [xml.text]
      · cases h

theorem leafData_eq (content : List xml.Node) (ended : Bool) (d : String)
    (h : xml.leafData content ended = some d) : d = xml.text content := by
  unfold xml.leafData at h
  cases hc : xml.collect content "" with
  | none => simp [hc] at h
  | some d1 =>
    simp only [hc] at h
    split at h
    · have h1 := collect_eq content "" d1 hc
      cases h
      simpa using h1
    · cases h

/-- The struct loop seen through a projection `proj` of the struct: when every element
    either is consumed with the effect `upd` on the projection or is passed over without
    one, a loop that ends without error has folded `upd` over the child elements. -/
theorem structLoop_proj {σ β : Type} (ti : xml.TypeInfo σ) (proj : σ → β)
    (upd : β → xml.StartElement → List xml.Node → Bool → β)
    (hsome : ∀ sv s c e r, xml.unmarshalPath ti.fields sv s c e = some r → r.2 = true →
      proj r.1 = upd (proj sv) s c e)
    (hnone : ∀ sv s c e, xml.unmarshalPath ti.fields sv s c e = none →
      upd (proj sv) s c e = proj sv) :
    ∀ (content : List xml.Node) (sv : σ) (data : String) (sv1 : σ) (data1 : String),
      xml.structLoop ti sv data content = (sv1, data1, true) →
      proj sv1 = xml.foldElements upd (proj sv) content := by
  intro content
  induction content with
  | nil =>
    intro sv data sv1 data1 h
    simp only [xml.structLoop, Prod.mk.injEq] at h
    simp [xml.foldElements, h.1]
  | cons n ns ih =>
    intro sv data sv1 data1 h
    cases n with
    | CharData t => exact ih _ _ _ _ h
    | Other => exact ih _ _ _ _ h
    | Element s c e =>
      simp only [xml.structLoop] at h
      simp only [xml.foldElements]
      cases hp : xml.unmarshalPath ti.fields sv s c e with
      | none =>
        simp only [hp] at h
        rw [hnone sv s c e hp]
        split at h
        · exact ih _ _ _ _ h
        · simp at h
      | some r =>
        obtain ⟨sv2, ok⟩ := r
        simp only [hp] at h
        split at h
        · rename_i hok
          rw [← hsome sv s c e _ hp hok]
          exact ih _ _ _ _ h
        · simp at h

/-- The character data the struct loop hands on is the text content of the element. -/
theorem structLoop_data {σ : Type} (ti : xml.TypeInfo σ) :
    ∀ (content : List xml.Node) (sv : σ) (data : String) (sv1 : σ) (data1 : String),
      xml.structLoop ti sv data content = (sv1, data1, true) →
      data1 = data ++ xml.text content := by
  intro content
  induction content with
  | nil =>
    intro sv data sv1 data1 h
    simp only [xml.structLoop, Prod.mk.injEq] at h
    simp [xml.text, h.2.1]
  | cons n ns ih =>
    intro sv data sv1 data1 h
    cases n with
    | CharData t =>
      simp only [xml.structLoop] at h
      rw [ih _ _ _ _ h]
      simp [xml.text, String.append_assoc]
    | Other => exact ih _ _ _ _ h
    | Element s c e =>
      simp only [xml.structLoop] at h
      simp only [xml.text]
      cases hp : xml.unmarshalPath ti.fields sv s c e with
      | none =>
        simp only [hp] at h
        split at h
        · exact ih _ _ _ _ h
        · simp at h
      | some r =>
        obtain ⟨sv2, ok⟩ := r
        simp only [hp] at h
        split at h
        · exact ih _ _ _ _ h
        · simp at h

/-- Folding "take the text of a bound element" gives the text of the last bound element. -/
theorem foldElements_text (bound : xml.StartElement → Bool) :
    ∀ (content : List xml.Node) (b : String),
      xml.foldElements (xml.updIf bound xml.newText) b content =
        match ((xml.elements content).filter (fun e => bound e.start)).getLast? with
        | none => b
        | some e => xml.text e.content := by
  intro content
  induction content with
  | nil => intro b; rfl
  | cons n ns ih =>
    intro b
    cases n with
    | CharData t => exact ih b
    | Other => exact ih b
    | Element s c e =>
      simp only [xml.foldElements, xml.elements, List.filter_cons]
      rw [ih]
      by_cases hb : bound s = true
      · simp only [xml.updIf, xml.newText, hb, if_true, List.getLast?_cons]
        cases (List.filter (fun e => bound e.start) (xml.elements ns)).getLast? <;> rfl
      · simp [xml.updIf, hb]

/-- Folding "append the decoded bound element" appends the bound elements in order. -/
theorem foldElements_append {τ : Type} (bound : xml.StartElement → Bool) (dec : xml.Elem → τ) :
    ∀ (content : List xml.Node) (b : List τ),
      xml.foldElements (xml.updIf bound (xml.newElem dec)) b content =
        b ++ ((xml.elements content).filter (fun e => bound e.start)).map dec := by
  intro content
  induction content with
  | nil => intro b; simp [xml.foldElements, xml.elements]
  | cons n ns ih =>
    intro b
    cases n with
    | CharData t => exact ih b
    | Other => exact ih b
    | Element s c e =>
      simp only [xml.foldElements, xml.elements, List.filter_cons]
      rw [ih]
      by_cases hb : bound s = true
      · simp [xml.updIf, xml.newElem, hb]
      · simp [xml.updIf, hb]

/-- A fold that meets no bound element leaves the start value. -/
theorem foldElements_unbound {β : Type} (bound : xml.StartElement → Bool)
    (new : β → xml.StartElement → List xml.Node → Bool → β) :
    ∀ (content : List xml.Node) (b : β),
      (xml.elements content).filter (fun e => bound e.start) = [] →
      xml.foldElements (xml.updIf bound new) b content = b := by
  intro content
  induction content with
  | nil => intro b _; rfl
  | cons n ns ih =>
    intro b h
    cases n with
    | CharData t => exact ih b h
    | Other => exact ih b h
    | Element s c e =>
      simp only [xml.elements, List.filter_cons] at h
      by_cases hb : bound s = true
      · simp [hb] at h
      · simp only [hb] at h
        simp only [xml.foldElements, xml.updIf, hb]
        exact ih b h

theorem unmarshalPath_some {σ : Type} :
    ∀ (fields : List (xml.FieldInfo σ)) (sv : σ) (s : xml.StartElement) (c : List xml.Node)
      (e : Bool) (r : σ × Bool), xml.unmarshalPath fields sv s c e = some r →
      ∃ f ∈ fields, f.binds s ∧ r = f.unmarshal sv s c e := by
  intro fields
  induction fields with
  | nil => intro sv s c e r h; simp [xml.unmarshalPath] at h
  | cons f fs ih =>
    intro sv s c e r h
    simp only [xml.unmarshalPath] at h
    split at h
    · obtain ⟨g, hg, hb⟩ := ih sv s c e r h
      exact ⟨g, List.mem_cons_of_mem _ hg, hb⟩
    · rename_i hns
      split at h
      · rename_i hname
        refine ⟨f, List.mem_cons_self _ _, ⟨?_, hname⟩, ?_⟩
        · by_cases h0 : f.xmlns = ""
          · exact Or.inl h0
          · by_cases h1 : f.xmlns = s.Name.Space
            · exact Or.inr h1
            · exact absurd ⟨h0, h1⟩ hns
        · simpa using h.symm
      · obtain ⟨g, hg, hb⟩ := ih sv s c e r h
        exact ⟨g, List.mem_cons_of_mem _ hg, hb⟩

theorem unmarshalPath_none {σ : Type} :
    ∀ (fields : List (xml.FieldInfo σ)) (sv : σ) (s : xml.StartElement) (c : List xml.Node)
      (e : Bool), xml.unmarshalPath fields sv s c e = none →
      ∀ f ∈ fields, ¬ f.binds s := by
  intro fields
  induction fields with
  | nil => intro sv s c e _ f hf; simp at hf
  | cons f fs ih =>
    intro sv s c e h g hg
    simp only [xml.unmarshalPath] at h
    rcases List.mem_cons.mp hg with rfl | hg
    · split at h
      · rename_i hns
        intro hb
        rcases hb.1 with h0 | h1
        · exact hns.1 h0
        · exact hns.2 h1
      · split at h
        · cases h
        · rename_i hname
          exact fun hb => hname hb.2
    · split at h
      · exact ih sv s c e h g hg
      · split at h
        · cases h
        · exact ih sv s c e h g hg

theorem assignAttrs_nil {σ : Type} : ∀ (as : List xml.Attr) (sv : σ),
    xml.assignAttrs [] sv as = sv := by
  intro as
  induction as with
  | nil => intro sv; rfl
  | cons a as ih => intro sv; simpa [xml.assignAttrs, xml.assignAttr] using ih sv

/-- The decoded struct seen through a projection, for a struct type without attribute and
    character data fields: the projection of the result is the fold of `upd` over the child
    elements. -/
theorem unmarshalStruct_proj {σ β : Type} (ti : xml.TypeInfo σ) (proj : σ → β)
    (bound : xml.StartElement → Bool)
    (new : β → xml.StartElement → List xml.Node → Bool → β)
    (hattrs : ti.attrs = []) (hchar : ti.chardata = none)
    (hfields : ∀ f ∈ ti.fields, xml.Respects proj (xml.updIf bound new) f)
    (hbound : ∀ s, bound s = true → ∃ f ∈ ti.fields, f.binds s)
    (sv : σ) (s : xml.StartElement) (c : List xml.Node) (e : Bool) (v : σ)
    (h : xml.unmarshalStruct ti sv s c e = (v, true)) :
    proj v = xml.foldElements (xml.updIf bound new) (proj sv) c := by
  unfold xml.unmarshalStruct at h
  rw [hattrs, assignAttrs_nil] at h
  cases hl : xml.structLoop ti sv "" c with
  | mk sv1 rest =>
    obtain ⟨data, ok⟩ := rest
    simp only [hl, hchar] at h
    split at h
    · rename_i hok
      simp only [Prod.mk.injEq, and_true] at h
      subst h
      have hok1 : ok = true := hok.1
      subst hok1
      refine structLoop_proj ti proj _ ?_ ?_ c sv "" sv1 data hl
      · intro sv0 s0 c0 e0 r hr hr2
        obtain ⟨f, hf, hb, rfl⟩ := unmarshalPath_some _ _ _ _ _ _ hr
        exact hfields f hf sv0 s0 c0 e0 hb hr2
      · intro sv0 s0 c0 e0 hr
        have hn := unmarshalPath_none _ _ _ _ _ hr
        have : bound s0 = false := by
          by_contra hb
          obtain ⟨f, hf, hfb⟩ := hbound s0 (by simpa using hb)
          exact hn f hf hfb
        simp [xml.updIf, this]
    · simp at h

theorem int32Value_eq (s : xml.StartElement) (c : List xml.Node) (e : Bool) (x : Int)
    (h : xml.int32Value s c e = some x) : x = (xml.copyInt32 (xml.text c)).getD 0 := by
  unfold xml.int32Value at h
  cases hl : xml.leafData c e with
  | none => simp [hl] at h
  | some d =>
    simp only [hl] at h
    rw [← leafData_eq c e d hl, h]
    rfl

theorem boolValue_eq (s : xml.StartElement) (c : List xml.Node) (e : Bool) (x : Bool)
    (h : xml.boolValue s c e = some x) : x = (xml.copyBool (xml.text c)).getD false := by
  unfold xml.boolValue at h
  cases hl : xml.leafData c e with
  | none => simp [hl] at h
  | some d =>
    simp only [hl] at h
    rw [← leafData_eq c e d hl, h]
    rfl

theorem elemValue_eq {τ : Type} (zero : τ)
    (elem : τ → xml.StartElement → List xml.Node → Bool → τ × Bool)
    (s : xml.StartElement) (c : List xml.Node) (e : Bool) (x : τ)
    (h : xml.elemValue zero elem s c e = some x) :
    x = (elem zero s c e).1 ∧ (elem zero s c e).2 = true := by
  unfold xml.elemValue at h
  split at h
  · rename_i hok
    simp only [Option.some.injEq] at h
    exact ⟨h.symm, hok⟩
  · cases h

/-- A field with another struct tag than the target never consumes an element the target
    tag binds, and leaves the projection alone when its store does. -/
theorem respects_other {σ β τ : Type} (proj : σ → β) (ns nm : String)
    (new : β → xml.StartElement → List xml.Node → Bool → β) (xmlns name : String)
    (value : xml.StartElement → List xml.Node → Bool → Option τ) (store : σ → τ → σ)
    (hne : name ≠ nm ∨ (xmlns ≠ "" ∧ ns ≠ "" ∧ xmlns ≠ ns))
    (hframe : ∀ sv x, proj (store sv x) = proj sv) :
    xml.Respects proj (xml.updIf (xml.bindsTo ns nm) new) (xml.field xmlns name value store) := by
  intro sv s c e hbind _
  have hb : xml.bindsTo ns nm s = false := by
    obtain ⟨h1, h2⟩ := hbind
    simp only [xml.field] at h1 h2
    rcases hne with hne | ⟨h3, h4, h5⟩
    · simp [xml.bindsTo, ← h2, Ne.symm hne]
    · have h6 : xmlns = s.Name.Space := by
        rcases h1 with h1 | h1
        · exact absurd h1 h3
        · exact h1
      simp [xml.bindsTo, h4, ← h6, Ne.symm h5]
  simp only [xml.updIf, hb, xml.field]
  cases value s c e <;> simp [hframe]

/-- The field that carries the target tag. -/
theorem respects_target {σ β τ : Type} (proj : σ → β)
    (new : β → xml.StartElement → List xml.Node → Bool → β) (xmlns name : String)
    (value : xml.StartElement → List xml.Node → Bool → Option τ) (store : σ → τ → σ)
    (hstore : ∀ sv s c e x, value s c e = some x → proj (store sv x) = new (proj sv) s c e) :
    xml.Respects proj (xml.updIf (xml.bindsTo xmlns name) new)
      (xml.field xmlns name value store) := by
  intro sv s c e hbind hok
  have hb : xml.bindsTo xmlns name s = true := by
    obtain ⟨h1, h2⟩ := hbind
    simp only [xml.field] at h1 h2
    rcases h1 with h1 | h1
    · simp [xml.bindsTo, h1, h2]
    · simp [xml.bindsTo, h1, h2]
  simp only [xml.updIf, hb, xml.field, if_true] at hok ⊢
  cases hv : value s c e with
  | none => simp [hv] at hok
  | some x => simp [hstore sv s c e x hv]

theorem bindsTo_exists {σ : Type} (fields : List (xml.FieldInfo σ)) (ns nm : String)
    (h : xml.hasTag fields ns nm = true) :
    ∀ s, xml.bindsTo ns nm s = true → ∃ f ∈ fields, f.binds s := by
  intro s hs
  simp only [xml.hasTag, List.any_eq_true, Bool.and_eq_true, beq_iff_eq] at h
  obtain ⟨f, hf, h1, h2⟩ := h
  refine ⟨f, hf, ?_⟩
  simp only [xml.bindsTo, Bool.and_eq_true, Bool.or_eq_true, beq_iff_eq] at hs
  exact ⟨by rw [h1]; exact hs.1, by rw [h2]; exact hs.2⟩

/-- A projection no field stores into keeps its value. -/
theorem unmarshalStruct_frame {σ β : Type} (ti : xml.TypeInfo σ) (proj : σ → β)
    (hattrs : ti.attrs = []) (hchar : ti.chardata = none)
    (hfields : ∀ f ∈ ti.fields, ∀ sv s c e, proj (f.unmarshal sv s c e).1 = proj sv)
    (sv : σ) (s : xml.StartElement) (c : List xml.Node) (e : Bool) (v : σ)
    (h : xml.unmarshalStruct ti sv s c e = (v, true)) : proj v = proj sv := by
  have h1 := unmarshalStruct_proj ti proj (fun _ => false) (fun b _ _ _ => b) hattrs hchar
    (fun f hf sv s c e _ _ => by simp [xml.updIf, hfields f hf]) (fun s hs => by cases hs)
    sv s c e v h
  exact h1.trans (foldElements_unbound _ _ c _ (by simp))

theorem frame_field {σ β τ : Type} (proj : σ → β) (xmlns name : String)
    (value : xml.StartElement → List xml.Node → Bool → Option τ) (store : σ → τ → σ)
    (hframe : ∀ sv x, proj (store sv x) = proj sv) (sv : σ) (s : xml.StartElement)
    (c : List xml.Node) (e : Bool) :
    proj ((xml.field xmlns name value store).unmarshal sv s c e).1 = proj sv := by
  simp only [xml.field]
  cases value s c e <;> simp [hframe]

/-- In a struct loop that ends without error, every element bound by the tag `ns nm` was
    consumed without error by a field, so it has the property `ok` that such a
    consumption implies. -/
theorem structLoop_bound_ok {σ : Type} (ti : xml.TypeInfo σ) (ns nm : String)
    (ok : xml.Elem → Prop)
    (hfields : ∀ f ∈ ti.fields, ∀ sv s c e, f.binds s → xml.bindsTo ns nm s = true →
      (f.unmarshal sv s c e).2 = true → ok ⟨s, c, e⟩)
    (hbound : ∀ s, xml.bindsTo ns nm s = true → ∃ f ∈ ti.fields, f.binds s) :
    ∀ (content : List xml.Node) (sv : σ) (data : String) (sv1 : σ) (data1 : String),
      xml.structLoop ti sv data content = (sv1, data1, true) →
      ∀ el ∈ (xml.elements content).filter (fun el => xml.bindsTo ns nm el.start), ok el := by
  intro content
  induction content with
  | nil => intro sv data sv1 data1 _ el hel; simp [xml.elements] at hel
  | cons n ns1 ih =>
    intro sv data sv1 data1 h el hel
    cases n with
    | CharData t => exact ih _ _ _ _ h el hel
    | Other => exact ih _ _ _ _ h el hel
    | Element s c e =>
      simp only [xml.structLoop] at h
      simp only [xml.elements, List.filter_cons] at hel
      cases hp : xml.unmarshalPath ti.fields sv s c e with
      | none =>
        simp only [hp] at h
        have hn := unmarshalPath_none _ _ _ _ _ hp
        have hb : xml.bindsTo ns nm s = false := by
          by_contra hb
          obtain ⟨f, hf, hfb⟩ := hbound s (by simpa using hb)
          exact hn f hf hfb
        simp only [hb] at hel
        split at h
        · exact ih _ _ _ _ h el hel
        · simp at h
      | some r =>
        obtain ⟨sv2, ok2⟩ := r
        simp only [hp] at h
        split at h
        · rename_i hok
          obtain ⟨f, hf, hfb, hr⟩ := unmarshalPath_some _ _ _ _ _ _ hp
          by_cases hb : xml.bindsTo ns nm s = true
          · simp only [hb, if_true, List.mem_cons] at hel
            rcases hel with rfl | hel
            · refine hfields f hf sv s c e hfb hb ?_
              rw [← hr]; exact hok
            · exact ih _ _ _ _ h el hel
          · simp only [hb] at hel
            exact ih _ _ _ _ h el hel
        · simp at h

theorem unmarshalStruct_bound_ok {σ : Type} (ti : xml.TypeInfo σ) (ns nm : String)
    (ok : xml.Elem → Prop) (hchar : ti.chardata = none)
    (hfields : ∀ f ∈ ti.fields, ∀ sv s c e, f.binds s → xml.bindsTo ns nm s = true →
      (f.unmarshal sv s c e).2 = true → ok ⟨s, c, e⟩)
    (hbound : ∀ s, xml.bindsTo ns nm s = true → ∃ f ∈ ti.fields, f.binds s)
    (sv : σ) (s : xml.StartElement) (c : List xml.Node) (e : Bool) (v : σ)
    (h : xml.unmarshalStruct ti sv s c e = (v, true)) :
    ∀ el ∈ (xml.elements c).filter (fun el => xml.bindsTo ns nm el.start), ok el := by
  unfold xml.unmarshalStruct at h
  cases hl : xml.structLoop ti (xml.assignAttrs ti.attrs sv s.Attr) "" c with
  | mk sv1 rest =>
    obtain ⟨data, ok1⟩ := rest
    simp only [hl, hchar] at h
    split at h
    · rename_i hok
      have hok1 : ok1 = true := hok.1
      subst hok1
      exact structLoop_bound_ok ti ns nm ok hfields hbound c _ "" sv1 data hl
    · simp at h

/-- A field with another tag binds no element the target tag binds. -/
theorem other_not_bound {σ τ : Type} (ns nm xmlns name : String)
    (value : xml.StartElement → List xml.Node → Bool → Option τ) (store : σ → τ → σ)
    (hne : name ≠ nm ∨ (xmlns ≠ "" ∧ ns ≠ "" ∧ xmlns ≠ ns)) (s : xml.StartElement)
    (hbind : (xml.field xmlns name value store).binds s) (hb : xml.bindsTo ns nm s = true) :
    False := by
  obtain ⟨h1, h2⟩ := hbind
  simp only [xml.field] at h1 h2
  simp only [xml.bindsTo, Bool.and_eq_true, Bool.or_eq_true, beq_iff_eq] at hb
  rcases hne with hne | ⟨h3, h4, h5⟩
  · exact hne (h2.trans hb.2.symm)
  · rcases h1 with h1 | h1
    · exact h3 h1
    · rcases hb.1 with h6 | h6
      · exact h4 h6
      · exact h5 (h1.trans h6.symm)

/-- A slice field that consumes an element without error decoded the element without
    error. -/
theorem slice_ok {σ τ : Type} (name : String) (get : σ → List τ) (set : σ → List τ → σ)
    (zero : τ) (elem : τ → xml.StartElement → List xml.Node → Bool → τ × Bool) (sv : σ)
    (s : xml.StartElement) (c : List xml.Node) (e : Bool)
    (h : ((xml.sliceField name get set zero elem).unmarshal sv s c e).2 = true) :
    (elem zero s c e).2 = true := by
  simp only [xml.sliceField, xml.field, xml.elemValue] at h
  by_cases hok : (elem zero s c e).2 = true
  · exact hok
  · simp [hok] at h

/-- The fields of a decoded `Author`, each as a fold over the child elements of its
    element. -/
theorem Author_fold (s : xml.StartElement) (c : List xml.Node) (e : Bool) (v : Author)
    (h : xml.unmarshalStruct Author.typeInfo {} s c e = (v, true)) :
    v.Id = xml.foldElements (xml.updIf (xml.bindsTo "" "author_id") xml.newInt32) 0 c ∧
    v.Login = xml.foldElements (xml.updIf (xml.bindsTo "" "author_login") xml.newText) "" c ∧
    v.Email = xml.foldElements (xml.updIf (xml.bindsTo "" "author_email") xml.newText) "" c ∧
    v.DisplayName = xml.foldElements (xml.updIf (xml.bindsTo "" "author_display_name") xml.newText) "" c ∧
    v.FirstName = xml.foldElements (xml.updIf (xml.bindsTo "" "author_first_name") xml.newText) "" c ∧
    v.LastName = xml.foldElements (xml.updIf (xml.bindsTo "" "author_last_name") xml.newText) "" c := by
  refine ⟨?_, ?_, ?_, ?_, ?_, ?_⟩ <;>
  (refine unmarshalStruct_proj Author.typeInfo _ _ _ rfl rfl ?_
      (bindsTo_exists _ _ _ (by decide)) {} s c e v h
   simp only [Author.typeInfo, List.forall_mem_cons]
   refine ⟨?_, ?_, ?_, ?_, ?_, ?_, ?_⟩ <;> first
     | exact respects_other _ _ _ _ _ _ _ _ (by decide) (fun _ _ => rfl)
     | exact respects_target _ _ _ _ _ _ (fun _ _ c e x hx => leafData_eq c e x hx)
     | exact respects_target _ _ _ _ _ _ (fun _ s c e x hx => int32Value_eq s c e x hx)
     | exact respects_target _ _ _ _ _ _ (fun _ s c e x hx => boolValue_eq s c e x hx)
     | exact respects_target _ _ _ _ _ _
         (fun _ s c e x hx => congrArg (fun y => _ ++ [y]) (elemValue_eq _ _ s c e x hx).1)
     | (intro x hx; cases hx))

/-- The fields of a decoded `Category`, each as a fold over the child elements of its
    element. -/
theorem Category_fold (s : xml.StartElement) (c : List xml.Node) (e : Bool) (v : Category)
    (h : xml.unmarshalStruct Category.typeInfo {} s c e = (v, true)) :
    v.Id = xml.foldElements (xml.updIf (xml.bindsTo "" "term_id") xml.newInt32) 0 c ∧
    v.NiceName = xml.foldElements (xml.updIf (xml.bindsTo "" "category_nicename") xml.newText) "" c ∧
    v.Parent = xml.foldElements (xml.updIf (xml.bindsTo "" "category_parent") xml.newText) "" c ∧
    v.Name = xml.foldElements (xml.updIf (xml.bindsTo "" "cat_name") xml.newText) "" c := by
  refine ⟨?_, ?_, ?_, ?_⟩ <;>
  (refine unmarshalStruct_proj Category.typeInfo _ _ _ rfl rfl ?_
      (bindsTo_exists _ _ _ (by decide)) {} s c e v h
   simp only [Category.typeInfo, List.forall_mem_cons]
   refine ⟨?_, ?_, ?_, ?_, ?_⟩ <;> first
     | exact respects_other _ _ _ _ _ _ _ _ (by decide) (fun _ _ => rfl)
     | exact respects_target _ _ _ _ _ _ (fun _ _ c e x hx => leafData_eq c e x hx)
     | exact respects_target _ _ _ _ _ _ (fun _ s c e x hx => int32Value_eq s c e x hx)
     | exact respects_target _ _ _ _ _ _ (fun _ s c e x hx => boolValue_eq s c e x hx)
     | exact respects_target _ _ _ _ _ _
         (fun _ s c e x hx => congrArg (fun y => _ ++ [y]) (elemValue_eq _ _ s c e x hx).1)
     | (intro x hx; cases hx))

/-- The fields of a decoded `Tag`, each as a fold over the child elements of its
    element. -/
theorem Tag_fold (s : xml.StartElement) (c : List xml.Node) (e : Bool) (v : Tag)
    (h : xml.unmarshalStruct Tag.typeInfo {} s c e = (v, true)) :
    v.Id = xml.foldElements (xml.updIf (xml.bindsTo "" "term_id") xml.newInt32) 0 c ∧
    v.Slug = xml.foldElements (xml.updIf (xml.bindsTo "" "tag_slug") xml.newText) "" c ∧
    v.Name = xml.foldElements (xml.updIf (xml.bindsTo "" "tag_name") xml.newText) "" c := by
  refine ⟨?_, ?_, ?_⟩ <;>
  (refine unmarshalStruct_proj Tag.typeInfo _ _ _ rfl rfl ?_
      (bindsTo_exists _ _ _ (by decide)) {} s c e v h
   simp only [Tag.typeInfo, List.forall_mem_cons]
   refine ⟨?_, ?_, ?_, ?_⟩ <;> first
     | exact respects_other _ _ _ _ _ _ _ _ (by decide) (fun _ _ => rfl)
     | exact respects_target _ _ _ _ _ _ (fun _ _ c e x hx => leafData_eq c e x hx)
     | exact respects_target _ _ _ _ _ _ (fun _ s c e x hx => int32Value_eq s c e x hx)
     | exact respects_target _ _ _ _ _ _ (fun _ s c e x hx => boolValue_eq s c e x hx)
     | exact respects_target _ _ _ _ _ _
         (fun _ s c e x hx => congrArg (fun y => _ ++ [y]) (elemValue_eq _ _ s c e x hx).1)
     | (intro x hx; cases hx))

/-- The fields of a decoded `PostMeta`, each as a fold over the child elements of its
    element. -/
theorem PostMeta_fold (s : xml.StartElement) (c : List xml.Node) (e : Bool) (v : PostMeta)
    (h : xml.unmarshalStruct PostMeta.typeInfo {} s c e = (v, true)) :
    v.Key = xml.foldElements (xml.updIf (xml.bindsTo "" "meta_key") xml.newText) "" c ∧
    v.Value = xml.foldElements (xml.updIf (xml.bindsTo "" "meta_value") xml.newText) "" c := by
  refine ⟨?_, ?_⟩ <;>
  (refine unmarshalStruct_proj PostMeta.typeInfo _ _ _ rfl rfl ?_
      (bindsTo_exists _ _ _ (by decide)) {} s c e v h
   simp only [PostMeta.typeInfo, List.forall_mem_cons]
   refine ⟨?_, ?_, ?_⟩ <;> first
     | exact respects_other _ _ _ _ _ _ _ _ (by decide) (fun _ _ => rfl)
     | exact respects_target _ _ _ _ _ _ (fun _ _ c e x hx => leafData_eq c e x hx)
     | exact respects_target _ _ _ _ _ _ (fun _ s c e x hx => int32Value_eq s c e x hx)
     | exact respects_target _ _ _ _ _ _ (fun _ s c e x hx => boolValue_eq s c e x hx)
     | exact respects_target _ _ _ _ _ _
         (fun _ s c e x hx => congrArg (fun y => _ ++ [y]) (elemValue_eq _ _ s c e x hx).1)
     | (intro x hx; cases hx))

/-- The fields of a decoded `Comment`, each as a fold over the child elements of its
    element. -/
theorem Comment_fold (s : xml.StartElement) (c : List xml.Node) (e : Bool) (v : Comment)
    (h : xml.unmarshalStruct Comment.typeInfo {} s c e = (v, true)) :
    v.Id = xml.foldElements (xml.updIf (xml.bindsTo "" "comment_id") xml.newInt32) 0 c ∧
    v.Author = xml.foldElements (xml.updIf (xml.bindsTo "" "comment_author") xml.newText) "" c ∧
    v.AuthorEmail = xml.foldElements (xml.updIf (xml.bindsTo "" "comment_author_email") xml.newText) "" c ∧
    v.AuthorUrl = xml.foldElements (xml.updIf (xml.bindsTo "" "comment_author_url") xml.newText) "" c ∧
    v.AuthorIp = xml.foldElements (xml.updIf (xml.bindsTo "" "comment_author_ip") xml.newText) "" c ∧
    v.DateString = xml.foldElements (xml.updIf (xml.bindsTo "" "comment_date") xml.newText) "" c ∧
    v.DateGmtString = xml.foldElements (xml.updIf (xml.bindsTo "" "comment_date_gmt") xml.newText) "" c ∧
    v.Content = xml.foldElements (xml.updIf (xml.bindsTo "" "comment_content") xml.newText) "" c ∧
    v.Approved = xml.foldElements (xml.updIf (xml.bindsTo "" "comment_approved") xml.newBool) false c ∧
    v.Type_ = xml.foldElements (xml.updIf (xml.bindsTo "" "comment_type") xml.newText) "" c ∧
    v.Parent = xml.foldElements (xml.updIf (xml.bindsTo "" "comment_parent") xml.newInt32) 0 c ∧
    v.UserId = xml.foldElements (xml.updIf (xml.bindsTo "" "comment_user_id") xml.newInt32) 0 c := by
  refine ⟨?_, ?_, ?_, ?_, ?_, ?_, ?_, ?_, ?_, ?_, ?_, ?_⟩ <;>
  (refine unmarshalStruct_proj Comment.typeInfo _ _ _ rfl rfl ?_
      (bindsTo_exists _ _ _ (by decide)) {} s c e v h
   simp only [Comment.typeInfo, List.forall_mem_cons]
   refine ⟨?_, ?_, ?_, ?_, ?_, ?_, ?_, ?_, ?_, ?_, ?_, ?_, ?_⟩ <;> first
     | exact respects_other _ _ _ _ _ _ _ _ (by decide) (fun _ _ => rfl)
     | exact respects_target _ _ _ _ _ _ (fun _ _ c e x hx => leafData_eq c e x hx)
     | exact respects_target _ _ _ _ _ _ (fun _ s c e x hx => int32Value_eq s c e x hx)
     | exact respects_target _ _ _ _ _ _ (fun _ s c e x hx => boolValue_eq s c e x hx)
     | exact respects_target _ _ _ _ _ _
         (fun _ s c e x hx => congrArg (fun y => _ ++ [y]) (elemValue_eq _ _ s c e x hx).1)
     | (intro x hx; cases hx))

/-- The decoder stores nothing into the timestamp fields (tag `xml:"-"`). -/
theorem Comment_fold_times (s : xml.StartElement) (c : List xml.Node) (e : Bool) (v : Comment)
    (h : xml.unmarshalStruct Comment.typeInfo {} s c e = (v, true)) :
    v.Date = time.Time.zero ∧ v.DateGmt = time.Time.zero := by
  refine ⟨?_, ?_⟩ <;>
  (refine unmarshalStruct_frame Comment.typeInfo _ rfl rfl ?_ {} s c e v h
   simp only [Comment.typeInfo, List.forall_mem_cons]
   refine ⟨?_, ?_, ?_, ?_, ?_, ?_, ?_, ?_, ?_, ?_, ?_, ?_, ?_⟩ <;> first
     | exact frame_field _ _ _ _ _ (fun _ _ => rfl)
     | (intro x hx; cases hx))

/-- The fields of a decoded `Item`, each as a fold over the child elements of its
    element. -/
theorem Item_fold (s : xml.StartElement) (c : List xml.Node) (e : Bool) (v : Item)
    (h : xml.unmarshalStruct Item.typeInfo {} s c e = (v, true)) :
    v.Title = xml.foldElements (xml.updIf (xml.bindsTo "" "title") xml.newText) "" c ∧
    v.Link = xml.foldElements (xml.updIf (xml.bindsTo "" "link") xml.newText) "" c ∧
    v.PubDateString = xml.foldElements (xml.updIf (xml.bindsTo "" "pubDate") xml.newText) "" c ∧
    v.Creator = xml.foldElements (xml.updIf (xml.bindsTo "" "creator") xml.newText) "" c ∧
    v.Guid = xml.foldElements (xml.updIf (xml.bindsTo "" "guid") xml.newText) "" c ∧
    v.Description = xml.foldElements (xml.updIf (xml.bindsTo "" "description") xml.newText) "" c ∧
    v.Content = xml.foldElements (xml.updIf (xml.bindsTo "http://purl.org/rss/1.0/modules/content/" "encoded") xml.newText) "" c ∧
    v.Excerpt = xml.foldElements (xml.updIf (xml.bindsTo "http://wordpress.org/export/1.2/excerpt/" "encoded") xml.newText) "" c ∧
    v.PostId = xml.foldElements (xml.updIf (xml.bindsTo "" "post_id") xml.newInt32) 0 c ∧
    v.PostDateString = xml.foldElements (xml.updIf (xml.bindsTo "" "post_date") xml.newText) "" c ∧
    v.PostDateGmtString = xml.foldElements (xml.updIf (xml.bindsTo "" "post_date_gmt") xml.newText) "" c ∧
    v.CommentStatus = xml.foldElements (xml.updIf (xml.bindsTo "" "comment_status") xml.newText) "" c ∧
    v.PingStatus = xml.foldElements (xml.updIf (xml.bindsTo "" "ping_status") xml.newText) "" c ∧
    v.PostName = xml.foldElements (xml.updIf (xml.bindsTo "" "post_name") xml.newText) "" c ∧
    v.Status = xml.foldElements (xml.updIf (xml.bindsTo "" "status") xml.newText) "" c ∧
    v.PostParent = xml.foldElements (xml.updIf (xml.bindsTo "" "post_parent") xml.newInt32) 0 c ∧
    v.MenuOrder = xml.foldElements (xml.updIf (xml.bindsTo "" "menu_order") xml.newInt32) 0 c ∧
    v.PostType = xml.foldElements (xml.updIf (xml.bindsTo "" "post_type") xml.newText) "" c ∧
    v.PostPassword = xml.foldElements (xml.updIf (xml.bindsTo "" "post_password") xml.newText) "" c ∧
    v.IsSticky = xml.foldElements (xml.updIf (xml.bindsTo "" "is_sticky") xml.newBool) false c ∧
    v.AttachmentUrl = xml.foldElements (xml.updIf (xml.bindsTo "" "attachment_url") xml.newText) "" c ∧
    v.Categories = xml.foldElements (xml.updIf (xml.bindsTo "" "category") (xml.newElem ItemCategory.decode)) [] c ∧
    v.PostMetas = xml.foldElements (xml.updIf (xml.bindsTo "" "postmeta") (xml.newElem PostMeta.decode)) [] c ∧
    v.Comments = xml.foldElements (xml.updIf (xml.bindsTo "" "comment") (xml.newElem Comment.decode)) [] c := by
  refine ⟨?_, ?_, ?_, ?_, ?_, ?_, ?_, ?_, ?_, ?_, ?_, ?_, ?_, ?_, ?_, ?_, ?_, ?_, ?_, ?_, ?_, ?_, ?_, ?_⟩ <;>
  (refine unmarshalStruct_proj Item.typeInfo _ _ _ rfl rfl ?_
      (bindsTo_exists _ _ _ (by decide)) {} s c e v h
   simp only [Item.typeInfo, List.forall_mem_cons]
   refine ⟨?_, ?_, ?_, ?_, ?_, ?_, ?_, ?_, ?_, ?_, ?_, ?_, ?_, ?_, ?_, ?_, ?_, ?_, ?_, ?_, ?_, ?_, ?_, ?_, ?_⟩ <;> first
     | exact respects_other _ _ _ _ _ _ _ _ (by decide) (fun _ _ => rfl)
     | exact respects_target _ _ _ _ _ _ (fun _ _ c e x hx => leafData_eq c e x hx)
     | exact respects_target _ _ _ _ _ _ (fun _ s c e x hx => int32Value_eq s c e x hx)
     | exact respects_target _ _ _ _ _ _ (fun _ s c e x hx => boolValue_eq s c e x hx)
     | exact respects_target _ _ _ _ _ _
         (fun _ s c e x hx => congrArg (fun y => _ ++ [y]) (elemValue_eq _ _ s c e x hx).1)
     | (intro x hx; cases hx))

/-- Every element a slice field of a decoded `Item` consumed was decoded without error. -/
theorem Item_elems_ok (s : xml.StartElement) (c : List xml.Node) (e : Bool) (v : Item)
    (h : xml.unmarshalStruct Item.typeInfo {} s c e = (v, true)) :
    (∀ el ∈ (xml.elements c).filter (fun el => xml.bindsTo "" "category" el.start),
      (xml.unmarshalStruct ItemCategory.typeInfo {} el.start el.content el.ended).2 = true) ∧
    (∀ el ∈ (xml.elements c).filter (fun el => xml.bindsTo "" "postmeta" el.start),
      (xml.unmarshalStruct PostMeta.typeInfo {} el.start el.content el.ended).2 = true) ∧
    (∀ el ∈ (xml.elements c).filter (fun el => xml.bindsTo "" "comment" el.start),
      (xml.unmarshalStruct Comment.typeInfo {} el.start el.content el.ended).2 = true) := by
  refine ⟨?_, ?_, ?_⟩ <;>
  (refine unmarshalStruct_bound_ok Item.typeInfo _ _ _ rfl ?_
      (bindsTo_exists _ _ _ (by decide)) {} s c e v h
   simp only [Item.typeInfo, List.forall_mem_cons]
   refine ⟨?_, ?_, ?_, ?_, ?_, ?_, ?_, ?_, ?_, ?_, ?_, ?_, ?_, ?_, ?_, ?_, ?_, ?_, ?_, ?_, ?_, ?_, ?_, ?_, ?_⟩ <;> first
     | exact fun _ s _ _ hbind hb _ => (other_not_bound _ _ _ _ _ _ (by decide) s hbind hb).elim
     | exact fun sv s c e _ _ hok => slice_ok _ _ _ _ _ sv s c e hok
     | (intro x hx; cases hx))

/-- The decoder stores nothing into the timestamp fields (tag `xml:"-"`). -/
theorem Item_fold_times (s : xml.StartElement) (c : List xml.Node) (e : Bool) (v : Item)
    (h : xml.unmarshalStruct Item.typeInfo {} s c e = (v, true)) :
    v.PubDate = time.Time.zero ∧ v.PostDate = time.Time.zero ∧ v.PostDateGmt = time.Time.zero := by
  refine ⟨?_, ?_, ?_⟩ <;>
  (refine unmarshalStruct_frame Item.typeInfo _ rfl rfl ?_ {} s c e v h
   simp only [Item.typeInfo, List.forall_mem_cons]
   refine ⟨?_, ?_, ?_, ?_, ?_, ?_, ?_, ?_, ?_, ?_, ?_, ?_, ?_, ?_, ?_, ?_, ?_, ?_, ?_, ?_, ?_, ?_, ?_, ?_, ?_⟩ <;> first
     | exact frame_field _ _ _ _ _ (fun _ _ => rfl)
     | (intro x hx; cases hx))

/-- The fields of a decoded `Channel`, each as a fold over the child elements of its
    element. -/
theorem Channel_fold (s : xml.StartElement) (c : List xml.Node) (e : Bool) (v : Channel)
    (h : xml.unmarshalStruct Channel.typeInfo {} s c e = (v, true)) :
    v.Title = xml.foldElements (xml.updIf (xml.bindsTo "" "title") xml.newText) "" c ∧
    v.Link = xml.foldElements (xml.updIf (xml.bindsTo "" "link") xml.newText) "" c ∧
    v.Description = xml.foldElements (xml.updIf (xml.bindsTo "" "description") xml.newText) "" c ∧
    v.PubDateString = xml.foldElements (xml.updIf (xml.bindsTo "" "pubDate") xml.newText) "" c ∧
    v.Language = xml.foldElements (xml.updIf (xml.bindsTo "" "language") xml.newText) "" c ∧
    v.WxrVersion = xml.foldElements (xml.updIf (xml.bindsTo "" "wxr_version") xml.newText) "" c ∧
    v.BaseSiteUrl = xml.foldElements (xml.updIf (xml.bindsTo "" "base_site_url") xml.newText) "" c ∧
    v.BaseBlogUrl = xml.foldElements (xml.updIf (xml.bindsTo "" "base_blog_url") xml.newText) "" c ∧
    v.Generator = xml.foldElements (xml.updIf (xml.bindsTo "" "generator") xml.newText) "" c ∧
    v.Authors = xml.foldElements (xml.updIf (xml.bindsTo "" "author") (xml.newElem Author.decode)) [] c ∧
    v.Categories = xml.foldElements (xml.updIf (xml.bindsTo "" "category") (xml.newElem Category.decode)) [] c ∧
    v.Tags = xml.foldElements (xml.updIf (xml.bindsTo "" "tag") (xml.newElem Tag.decode)) [] c ∧
    v.Items = xml.foldElements (xml.updIf (xml.bindsTo "" "item") (xml.newElem Item.decode)) [] c := by
  refine ⟨?_, ?_, ?_, ?_, ?_, ?_, ?_, ?_, ?_, ?_, ?_, ?_, ?_⟩ <;>
  (refine unmarshalStruct_proj Channel.typeInfo _ _ _ rfl rfl ?_
      (bindsTo_exists _ _ _ (by decide)) {} s c e v h
   simp only [Channel.typeInfo, List.forall_mem_cons]
   refine ⟨?_, ?_, ?_, ?_, ?_, ?_, ?_, ?_, ?_, ?_, ?_, ?_, ?_, ?_⟩ <;> first
     | exact respects_other _ _ _ _ _ _ _ _ (by decide) (fun _ _ => rfl)
     | exact respects_target _ _ _ _ _ _ (fun _ _ c e x hx => leafData_eq c e x hx)
     | exact respects_target _ _ _ _ _ _ (fun _ s c e x hx => int32Value_eq s c e x hx)
     | exact respects_target _ _ _ _ _ _ (fun _ s c e x hx => boolValue_eq s c e x hx)
     | exact respects_target _ _ _ _ _ _
         (fun _ s c e x hx => congrArg (fun y => _ ++ [y]) (elemValue_eq _ _ s c e x hx).1)
     | (intro x hx; cases hx))

/-- Every element a slice field of a decoded `Channel` consumed was decoded without error. -/
theorem Channel_elems_ok (s : xml.StartElement) (c : List xml.Node) (e : Bool) (v : Channel)
    (h : xml.unmarshalStruct Channel.typeInfo {} s c e = (v, true)) :
    (∀ el ∈ (xml.elements c).filter (fun el => xml.bindsTo "" "author" el.start),
      (xml.unmarshalStruct Author.typeInfo {} el.start el.content el.ended).2 = true) ∧
    (∀ el ∈ (xml.elements c).filter (fun el => xml.bindsTo "" "category" el.start),
      (xml.unmarshalStruct Category.typeInfo {} el.start el.content el.ended).2 = true) ∧
    (∀ el ∈ (xml.elements c).filter (fun el => xml.bindsTo "" "tag" el.start),
      (xml.unmarshalStruct Tag.typeInfo {} el.start el.content el.ended).2 = true) ∧
    (∀ el ∈ (xml.elements c).filter (fun el => xml.bindsTo "" "item" el.start),
      (xml.unmarshalStruct Item.typeInfo {} el.start el.content el.ended).2 = true) := by
  refine ⟨?_, ?_, ?_, ?_⟩ <;>
  (refine unmarshalStruct_bound_ok Channel.typeInfo _ _ _ rfl ?_
      (bindsTo_exists _ _ _ (by decide)) {} s c e v h
   simp only [Channel.typeInfo, List.forall_mem_cons]
   refine ⟨?_, ?_, ?_, ?_, ?_, ?_, ?_, ?_, ?_, ?_, ?_, ?_, ?_, ?_⟩ <;> first
     | exact fun _ s _ _ hbind hb _ => (other_not_bound _ _ _ _ _ _ (by decide) s hbind hb).elim
     | exact fun sv s c e _ _ hok => slice_ok _ _ _ _ _ sv s c e hok
     | (intro x hx; cases hx))

/-- The decoder stores nothing into the timestamp fields (tag `xml:"-"`). -/
theorem Channel_fold_times (s : xml.StartElement) (c : List xml.Node) (e : Bool) (v : Channel)
    (h : xml.unmarshalStruct Channel.typeInfo {} s c e = (v, true)) :
    v.PubDate = time.Time.zero := by
  (refine unmarshalStruct_frame Channel.typeInfo _ rfl rfl ?_ {} s c e v h
   simp only [Channel.typeInfo, List.forall_mem_cons]
   refine ⟨?_, ?_, ?_, ?_, ?_, ?_, ?_, ?_, ?_, ?_, ?_, ?_, ?_, ?_⟩ <;> first
     | exact frame_field _ _ _ _ _ (fun _ _ => rfl)
     | (intro x hx; cases hx))

/-- The fields of a decoded `Wxr`, each as a fold over the child elements of its
    element. -/
theorem Wxr_fold (s : xml.StartElement) (c : List xml.Node) (e : Bool) (v : Wxr)
    (h : xml.unmarshalStruct Wxr.typeInfo {} s c e = (v, true)) :
    v.Channels = xml.foldElements (xml.updIf (xml.bindsTo "" "channel") (xml.newElem Channel.decode)) [] c := by
  (refine unmarshalStruct_proj Wxr.typeInfo _ _ _ rfl rfl ?_
      (bindsTo_exists _ _ _ (by decide)) {} s c e v h
   simp only [Wxr.typeInfo, List.forall_mem_cons]
   refine ⟨?_, ?_⟩ <;> first
     | exact respects_other _ _ _ _ _ _ _ _ (by decide) (fun _ _ => rfl)
     | exact respects_target _ _ _ _ _ _ (fun _ _ c e x hx => leafData_eq c e x hx)
     | exact respects_target _ _ _ _ _ _ (fun _ s c e x hx => int32Value_eq s c e x hx)
     | exact respects_target _ _ _ _ _ _ (fun _ s c e x hx => boolValue_eq s c e x hx)
     | exact respects_target _ _ _ _ _ _
         (fun _ s c e x hx => congrArg (fun y => _ ++ [y]) (elemValue_eq _ _ s c e x hx).1)
     | (intro x hx; cases hx))

/-- Every element a slice field of a decoded `Wxr` consumed was decoded without error. -/
theorem Wxr_elems_ok (s : xml.StartElement) (c : List xml.Node) (e : Bool) (v : Wxr)
    (h : xml.unmarshalStruct Wxr.typeInfo {} s c e = (v, true)) :
    (∀ el ∈ (xml.elements c).filter (fun el => xml.bindsTo "" "channel" el.start),
      (xml.unmarshalStruct Channel.typeInfo {} el.start el.content el.ended).2 = true) := by
  (refine unmarshalStruct_bound_ok Wxr.typeInfo _ _ _ rfl ?_
      (bindsTo_exists _ _ _ (by decide)) {} s c e v h
   simp only [Wxr.typeInfo, List.forall_mem_cons]
   refine ⟨?_, ?_⟩ <;> first
     | exact fun _ s _ _ hbind hb _ => (other_not_bound _ _ _ _ _ _ (by decide) s hbind hb).elim
     | exact fun sv s c e _ _ hok => slice_ok _ _ _ _ _ sv s c e hok
     | (intro x hx; cases hx))

theorem bindsTo_empty (nm : String) (s : xml.StartElement) :
    xml.bindsTo "" nm s = xml.byName nm s := by
  by_cases h : s.Name.Local = nm
  · simp [xml.bindsTo, xml.byName, h]
  · simp [xml.bindsTo, xml.byName, h, Ne.symm h]

theorem bindsTo_space (ns nm : String) (hns : ns ≠ "") (s : xml.StartElement) :
    xml.bindsTo ns nm s = xml.byNameIn ns nm s := by
  by_cases h : s.Name.Local = nm
  · by_cases h1 : s.Name.Space = ns
    · simp [xml.bindsTo, xml.byNameIn, h, h1]
    · simp [xml.bindsTo, xml.byNameIn, h, h1, hns, Ne.symm h1]
  · simp [xml.bindsTo, xml.byNameIn, h, Ne.symm h]

theorem filter_bindsTo_named (nm : String) (c : List xml.Node) :
    (xml.elements c).filter (fun el => xml.bindsTo "" nm el.start) = xml.named nm c := by
  simp only [xml.named, bindsTo_empty]

theorem filter_bindsTo_namedIn (ns nm : String) (hns : ns ≠ "") (c : List xml.Node) :
    (xml.elements c).filter (fun el => xml.bindsTo ns nm el.start) = xml.namedIn ns nm c := by
  simp only [xml.namedIn, bindsTo_space ns nm hns]

/-- A string field holds the text of the last child element with its name. -/
theorem fold_lastText (nm : String) (c : List xml.Node) :
    xml.foldElements (xml.updIf (xml.bindsTo "" nm) xml.newText) "" c =
      xml.lastText (xml.named nm c) := by
  rw [foldElements_text, filter_bindsTo_named]
  rfl

theorem fold_lastTextIn (ns nm : String) (hns : ns ≠ "") (c : List xml.Node) :
    xml.foldElements (xml.updIf (xml.bindsTo ns nm) xml.newText) "" c =
      xml.lastText (xml.namedIn ns nm c) := by
  rw [foldElements_text, filter_bindsTo_namedIn ns nm hns]
  rfl

/-- A slice field holds the decoded child elements with its name, in document order. -/
theorem fold_map {τ : Type} (nm : String) (dec : xml.Elem → τ) (c : List xml.Node) :
    xml.foldElements (xml.updIf (xml.bindsTo "" nm) (xml.newElem dec)) [] c =
      (xml.named nm c).map dec := by
  rw [foldElements_append, filter_bindsTo_named]
  simp

/-- A field without a child element of its name keeps the zero value. -/
theorem fold_zero {β : Type} (nm : String)
    (new : β → xml.StartElement → List xml.Node → Bool → β) (z : β) (c : List xml.Node)
    (h : xml.named nm c = []) :
    xml.foldElements (xml.updIf (xml.bindsTo "" nm) new) z c = z :=
  foldElements_unbound _ _ c z (by rw [filter_bindsTo_named]; exact h)

theorem fold_zeroIn {β : Type} (ns nm : String) (hns : ns ≠ "")
    (new : β → xml.StartElement → List xml.Node → Bool → β) (z : β) (c : List xml.Node)
    (h : xml.namedIn ns nm c = []) :
    xml.foldElements (xml.updIf (xml.bindsTo ns nm) new) z c = z :=
  foldElements_unbound _ _ c z (by rw [filter_bindsTo_namedIn ns nm hns]; exact h)

/-- The struct loop of a struct type without element fields passes over every child
    element and collects the character data. -/
theorem structLoop_nofields {σ : Type} (ti : xml.TypeInfo σ) (hf : ti.fields = []) :
    ∀ (content : List xml.Node) (sv : σ) (data : String), xml.allEnded content = true →
      xml.structLoop ti sv data content = (sv, data ++ xml.text content, true) := by
  intro content
  induction content with
  | nil => intro sv data _; simp [xml.structLoop, xml.text]
  | cons n ns ih =>
    intro sv data h
    cases n with
    | CharData t =>
      simp only [xml.structLoop]
      rw [ih sv (data ++ t) h]
      simp [xml.text, String.append_assoc]
    | Other =>
      simp only [xml.structLoop]
      rw [ih sv data h]
      simp [xml.text]
    | Element s c e =>
      simp only [xml.allEnded, xml.elements, List.all_cons, Bool.and_eq_true] at h
      simp only [xml.structLoop, hf, xml.unmarshalPath, h.1, if_true]
      rw [ih sv data h.2]
      simp [xml.text]

theorem attrValue_cons (nm : String) (a : xml.Attr) (as : List xml.Attr) :
    xml.attrValue nm (a :: as) =
      match xml.attrValue nm as with
      | some v => some v
      | none => if a.Name.Local = nm then some a.Value else none := by
  simp only [xml.attrValue, List.filter_cons]
  by_cases h : a.Name.Local = nm
  · simp only [h, decide_True, if_true, List.getLast?_cons]
    cases (List.filter (fun a => decide (a.Name.Local = nm)) as).getLast? <;> rfl
  · simp only [h, decide_False, Bool.false_eq_true, if_false]
    cases (List.filter (fun a => decide (a.Name.Local = nm)) as).getLast? <;> rfl

/-- The attributes of a `category` element of an item: the last `domain` and the last
    `nicename` attribute are stored, nothing else is touched. -/
theorem assignAttrs_ItemCategory : ∀ (as : List xml.Attr) (sv : ItemCategory),
    xml.assignAttrs ItemCategory.typeInfo.attrs sv as =
      { Domain := (xml.attrValue "domain" as).getD sv.Domain,
        NiceName := (xml.attrValue "nicename" as).getD sv.NiceName,
        DisplayName := sv.DisplayName } := by
  intro as
  induction as with
  | nil => intro sv; rfl
  | cons a as ih =>
    intro sv
    simp only [xml.assignAttrs]
    rw [ih, attrValue_cons, attrValue_cons]
    by_cases h1 : a.Name.Local = "domain"
    · have h2 : ¬ a.Name.Local = "nicename" := by rw [h1]; decide
      cases hd : xml.attrValue "domain" as <;> cases hn : xml.attrValue "nicename" as <;>
        simp [ItemCategory.typeInfo, xml.assignAttr, h1, h2]
    · by_cases h2 : a.Name.Local = "nicename"
      · cases hd : xml.attrValue "domain" as <;> cases hn : xml.attrValue "nicename" as <;>
          simp [ItemCategory.typeInfo, xml.assignAttr, h1, h2]
      · cases hd : xml.attrValue "domain" as <;> cases hn : xml.attrValue "nicename" as <;>
          simp [ItemCategory.typeInfo, xml.assignAttr, h1, h2]

/-- The `ItemCategory` decoded from a complete `category` element. -/
theorem ItemCategory_decode (s : xml.StartElement) (c : List xml.Node)
    (hc : xml.allEnded c = true) :
    xml.unmarshalStruct ItemCategory.typeInfo {} s c true =
      ({ Domain := (xml.attrValue "domain" s.Attr).getD "",
         NiceName := (xml.attrValue "nicename" s.Attr).getD "",
         DisplayName := xml.text c }, true) := by
  unfold xml.unmarshalStruct
  rw [assignAttrs_ItemCategory]
  simp only []
  rw [structLoop_nofields _ rfl c _ "" hc]
  simp [ItemCategory.typeInfo]

theorem Unmarshal_root : ∀ (doc : List xml.Node) (w : Wxr),
    xml.Unmarshal doc w =
      match xml.root doc with
      | none => (w, false)
      | some el => xml.unmarshalStruct Wxr.typeInfo w el.start el.content el.ended := by
  intro doc
  induction doc with
  | nil => intro w; rfl
  | cons n ns ih =>
    intro w
    cases n with
    | CharData t => simpa [xml.Unmarshal, xml.root] using ih w
    | Other => simpa [xml.Unmarshal, xml.root] using ih w
    | Element s c e => rfl

theorem elements_append : ∀ (a b : List xml.Node),
    xml.elements (a ++ b) = xml.elements a ++ xml.elements b := by
  intro a
  induction a with
  | nil => intro b; rfl
  | cons n ns ih =>
    intro b
    cases n with
    | CharData t => simpa [xml.elements] using ih b
    | Other => simpa [xml.elements] using ih b
    | Element s c e => simp [xml.elements, ih b]

theorem named_append (nm : String) (a b : List xml.Node) :
    xml.named nm (a ++ b) = xml.named nm a ++ xml.named nm b := by
  simp [xml.named, elements_append]

/-- A field of the uniform kind leaves the struct as it was when it fails. -/
theorem field_fail {σ τ : Type} (xmlns name : String)
    (value : xml.StartElement → List xml.Node → Bool → Option τ) (store : σ → τ → σ) (sv : σ)
    (s : xml.StartElement) (c : List xml.Node) (e : Bool)
    (h : ((xml.field xmlns name value store).unmarshal sv s c e).2 = false) :
    ((xml.field xmlns name value store).unmarshal sv s c e).1 = sv := by
  simp only [xml.field] at h ⊢
  cases hv : value s c e with
  | none => rfl
  | some x => simp [hv] at h

/-- A struct loop that stops with an error leaves what the loop over the content before the
    failing token leaves. -/
theorem structLoop_prefix {σ : Type} (ti : xml.TypeInfo σ)
    (hfail : ∀ f ∈ ti.fields, ∀ sv s c e, (f.unmarshal sv s c e).2 = false →
      (f.unmarshal sv s c e).1 = sv) :
    ∀ (content : List xml.Node) (sv : σ) (data : String) (sv1 : σ) (data1 : String)
      (ok : Bool), xml.structLoop ti sv data content = (sv1, data1, ok) →
      ∃ pre post, content = pre ++ post ∧
        xml.structLoop ti sv data pre = (sv1, data1, true) := by
  intro content
  induction content with
  | nil =>
    intro sv data sv1 data1 ok h
    simp only [xml.structLoop, Prod.mk.injEq] at h
    exact ⟨[], [], rfl, by simp [xml.structLoop, h.1, h.2.1]⟩
  | cons n ns ih =>
    intro sv data sv1 data1 ok h
    cases n with
    | CharData t =>
      obtain ⟨pre, post, h1, h2⟩ := ih _ _ _ _ _ h
      exact ⟨xml.Node.CharData t :: pre, post, by simp [h1], h2⟩
    | Other =>
      obtain ⟨pre, post, h1, h2⟩ := ih _ _ _ _ _ h
      exact ⟨xml.Node.Other :: pre, post, by simp [h1], h2⟩
    | Element s c e =>
      simp only [xml.structLoop] at h
      cases hp : xml.unmarshalPath ti.fields sv s c e with
      | none =>
        simp only [hp] at h
        split at h
        · rename_i he
          obtain ⟨pre, post, h1, h2⟩ := ih _ _ _ _ _ h
          refine ⟨xml.Node.Element s c e :: pre, post, by simp [h1], ?_⟩
          rw [xml.structLoop, hp]
          simp only [he, if_true]
          exact h2
        · simp only [Prod.mk.injEq] at h
          exact ⟨[], _, rfl, by simp [xml.structLoop, h.1, h.2.1]⟩
      | some r =>
        obtain ⟨sv2, ok2⟩ := r
        simp only [hp] at h
        split at h
        · rename_i hok
          obtain ⟨pre, post, h1, h2⟩ := ih _ _ _ _ _ h
          refine ⟨xml.Node.Element s c e :: pre, post, by simp [h1], ?_⟩
          rw [xml.structLoop, hp]
          simp only [hok, if_true]
          exact h2
        · rename_i hok
          simp only [Prod.mk.injEq] at h
          obtain ⟨f, hf, _, hr⟩ := unmarshalPath_some _ _ _ _ _ _ hp
          have h3 : sv2 = sv := by
            have h4 := hfail f hf sv s c e (by rw [← hr]; simpa using hok)
            rw [← hr] at h4
            exact h4
          exact ⟨[], _, rfl, by simp [xml.structLoop, ← h.1, ← h.2.1, h3]⟩

/-- Whatever `unmarshalStruct` leaves in the struct, with or without error, is what it leaves
    without error for a complete element holding the content before the failure. -/
theorem unmarshalStruct_prefix {σ : Type} (ti : xml.TypeInfo σ) (hchar : ti.chardata = none)
    (hfail : ∀ f ∈ ti.fields, ∀ sv s c e, (f.unmarshal sv s c e).2 = false →
      (f.unmarshal sv s c e).1 = sv)
    (sv : σ) (s : xml.StartElement) (c : List xml.Node) (e : Bool) :
    ∃ pre post, c = pre ++ post ∧
      xml.unmarshalStruct ti sv s pre true = ((xml.unmarshalStruct ti sv s c e).1, true) := by
  unfold xml.unmarshalStruct
  simp only [hchar]
  cases hl : xml.structLoop ti (xml.assignAttrs ti.attrs sv s.Attr) "" c with
  | mk sv1 rest =>
    obtain ⟨data, ok⟩ := rest
    obtain ⟨pre, post, h1, h2⟩ := structLoop_prefix ti hfail c _ "" sv1 data ok hl
    refine ⟨pre, post, h1, ?_⟩
    have h3 : (if ok = true ∧ e = true then (sv1, true) else (sv1, false)).1 = sv1 := by
      split <;> rfl
    simp [h2, h3]

theorem Wxr_fields_fail : ∀ f ∈ Wxr.typeInfo.fields, ∀ sv s c e,
    (f.unmarshal sv s c e).2 = false → (f.unmarshal sv s c e).1 = sv := by
  simp only [Wxr.typeInfo, List.forall_mem_cons]
  exact ⟨fun sv s c e h => field_fail _ _ _ _ sv s c e h, fun x hx => by cases hx⟩

/-- Every channel of the decoded structure, at index `n`, is decoded without error from the
    `n`-th `channel` child element of the root element. -/
theorem decoded_channel (env : Env) (data : List UInt8) (n : Nat) (c0 : Channel)
    (h : (decoded env data).Channels[n]? = some c0) :
    ∃ rootEl el, xml.root (xml.tokens env.lex data) = some rootEl ∧
      (xml.named "channel" rootEl.content)[n]? = some el ∧
      xml.unmarshalStruct Channel.typeInfo {} el.start el.content el.ended = (c0, true) := by
  unfold decoded at h
  rw [Unmarshal_root] at h
  cases hr : xml.root (xml.tokens env.lex data) with
  | none => simp [hr] at h
  | some rootEl =>
    simp only [hr] at h
    obtain ⟨pre, post, h1, h2⟩ := unmarshalStruct_prefix Wxr.typeInfo rfl Wxr_fields_fail {}
      rootEl.start rootEl.content rootEl.ended
    have h3 := Wxr_fold _ _ _ _ h2
    have h4 := Wxr_elems_ok _ _ _ _ h2
    rw [fold_map] at h3
    rw [filter_bindsTo_named] at h4
    rw [h3, List.getElem?_map, Option.map_eq_some'] at h
    obtain ⟨el, hel, hdec⟩ := h
    refine ⟨rootEl, el, rfl, ?_, ?_⟩
    · rw [h1, named_append]
      rw [List.getElem?_append_left]
      · exact hel
      · by_contra hn
        rw [List.getElem?_eq_none (by omega)] at hel
        cases hel
    · have h5 := h4 el (List.getElem?_mem hel)
      rw [← hdec]
      exact Prod.ext rfl h5

/-- Every channel of the result of `ParseWxr`, at index `n`, is the `n`-th `channel` child
    element of the root element, decoded without error, with its dates filled in. -/
theorem result_channel (env : Env) (data : List UInt8) (n : Nat) (c : Channel)
    (h : ((decoded env data).withDates env).Channels[n]? = some c) :
    ∃ rootEl chEl c0, xml.root (xml.tokens env.lex data) = some rootEl ∧
      (xml.named "channel" rootEl.content)[n]? = some chEl ∧
      xml.unmarshalStruct Channel.typeInfo {} chEl.start chEl.content chEl.ended = (c0, true) ∧
      c = c0.withDates env := by
  simp only [Wxr.withDates, List.getElem?_map, Option.map_eq_some'] at h
  obtain ⟨c0, hc0, rfl⟩ := h
  obtain ⟨rootEl, chEl, h1, h2, h3⟩ := decoded_channel env data n c0 hc0
  exact ⟨rootEl, chEl, c0, h1, h2, h3, rfl⟩

/-- Every item of the result, at index `m` of channel `n`, is the `m`-th `item` child
    element of the `n`-th `channel` element, decoded without error, with its dates filled
    in. -/
theorem result_item (env : Env) (data : List UInt8) (n m : Nat) (c : Channel) (i : Item)
    (h : ((decoded env data).withDates env).Channels[n]? = some c)
    (hi : c.Items[m]? = some i) :
    ∃ rootEl chEl itEl i0, xml.root (xml.tokens env.lex data) = some rootEl ∧
      (xml.named "channel" rootEl.content)[n]? = some chEl ∧
      (xml.named "item" chEl.content)[m]? = some itEl ∧
      xml.unmarshalStruct Item.typeInfo {} itEl.start itEl.content itEl.ended = (i0, true) ∧
      i = i0.withDates env := by
  obtain ⟨rootEl, chEl, c0, h1, h2, h3, rfl⟩ := result_channel env data n c h
  have h4 := (Channel_fold _ _ _ _ h3).2.2.2.2.2.2.2.2.2.2.2.2
  have h5 := (Channel_elems_ok _ _ _ _ h3).2.2.2
  rw [fold_map] at h4
  rw [filter_bindsTo_named] at h5
  simp only [Channel.withDates, h4, List.getElem?_map, Option.map_eq_some'] at hi
  obtain ⟨i1, ⟨itEl, hit, rfl⟩, rfl⟩ := hi
  exact ⟨rootEl, chEl, itEl, _, h1, h2, hit, Prod.ext rfl (h5 itEl (List.getElem?_mem hit)), rfl⟩

theorem structLoop_nofields_sv {σ : Type} (ti : xml.TypeInfo σ) (hf : ti.fields = []) :
    ∀ (content : List xml.Node) (sv : σ) (data : String),
      (xml.structLoop ti sv data content).1 = sv := by
  intro content
  induction content with
  | nil => intro sv data; rfl
  | cons n ns ih =>
    intro sv data
    cases n with
    | CharData t => exact ih sv _
    | Other => exact ih sv _
    | Element s c e =>
      simp only [xml.structLoop, hf, xml.unmarshalPath]
      split
      · exact ih sv _
      · rfl

/-- The `ItemCategory` decoded without error from a `category` element of an item. -/
theorem ItemCategory_decoded (s : xml.StartElement) (c : List xml.Node) (e : Bool)
    (v : ItemCategory) (h : xml.unmarshalStruct ItemCategory.typeInfo {} s c e = (v, true)) :
    v = { Domain := (xml.attrValue "domain" s.Attr).getD "",
          NiceName := (xml.attrValue "nicename" s.Attr).getD "",
          DisplayName := xml.text c } := by
  unfold xml.unmarshalStruct at h
  rw [assignAttrs_ItemCategory] at h
  simp only [] at h
  cases hl : xml.structLoop ItemCategory.typeInfo
      { Domain := (xml.attrValue "domain" s.Attr).getD "",
        NiceName := (xml.attrValue "nicename" s.Attr).getD "",
        DisplayName := "" } "" c with
  | mk sv1 rest =>
    obtain ⟨data, ok⟩ := rest
    have h1 := structLoop_nofields_sv ItemCategory.typeInfo rfl c
      { Domain := (xml.attrValue "domain" s.Attr).getD "",
        NiceName := (xml.attrValue "nicename" s.Attr).getD "",
        DisplayName := "" } ""
    rw [hl] at h1
    simp only at h1
    subst h1
    rw [hl] at h
    simp only [ItemCategory.typeInfo] at h
    split at h
    · rename_i hok
      have hok1 : ok = true := hok.1
      subst hok1
      have h2 := structLoop_data ItemCategory.typeInfo c _ "" _ data hl
      simp only [Prod.mk.injEq, and_true] at h
      rw [← h, h2]
      simp
    · simp at h

/-! ### The claims about the structural mapper -/

/-- For every document that `xml.Unmarshal` decodes without error, the result's `Channels` are the `channel` child elements of the root element, in document
    order, each mapped to its `Channel`; and within each channel the `Authors`,
    `Categories`, `Tags` and `Items` are the `author`, `category`, `tag` and `item` child
    elements of the channel element, in document order, each mapped to its entity. So
    every collection has as many entries as there are such elements, and the `n`-th entry
    comes from the `n`-th element. -/
theorem collections_in_document_order (env : Env) (data : List UInt8)
    (hok : (xml.Unmarshal (xml.tokens env.lex data) {}).2 = true) :
    ∃ (r : Wxr) (rootEl : xml.Elem), ParseWxr env data = some r ∧
      xml.root (xml.tokens env.lex data) = some rootEl ∧
      r.Channels = (xml.named "channel" rootEl.content).map
        (fun el => (Channel.decode el).withDates env) ∧
      ∀ el ∈ xml.named "channel" rootEl.content,
        ((Channel.decode el).withDates env).Authors =
          (xml.named "author" el.content).map Author.decode ∧
        ((Channel.decode el).withDates env).Categories =
          (xml.named "category" el.content).map Category.decode ∧
        ((Channel.decode el).withDates env).Tags =
          (xml.named "tag" el.content).map Tag.decode ∧
        ((Channel.decode el).withDates env).Items =
          (xml.named "item" el.content).map (fun e => (Item.decode e).withDates env) := by
  rw [Unmarshal_root] at hok
  cases hr : xml.root (xml.tokens env.lex data) with
  | none => simp [hr] at hok
  | some rootEl =>
    simp only [hr] at hok
    have hw : xml.unmarshalStruct Wxr.typeInfo {} rootEl.start rootEl.content rootEl.ended =
        (decoded env data, true) := by
      unfold decoded
      rw [Unmarshal_root, hr]
      exact Prod.ext rfl hok
    have h3 := Wxr_fold _ _ _ _ hw
    have h4 := Wxr_elems_ok _ _ _ _ hw
    rw [fold_map] at h3
    rw [filter_bindsTo_named] at h4
    refine ⟨_, rootEl, ParseWxr_eq env data, rfl, ?_, ?_⟩
    · simp [Wxr.withDates, h3]
    · intro el hel
      have h5 : xml.unmarshalStruct Channel.typeInfo {} el.start el.content el.ended =
          (Channel.decode el, true) := Prod.ext rfl (h4 el hel)
      have h6 := Channel_fold _ _ _ _ h5
      obtain ⟨_, _, _, _, _, _, _, _, _, ha, hc, ht, hi⟩ := h6
      rw [fold_map] at ha hc ht hi
      simp [Channel.withDates, ha, hc, ht, hi]

/-- The collections of the result for the document `fixtureDoc`: one channel, the authors
    `johndoe` then `janedoe`, the categories `cat1` then `cat2`, the tags `tag1` then
    `tag2`, three items. -/
theorem fixture_collections :
    (xml.Unmarshal (xml.tokens fixtureEnv.lex [60]) {}).2 = true ∧
    (∃ (r : Wxr) (rootEl : xml.Elem), ParseWxr fixtureEnv [60] = some r ∧
      xml.root (xml.tokens fixtureEnv.lex [60]) = some rootEl ∧
      r.Channels = (xml.named "channel" rootEl.content).map
        (fun el => (Channel.decode el).withDates fixtureEnv) ∧
      ∀ el ∈ xml.named "channel" rootEl.content,
        ((Channel.decode el).withDates fixtureEnv).Authors =
          (xml.named "author" el.content).map Author.decode ∧
        ((Channel.decode el).withDates fixtureEnv).Categories =
          (xml.named "category" el.content).map Category.decode ∧
        ((Channel.decode el).withDates fixtureEnv).Tags =
          (xml.named "tag" el.content).map Tag.decode ∧
        ((Channel.decode el).withDates fixtureEnv).Items =
          (xml.named "item" el.content).map
            (fun e => (Item.decode e).withDates fixtureEnv)) ∧
    (ParseWxr fixtureEnv [60]).map (fun r => r.Channels.map (fun c =>
      (c.Authors.map (fun a => a.Login), c.Categories.map (fun k => k.NiceName),
       c.Tags.map (fun t => t.Slug), c.Items.length))) =
      some [(["johndoe", "janedoe"], ["cat1", "cat2"], ["tag1", "tag2"], 3)] :=
  ⟨by decide, collections_in_document_order fixtureEnv [60] (by decide), by decide⟩

/-- Every channel of the result of `ParseWxr`, at any index `n`, comes from the `n`-th
    `channel` child element of the root element, and its `Title`, `Link`, `Description`,
    `Language`, `WxrVersion`, `BaseSiteUrl`, `BaseBlogUrl` and `Generator` are the text
    content of the (last) child element of that channel element named `title`, `link`,
    `description`, `language`, `wxr_version`, `base_site_url`, `base_blog_url` and
    `generator`: only the channel element's own children count, not the elements nested
    in its items. -/
theorem channel_fields_from_own_children (env : Env) (data : List UInt8) :
    ∃ r : Wxr, ParseWxr env data = some r ∧
      ∀ (n : Nat) (c : Channel), r.Channels[n]? = some c →
        ∃ rootEl chEl, xml.root (xml.tokens env.lex data) = some rootEl ∧
          (xml.named "channel" rootEl.content)[n]? = some chEl ∧
          c.Title = xml.lastText (xml.named "title" chEl.content) ∧
          c.Link = xml.lastText (xml.named "link" chEl.content) ∧
          c.Description = xml.lastText (xml.named "description" chEl.content) ∧
          c.Language = xml.lastText (xml.named "language" chEl.content) ∧
          c.WxrVersion = xml.lastText (xml.named "wxr_version" chEl.content) ∧
          c.BaseSiteUrl = xml.lastText (xml.named "base_site_url" chEl.content) ∧
          c.BaseBlogUrl = xml.lastText (xml.named "base_blog_url" chEl.content) ∧
          c.Generator = xml.lastText (xml.named "generator" chEl.content) := by
  refine ⟨_, ParseWxr_eq env data, ?_⟩
  intro n c hc
  obtain ⟨rootEl, chEl, c0, h1, h2, h3, rfl⟩ := result_channel env data n c hc
  obtain ⟨t1, t2, t3, _, t5, t6, t7, t8, t9, _⟩ := Channel_fold _ _ _ _ h3
  rw [fold_lastText] at t1 t2 t3 t5 t6 t7 t8 t9
  exact ⟨rootEl, chEl, h1, h2, t1, t2, t3, t5, t6, t7, t8, t9⟩

/-- The channel of the result for `fixtureDoc` has the field values the test
    `TestParseWxr` expects. -/
theorem fixture_channel_fields :
    (ParseWxr fixtureEnv [60]).map (fun r => r.Channels.map (fun c =>
      [c.Title, c.Link, c.Description, c.Language, c.WxrVersion, c.BaseSiteUrl,
       c.BaseBlogUrl, c.Generator])) =
      some [["Example", "http://example.com", "Example Site", "en-US", "1.2",
        "http://example.com", "http://example.com", "http://wordpress.org/?v=3.9.1"]] := by
  decide

/-- Every `ItemCategory` of the result of `ParseWxr` (entry `k` of the `Categories` of
    item `m` of channel `n`) comes from the `k`-th `category` child element of the `m`-th
    `item` element of the `n`-th `channel` element; its `Domain` is the value of the
    `domain` attribute, its `NiceName` the value of the `nicename` attribute and its
    `DisplayName` the text content of the element, each from its own source. The element
    `<category domain="category" nicename="cat1">Category 1</category>` gives the record
    (category, cat1, Category 1). -/
theorem item_category_attributes_and_text (env : Env) (data : List UInt8) :
    (∃ r : Wxr, ParseWxr env data = some r ∧
      ∀ (n m k : Nat) (c : Channel) (i : Item) (ic : ItemCategory),
        r.Channels[n]? = some c → c.Items[m]? = some i → i.Categories[k]? = some ic →
        ∃ rootEl chEl itEl catEl, xml.root (xml.tokens env.lex data) = some rootEl ∧
          (xml.named "channel" rootEl.content)[n]? = some chEl ∧
          (xml.named "item" chEl.content)[m]? = some itEl ∧
          (xml.named "category" itEl.content)[k]? = some catEl ∧
          ic.Domain = (xml.attrValue "domain" catEl.start.Attr).getD "" ∧
          ic.NiceName = (xml.attrValue "nicename" catEl.start.Attr).getD "" ∧
          ic.DisplayName = xml.text catEl.content) ∧
    ItemCategory.decode
      ⟨{ Name := { Local := "category" },
         Attr := [{ Name := { Local := "domain" }, Value := "category" },
                  { Name := { Local := "nicename" }, Value := "cat1" }] },
       [xml.Node.CharData "Category 1"], true⟩ =
      { Domain := "category", NiceName := "cat1", DisplayName := "Category 1" } := by
  refine ⟨⟨_, ParseWxr_eq env data, ?_⟩, by decide⟩
  intro n m k c i ic hc hi hk
  obtain ⟨rootEl, chEl, itEl, i0, h1, h2, h3, h4, rfl⟩ := result_item env data n m c i hc hi
  have h5 := (Item_fold _ _ _ _ h4).2.2.2.2.2.2.2.2.2.2.2.2.2.2.2.2.2.2.2.2.2.1
  have h6 := (Item_elems_ok _ _ _ _ h4).1
  rw [fold_map] at h5
  rw [filter_bindsTo_named] at h6
  simp only [Item.withDates, h5, List.getElem?_map, Option.map_eq_some'] at hk
  obtain ⟨catEl, hcat, rfl⟩ := hk
  have h7 : xml.unmarshalStruct ItemCategory.typeInfo {} catEl.start catEl.content
      catEl.ended = (ItemCategory.decode catEl, true) :=
    Prod.ext rfl (h6 catEl (List.getElem?_mem hcat))
  have h8 := ItemCategory_decoded _ _ _ _ h7
  refine ⟨rootEl, chEl, itEl, catEl, h1, h2, h3, hcat, ?_, ?_, ?_⟩ <;> rw [h8]

/-- Every item of the result of `ParseWxr` (item `m` of channel `n`) comes from the
    `m`-th `item` child element of the `n`-th `channel` element; its `Content` is the text
    of the (last) child element `encoded` in the content namespace and its `Excerpt` the
    text of the (last) child element `encoded` in the excerpt namespace. Child elements
    `encoded` in no or another namespace reach neither field, and the two are not
    swapped. -/
theorem namespaced_encoded (env : Env) (data : List UInt8) :
    ∃ r : Wxr, ParseWxr env data = some r ∧
      ∀ (n m : Nat) (c : Channel) (i : Item),
        r.Channels[n]? = some c → c.Items[m]? = some i →
        ∃ rootEl chEl itEl, xml.root (xml.tokens env.lex data) = some rootEl ∧
          (xml.named "channel" rootEl.content)[n]? = some chEl ∧
          (xml.named "item" chEl.content)[m]? = some itEl ∧
          i.Content = xml.lastText (xml.namedIn contentNS "encoded" itEl.content) ∧
          i.Excerpt = xml.lastText (xml.namedIn excerptNS "encoded" itEl.content) := by
  refine ⟨_, ParseWxr_eq env data, ?_⟩
  intro n m c i hc hi
  obtain ⟨rootEl, chEl, itEl, i0, h1, h2, h3, h4, rfl⟩ := result_item env data n m c i hc hi
  obtain ⟨_, _, _, _, _, _, t7, t8, _⟩ := Item_fold _ _ _ _ h4
  rw [fold_lastTextIn _ _ (by decide)] at t7 t8
  exact ⟨rootEl, chEl, itEl, h1, h2, h3, t7, t8⟩

/-- The result for the document `encodedDoc`, whose item has an excerpt-namespace, a
    content-namespace and, last, an unqualified `encoded` element. -/
theorem encoded_example :
    (ParseWxr encodedEnv [60]).map (fun r => r.Channels.map (fun c =>
      c.Items.map (fun i => (i.Content, i.Excerpt)))) =
      some [[("the content", "the excerpt")]] := by
  decide

/-- For every entity (`Channel`, `Author`, `Category`, `Tag`, `Item`, `ItemCategory`,
    `PostMeta`, `Comment`, and the root `Wxr`) decoded without error from its element, and
    for every field of the entity: when the element has no child element (for
    `ItemCategory`: no attribute, no character data) bound to the field, the field is the
    zero value of its type: the empty string, 0, `false`, the empty collection, and, after
    the date loop, the zero time for a timestamp whose raw date element is absent. -/
theorem decoded_unbound_fields_are_zero (env : Env) :
    (∀ (s : xml.StartElement) (c : List xml.Node) (e : Bool) (v : Channel),
      xml.unmarshalStruct Channel.typeInfo {} s c e = (v, true) →
      (xml.named "title" c = [] → v.Title = "") ∧
      (xml.named "link" c = [] → v.Link = "") ∧
      (xml.named "description" c = [] → v.Description = "") ∧
      (xml.named "pubDate" c = [] → v.PubDateString = "") ∧
      (xml.named "language" c = [] → v.Language = "") ∧
      (xml.named "wxr_version" c = [] → v.WxrVersion = "") ∧
      (xml.named "base_site_url" c = [] → v.BaseSiteUrl = "") ∧
      (xml.named "base_blog_url" c = [] → v.BaseBlogUrl = "") ∧
      (xml.named "generator" c = [] → v.Generator = "") ∧
      (xml.named "author" c = [] → v.Authors = []) ∧
      (xml.named "category" c = [] → v.Categories = []) ∧
      (xml.named "tag" c = [] → v.Tags = []) ∧
      (xml.named "item" c = [] → v.Items = []) ∧
      (xml.named "pubDate" c = [] → (v.withDates env).PubDate = time.Time.zero)) ∧
    (∀ (s : xml.StartElement) (c : List xml.Node) (e : Bool) (v : Author),
      xml.unmarshalStruct Author.typeInfo {} s c e = (v, true) →
      (xml.named "author_id" c = [] → v.Id = 0) ∧
      (xml.named "author_login" c = [] → v.Login = "") ∧
      (xml.named "author_email" c = [] → v.Email = "") ∧
      (xml.named "author_display_name" c = [] → v.DisplayName = "") ∧
      (xml.named "author_first_name" c = [] → v.FirstName = "") ∧
      (xml.named "author_last_name" c = [] → v.LastName = "")) ∧
    (∀ (s : xml.StartElement) (c : List xml.Node) (e : Bool) (v : Category),
      xml.unmarshalStruct Category.typeInfo {} s c e = (v, true) →
      (xml.named "term_id" c = [] → v.Id = 0) ∧
      (xml.named "category_nicename" c = [] → v.NiceName = "") ∧
      (xml.named "category_parent" c = [] → v.Parent = "") ∧
      (xml.named "cat_name" c = [] → v.Name = "")) ∧
    (∀ (s : xml.StartElement) (c : List xml.Node) (e : Bool) (v : Tag),
      xml.unmarshalStruct Tag.typeInfo {} s c e = (v, true) →
      (xml.named "term_id" c = [] → v.Id = 0) ∧
      (xml.named "tag_slug" c = [] → v.Slug = "") ∧
      (xml.named "tag_name" c = [] → v.Name = "")) ∧
    (∀ (s : xml.StartElement) (c : List xml.Node) (e : Bool) (v : Item),
      xml.unmarshalStruct Item.typeInfo {} s c e = (v, true) →
      (xml.named "title" c = [] → v.Title = "") ∧
      (xml.named "link" c = [] → v.Link = "") ∧
      (xml.named "pubDate" c = [] → v.PubDateString = "") ∧
      (xml.named "creator" c = [] → v.Creator = "") ∧
      (xml.named "guid" c = [] → v.Guid = "") ∧
      (xml.named "description" c = [] → v.Description = "") ∧
      (xml.namedIn contentNS "encoded" c = [] → v.Content = "") ∧
      (xml.namedIn excerptNS "encoded" c = [] → v.Excerpt = "") ∧
      (xml.named "post_id" c = [] → v.PostId = 0) ∧
      (xml.named "post_date" c = [] → v.PostDateString = "") ∧
      (xml.named "post_date_gmt" c = [] → v.PostDateGmtString = "") ∧
      (xml.named "comment_status" c = [] → v.CommentStatus = "") ∧
      (xml.named "ping_status" c = [] → v.PingStatus = "") ∧
      (xml.named "post_name" c = [] → v.PostName = "") ∧
      (xml.named "status" c = [] → v.Status = "") ∧
      (xml.named "post_parent" c = [] → v.PostParent = 0) ∧
      (xml.named "menu_order" c = [] → v.MenuOrder = 0) ∧
      (xml.named "post_type" c = [] → v.PostType = "") ∧
      (xml.named "post_password" c = [] → v.PostPassword = "") ∧
      (xml.named "is_sticky" c = [] → v.IsSticky = false) ∧
      (xml.named "attachment_url" c = [] → v.AttachmentUrl = "") ∧
      (xml.named "category" c = [] → v.Categories = []) ∧
      (xml.named "postmeta" c = [] → v.PostMetas = []) ∧
      (xml.named "comment" c = [] → v.Comments = []) ∧
      (xml.named "pubDate" c = [] → (v.withDates env).PubDate = time.Time.zero) ∧
      (xml.named "post_date" c = [] → (v.withDates env).PostDate = time.Time.zero) ∧
      (xml.named "post_date_gmt" c = [] → (v.withDates env).PostDateGmt = time.Time.zero)) ∧
    (∀ (s : xml.StartElement) (c : List xml.Node) (e : Bool) (v : ItemCategory),
      xml.unmarshalStruct ItemCategory.typeInfo {} s c e = (v, true) →
      (xml.attrValue "domain" s.Attr = none → v.Domain = "") ∧
      (xml.attrValue "nicename" s.Attr = none → v.NiceName = "") ∧
      (xml.text c = "" → v.DisplayName = "")) ∧
    (∀ (s : xml.StartElement) (c : List xml.Node) (e : Bool) (v : PostMeta),
      xml.unmarshalStruct PostMeta.typeInfo {} s c e = (v, true) →
      (xml.named "meta_key" c = [] → v.Key = "") ∧
      (xml.named "meta_value" c = [] → v.Value = "")) ∧
    (∀ (s : xml.StartElement) (c : List xml.Node) (e : Bool) (v : Comment),
      xml.unmarshalStruct Comment.typeInfo {} s c e = (v, true) →
      (xml.named "comment_id" c = [] → v.Id = 0) ∧
      (xml.named "comment_author" c = [] → v.Author = "") ∧
      (xml.named "comment_author_email" c = [] → v.AuthorEmail = "") ∧
      (xml.named "comment_author_url" c = [] → v.AuthorUrl = "") ∧
      (xml.named "comment_author_ip" c = [] → v.AuthorIp = "") ∧
      (xml.named "comment_date" c = [] → v.DateString = "") ∧
      (xml.named "comment_date_gmt" c = [] → v.DateGmtString = "") ∧
      (xml.named "comment_content" c = [] → v.Content = "") ∧
      (xml.named "comment_approved" c = [] → v.Approved = false) ∧
      (xml.named "comment_type" c = [] → v.Type_ = "") ∧
      (xml.named "comment_parent" c = [] → v.Parent = 0) ∧
      (xml.named "comment_user_id" c = [] → v.UserId = 0) ∧
      (xml.named "comment_date" c = [] → (v.withDates env).Date = time.Time.zero) ∧
      (xml.named "comment_date_gmt" c = [] → (v.withDates env).DateGmt = time.Time.zero)) ∧
    (∀ (s : xml.StartElement) (c : List xml.Node) (e : Bool) (v : Wxr),
      xml.unmarshalStruct Wxr.typeInfo {} s c e = (v, true) →
      (xml.named "channel" c = [] → v.Channels = [])) := by
  refine ⟨?_, ?_, ?_, ?_, ?_, ?_, ?_, ?_, ?_⟩
  · intro s c e v h
    obtain ⟨f0, f1, f2, f3, f4, f5, f6, f7, f8, f9, f10, f11, f12⟩ := Channel_fold s c e v h
    exact ⟨fun h0 => by rw [f0, fold_zero _ _ _ _ h0],
      fun h0 => by rw [f1, fold_zero _ _ _ _ h0],
      fun h0 => by rw [f2, fold_zero _ _ _ _ h0],
      fun h0 => by rw [f3, fold_zero _ _ _ _ h0],
      fun h0 => by rw [f4, fold_zero _ _ _ _ h0],
      fun h0 => by rw [f5, fold_zero _ _ _ _ h0],
      fun h0 => by rw [f6, fold_zero _ _ _ _ h0],
      fun h0 => by rw [f7, fold_zero _ _ _ _ h0],
      fun h0 => by rw [f8, fold_zero _ _ _ _ h0],
      fun h0 => by rw [f9, fold_zero _ _ _ _ h0],
      fun h0 => by rw [f10, fold_zero _ _ _ _ h0],
      fun h0 => by rw [f11, fold_zero _ _ _ _ h0],
      fun h0 => by rw [f12, fold_zero _ _ _ _ h0],
      fun h0 => by
        have h1 : v.PubDateString = "" := by rw [f3, fold_zero _ _ _ _ h0]
        simp only [Channel.withDates, h1]
        rfl⟩
  · intro s c e v h
    obtain ⟨f0, f1, f2, f3, f4, f5⟩ := Author_fold s c e v h
    exact ⟨fun h0 => by rw [f0, fold_zero _ _ _ _ h0],
      fun h0 => by rw [f1, fold_zero _ _ _ _ h0],
      fun h0 => by rw [f2, fold_zero _ _ _ _ h0],
      fun h0 => by rw [f3, fold_zero _ _ _ _ h0],
      fun h0 => by rw [f4, fold_zero _ _ _ _ h0],
      fun h0 => by rw [f5, fold_zero _ _ _ _ h0]⟩
  · intro s c e v h
    obtain ⟨f0, f1, f2, f3⟩ := Category_fold s c e v h
    exact ⟨fun h0 => by rw [f0, fold_zero _ _ _ _ h0],
      fun h0 => by rw [f1, fold_zero _ _ _ _ h0],
      fun h0 => by rw [f2, fold_zero _ _ _ _ h0],
      fun h0 => by rw [f3, fold_zero _ _ _ _ h0]⟩
  · intro s c e v h
    obtain ⟨f0, f1, f2⟩ := Tag_fold s c e v h
    exact ⟨fun h0 => by rw [f0, fold_zero _ _ _ _ h0],
      fun h0 => by rw [f1, fold_zero _ _ _ _ h0],
      fun h0 => by rw [f2, fold_zero _ _ _ _ h0]⟩
  · intro s c e v h
    obtain ⟨f0, f1, f2, f3, f4, f5, f6, f7, f8, f9, f10, f11, f12, f13, f14, f15, f16, f17, f18, f19, f20, f21, f22, f23⟩ := Item_fold s c e v h
    exact ⟨fun h0 => by rw [f0, fold_zero _ _ _ _ h0],
      fun h0 => by rw [f1, fold_zero _ _ _ _ h0],
      fun h0 => by rw [f2, fold_zero _ _ _ _ h0],
      fun h0 => by rw [f3, fold_zero _ _ _ _ h0],
      fun h0 => by rw [f4, fold_zero _ _ _ _ h0],
      fun h0 => by rw [f5, fold_zero _ _ _ _ h0],
      fun h0 => by rw [f6, fold_zeroIn _ _ (by decide) _ _ _ h0],
      fun h0 => by rw [f7, fold_zeroIn _ _ (by decide) _ _ _ h0],
      fun h0 => by rw [f8, fold_zero _ _ _ _ h0],
      fun h0 => by rw [f9, fold_zero _ _ _ _ h0],
      fun h0 => by rw [f10, fold_zero _ _ _ _ h0],
      fun h0 => by rw [f11, fold_zero _ _ _ _ h0],
      fun h0 => by rw [f12, fold_zero _ _ _ _ h0],
      fun h0 => by rw [f13, fold_zero _ _ _ _ h0],
      fun h0 => by rw [f14, fold_zero _ _ _ _ h0],
      fun h0 => by rw [f15, fold_zero _ _ _ _ h0],
      fun h0 => by rw [f16, fold_zero _ _ _ _ h0],
      fun h0 => by rw [f17, fold_zero _ _ _ _ h0],
      fun h0 => by rw [f18, fold_zero _ _ _ _ h0],
      fun h0 => by rw [f19, fold_zero _ _ _ _ h0],
      fun h0 => by rw [f20, fold_zero _ _ _ _ h0],
      fun h0 => by rw [f21, fold_zero _ _ _ _ h0],
      fun h0 => by rw [f22, fold_zero _ _ _ _ h0],
      fun h0 => by rw [f23, fold_zero _ _ _ _ h0],
      fun h0 => by
        have h1 : v.PubDateString = "" := by rw [f2, fold_zero _ _ _ _ h0]
        simp only [Item.withDates, h1]
        rfl,
      fun h0 => by
        have h1 : v.PostDateString = "" := by rw [f9, fold_zero _ _ _ _ h0]
        simp only [Item.withDates, h1]
        rfl,
      fun h0 => by
        have h1 : v.PostDateGmtString = "" := by rw [f10, fold_zero _ _ _ _ h0]
        simp only [Item.withDates, h1]
        rfl⟩
  · intro s c e v h
    have h1 := ItemCategory_decoded s c e v h
    exact ⟨fun h0 => by rw [h1, h0]; rfl, fun h0 => by rw [h1, h0]; rfl,
      fun h0 => by rw [h1, h0]⟩
  · intro s c e v h
    obtain ⟨f0, f1⟩ := PostMeta_fold s c e v h
    exact ⟨fun h0 => by rw [f0, fold_zero _ _ _ _ h0],
      fun h0 => by rw [f1, fold_zero _ _ _ _ h0]⟩
  · intro s c e v h
    obtain ⟨f0, f1, f2, f3, f4, f5, f6, f7, f8, f9, f10, f11⟩ := Comment_fold s c e v h
    exact ⟨fun h0 => by rw [f0, fold_zero _ _ _ _ h0],
      fun h0 => by rw [f1, fold_zero _ _ _ _ h0],
      fun h0 => by rw [f2, fold_zero _ _ _ _ h0],
      fun h0 => by rw [f3, fold_zero _ _ _ _ h0],
      fun h0 => by rw [f4, fold_zero _ _ _ _ h0],
      fun h0 => by rw [f5, fold_zero _ _ _ _ h0],
      fun h0 => by rw [f6, fold_zero _ _ _ _ h0],
      fun h0 => by rw [f7, fold_zero _ _ _ _ h0],
      fun h0 => by rw [f8, fold_zero _ _ _ _ h0],
      fun h0 => by rw [f9, fold_zero _ _ _ _ h0],
      fun h0 => by rw [f10, fold_zero _ _ _ _ h0],
      fun h0 => by rw [f11, fold_zero _ _ _ _ h0],
      fun h0 => by
        have h1 : v.DateString = "" := by rw [f5, fold_zero _ _ _ _ h0]
        simp only [Comment.withDates, h1]
        rfl,
      fun h0 => by
        have h1 : v.DateGmtString = "" := by rw [f6, fold_zero _ _ _ _ h0]
        simp only [Comment.withDates, h1]
        rfl⟩
  · intro s c e v h
    obtain f0 := Wxr_fold s c e v h
    exact fun h0 => by rw [f0, fold_zero _ _ _ _ h0]

/-! ### Errors come from the children that are present -/

theorem field_ok_indep {σ τ : Type} (xmlns name : String)
    (value : xml.StartElement → List xml.Node → Bool → Option τ) (store : σ → τ → σ)
    (a b : σ) (s : xml.StartElement) (c : List xml.Node) (e : Bool) :
    ((xml.field xmlns name value store).unmarshal a s c e).2 =
      ((xml.field xmlns name value store).unmarshal b s c e).2 := by
  simp only [xml.field]
  cases value s c e <;> rfl

theorem unmarshalPath_ok_indep {σ : Type} :
    ∀ (fields : List (xml.FieldInfo σ)),
      (∀ f ∈ fields, ∀ a b s c e, (f.unmarshal a s c e).2 = (f.unmarshal b s c e).2) →
      ∀ (a b : σ) (s : xml.StartElement) (c : List xml.Node) (e : Bool),
        (xml.unmarshalPath fields a s c e).map (fun r => r.2) =
          (xml.unmarshalPath fields b s c e).map (fun r => r.2) := by
  intro fields
  induction fields with
  | nil => intro _ a b s c e; rfl
  | cons f fs ih =>
    intro h a b s c e
    have ih1 := ih (fun g hg => h g (List.mem_cons_of_mem _ hg)) a b s c e
    simp only [xml.unmarshalPath]
    split
    · exact ih1
    · split
      · simp [h f (List.mem_cons_self _ _) a b s c e]
      · exact ih1

/-- Whether a node is passed without error does not depend on the struct decoded into. -/
theorem passes_indep {σ : Type} (ti : xml.TypeInfo σ)
    (hind : ∀ f ∈ ti.fields, ∀ a b s c e, (f.unmarshal a s c e).2 = (f.unmarshal b s c e).2)
    (a b : σ) (n : xml.Node) : xml.passes ti a n = xml.passes ti b n := by
  cases n with
  | CharData t => rfl
  | Other => rfl
  | Element s c e =>
    have h := unmarshalPath_ok_indep ti.fields hind a b s c e
    simp only [xml.passes]
    cases ha : xml.unmarshalPath ti.fields a s c e with
    | none =>
      cases hb : xml.unmarshalPath ti.fields b s c e with
      | none => rfl
      | some rb => rw [ha, hb] at h; simp at h
    | some ra =>
      cases hb : xml.unmarshalPath ti.fields b s c e with
      | none => rw [ha, hb] at h; simp at h
      | some rb => rw [ha, hb] at h; simpa using h

/-- The struct loop ends without error exactly when it gets past every node of the
    content: an error comes from a child that is present, never from one that is
    absent. -/
theorem structLoop_ok {σ : Type} (ti : xml.TypeInfo σ) (sv0 : σ)
    (hind : ∀ f ∈ ti.fields, ∀ a b s c e, (f.unmarshal a s c e).2 = (f.unmarshal b s c e).2) :
    ∀ (content : List xml.Node) (sv : σ) (data : String),
      (xml.structLoop ti sv data content).2.2 = content.all (xml.passes ti sv0) := by
  intro content
  induction content with
  | nil => intro sv data; rfl
  | cons n ns ih =>
    intro sv data
    cases n with
    | CharData t => simpa [xml.structLoop, xml.passes] using ih sv (data ++ t)
    | Other => simpa [xml.structLoop, xml.passes] using ih sv data
    | Element s c e =>
      have hp := passes_indep ti hind sv sv0 (xml.Node.Element s c e)
      simp only [List.all_cons, ← hp]
      simp only [xml.structLoop, xml.passes]
      cases hu : xml.unmarshalPath ti.fields sv s c e with
      | none =>
        simp only []
        by_cases he : e = true
        · simp only [he, if_true, Bool.true_and]; exact ih sv data
        · simp [he]
      | some r =>
        obtain ⟨sv2, ok2⟩ := r
        simp only []
        by_cases hok : ok2 = true
        · simp only [hok, if_true, Bool.true_and]; exact ih sv2 data
        · simp [hok]

/-- Decoding an element into a struct reports no error exactly when the struct loop gets
    past every node of the content and the end tag of the element is delivered. -/
theorem unmarshalStruct_ok {σ : Type} (ti : xml.TypeInfo σ) (sv0 : σ)
    (hind : ∀ f ∈ ti.fields, ∀ a b s c e, (f.unmarshal a s c e).2 = (f.unmarshal b s c e).2)
    (sv : σ) (s : xml.StartElement) (c : List xml.Node) (e : Bool) :
    (xml.unmarshalStruct ti sv s c e).2 = (c.all (xml.passes ti sv0) && e) := by
  have h := structLoop_ok ti sv0 hind c (xml.assignAttrs ti.attrs sv s.Attr) ""
  unfold xml.unmarshalStruct
  cases hl : xml.structLoop ti (xml.assignAttrs ti.attrs sv s.Attr) "" c with
  | mk sv1 rest =>
    obtain ⟨data, ok⟩ := rest
    rw [hl] at h
    simp only at h
    rw [← h]
    simp only [hl]
    cases ok <;> cases e <;> cases ti.chardata <;> simp

theorem Author_ok_indep : ∀ f ∈ Author.typeInfo.fields, ∀ a b s c e,
    (f.unmarshal a s c e).2 = (f.unmarshal b s c e).2 := by
  simp only [Author.typeInfo, List.forall_mem_cons]
  refine ⟨?_, ?_, ?_, ?_, ?_, ?_, ?_⟩ <;> first
    | exact field_ok_indep _ _ _ _
    | (intro x hx; cases hx)

theorem Category_ok_indep : ∀ f ∈ Category.typeInfo.fields, ∀ a b s c e,
    (f.unmarshal a s c e).2 = (f.unmarshal b s c e).2 := by
  simp only [Category.typeInfo, List.forall_mem_cons]
  refine ⟨?_, ?_, ?_, ?_, ?_⟩ <;> first
    | exact field_ok_indep _ _ _ _
    | (intro x hx; cases hx)

theorem Tag_ok_indep : ∀ f ∈ Tag.typeInfo.fields, ∀ a b s c e,
    (f.unmarshal a s c e).2 = (f.unmarshal b s c e).2 := by
  simp only [Tag.typeInfo, List.forall_mem_cons]
  refine ⟨?_, ?_, ?_, ?_⟩ <;> first
    | exact field_ok_indep _ _ _ _
    | (intro x hx; cases hx)

theorem PostMeta_ok_indep : ∀ f ∈ PostMeta.typeInfo.fields, ∀ a b s c e,
    (f.unmarshal a s c e).2 = (f.unmarshal b s c e).2 := by
  simp only [PostMeta.typeInfo, List.forall_mem_cons]
  refine ⟨?_, ?_, ?_⟩ <;> first
    | exact field_ok_indep _ _ _ _
    | (intro x hx; cases hx)

theorem Comment_ok_indep : ∀ f ∈ Comment.typeInfo.fields, ∀ a b s c e,
    (f.unmarshal a s c e).2 = (f.unmarshal b s c e).2 := by
  simp only [Comment.typeInfo, List.forall_mem_cons]
  refine ⟨?_, ?_, ?_, ?_, ?_, ?_, ?_, ?_, ?_, ?_, ?_, ?_, ?_⟩ <;> first
    | exact field_ok_indep _ _ _ _
    | (intro x hx; cases hx)

theorem Item_ok_indep : ∀ f ∈ Item.typeInfo.fields, ∀ a b s c e,
    (f.unmarshal a s c e).2 = (f.unmarshal b s c e).2 := by
  simp only [Item.typeInfo, List.forall_mem_cons]
  refine ⟨?_, ?_, ?_, ?_, ?_, ?_, ?_, ?_, ?_, ?_, ?_, ?_, ?_, ?_, ?_, ?_, ?_, ?_, ?_, ?_, ?_, ?_, ?_, ?_, ?_⟩ <;> first
    | exact field_ok_indep _ _ _ _
    | (intro x hx; cases hx)

theorem Channel_ok_indep : ∀ f ∈ Channel.typeInfo.fields, ∀ a b s c e,
    (f.unmarshal a s c e).2 = (f.unmarshal b s c e).2 := by
  simp only [Channel.typeInfo, List.forall_mem_cons]
  refine ⟨?_, ?_, ?_, ?_, ?_, ?_, ?_, ?_, ?_, ?_, ?_, ?_, ?_, ?_⟩ <;> first
    | exact field_ok_indep _ _ _ _
    | (intro x hx; cases hx)

theorem Wxr_ok_indep : ∀ f ∈ Wxr.typeInfo.fields, ∀ a b s c e,
    (f.unmarshal a s c e).2 = (f.unmarshal b s c e).2 := by
  simp only [Wxr.typeInfo, List.forall_mem_cons]
  refine ⟨?_, ?_⟩ <;> first
    | exact field_ok_indep _ _ _ _
    | (intro x hx; cases hx)

theorem ItemCategory_ok_indep : ∀ f ∈ ItemCategory.typeInfo.fields, ∀ a b s c e,
    (f.unmarshal a s c e).2 = (f.unmarshal b s c e).2 := by
  intro f hf
  cases hf

/-! ### Fields without a source element -/

/-- Every entry of the `Authors` of a `Channel` decoded without error, at index `k`, is the
    `k`-th `author` child element, decoded without error. -/
theorem channel_author (s : xml.StartElement) (c : List xml.Node) (e : Bool)
    (v : Channel) (k : Nat) (x : Author)
    (h : xml.unmarshalStruct Channel.typeInfo {} s c e = (v, true))
    (hk : v.Authors[k]? = some x) :
    ∃ el, (xml.named "author" c)[k]? = some el ∧
      xml.unmarshalStruct Author.typeInfo {} el.start el.content el.ended = (x, true) := by
  have h5 := (Channel_fold _ _ _ _ h).2.2.2.2.2.2.2.2.2.1
  have h6 := (Channel_elems_ok _ _ _ _ h).1
  rw [fold_map] at h5
  rw [filter_bindsTo_named] at h6
  simp only [h5, List.getElem?_map, Option.map_eq_some'] at hk
  obtain ⟨el, hel, rfl⟩ := hk
  exact ⟨el, hel, Prod.ext rfl (h6 el (List.getElem?_mem hel))⟩

/-- Every entry of the `Categories` of a `Channel` decoded without error, at index `k`, is the
    `k`-th `category` child element, decoded without error. -/
theorem channel_category (s : xml.StartElement) (c : List xml.Node) (e : Bool)
    (v : Channel) (k : Nat) (x : Category)
    (h : xml.unmarshalStruct Channel.typeInfo {} s c e = (v, true))
    (hk : v.Categories[k]? = some x) :
    ∃ el, (xml.named "category" c)[k]? = some el ∧
      xml.unmarshalStruct Category.typeInfo {} el.start el.content el.ended = (x, true) := by
  have h5 := (Channel_fold _ _ _ _ h).2.2.2.2.2.2.2.2.2.2.1
  have h6 := (Channel_elems_ok _ _ _ _ h).2.1
  rw [fold_map] at h5
  rw [filter_bindsTo_named] at h6
  simp only [h5, List.getElem?_map, Option.map_eq_some'] at hk
  obtain ⟨el, hel, rfl⟩ := hk
  exact ⟨el, hel, Prod.ext rfl (h6 el (List.getElem?_mem hel))⟩

/-- Every entry of the `Tags` of a `Channel` decoded without error, at index `k`, is the
    `k`-th `tag` child element, decoded without error. -/
theorem channel_tag (s : xml.StartElement) (c : List xml.Node) (e : Bool)
    (v : Channel) (k : Nat) (x : Tag)
    (h : xml.unmarshalStruct Channel.typeInfo {} s c e = (v, true))
    (hk : v.Tags[k]? = some x) :
    ∃ el, (xml.named "tag" c)[k]? = some el ∧
      xml.unmarshalStruct Tag.typeInfo {} el.start el.content el.ended = (x, true) := by
  have h5 := (Channel_fold _ _ _ _ h).2.2.2.2.2.2.2.2.2.2.2.1
  have h6 := (Channel_elems_ok _ _ _ _ h).2.2.1
  rw [fold_map] at h5
  rw [filter_bindsTo_named] at h6
  simp only [h5, List.getElem?_map, Option.map_eq_some'] at hk
  obtain ⟨el, hel, rfl⟩ := hk
  exact ⟨el, hel, Prod.ext rfl (h6 el (List.getElem?_mem hel))⟩

/-- Every entry of the `Categories` of an `Item` decoded without error, at index `k`, is the
    `k`-th `category` child element, decoded without error. -/
theorem item_itemCategory (s : xml.StartElement) (c : List xml.Node) (e : Bool)
    (v : Item) (k : Nat) (x : ItemCategory)
    (h : xml.unmarshalStruct Item.typeInfo {} s c e = (v, true))
    (hk : v.Categories[k]? = some x) :
    ∃ el, (xml.named "category" c)[k]? = some el ∧
      xml.unmarshalStruct ItemCategory.typeInfo {} el.start el.content el.ended = (x, true) := by
  have h5 := (Item_fold _ _ _ _ h).2.2.2.2.2.2.2.2.2.2.2.2.2.2.2.2.2.2.2.2.2.1
  have h6 := (Item_elems_ok _ _ _ _ h).1
  rw [fold_map] at h5
  rw [filter_bindsTo_named] at h6
  simp only [h5, List.getElem?_map, Option.map_eq_some'] at hk
  obtain ⟨el, hel, rfl⟩ := hk
  exact ⟨el, hel, Prod.ext rfl (h6 el (List.getElem?_mem hel))⟩

/-- Every entry of the `PostMetas` of an `Item` decoded without error, at index `k`, is the
    `k`-th `postmeta` child element, decoded without error. -/
theorem item_postMeta (s : xml.StartElement) (c : List xml.Node) (e : Bool)
    (v : Item) (k : Nat) (x : PostMeta)
    (h : xml.unmarshalStruct Item.typeInfo {} s c e = (v, true))
    (hk : v.PostMetas[k]? = some x) :
    ∃ el, (xml.named "postmeta" c)[k]? = some el ∧
      xml.unmarshalStruct PostMeta.typeInfo {} el.start el.content el.ended = (x, true) := by
  have h5 := (Item_fold _ _ _ _ h).2.2.2.2.2.2.2.2.2.2.2.2.2.2.2.2.2.2.2.2.2.2.1
  have h6 := (Item_elems_ok _ _ _ _ h).2.1
  rw [fold_map] at h5
  rw [filter_bindsTo_named] at h6
  simp only [h5, List.getElem?_map, Option.map_eq_some'] at hk
  obtain ⟨el, hel, rfl⟩ := hk
  exact ⟨el, hel, Prod.ext rfl (h6 el (List.getElem?_mem hel))⟩

/-- Every entry of the `Items` of a `Channel` decoded without error, at index `k`, is the
    `k`-th `item` child element, decoded without error. -/
theorem channel_item (s : xml.StartElement) (c : List xml.Node) (e : Bool)
    (v : Channel) (k : Nat) (x : Item)
    (h : xml.unmarshalStruct Channel.typeInfo {} s c e = (v, true))
    (hk : v.Items[k]? = some x) :
    ∃ el, (xml.named "item" c)[k]? = some el ∧
      xml.unmarshalStruct Item.typeInfo {} el.start el.content el.ended = (x, true) := by
  have h5 := (Channel_fold _ _ _ _ h).2.2.2.2.2.2.2.2.2.2.2.2
  have h6 := (Channel_elems_ok _ _ _ _ h).2.2.2
  rw [fold_map] at h5
  rw [filter_bindsTo_named] at h6
  simp only [h5, List.getElem?_map, Option.map_eq_some'] at hk
  obtain ⟨el, hel, rfl⟩ := hk
  exact ⟨el, hel, Prod.ext rfl (h6 el (List.getElem?_mem hel))⟩

/-- Every entry of the `Comments` of an `Item` decoded without error, at index `k`, is the
    `k`-th `comment` child element, decoded without error. -/
theorem item_comment_decoded (s : xml.StartElement) (c : List xml.Node) (e : Bool)
    (v : Item) (k : Nat) (x : Comment)
    (h : xml.unmarshalStruct Item.typeInfo {} s c e = (v, true))
    (hk : v.Comments[k]? = some x) :
    ∃ el, (xml.named "comment" c)[k]? = some el ∧
      xml.unmarshalStruct Comment.typeInfo {} el.start el.content el.ended = (x, true) := by
  have h5 := (Item_fold _ _ _ _ h).2.2.2.2.2.2.2.2.2.2.2.2.2.2.2.2.2.2.2.2.2.2.2
  have h6 := (Item_elems_ok _ _ _ _ h).2.2
  rw [fold_map] at h5
  rw [filter_bindsTo_named] at h6
  simp only [h5, List.getElem?_map, Option.map_eq_some'] at hk
  obtain ⟨el, hel, rfl⟩ := hk
  exact ⟨el, hel, Prod.ext rfl (h6 el (List.getElem?_mem hel))⟩

/-- An element without content and without attributes that is complete decodes, into each
    struct type, to the zero value without error. -/
theorem unmarshalStruct_empty {σ : Type} (ti : xml.TypeInfo σ) (hattrs : ti.attrs = [])
    (hchar : ti.chardata = none) (sv : σ) (s : xml.StartElement) :
    xml.unmarshalStruct ti sv s [] true = (sv, true) := by
  unfold xml.unmarshalStruct
  rw [hattrs, assignAttrs_nil]
  simp [xml.structLoop, hchar]

/-- C8: `ParseWxr` returns a result for every input, without an error, and every entity of
    the result (every channel, and every author, category, tag and item of a channel, and
    every item category, post meta entry and comment of an item) is decoded, without
    error, from the element at the same position of the document; each of its fields to
    which no child element of that element is bound (for an `ItemCategory`: no attribute,
    no character data) holds the zero value of its type: the empty string, 0, `false`, the
    empty collection, and the zero time for a timestamp whose date element is absent.
    Decoding an element reports an error only for a child that is present (one that is
    consumed with an error, or left open) or for a missing end tag: a child that is absent
    raises none, and an element without any content decodes to the zero value without
    error. In the result for the document `bareDoc`, whose entities have no fields at
    all, every entity is the zero value. -/
theorem C8_unbound_fields_are_zero (env : Env) (data : List UInt8) :
    (∃ r : Wxr, ParseWxr env data = some r ∧
      ∀ (n : Nat) (c : Channel), r.Channels[n]? = some c →
        ∃ rootEl chEl, xml.root (xml.tokens env.lex data) = some rootEl ∧
          (xml.named "channel" rootEl.content)[n]? = some chEl ∧
          (xml.unmarshalStruct Channel.typeInfo {} chEl.start chEl.content chEl.ended).2 =
            true ∧
          Channel.zeroWhereUnbound chEl.content c ∧
          (∀ (k : Nat) (x : Author), c.Authors[k]? = some x →
            ∃ el, (xml.named "author" chEl.content)[k]? = some el ∧
              (xml.unmarshalStruct Author.typeInfo {} el.start el.content el.ended).2 = true ∧
              Author.zeroWhereUnbound el.content x) ∧
          (∀ (k : Nat) (x : Category), c.Categories[k]? = some x →
            ∃ el, (xml.named "category" chEl.content)[k]? = some el ∧
              (xml.unmarshalStruct Category.typeInfo {} el.start el.content el.ended).2 = true ∧
              Category.zeroWhereUnbound el.content x) ∧
          (∀ (k : Nat) (x : Tag), c.Tags[k]? = some x →
            ∃ el, (xml.named "tag" chEl.content)[k]? = some el ∧
              (xml.unmarshalStruct Tag.typeInfo {} el.start el.content el.ended).2 = true ∧
              Tag.zeroWhereUnbound el.content x) ∧
          (∀ (m : Nat) (i : Item), c.Items[m]? = some i →
            ∃ itEl, (xml.named "item" chEl.content)[m]? = some itEl ∧
              (xml.unmarshalStruct Item.typeInfo {} itEl.start itEl.content itEl.ended).2 =
                true ∧
              Item.zeroWhereUnbound itEl.content i ∧
              (∀ (k : Nat) (x : ItemCategory), i.Categories[k]? = some x →
                ∃ el, (xml.named "category" itEl.content)[k]? = some el ∧
                  (xml.unmarshalStruct ItemCategory.typeInfo {} el.start el.content el.ended).2 = true ∧
                  ItemCategory.zeroWhereUnbound el.start el.content x) ∧
              (∀ (k : Nat) (x : PostMeta), i.PostMetas[k]? = some x →
                ∃ el, (xml.named "postmeta" itEl.content)[k]? = some el ∧
                  (xml.unmarshalStruct PostMeta.typeInfo {} el.start el.content el.ended).2 = true ∧
                  PostMeta.zeroWhereUnbound el.content x) ∧
              (∀ (k : Nat) (x : Comment), i.Comments[k]? = some x →
                ∃ el, (xml.named "comment" itEl.content)[k]? = some el ∧
                  (xml.unmarshalStruct Comment.typeInfo {} el.start el.content el.ended).2 = true ∧
                  Comment.zeroWhereUnbound el.content x))) ∧
    (∀ (s : xml.StartElement) (c : List xml.Node) (e : Bool),
      (xml.unmarshalStruct Channel.typeInfo {} s c e).2 =
        (c.all (xml.passes Channel.typeInfo {}) && e)) ∧
    (∀ (s : xml.StartElement) (c : List xml.Node) (e : Bool),
      (xml.unmarshalStruct Author.typeInfo {} s c e).2 =
        (c.all (xml.passes Author.typeInfo {}) && e)) ∧
    (∀ (s : xml.StartElement) (c : List xml.Node) (e : Bool),
      (xml.unmarshalStruct Category.typeInfo {} s c e).2 =
        (c.all (xml.passes Category.typeInfo {}) && e)) ∧
    (∀ (s : xml.StartElement) (c : List xml.Node) (e : Bool),
      (xml.unmarshalStruct Tag.typeInfo {} s c e).2 =
        (c.all (xml.passes Tag.typeInfo {}) && e)) ∧
    (∀ (s : xml.StartElement) (c : List xml.Node) (e : Bool),
      (xml.unmarshalStruct Item.typeInfo {} s c e).2 =
        (c.all (xml.passes Item.typeInfo {}) && e)) ∧
    (∀ (s : xml.StartElement) (c : List xml.Node) (e : Bool),
      (xml.unmarshalStruct ItemCategory.typeInfo {} s c e).2 =
        (c.all (xml.passes ItemCategory.typeInfo {}) && e)) ∧
    (∀ (s : xml.StartElement) (c : List xml.Node) (e : Bool),
      (xml.unmarshalStruct PostMeta.typeInfo {} s c e).2 =
        (c.all (xml.passes PostMeta.typeInfo {}) && e)) ∧
    (∀ (s : xml.StartElement) (c : List xml.Node) (e : Bool),
      (xml.unmarshalStruct Comment.typeInfo {} s c e).2 =
        (c.all (xml.passes Comment.typeInfo {}) && e)) ∧
    (∀ (s : xml.StartElement) (c : List xml.Node) (e : Bool),
      (xml.unmarshalStruct Wxr.typeInfo {} s c e).2 =
        (c.all (xml.passes Wxr.typeInfo {}) && e)) ∧
    (∀ s : xml.StartElement, xml.unmarshalStruct Channel.typeInfo {} s [] true = ({}, true)) ∧
    (∀ s : xml.StartElement, xml.unmarshalStruct Author.typeInfo {} s [] true = ({}, true)) ∧
    (∀ s : xml.StartElement, xml.unmarshalStruct Category.typeInfo {} s [] true = ({}, true)) ∧
    (∀ s : xml.StartElement, xml.unmarshalStruct Tag.typeInfo {} s [] true = ({}, true)) ∧
    (∀ s : xml.StartElement, xml.unmarshalStruct Item.typeInfo {} s [] true = ({}, true)) ∧
    (∀ s : xml.StartElement, s.Attr = [] →
      xml.unmarshalStruct ItemCategory.typeInfo {} s [] true = ({}, true)) ∧
    (∀ s : xml.StartElement, xml.unmarshalStruct PostMeta.typeInfo {} s [] true = ({}, true)) ∧
    (∀ s : xml.StartElement, xml.unmarshalStruct Comment.typeInfo {} s [] true = ({}, true)) ∧
    (∀ s : xml.StartElement, xml.unmarshalStruct Wxr.typeInfo {} s [] true = ({}, true)) ∧
    (xml.Unmarshal (xml.tokens bareEnv.lex [60]) {}).2 = true ∧
    ParseWxr bareEnv [60] = some
      { Channels :=
          [{ Authors := [{}], Categories := [{}], Tags := [{}],
             Items := [{ Categories := [{}], PostMetas := [{}], Comments := [{}] }] }] } := by
  have Z := decoded_unbound_fields_are_zero env
  refine ⟨⟨_, ParseWxr_eq env data, ?_⟩,
    fun s c e => unmarshalStruct_ok Channel.typeInfo {} Channel_ok_indep {} s c e,
    fun s c e => unmarshalStruct_ok Author.typeInfo {} Author_ok_indep {} s c e,
    fun s c e => unmarshalStruct_ok Category.typeInfo {} Category_ok_indep {} s c e,
    fun s c e => unmarshalStruct_ok Tag.typeInfo {} Tag_ok_indep {} s c e,
    fun s c e => unmarshalStruct_ok Item.typeInfo {} Item_ok_indep {} s c e,
    fun s c e => unmarshalStruct_ok ItemCategory.typeInfo {} ItemCategory_ok_indep {} s c e,
    fun s c e => unmarshalStruct_ok PostMeta.typeInfo {} PostMeta_ok_indep {} s c e,
    fun s c e => unmarshalStruct_ok Comment.typeInfo {} Comment_ok_indep {} s c e,
    fun s c e => unmarshalStruct_ok Wxr.typeInfo {} Wxr_ok_indep {} s c e,
    fun s => unmarshalStruct_empty Channel.typeInfo rfl rfl {} s,
    fun s => unmarshalStruct_empty Author.typeInfo rfl rfl {} s,
    fun s => unmarshalStruct_empty Category.typeInfo rfl rfl {} s,
    fun s => unmarshalStruct_empty Tag.typeInfo rfl rfl {} s,
    fun s => unmarshalStruct_empty Item.typeInfo rfl rfl {} s,
    ?_,
    fun s => unmarshalStruct_empty PostMeta.typeInfo rfl rfl {} s,
    fun s => unmarshalStruct_empty Comment.typeInfo rfl rfl {} s,
    fun s => unmarshalStruct_empty Wxr.typeInfo rfl rfl {} s,
    by decide, by decide⟩
  · intro n c hc
    obtain ⟨rootEl, chEl, c0, h1, h2, h3, rfl⟩ := result_channel env data n c hc
    have hz : Channel.zeroWhereUnbound chEl.content (c0.withDates env) := by
      obtain ⟨z0, z1, z2, z3, z4, z5, z6, z7, z8, z9, z10, z11, z12, z13⟩ :=
        Z.1 _ _ _ _ h3
      unfold Channel.zeroWhereUnbound
      exact ⟨z0, z1, z2, z3, z4, z5, z6, z7, z8, z9, z10, z11,
        fun h => by simp [Channel.withDates, z12 h], z13⟩
    refine ⟨rootEl, chEl, h1, h2, by rw [h3], hz, ?_, ?_, ?_, ?_⟩
    · intro k x hk
      obtain ⟨el, g1, g2⟩ := channel_author _ _ _ c0 k x h3 hk
      refine ⟨el, g1, by rw [g2], ?_⟩
      unfold Author.zeroWhereUnbound
      exact Z.2.1 _ _ _ _ g2
    · intro k x hk
      obtain ⟨el, g1, g2⟩ := channel_category _ _ _ c0 k x h3 hk
      refine ⟨el, g1, by rw [g2], ?_⟩
      unfold Category.zeroWhereUnbound
      exact Z.2.2.1 _ _ _ _ g2
    · intro k x hk
      obtain ⟨el, g1, g2⟩ := channel_tag _ _ _ c0 k x h3 hk
      refine ⟨el, g1, by rw [g2], ?_⟩
      unfold Tag.zeroWhereUnbound
      exact Z.2.2.2.1 _ _ _ _ g2
    · intro m i hi
      simp only [Channel.withDates, List.getElem?_map, Option.map_eq_some'] at hi
      obtain ⟨i0, hi0, rfl⟩ := hi
      obtain ⟨itEl, g1, g2⟩ := channel_item _ _ _ c0 m i0 h3 hi0
      have hzi : Item.zeroWhereUnbound itEl.content (i0.withDates env) := by
        obtain ⟨z0, z1, z2, z3, z4, z5, z6, z7, z8, z9, z10, z11, z12, z13, z14, z15, z16,
          z17, z18, z19, z20, z21, z22, z23, z24, z25, z26⟩ := Z.2.2.2.2.1 _ _ _ _ g2
        unfold Item.zeroWhereUnbound
        exact ⟨z0, z1, z2, z3, z4, z5, z6, z7, z8, z9, z10, z11, z12, z13, z14, z15, z16,
          z17, z18, z19, z20, z21, z22, fun h => by simp [Item.withDates, z23 h], z24, z25,
          z26⟩
      refine ⟨itEl, g1, by rw [g2], hzi, ?_, ?_, ?_⟩
      · intro k x hk
        obtain ⟨el, q1, q2⟩ := item_itemCategory _ _ _ i0 k x g2 hk
        refine ⟨el, q1, by rw [q2], ?_⟩
        unfold ItemCategory.zeroWhereUnbound
        exact Z.2.2.2.2.2.1 _ _ _ _ q2
      · intro k x hk
        obtain ⟨el, q1, q2⟩ := item_postMeta _ _ _ i0 k x g2 hk
        refine ⟨el, q1, by rw [q2], ?_⟩
        unfold PostMeta.zeroWhereUnbound
        exact Z.2.2.2.2.2.2.1 _ _ _ _ q2
      · intro k x hk
        simp only [Item.withDates, List.getElem?_map, Option.map_eq_some'] at hk
        obtain ⟨k0, hk0, rfl⟩ := hk
        obtain ⟨el, q1, q2⟩ := item_comment_decoded _ _ _ i0 k k0 g2 hk0
        refine ⟨el, q1, by rw [q2], ?_⟩
        obtain ⟨z0, z1, z2, z3, z4, z5, z6, z7, z8, z9, z10, z11, z12, z13⟩ :=
          Z.2.2.2.2.2.2.2.1 _ _ _ _ q2
        unfold Comment.zeroWhereUnbound
        exact ⟨z0, z1, z2, z3, z4, z5, z6, z7, z8, z9, z10, z11, z12, z13⟩
  · intro s hs
    unfold xml.unmarshalStruct
    rw [hs]
    rfl

/-! ### Decoding errors -/

/-- The struct loop over `a ++ b` is the loop over `a`, continued over `b` when it ended
    without error. -/
theorem structLoop_append {σ : Type} (ti : xml.TypeInfo σ) :
    ∀ (a b : List xml.Node) (sv : σ) (data : String),
      xml.structLoop ti sv data (a ++ b) =
        if (xml.structLoop ti sv data a).2.2 = true then
          xml.structLoop ti (xml.structLoop ti sv data a).1 (xml.structLoop ti sv data a).2.1 b
        else xml.structLoop ti sv data a := by
  intro a
  induction a with
  | nil => intro b sv data; simp [xml.structLoop]
  | cons n ns ih =>
    intro b sv data
    cases n with
    | CharData t => simpa [xml.structLoop] using ih b sv (data ++ t)
    | Other => simpa [xml.structLoop] using ih b sv data
    | Element s c e =>
      simp only [List.cons_append, xml.structLoop]
      cases hp : xml.unmarshalPath ti.fields sv s c e with
      | none =>
        simp only []
        by_cases he : e = true
        · simp only [he, if_true]; exact ih b sv data
        · simp [he]
      | some r =>
        obtain ⟨sv2, ok2⟩ := r
        simp only []
        by_cases hok : ok2 = true
        · simp only [hok, if_true]; exact ih b sv2 data
        · simp [hok]

/-- An element that some field binds and that every binding field fails on makes
    `unmarshalPath` fail. -/
theorem unmarshalPath_all {σ : Type} (fields : List (xml.FieldInfo σ)) (P : σ × Bool → Prop)
    (sv : σ) (s : xml.StartElement) (c : List xml.Node) (e : Bool)
    (hex : ∃ f ∈ fields, f.binds s)
    (hall : ∀ g ∈ fields, g.binds s → P (g.unmarshal sv s c e)) :
    ∃ r, xml.unmarshalPath fields sv s c e = some r ∧ P r := by
  cases hp : xml.unmarshalPath fields sv s c e with
  | none =>
    obtain ⟨f, hf, hb⟩ := hex
    exact absurd hb (unmarshalPath_none _ _ _ _ _ hp f hf)
  | some r =>
    obtain ⟨g, hg, hb, rfl⟩ := unmarshalPath_some _ _ _ _ _ _ hp
    exact ⟨_, rfl, hall g hg hb⟩

/-- A struct loop that meets a child element on which `unmarshalPath` fails in every state
    ends with an error. -/
theorem structLoop_fail_mem {σ : Type} (ti : xml.TypeInfo σ) (s : xml.StartElement)
    (c : List xml.Node) (e : Bool)
    (hbad : ∀ sv, ∃ r, xml.unmarshalPath ti.fields sv s c e = some r ∧ r.2 = false) :
    ∀ (content : List xml.Node) (sv : σ) (data : String),
      xml.Node.Element s c e ∈ content → (xml.structLoop ti sv data content).2.2 = false := by
  intro content
  induction content with
  | nil => intro sv data h; simp at h
  | cons n ns ih =>
    intro sv data h
    have hmem : n = xml.Node.Element s c e ∨ xml.Node.Element s c e ∈ ns := by
      rcases List.mem_cons.mp h with h1 | h1
      · exact Or.inl h1.symm
      · exact Or.inr h1
    cases n with
    | CharData t =>
      rcases hmem with h1 | h1
      · cases h1
      · exact ih _ _ h1
    | Other =>
      rcases hmem with h1 | h1
      · cases h1
      · exact ih _ _ h1
    | Element s1 c1 e1 =>
      simp only [xml.structLoop]
      rcases hmem with h1 | h1
      · cases h1
        obtain ⟨r, hr, hr2⟩ := hbad sv
        obtain ⟨sv2, ok2⟩ := r
        simp only at hr2
        subst hr2
        simp [hr]
      · cases hp : xml.unmarshalPath ti.fields sv s1 c1 e1 with
        | none =>
          simp only []
          by_cases he : e1 = true
          · simp only [he, if_true]; exact ih _ _ h1
          · simp [he]
        | some r =>
          obtain ⟨sv2, ok2⟩ := r
          simp only []
          by_cases hok : ok2 = true
          · simp only [hok, if_true]; exact ih _ _ h1
          · simp [hok]

theorem unmarshalStruct_fail {σ : Type} (ti : xml.TypeInfo σ) (sv : σ) (s : xml.StartElement)
    (c : List xml.Node) (e : Bool)
    (h : (xml.structLoop ti (xml.assignAttrs ti.attrs sv s.Attr) "" c).2.2 = false) :
    (xml.unmarshalStruct ti sv s c e).2 = false := by
  unfold xml.unmarshalStruct
  simp only [h]
  simp

theorem field_none {σ τ : Type} (xmlns name : String)
    (value : xml.StartElement → List xml.Node → Bool → Option τ) (store : σ → τ → σ) (sv : σ)
    (s : xml.StartElement) (c : List xml.Node) (e : Bool) (h : value s c e = none) :
    ((xml.field xmlns name value store).unmarshal sv s c e).2 = false := by
  simp [xml.field, h]

theorem int32Value_none (s : xml.StartElement) (c : List xml.Node) (e : Bool)
    (h : xml.copyInt32 (xml.text c) = none) : xml.int32Value s c e = none := by
  unfold xml.int32Value
  cases hl : xml.leafData c e with
  | none => rfl
  | some d => rw [leafData_eq c e d hl]; exact h

theorem boolValue_none (s : xml.StartElement) (c : List xml.Node) (e : Bool)
    (h : xml.copyBool (xml.text c) = none) : xml.boolValue s c e = none := by
  unfold xml.boolValue
  cases hl : xml.leafData c e with
  | none => rfl
  | some d => rw [leafData_eq c e d hl]; exact h

theorem elemValue_none {τ : Type} (zero : τ)
    (elem : τ → xml.StartElement → List xml.Node → Bool → τ × Bool)
    (s : xml.StartElement) (c : List xml.Node) (e : Bool) (h : (elem zero s c e).2 = false) :
    xml.elemValue zero elem s c e = none := by
  simp [xml.elemValue, h]

theorem bindsTo_of_local (nm : String) (s : xml.StartElement) (h : s.Name.Local = nm) :
    xml.bindsTo "" nm s = true := by
  simp [xml.bindsTo, h]

/-- An `item` element with a `post_id` child whose text does not coerce to an `int32`
    fails to decode. -/
theorem Item_fails_of_post_id (s : xml.StartElement) (c : List xml.Node) (e : Bool)
    (ps : xml.StartElement) (pc : List xml.Node) (pe : Bool)
    (hmem : xml.Node.Element ps pc pe ∈ c) (hname : ps.Name.Local = "post_id")
    (hbad : xml.copyInt32 (xml.text pc) = none) :
    (xml.unmarshalStruct Item.typeInfo {} s c e).2 = false := by
  have hb := bindsTo_of_local "post_id" ps hname
  have hv := int32Value_none ps pc pe hbad
  refine unmarshalStruct_fail _ _ _ _ _ (structLoop_fail_mem _ ps pc pe ?_ c _ "" hmem)
  intro sv
  refine unmarshalPath_all _ _ sv ps pc pe (bindsTo_exists _ _ _ (by decide) ps hb) ?_
  simp only [Item.typeInfo, List.forall_mem_cons]
  refine ⟨?_, ?_, ?_, ?_, ?_, ?_, ?_, ?_, ?_, ?_, ?_, ?_, ?_, ?_, ?_, ?_, ?_, ?_, ?_, ?_, ?_,
    ?_, ?_, ?_, ?_⟩ <;> first
    | exact fun hbind => (other_not_bound _ _ _ _ _ _ (by decide) ps hbind hb).elim
    | exact fun _ => field_none _ _ _ _ sv ps pc pe hv
    | (intro x hx; cases hx)

/-- A `comment` element with a `comment_approved` child whose text does not coerce to a
    `bool` fails to decode. -/
theorem Comment_fails_of_approved (s : xml.StartElement) (c : List xml.Node) (e : Bool)
    (ps : xml.StartElement) (pc : List xml.Node) (pe : Bool)
    (hmem : xml.Node.Element ps pc pe ∈ c) (hname : ps.Name.Local = "comment_approved")
    (hbad : xml.copyBool (xml.text pc) = none) :
    (xml.unmarshalStruct Comment.typeInfo {} s c e).2 = false := by
  have hb := bindsTo_of_local "comment_approved" ps hname
  have hv := boolValue_none ps pc pe hbad
  refine unmarshalStruct_fail _ _ _ _ _ (structLoop_fail_mem _ ps pc pe ?_ c _ "" hmem)
  intro sv
  refine unmarshalPath_all _ _ sv ps pc pe (bindsTo_exists _ _ _ (by decide) ps hb) ?_
  simp only [Comment.typeInfo, List.forall_mem_cons]
  refine ⟨?_, ?_, ?_, ?_, ?_, ?_, ?_, ?_, ?_, ?_, ?_, ?_, ?_⟩ <;> first
    | exact fun hbind => (other_not_bound _ _ _ _ _ _ (by decide) ps hbind hb).elim
    | exact fun _ => field_none _ _ _ _ sv ps pc pe hv
    | (intro x hx; cases hx)

/-- An `item` element with a `comment` child that fails to decode fails to decode. -/
theorem Item_fails_of_comment (s : xml.StartElement) (c : List xml.Node) (e : Bool)
    (ps : xml.StartElement) (pc : List xml.Node) (pe : Bool)
    (hmem : xml.Node.Element ps pc pe ∈ c) (hname : ps.Name.Local = "comment")
    (hbad : (xml.unmarshalStruct Comment.typeInfo {} ps pc pe).2 = false) :
    (xml.unmarshalStruct Item.typeInfo {} s c e).2 = false := by
  have hb := bindsTo_of_local "comment" ps hname
  have hv := elemValue_none {} (xml.unmarshalStruct Comment.typeInfo) ps pc pe hbad
  refine unmarshalStruct_fail _ _ _ _ _ (structLoop_fail_mem _ ps pc pe ?_ c _ "" hmem)
  intro sv
  refine unmarshalPath_all _ _ sv ps pc pe (bindsTo_exists _ _ _ (by decide) ps hb) ?_
  simp only [Item.typeInfo, List.forall_mem_cons]
  refine ⟨?_, ?_, ?_, ?_, ?_, ?_, ?_, ?_, ?_, ?_, ?_, ?_, ?_, ?_, ?_, ?_, ?_, ?_, ?_, ?_, ?_,
    ?_, ?_, ?_, ?_⟩ <;> first
    | exact fun hbind => (other_not_bound _ _ _ _ _ _ (by decide) ps hbind hb).elim
    | exact fun _ => field_none _ _ _ _ sv ps pc pe hv
    | (intro x hx; cases hx)

/-- A `channel` element with an `item` child that fails to decode fails to decode. -/
theorem Channel_fails_of_item (s : xml.StartElement) (c : List xml.Node) (e : Bool)
    (ps : xml.StartElement) (pc : List xml.Node) (pe : Bool)
    (hmem : xml.Node.Element ps pc pe ∈ c) (hname : ps.Name.Local = "item")
    (hbad : (xml.unmarshalStruct Item.typeInfo {} ps pc pe).2 = false) :
    (xml.unmarshalStruct Channel.typeInfo {} s c e).2 = false := by
  have hb := bindsTo_of_local "item" ps hname
  have hv := elemValue_none {} (xml.unmarshalStruct Item.typeInfo) ps pc pe hbad
  refine unmarshalStruct_fail _ _ _ _ _ (structLoop_fail_mem _ ps pc pe ?_ c _ "" hmem)
  intro sv
  refine unmarshalPath_all _ _ sv ps pc pe (bindsTo_exists _ _ _ (by decide) ps hb) ?_
  simp only [Channel.typeInfo, List.forall_mem_cons]
  refine ⟨?_, ?_, ?_, ?_, ?_, ?_, ?_, ?_, ?_, ?_, ?_, ?_, ?_, ?_⟩ <;> first
    | exact fun hbind => (other_not_bound _ _ _ _ _ _ (by decide) ps hbind hb).elim
    | exact fun _ => field_none _ _ _ _ sv ps pc pe hv
    | (intro x hx; cases hx)

/-- `unmarshalStruct` for the root struct `Wxr` in terms of its struct loop. -/
theorem unmarshalStruct_Wxr (sv : Wxr) (s : xml.StartElement) (c : List xml.Node) (e : Bool) :
    xml.unmarshalStruct Wxr.typeInfo sv s c e =
      ((xml.structLoop Wxr.typeInfo sv "" c).1,
       (xml.structLoop Wxr.typeInfo sv "" c).2.2 && e) := by
  unfold xml.unmarshalStruct
  have h : xml.assignAttrs Wxr.typeInfo.attrs sv s.Attr = sv := assignAttrs_nil _ _
  rw [h]
  have hc : Wxr.typeInfo.chardata = none := rfl
  simp only [hc]
  cases hl : xml.structLoop Wxr.typeInfo sv "" c with
  | mk sv1 rest =>
    obtain ⟨data, ok⟩ := rest
    cases ok <;> cases e <;> simp

/-- The struct loop of the root struct stops with an error at a `channel` element that
    fails to decode, leaving the struct as it was. -/
theorem structLoop_Wxr_fail (sv : Wxr) (data : String) (es : xml.StartElement)
    (ec : List xml.Node) (ee : Bool) (post : List xml.Node)
    (hname : es.Name.Local = "channel")
    (hfail : (xml.unmarshalStruct Channel.typeInfo {} es ec ee).2 = false) :
    xml.structLoop Wxr.typeInfo sv data (xml.Node.Element es ec ee :: post) =
      (sv, data, false) := by
  have hv := elemValue_none {} (xml.unmarshalStruct Channel.typeInfo) es ec ee hfail
  simp [xml.structLoop, Wxr.typeInfo, xml.unmarshalPath, xml.sliceField, xml.field, hname, hv]

/-- A coercion error cuts the result off: when the root element of one input holds the
    content `pre` followed by a `channel` element that fails to decode, and another input
    with the same content `pre` at the start of its root element is decoded without error,
    then the first decoded structure holds exactly the channels of `pre`, which are the
    first channels of the second. -/
theorem decoded_truncated (env : Env) (dataB dataG : List UInt8)
    (rs rsG : xml.StartElement) (pre postB restG : List xml.Node) (reB reG : Bool)
    (es : xml.StartElement) (ec : List xml.Node) (ee : Bool)
    (hrootB : xml.root (xml.tokens env.lex dataB) =
      some ⟨rs, pre ++ xml.Node.Element es ec ee :: postB, reB⟩)
    (hrootG : xml.root (xml.tokens env.lex dataG) = some ⟨rsG, pre ++ restG, reG⟩)
    (hname : es.Name.Local = "channel")
    (hfail : (xml.unmarshalStruct Channel.typeInfo {} es ec ee).2 = false)
    (hgood : (xml.Unmarshal (xml.tokens env.lex dataG) {}).2 = true) :
    (xml.Unmarshal (xml.tokens env.lex dataB) {}).2 = false ∧
    (decoded env dataB).Channels =
      (decoded env dataG).Channels.take (xml.named "channel" pre).length ∧
    (decoded env dataB).Channels.length = (xml.named "channel" pre).length := by
  unfold decoded
  have hB : xml.Unmarshal (xml.tokens env.lex dataB) {} =
      xml.unmarshalStruct Wxr.typeInfo {} rs (pre ++ xml.Node.Element es ec ee :: postB)
        reB := by
    rw [Unmarshal_root, hrootB]
  have hG : xml.Unmarshal (xml.tokens env.lex dataG) {} =
      xml.unmarshalStruct Wxr.typeInfo {} rsG (pre ++ restG) reG := by
    rw [Unmarshal_root, hrootG]
  rw [hG, unmarshalStruct_Wxr] at hgood
  rw [hB, hG, unmarshalStruct_Wxr, unmarshalStruct_Wxr]
  simp only [Bool.and_eq_true] at hgood
  simp only []
  have happG := structLoop_append Wxr.typeInfo pre restG {} ""
  have happB := structLoop_append Wxr.typeInfo pre (xml.Node.Element es ec ee :: postB) {} ""
  cases hl : xml.structLoop Wxr.typeInfo {} "" pre with
  | mk sv1 rest =>
    obtain ⟨d1, ok1⟩ := rest
    rw [hl] at happG happB
    simp only at happG happB
    cases ok1 with
    | false =>
      simp only [Bool.false_eq_true, if_false] at happG
      rw [happG] at hgood
      simp at hgood
    | true =>
      simp only [if_true] at happG happB
      rw [structLoop_Wxr_fail sv1 d1 es ec ee postB hname hfail] at happB
      have hpre : xml.unmarshalStruct Wxr.typeInfo {} rs pre true = (sv1, true) := by
        rw [unmarshalStruct_Wxr, hl]; rfl
      have hall : xml.unmarshalStruct Wxr.typeInfo {} rsG (pre ++ restG) true =
          ((xml.structLoop Wxr.typeInfo {} "" (pre ++ restG)).1, true) := by
        rw [unmarshalStruct_Wxr, hgood.1]; rfl
      have h1 := Wxr_fold _ _ _ _ hpre
      have h2 := Wxr_fold _ _ _ _ hall
      rw [fold_map] at h1 h2
      rw [happB]
      simp only [Bool.false_and, true_and]
      rw [h2, h1, named_append]
      simp

/-- A text that does not coerce makes the decoding of its channel element
    fail, and the mapper stops there; `ParseWxr` discards the error. When the root element
    of an input holds the content `pre` followed by a `channel` element whose decoding
    fails, `xml.Unmarshal` reports an error and the result of `ParseWxr` holds exactly the
    channels of `pre`: the failing channel and everything after it are absent, and the
    channels before it are the first channels of the result for any input that starts with
    the same content `pre` and is decoded without error (such as the same document with a
    valid text in that place). A channel element fails to decode when one of its items has
    a `post_id` whose text does not coerce to an `int32` (`abc`, or 3000000000, which is
    out of range) or a comment with a `comment_approved` whose text does not coerce to a
    `bool` (`spam`). -/
theorem coercion_error_cuts_result (env : Env) (dataB dataG : List UInt8)
    (rs rsG : xml.StartElement) (pre postB restG : List xml.Node) (reB reG : Bool)
    (es : xml.StartElement) (ec : List xml.Node) (ee : Bool)
    (hrootB : xml.root (xml.tokens env.lex dataB) =
      some ⟨rs, pre ++ xml.Node.Element es ec ee :: postB, reB⟩)
    (hrootG : xml.root (xml.tokens env.lex dataG) = some ⟨rsG, pre ++ restG, reG⟩)
    (hname : es.Name.Local = "channel")
    (hfail : (xml.unmarshalStruct Channel.typeInfo {} es ec ee).2 = false)
    (hgood : (xml.Unmarshal (xml.tokens env.lex dataG) {}).2 = true) :
    (∃ rB rG : Wxr, ParseWxr env dataB = some rB ∧ ParseWxr env dataG = some rG ∧
      (xml.Unmarshal (xml.tokens env.lex dataB) {}).2 = false ∧
      rB.Channels = rG.Channels.take (xml.named "channel" pre).length ∧
      rB.Channels.length = (xml.named "channel" pre).length) ∧
    (∀ (cs : xml.StartElement) (cc : List xml.Node) (ce : Bool) (is : xml.StartElement)
      (ic : List xml.Node) (ie : Bool) (ps : xml.StartElement) (pc : List xml.Node)
      (pe : Bool), xml.Node.Element is ic ie ∈ cc → is.Name.Local = "item" →
      xml.Node.Element ps pc pe ∈ ic → ps.Name.Local = "post_id" →
      xml.copyInt32 (xml.text pc) = none →
      (xml.unmarshalStruct Channel.typeInfo {} cs cc ce).2 = false) ∧
    (∀ (cs : xml.StartElement) (cc : List xml.Node) (ce : Bool) (is : xml.StartElement)
      (ic : List xml.Node) (ie : Bool) (ks : xml.StartElement) (kc : List xml.Node)
      (ke : Bool) (ps : xml.StartElement) (pc : List xml.Node) (pe : Bool),
      xml.Node.Element is ic ie ∈ cc → is.Name.Local = "item" →
      xml.Node.Element ks kc ke ∈ ic → ks.Name.Local = "comment" →
      xml.Node.Element ps pc pe ∈ kc → ps.Name.Local = "comment_approved" →
      xml.copyBool (xml.text pc) = none →
      (xml.unmarshalStruct Channel.typeInfo {} cs cc ce).2 = false) ∧
    xml.copyInt32 "abc" = none ∧ xml.copyInt32 "3000000000" = none ∧
    xml.copyBool "spam" = none := by
  refine ⟨⟨_, _, ParseWxr_eq env dataB, ParseWxr_eq env dataG, ?_⟩, ?_, ?_, by decide,
    by decide, by decide⟩
  · obtain ⟨h1, h2, h3⟩ := decoded_truncated env dataB dataG rs rsG pre postB restG reB reG
      es ec ee hrootB hrootG hname hfail hgood
    refine ⟨h1, ?_, ?_⟩
    · simp only [Wxr.withDates, h2, List.map_take]
    · simp only [Wxr.withDates, List.length_map, h3]
  · intro cs cc ce is ic ie ps pc pe h1 h2 h3 h4 h5
    exact Channel_fails_of_item cs cc ce is ic ie h1 h2
      (Item_fails_of_post_id is ic ie ps pc pe h3 h4 h5)
  · intro cs cc ce is ic ie ks kc ke ps pc pe h1 h2 h3 h4 h5 h6 h7
    exact Channel_fails_of_item cs cc ce is ic ie h1 h2
      (Item_fails_of_comment is ic ie ks kc ke h3 h4
        (Comment_fails_of_approved ks kc ke ps pc pe h5 h6 h7))

/-- The documents `postIdDoc "abc"` and `postIdDoc "1"`: the result for the first
    has the channel `A` only, which is the first channel of the result for the second. -/
theorem coercion_error_cuts_result_example :
    xml.root (xml.tokens postIdEnv.lex [60, 62]) =
      some ⟨{ Name := { Local := "rss" } },
        [xml.el "channel" [xml.txt "title" "A"]] ++
          xml.Node.Element { Name := { Local := "channel" } }
            [xml.txt "title" "B",
             xml.el "item" [xml.txt "title" "first", xml.txt "post_id" "abc"]] true ::
          [xml.el "channel" [xml.txt "title" "C"]], true⟩ ∧
    (xml.unmarshalStruct Channel.typeInfo {} { Name := { Local := "channel" } }
      [xml.txt "title" "B",
       xml.el "item" [xml.txt "title" "first", xml.txt "post_id" "abc"]] true).2 = false ∧
    (xml.Unmarshal (xml.tokens postIdEnv.lex [60]) {}).2 = true ∧
    ∃ rB rG : Wxr, ParseWxr postIdEnv [60, 62] = some rB ∧ ParseWxr postIdEnv [60] = some rG ∧
      (xml.Unmarshal (xml.tokens postIdEnv.lex [60, 62]) {}).2 = false ∧
      rB.Channels = rG.Channels.take
        (xml.named "channel" [xml.el "channel" [xml.txt "title" "A"]]).length ∧
      rB.Channels.length =
        (xml.named "channel" [xml.el "channel" [xml.txt "title" "A"]]).length :=
  ⟨rfl, by decide, by decide,
    (coercion_error_cuts_result postIdEnv [60, 62] [60] { Name := { Local := "rss" } }
      { Name := { Local := "rss" } } [xml.el "channel" [xml.txt "title" "A"]]
      [xml.el "channel" [xml.txt "title" "C"]]
      [xml.el "channel" [xml.txt "title" "B",
         xml.el "item" [xml.txt "title" "first", xml.txt "post_id" "1"]],
       xml.el "channel" [xml.txt "title" "C"]] true true { Name := { Local := "channel" } }
      [xml.txt "title" "B",
       xml.el "item" [xml.txt "title" "first", xml.txt "post_id" "abc"]] true
      rfl rfl rfl (by decide) (by decide)).1⟩

/-! ### A text that does not coerce: what is lost

`xml.Unmarshal` returns the error of the first numeric or boolean text that does not
coerce, and `ParseWxr` drops it (line 137). The decoder cuts every slice it was appending to
back by the element that failed, so the channel that holds the text and everything after
it are absent from the result, although the comment on `ParseWxr` says that the result
represents all data in the file. The theorems of this section evaluate `ParseWxr` on
well-formed documents with such a text and on the same documents with a valid text. -/

/-- C3 on a document with a text that does not coerce: the well-formed document
    `postIdDoc "abc"` has the three `channel` elements `A`, `B` (with one item) and `C`,
    but the result of `ParseWxr` has the channel `A` only; with the `post_id` text `1` in
    the same place the result has the three channels in document order. -/
theorem C3_channels_lost_after_coercion_error :
    (xml.root (xml.tokens postIdEnv.lex [60, 62])).map (fun el =>
      (xml.named "channel" el.content).map (fun ch =>
        (xml.lastText (xml.named "title" ch.content), (xml.named "item" ch.content).length))) =
      some [("A", 0), ("B", 1), ("C", 0)] ∧
    (ParseWxr postIdEnv [60, 62]).map (fun r => r.Channels.map (fun c =>
      (c.Title, c.Items.length))) = some [("A", 0)] ∧
    (ParseWxr postIdEnv [60]).map (fun r => r.Channels.map (fun c =>
      (c.Title, c.Items.length))) = some [("A", 0), ("B", 1), ("C", 0)] := by
  decide

/-- C4 on a document with a text that does not coerce: the only channel element of
    `channelFieldsDoc "abc"` has the child elements `title`, `link`, `description`,
    `language`, `wxr_version`, `base_site_url`, `base_blog_url` and `generator` with the
    texts shown, but the result of `ParseWxr` has no channel, so none of the texts is in
    it; with the `post_id` text `7` the channel has the eight texts of its own children,
    not the `title`, `link` and `description` of its item. -/
theorem C4_channel_fields_lost_after_coercion_error :
    (xml.root (xml.tokens channelFieldsEnv.lex [60, 62])).map (fun el =>
      (xml.named "channel" el.content).map (fun ch =>
        [xml.lastText (xml.named "title" ch.content),
         xml.lastText (xml.named "link" ch.content),
         xml.lastText (xml.named "description" ch.content),
         xml.lastText (xml.named "language" ch.content),
         xml.lastText (xml.named "wxr_version" ch.content),
         xml.lastText (xml.named "base_site_url" ch.content),
         xml.lastText (xml.named "base_blog_url" ch.content),
         xml.lastText (xml.named "generator" ch.content)])) =
      some [["Blog", "http://blog.example", "A blog", "en", "1.2", "http://site.example",
        "http://blog.example", "gen"]] ∧
    (ParseWxr channelFieldsEnv [60, 62]).map (fun r => r.Channels.map (fun c =>
      [c.Title, c.Link, c.Description, c.Language, c.WxrVersion, c.BaseSiteUrl,
       c.BaseBlogUrl, c.Generator])) = some [] ∧
    (ParseWxr channelFieldsEnv [60]).map (fun r => r.Channels.map (fun c =>
      [c.Title, c.Link, c.Description, c.Language, c.WxrVersion, c.BaseSiteUrl,
       c.BaseBlogUrl, c.Generator])) =
      some [["Blog", "http://blog.example", "A blog", "en", "1.2", "http://site.example",
        "http://blog.example", "gen"]] := by
  decide

/-- C7 on the code: a numeric or boolean text that does not coerce makes the mapper stop.
    For `postIdDoc "abc"` and for `postIdDoc "3000000000"` the result has the channel `A`
    only: the item with the `post_id`, its channel `B` and the later channel `C` are
    absent, while for `postIdDoc "1"` all three channels are there and the item has the
    `PostId` 1. For `approvedDoc "spam"` the result has no channel at all, while for
    `approvedDoc "0"` it has the channel `Blog` with its item and both comments. In no case
    is the field left at its zero value with the rest populated. -/
theorem C7_coercion_error_stops_the_mapper :
    (ParseWxr postIdEnv [60, 62]).map (fun r => r.Channels.map (fun c =>
      (c.Title, c.Items.map (fun i => (i.Title, i.PostId))))) = some [("A", [])] ∧
    (ParseWxr postIdRangeEnv [60]).map (fun r => r.Channels.map (fun c =>
      (c.Title, c.Items.map (fun i => (i.Title, i.PostId))))) = some [("A", [])] ∧
    (ParseWxr postIdEnv [60]).map (fun r => r.Channels.map (fun c =>
      (c.Title, c.Items.map (fun i => (i.Title, i.PostId))))) =
      some [("A", []), ("B", [("first", 1)]), ("C", [])] ∧
    (ParseWxr approvedEnv [60, 62]).map (fun r => r.Channels.map (fun c => c.Title)) =
      some [] ∧
    (ParseWxr approvedEnv [60]).map (fun r => r.Channels.map (fun c => c.Title)) =
      some ["Blog"] ∧
    (ParseWxr approvedEnv [60]).map (fun r => r.Channels.flatMap (fun c =>
      c.Items.flatMap (fun i => i.Comments.map (fun k => (k.Id, k.Approved))))) =
      some [(1, true), (2, false)] ∧
    (xml.Unmarshal (xml.tokens approvedEnv.lex [60, 62]) {}).2 = false ∧
    (xml.Unmarshal (xml.tokens postIdEnv.lex [60, 62]) {}).2 = false :=
  ⟨by decide, by decide, by decide, by decide, by decide, by decide, by decide, by decide⟩

/-- C9 on a document with a text that does not coerce: the first item element of
    `siblingItemDoc "abc"` has the `category` element with `domain="category"`,
    `nicename="cat1"` and the text `Category 1`, but the result of `ParseWxr` has no
    channel and so no `ItemCategory` for it, because the `post_id` text of the second item
    does not coerce; with the `post_id` text `2` the result has the record
    (category, cat1, Category 1). -/
theorem C9_item_category_lost_after_coercion_error :
    (xml.root (xml.tokens siblingItemEnv.lex [60, 62])).map (fun el =>
      (xml.named "channel" el.content).flatMap (fun ch =>
        (xml.named "item" ch.content).flatMap (fun it =>
          (xml.named "category" it.content).map (fun cat =>
            (xml.attrValue "domain" cat.start.Attr, xml.attrValue "nicename" cat.start.Attr,
             xml.text cat.content))))) =
      some [(some "category", some "cat1", "Category 1")] ∧
    (ParseWxr siblingItemEnv [60, 62]).map (fun r => r.Channels.flatMap (fun c =>
      c.Items.flatMap (fun i => i.Categories))) = some [] ∧
    (ParseWxr siblingItemEnv [60]).map (fun r => r.Channels.flatMap (fun c =>
      c.Items.flatMap (fun i => i.Categories))) =
      some [{ Domain := "category", NiceName := "cat1", DisplayName := "Category 1" }] := by
  decide

/-- C10 on a document with a text that does not coerce: the first item element of
    `siblingItemDoc "abc"` has an unqualified `encoded` child, one in the content
    namespace and one in the excerpt namespace, but the result of `ParseWxr` has no
    channel and so no item with that `Content` and `Excerpt`; with the `post_id` text `2`
    the first item has the `Content` of the content-namespace element and the `Excerpt` of
    the excerpt-namespace element. -/
theorem C10_encoded_lost_after_coercion_error :
    (xml.root (xml.tokens siblingItemEnv.lex [60, 62])).map (fun el =>
      (xml.named "channel" el.content).flatMap (fun ch =>
        (xml.named "item" ch.content).map (fun it =>
          (xml.lastText (xml.namedIn "" "encoded" it.content),
           xml.lastText (xml.namedIn contentNS "encoded" it.content),
           xml.lastText (xml.namedIn excerptNS "encoded" it.content))))) =
      some [("unqualified", "the content", "the excerpt"), ("", "", "")] ∧
    (ParseWxr siblingItemEnv [60, 62]).map (fun r => r.Channels.flatMap (fun c =>
      c.Items.map (fun i => (i.Content, i.Excerpt)))) = some [] ∧
    (ParseWxr siblingItemEnv [60]).map (fun r => r.Channels.flatMap (fun c =>
      c.Items.map (fun i => (i.Content, i.Excerpt)))) =
      some [("the content", "the excerpt"), ("", "")] := by
  decide

/-- C11 on a document with a text that does not coerce: the first item element of
    `siblingItemDoc "abc"` has two `postmeta` children with the key `color` (values `red`
    and `blue`), but the result of `ParseWxr` has no channel and so neither entry; with
    the `post_id` text `2` the first item has the two entries in document order. -/
theorem C11_postmetas_lost_after_coercion_error :
    (xml.root (xml.tokens siblingItemEnv.lex [60, 62])).map (fun el =>
      (xml.named "channel" el.content).flatMap (fun ch =>
        (xml.named "item" ch.content).map (fun it =>
          (xml.named "postmeta" it.content).length))) = some [2, 0] ∧
    (ParseWxr siblingItemEnv [60, 62]).map (fun r => r.Channels.flatMap (fun c =>
      c.Items.map (fun i => i.PostMetas.map (fun pm => (pm.Key, pm.Value))))) = some [] ∧
    (ParseWxr siblingItemEnv [60]).map (fun r => r.Channels.flatMap (fun c =>
      c.Items.map (fun i => i.PostMetas.map (fun pm => (pm.Key, pm.Value))))) =
      some [[("color", "red"), ("color", "blue")], []] := by
  decide

theorem digit_facts : ∀ k < 10, time.isDigitChar (digitChar k) = true ∧
    time.digitVal (digitChar k) = (k : Int) ∧ digitChar k ≠ ' ' ∧ digitChar k ≠ '.' ∧
    digitChar k ≠ ',' := by
  decide

theorem getnum_twoDigits (n : Nat) (hn : n < 100) (fixed : Bool) (rest : List Char) :
    time.getnum (twoDigits n rest) fixed = some ((n : Int), rest) := by
  obtain ⟨h1, h2, _⟩ := digit_facts (n / 10) (by omega)
  obtain ⟨h3, h4, _⟩ := digit_facts (n % 10) (by omega)
  simp only [twoDigits, time.getnum, h1, h2, h3, h4]
  simp
  omega

theorem atoiDigits_fourDigits (n : Nat) (hn : n < 10000) (rest : List Char) :
    (fourDigits n rest).length ≥ 4 ∧
    time.atoiDigits ((fourDigits n rest).take 4) 0 = some (n : Int) ∧
    (fourDigits n rest).drop 4 = rest := by
  obtain ⟨h1, h2, _⟩ := digit_facts (n / 1000) (by omega)
  obtain ⟨h3, h4, _⟩ := digit_facts (n / 100 % 10) (by omega)
  obtain ⟨h5, h6, _⟩ := digit_facts (n / 10 % 10) (by omega)
  obtain ⟨h7, h8, _⟩ := digit_facts (n % 10) (by omega)
  refine ⟨by simp [fourDigits], ?_, by simp [fourDigits]⟩
  simp only [fourDigits, List.take, time.atoiDigits, h1, h2, h3, h4, h5, h6, h7, h8, if_true]
  simp
  omega

/-- A table of names of one length: looking a name up in front of more text is looking it
    up alone. -/
theorem lookupFrom_append (name rest : List Char) :
    ∀ (tab : List (List Char)) (i : Int), (∀ v ∈ tab, v.length = name.length) →
      time.lookupFrom tab i (name ++ rest) =
        (time.lookupFrom tab i name).map (fun p => (p.1, rest)) := by
  intro tab
  induction tab with
  | nil => intro i _; rfl
  | cons v tab ih =>
    intro i hlen
    have hv : v.length = name.length := hlen v (List.mem_cons_self _ _)
    have h1 : (name ++ rest).take name.length = name := by simp
    have h2 : name.take name.length = name := by simp
    have h3 : (name ++ rest).drop name.length = rest := by simp
    have h4 : name.drop name.length = [] := by simp
    have ih1 := ih (i + 1) (fun w hw => hlen w (List.mem_cons_of_mem _ hw))
    simp only [time.lookupFrom, hv, h1, h2, h3, h4, ih1]
    by_cases hm : time.matchFold name v = true
    · simp [hm]
    · simp [hm]

theorem dayNames_facts : ∀ wd < 7,
    time.lookupFrom time.shortDayNames 0 (time.shortDayNames.getD wd []) = some ((wd : Int), []) ∧
    (time.shortDayNames.getD wd []).length = 3 := by
  decide

theorem monthNames_facts : ∀ m < 12,
    time.lookupFrom time.shortMonthNames 0 (time.shortMonthNames.getD m []) =
      some ((m : Int), []) ∧
    (time.shortMonthNames.getD m []).length = 3 ∧
    (time.shortMonthNames.getD m []).head? ≠ some ' ' ∧
    time.shortMonthNames.getD m [] ≠ [] := by
  decide

theorem cutspace_of_head (v : List Char) (h : v.head? ≠ some ' ') : time.cutspace v = v := by
  cases v with
  | nil => rfl
  | cons c cs =>
    have hc : c ≠ ' ' := by
      intro hc
      exact h (by simp [hc])
    unfold time.cutspace
    split
    · rename_i heq
      simp only [List.cons.injEq] at heq
      exact absurd heq.1.symm (fun h1 => hc h1.symm)
    · rfl

theorem skip_space (v : List Char) (h : v.head? ≠ some ' ') :
    time.skip (' ' :: v) [' '] = some v := by
  simp [time.skip, time.skipFrom, time.cutspace, cutspace_of_head v h]

theorem skip_comma_space (v : List Char) (h : v.head? ≠ some ' ') :
    time.skip (',' :: ' ' :: v) [',', ' '] = some v := by
  simp [time.skip, time.skipFrom, time.cutspace, cutspace_of_head v h]

theorem skip_colon (v : List Char) : time.skip (':' :: v) [':'] = some v := by
  simp [time.skip, time.skipFrom]

theorem skip_nil (v : List Char) : time.skip v [] = some v := by
  simp [time.skip, time.skipFrom]

theorem head_twoDigits (n : Nat) (hn : n < 100) (rest : List Char) :
    (twoDigits n rest).head? ≠ some ' ' := by
  obtain ⟨_, _, h, _⟩ := digit_facts (n / 10) (by omega)
  simp [twoDigits, h]

theorem head_fourDigits (n : Nat) (hn : n < 10000) (rest : List Char) :
    (fourDigits n rest).head? ≠ some ' ' := by
  obtain ⟨_, _, h, _⟩ := digit_facts (n / 1000) (by omega)
  simp [fourDigits, h]

theorem parseStd_weekDay (st : time.ParseState) (wd : Nat) (h : wd < 7) (rest : List Char) :
    time.parseStd time.Std.stdWeekDay st (time.shortDayNames.getD wd [] ++ rest) =
      some (st, rest) := by
  obtain ⟨h1, h2⟩ := dayNames_facts wd h
  have h3 : ∀ v ∈ time.shortDayNames, v.length = 3 := by decide
  simp only [time.parseStd, time.lookup]
  rw [lookupFrom_append _ _ _ _ (fun v hv => by rw [h2]; exact h3 v hv), h1]
  rfl

theorem parseStd_month (st : time.ParseState) (m : Nat) (h1 : 1 ≤ m) (h2 : m ≤ 12)
    (rest : List Char) :
    time.parseStd time.Std.stdMonth st (time.shortMonthNames.getD (m - 1) [] ++ rest) =
      some ({ st with month := (m : Int) }, rest) := by
  obtain ⟨h3, h4, _⟩ := monthNames_facts (m - 1) (by omega)
  have h5 : ∀ v ∈ time.shortMonthNames, v.length = 3 := by decide
  simp only [time.parseStd, time.lookup]
  rw [lookupFrom_append _ _ _ _ (fun v hv => by rw [h4]; exact h5 v hv), h3]
  simp only [Option.map_some']
  have h6 : ((m - 1 : Nat) : Int) + 1 = (m : Int) := by omega
  rw [h6]

theorem parseStd_zeroDay (st : time.ParseState) (d : Nat) (h : d < 100) (rest : List Char) :
    time.parseStd time.Std.stdZeroDay st (twoDigits d rest) =
      some ({ st with day := (d : Int) }, rest) := by
  simp only [time.parseStd, getnum_twoDigits d h]

theorem parseStd_longYear (st : time.ParseState) (y : Nat) (h : y < 10000)
    (rest : List Char) :
    time.parseStd time.Std.stdLongYear st (fourDigits y rest) =
      some ({ st with year := (y : Int) }, rest) := by
  obtain ⟨h1, h2, h3⟩ := atoiDigits_fourDigits y h rest
  simp only [time.parseStd, h2, h3]
  simp [fourDigits]

theorem parseStd_hour (st : time.ParseState) (n : Nat) (h : n < 24) (rest : List Char) :
    time.parseStd time.Std.stdHour st (twoDigits n rest) =
      some ({ st with hour := (n : Int) }, rest) := by
  simp only [time.parseStd, getnum_twoDigits n (by omega)]
  have h1 : ¬ ((n : Int) < 0 ∨ 24 ≤ (n : Int)) := by omega
  simp only [h1, if_false]

theorem parseStd_zeroMinute (st : time.ParseState) (n : Nat) (h : n < 60)
    (rest : List Char) :
    time.parseStd time.Std.stdZeroMinute st (twoDigits n rest) =
      some ({ st with min := (n : Int) }, rest) := by
  simp only [time.parseStd, getnum_twoDigits n (by omega)]
  have h1 : ¬ ((n : Int) < 0 ∨ 60 ≤ (n : Int)) := by omega
  simp only [h1, if_false]

/-- The seconds, followed by a space: no fractional second. -/
theorem parseStd_zeroSecond (st : time.ParseState) (n : Nat) (h : n < 60)
    (rest : List Char) :
    time.parseStd time.Std.stdZeroSecond st (twoDigits n (' ' :: rest)) =
      some ({ st with sec := (n : Int) }, ' ' :: rest) := by
  simp only [time.parseStd, getnum_twoDigits n (by omega)]
  have h1 : ¬ ((n : Int) < 0 ∨ 60 ≤ (n : Int)) := by omega
  simp only [h1, if_false]
  cases rest with
  | nil => rfl
  | cons d more => simp

theorem parseStd_numTZ (st : time.ParseState) (neg : Bool) (oh om : Nat) (h1 : oh < 24)
    (h2 : om < 60) :
    time.parseStd time.Std.stdNumTZ st
        ((if neg then '-' else '+') :: twoDigits oh (twoDigits om [])) =
      some ({ st with zoneOffset := offsetSeconds neg oh om }, []) := by
  have g1 := getnum_twoDigits oh (by omega) true []
  have g2 := getnum_twoDigits om (by omega) true []
  simp only [twoDigits] at g1 g2
  simp only [time.parseStd, twoDigits, g1, g2]
  have h3 : ¬ ((oh : Int) > 24 ∨ (om : Int) > 60) := by omega
  simp only [h3, if_false]
  cases neg <;> simp [offsetSeconds]

/-- The loop of `time.Parse` under `time.RFC1123Z` on a well-formed text. -/
theorem parseLoop_RFC1123Z (wd day mon year hh mm ss : Nat) (neg : Bool) (oh om : Nat)
    (hwd : wd < 7) (hday : day < 100) (hmon1 : 1 ≤ mon) (hmon2 : mon ≤ 12)
    (hyear : year < 10000) (hhh : hh < 24) (hmm : mm < 60) (hss : ss < 60) (hoh : oh < 24)
    (hom : om < 60) :
    time.parseLoop time.RFC1123Z {}
        (formatRFC1123Z wd day mon year hh mm ss neg oh om).toList =
      some { year := year, month := mon, day := day, hour := hh, min := mm, sec := ss,
             nsec := 0, zoneOffset := offsetSeconds neg oh om } := by
  obtain ⟨_, _, hm3, hm4⟩ := monthNames_facts (mon - 1) (by omega)
  have hmhead : ∀ rest, (time.shortMonthNames.getD (mon - 1) [] ++ rest).head? ≠ some ' ' := by
    intro rest
    cases hn : time.shortMonthNames.getD (mon - 1) [] with
    | nil => exact absurd hn hm4
    | cons c cs => rw [hn] at hm3; simpa using hm3
  simp only [formatRFC1123Z, String.toList, time.RFC1123Z, time.parseLoop]
  rw [skip_nil]
  simp only [parseStd_weekDay _ wd hwd]
  rw [skip_comma_space _ (head_twoDigits day hday _)]
  simp only [parseStd_zeroDay _ day hday]
  rw [skip_space _ (hmhead _)]
  simp only [parseStd_month _ mon hmon1 hmon2]
  rw [skip_space _ (head_fourDigits year hyear _)]
  simp only [parseStd_longYear _ year hyear]
  rw [skip_space _ (head_twoDigits hh (by omega) _)]
  simp only [parseStd_hour _ hh hhh]
  rw [skip_colon]
  simp only [parseStd_zeroMinute _ mm hmm]
  rw [skip_colon]
  simp only [parseStd_zeroSecond _ ss hss]
  rw [skip_space _ (by cases neg <;> simp)]
  simp only [parseStd_numTZ _ neg oh om hoh hom]
  rfl

/-! ### `time.Date` against the calendar by counting -/

theorem norm_id (hi lo base : Int) (h0 : 0 ≤ lo) (h1 : lo < base) :
    time.norm hi lo base = (hi, lo) := by
  unfold time.norm
  have h2 : ¬ lo < 0 := by omega
  have h3 : ¬ lo ≥ base := by omega
  simp [h2, h3]

theorem isLeap_eq (y : Nat) : time.isLeap (y : Int) = leapYear y := by
  have h : (time.isLeap (y : Int) = true) ↔ (leapYear y = true) := by
    simp only [time.isLeap, leapYear, Bool.and_eq_true, Bool.or_eq_true, beq_iff_eq,
      bne_iff_ne, decide_eq_true_eq]
    omega
  cases h1 : time.isLeap (y : Int) <;> cases h2 : leapYear y <;> simp_all

theorem leapYear_iff (y : Nat) :
    leapYear y = true ↔ (y % 4 = 0 ∧ (y % 100 ≠ 0 ∨ y % 400 = 0)) := by
  simp [leapYear]

/-- The days before year `y`, in closed form. -/
theorem daysBeforeYear_closed : ∀ y : Nat,
    daysBeforeYear y + (y + 99) / 100 = 365 * y + (y + 3) / 4 + (y + 399) / 400 := by
  intro y
  induction y with
  | zero => rfl
  | succ y ih =>
    simp only [daysBeforeYear, daysInYear]
    by_cases h : leapYear y = true
    · simp only [h, if_true]
      rw [leapYear_iff] at h
      omega
    · simp only [h]
      rw [leapYear_iff] at h
      simp only [Bool.false_eq_true, if_false]
      omega

theorem daysIn_eq (y m : Nat) (h1 : 1 ≤ m) (h2 : m ≤ 12) :
    time.daysIn (m : Int) (y : Int) = (daysInMonth y m : Int) := by
  unfold time.daysIn
  rw [isLeap_eq]
  interval_cases m <;> cases h : leapYear y <;> simp [time.daysBefore, daysInMonth, h]

theorem daysBefore_eq (y m : Nat) (h1 : 1 ≤ m) (h2 : m ≤ 12) :
    (time.daysBefore ((m : Int) - 1) + if time.isLeap (y : Int) = true ∧ (m : Int) ≥ 3 then 1
      else 0) = (daysInMonthsUpTo y (m - 1) : Int) := by
  rw [isLeap_eq]
  interval_cases m <;> cases h : leapYear y <;>
    simp [time.daysBefore, daysInMonthsUpTo, daysInMonth, h]

theorem daysSinceEpoch_eq (y : Nat) :
    time.daysSinceEpoch (y : Int) * 86400 + (time.absoluteToInternal + time.internalToUnix) =
      ((daysBeforeYear y : Int) - 719528) * 86400 := by
  have h := daysBeforeYear_closed y
  simp only [time.daysSinceEpoch, time.absoluteZeroYear, time.absoluteToInternal,
    time.internalToUnix, time.unixToInternal, time.secondsPerDay, time.secondsPerHour,
    time.secondsPerMinute, time.daysPer400Years, time.daysPer100Years, time.daysPer4Years]
  omega

theorem daysBeforeYear_1970 : daysBeforeYear 1970 = daysBefore1970 := by
  have h := daysBeforeYear_closed 1970
  unfold daysBefore1970
  omega

/-- `time.Date` at UTC for a valid date and time of day is the wall-clock reading counted
    from January 1, 1970. -/
theorem Date_Unix (y m d h mi s : Nat) (hm1 : 1 ≤ m) (hm2 : m ≤ 12) (hd : 1 ≤ d)
    (hh : h < 24) (hmi : mi < 60) (hs : s < 60) :
    (time.Date y m d h mi s 0).Unix = epochSecondsUTC y m d h mi s := by
  have e1 := daysSinceEpoch_eq y
  have e2 := daysBefore_eq y m hm1 hm2
  have n1 := norm_id (y : Int) ((m : Int) - 1) 12 (by omega) (by omega)
  have n2 := norm_id (s : Int) 0 1000000000 (by omega) (by omega)
  have n3 := norm_id (mi : Int) (s : Int) 60 (by omega) (by omega)
  have n4 := norm_id (h : Int) (mi : Int) 60 (by omega) (by omega)
  have n5 := norm_id (d : Int) (h : Int) 24 (by omega) (by omega)
  unfold time.Date
  simp only [n1]
  simp only [n2]
  simp only [n3, n4, n5]
  simp only [time.Time.Unix, epochSecondsUTC, epochDay, daysBefore1970]
  have e4 : (m : Int) - 1 + 1 = (m : Int) := by omega
  rw [e4]
  simp only [time.secondsPerDay, time.secondsPerHour, time.secondsPerMinute] at e1 ⊢
  by_cases hl : time.isLeap (y : Int) = true ∧ (m : Int) ≥ 3
  · simp only [hl, and_self, if_true] at e2 ⊢
    simp only [time.internalToUnix, time.unixToInternal, time.absoluteToInternal,
      time.secondsPerDay, time.secondsPerHour, time.secondsPerMinute] at e1 ⊢
    push_cast
    omega
  · simp only [hl, if_false] at e2 ⊢
    simp only [time.internalToUnix, time.unixToInternal, time.absoluteToInternal,
      time.secondsPerDay, time.secondsPerHour, time.secondsPerMinute] at e1 ⊢
    push_cast
    omega

/-- `time.Parse` under `time.RFC1123Z` on a well-formed text with a valid date, time of day
    and offset: no error, and the Unix time is the wall-clock reading taken as UTC minus
    the offset. -/
theorem Parse_RFC1123Z (lo : Int → Int) (wd day mon year hh mm ss : Nat) (neg : Bool)
    (oh om : Nat) (hwd : wd < 7) (hmon1 : 1 ≤ mon) (hmon2 : mon ≤ 12) (hday1 : 1 ≤ day)
    (hday2 : day ≤ daysInMonth year mon) (hyear : year < 10000) (hhh : hh < 24)
    (hmm : mm < 60) (hss : ss < 60) (hoh : oh < 24) (hom : om < 60) :
    (time.Parse lo time.RFC1123Z (formatRFC1123Z wd day mon year hh mm ss neg oh om)).2 =
      false ∧
    (time.Parse lo time.RFC1123Z (formatRFC1123Z wd day mon year hh mm ss neg oh om)).1.Unix =
      epochSecondsUTC year mon day hh mm ss - offsetSeconds neg oh om := by
  have hday3 : day < 100 := by
    have : daysInMonth year mon ≤ 31 := by
      unfold daysInMonth
      split_ifs <;> omega
    omega
  have hU := Date_Unix year mon day hh mm ss hmon1 hmon2 hday1 hhh hmm hss
  have hloop := parseLoop_RFC1123Z wd day mon year hh mm ss neg oh om hwd hday3 hmon1 hmon2
    hyear hhh hmm hss hoh hom
  have hdi := daysIn_eq year mon hmon1 hmon2
  have hz : offsetSeconds neg oh om ≠ -1 := by
    unfold offsetSeconds
    cases neg <;> simp <;> omega
  unfold time.Parse
  rw [hloop]
  simp only []
  have hm : ¬ ((mon : Int) < 0) := by omega
  have hd : ¬ ((day : Int) < 0) := by omega
  simp only [hm, hd, if_false, hdi]
  have hv : ¬ ((day : Int) < 1 ∨ (day : Int) > (daysInMonth year mon : Int)) := by omega
  simp only [hv, if_false, ne_eq, hz, not_false_eq_true, if_true]
  simp only [time.Time.Unix, time.Time.addSec] at hU ⊢
  split <;> (refine ⟨rfl, ?_⟩; simp only []; omega)

theorem epochSeconds_example : epochSecondsUTC 2014 7 6 23 32 34 = 1404689554 := by
  have h := daysBeforeYear_closed 2014
  have h1 : daysInMonthsUpTo 2014 6 = 181 := by decide
  simp only [epochSecondsUTC, epochDay, daysBefore1970, h1]
  omega

/-- C5: for every channel and every item of the result of `ParseWxr` whose raw `pubDate`
    string is the text `Ddd, DD Mon YYYY HH:MM:SS +hhmm` (or `-hhmm`) of a valid calendar
    date, time of day and offset, the Unix time of its `PubDate` is the number of seconds
    from January 1, 1970 00:00:00 UTC to that wall-clock reading taken as UTC, minus the
    offset. `Sun, 06 Jul 2014 23:32:34 +0000` gives 1404689554. -/
theorem C5_pubDate_unix_time (env : Env) (data : List UInt8)
    (wd day mon year hh mm ss : Nat) (neg : Bool) (oh om : Nat)
    (hwd : wd < 7) (hmon1 : 1 ≤ mon) (hmon2 : mon ≤ 12) (hday1 : 1 ≤ day)
    (hday2 : day ≤ daysInMonth year mon) (hyear : year < 10000) (hhh : hh < 24)
    (hmm : mm < 60) (hss : ss < 60) (hoh : oh < 24) (hom : om < 60) :
    (∃ r : Wxr, ParseWxr env data = some r ∧
      ∀ (n : Nat) (c : Channel), r.Channels[n]? = some c →
        (c.PubDateString = formatRFC1123Z wd day mon year hh mm ss neg oh om →
          c.PubDate.Unix = epochSecondsUTC year mon day hh mm ss - offsetSeconds neg oh om) ∧
        ∀ (m : Nat) (i : Item), c.Items[m]? = some i →
          i.PubDateString = formatRFC1123Z wd day mon year hh mm ss neg oh om →
          i.PubDate.Unix = epochSecondsUTC year mon day hh mm ss - offsetSeconds neg oh om) ∧
    (time.Parse env.localOffset time.RFC1123Z "Sun, 06 Jul 2014 23:32:34 +0000").1.Unix =
      1404689554 := by
  have hP := fun lo => (Parse_RFC1123Z lo wd day mon year hh mm ss neg oh om hwd hmon1 hmon2
    hday1 hday2 hyear hhh hmm hss hoh hom).2
  refine ⟨⟨_, ParseWxr_eq env data, ?_⟩, ?_⟩
  · intro n c hc
    simp only [Wxr.withDates, List.getElem?_map, Option.map_eq_some'] at hc
    obtain ⟨c0, _, rfl⟩ := hc
    refine ⟨?_, ?_⟩
    · intro hs
      simp only [Channel.withDates, parseDate] at hs ⊢
      rw [hs]
      exact hP _
    · intro m i hi hs
      simp only [Channel.withDates, List.getElem?_map, Option.map_eq_some'] at hi
      obtain ⟨i0, _, rfl⟩ := hi
      simp only [Item.withDates, parseDate] at hs ⊢
      rw [hs]
      exact hP _
  · have h := (Parse_RFC1123Z env.localOffset 0 6 7 2014 23 32 34 false 0 0 (by decide)
      (by decide) (by decide) (by decide) (by decide) (by decide) (by decide) (by decide)
      (by decide) (by decide) (by decide)).2
    have hf : formatRFC1123Z 0 6 7 2014 23 32 34 false 0 0 =
        "Sun, 06 Jul 2014 23:32:34 +0000" := by decide
    rw [hf, epochSeconds_example] at h
    rw [h]
    rfl

/-- C5 at the document `fixtureDoc`: the channel and its three items carry the `pubDate`
    `Sun, 06 Jul 2014 23:32:34 +0000` and get the Unix time 1404689554. -/
theorem C5_pubDate_unix_time_witness :
    (0 < 7 ∧ 1 ≤ 7 ∧ 7 ≤ 12 ∧ 1 ≤ 6 ∧ 6 ≤ daysInMonth 2014 7 ∧ 2014 < 10000 ∧ 23 < 24 ∧
      32 < 60 ∧ 34 < 60 ∧ 0 < 24 ∧ 0 < 60) ∧
    ((∃ r : Wxr, ParseWxr fixtureEnv [60] = some r ∧
      ∀ (n : Nat) (c : Channel), r.Channels[n]? = some c →
        (c.PubDateString = formatRFC1123Z 0 6 7 2014 23 32 34 false 0 0 →
          c.PubDate.Unix = epochSecondsUTC 2014 7 6 23 32 34 - offsetSeconds false 0 0) ∧
        ∀ (m : Nat) (i : Item), c.Items[m]? = some i →
          i.PubDateString = formatRFC1123Z 0 6 7 2014 23 32 34 false 0 0 →
          i.PubDate.Unix = epochSecondsUTC 2014 7 6 23 32 34 - offsetSeconds false 0 0) ∧
    (time.Parse fixtureEnv.localOffset time.RFC1123Z
      "Sun, 06 Jul 2014 23:32:34 +0000").1.Unix = 1404689554) ∧
    (ParseWxr fixtureEnv [60]).map (fun r => r.Channels.map (fun c =>
      (c.PubDateString, c.PubDate.Unix, c.Items.map (fun i => i.PubDate.Unix)))) =
      some [("Sun, 06 Jul 2014 23:32:34 +0000", 1404689554,
        [1404689554, 1404689554, 1404689554])] :=
  ⟨by decide,
    C5_pubDate_unix_time fixtureEnv [60] 0 6 7 2014 23 32 34 false 0 0 (by decide) (by decide)
      (by decide) (by decide) (by decide) (by decide) (by decide) (by decide) (by decide)
      (by decide) (by decide),
    by decide⟩

/-! ### What `xml.Unmarshal` leaves when it fails -/

/-- One round of the struct loop of the root struct at a child element. -/
theorem structLoop_Wxr_cons (sv : Wxr) (data : String) (s : xml.StartElement)
    (c : List xml.Node) (e : Bool) (ns : List xml.Node) :
    xml.structLoop Wxr.typeInfo sv data (xml.Node.Element s c e :: ns) =
      if xml.rootChildOk (xml.Node.Element s c e) = true then
        xml.structLoop Wxr.typeInfo
          (if s.Name.Local = "channel" then
            { sv with Channels := sv.Channels ++ [Channel.decode ⟨s, c, e⟩] } else sv)
          data ns
      else (sv, data, false) := by
  by_cases hname : s.Name.Local = "channel"
  · by_cases hok : (xml.unmarshalStruct Channel.typeInfo {} s c e).2 = true
    · simp [xml.structLoop, Wxr.typeInfo, xml.unmarshalPath, xml.sliceField, xml.field,
        xml.elemValue, xml.rootChildOk, Channel.decode, hname, hok]
    · simp [xml.structLoop, Wxr.typeInfo, xml.unmarshalPath, xml.sliceField, xml.field,
        xml.elemValue, xml.rootChildOk, hname, hok]
  · have hname1 : ¬ "channel" = s.Name.Local := fun h => hname h.symm
    by_cases he : e = true
    · simp [xml.structLoop, Wxr.typeInfo, xml.unmarshalPath, xml.sliceField, xml.field,
        xml.rootChildOk, hname, hname1, he]
    · simp [xml.structLoop, Wxr.typeInfo, xml.unmarshalPath, xml.sliceField, xml.field,
        xml.rootChildOk, hname, hname1, he]

/-- The struct loop of the root struct ends without error exactly when it gets past every
    child, and what it leaves in the struct, with or without error, is what it leaves for
    the content before the first child on which it fails. -/
theorem structLoop_Wxr_beforeFailure : ∀ (content : List xml.Node) (sv : Wxr) (data : String),
    (xml.structLoop Wxr.typeInfo sv data content).1 =
      (xml.structLoop Wxr.typeInfo sv data (xml.beforeFailure content)).1 ∧
    (xml.structLoop Wxr.typeInfo sv data content).2.2 = content.all xml.rootChildOk ∧
    (xml.structLoop Wxr.typeInfo sv data (xml.beforeFailure content)).2.2 = true := by
  intro content
  induction content with
  | nil => intro sv data; simp [xml.beforeFailure, xml.structLoop]
  | cons n ns ih =>
    intro sv data
    cases n with
    | CharData t =>
      simpa [xml.beforeFailure, xml.structLoop, xml.rootChildOk] using ih sv (data ++ t)
    | Other =>
      simpa [xml.beforeFailure, xml.structLoop, xml.rootChildOk] using ih sv data
    | Element s c e =>
      by_cases hok : xml.rootChildOk (xml.Node.Element s c e) = true
      · have h1 : xml.beforeFailure (xml.Node.Element s c e :: ns) =
            xml.Node.Element s c e :: xml.beforeFailure ns := by
          simp [xml.beforeFailure, List.takeWhile, hok]
        rw [h1, structLoop_Wxr_cons, structLoop_Wxr_cons]
        simp only [hok, if_true, List.all_cons, Bool.true_and]
        exact ih _ _
      · have h1 : xml.beforeFailure (xml.Node.Element s c e :: ns) = [] := by
          simp [xml.beforeFailure, List.takeWhile, hok]
        rw [h1, structLoop_Wxr_cons]
        simp [hok, xml.structLoop]

/-- What `xml.Unmarshal` leaves in the struct, with or without error: the channels decoded
    from the `channel` elements before the first child of the root element on which the
    decoder fails. -/
theorem unmarshalStruct_Wxr_beforeFailure (s : xml.StartElement) (c : List xml.Node)
    (e : Bool) :
    xml.unmarshalStruct Wxr.typeInfo {} s (xml.beforeFailure c) true =
      ((xml.unmarshalStruct Wxr.typeInfo {} s c e).1, true) ∧
    (xml.unmarshalStruct Wxr.typeInfo {} s c e).2 = (c.all xml.rootChildOk && e) ∧
    (xml.unmarshalStruct Wxr.typeInfo {} s c e).1.Channels =
      (xml.named "channel" (xml.beforeFailure c)).map Channel.decode := by
  obtain ⟨h1, h2, h3⟩ := structLoop_Wxr_beforeFailure c {} ""
  have hpre : xml.unmarshalStruct Wxr.typeInfo {} s (xml.beforeFailure c) true =
      ((xml.unmarshalStruct Wxr.typeInfo {} s c e).1, true) := by
    rw [unmarshalStruct_Wxr, unmarshalStruct_Wxr, h3, ← h1]
    rfl
  refine ⟨hpre, ?_, ?_⟩
  · rw [unmarshalStruct_Wxr, h2]
  · have h4 := Wxr_fold _ _ _ _ hpre
    rw [fold_map] at h4
    exact h4

theorem takeWhile_split {α : Type} (p : α → Bool) : ∀ l : List α,
    ∃ post, l = l.takeWhile p ++ post ∧ (∀ n ∈ l.takeWhile p, p n = true) ∧
      (∀ n, post.head? = some n → p n = false) := by
  intro l
  induction l with
  | nil => exact ⟨[], by simp⟩
  | cons a l ih =>
    by_cases ha : p a = true
    · obtain ⟨post, h1, h2, h3⟩ := ih
      refine ⟨post, ?_, ?_, h3⟩
      · simp only [List.takeWhile, ha, List.cons_append]
        rw [← h1]
      · intro n hn
        simp only [List.takeWhile, ha, List.mem_cons] at hn
        rcases hn with rfl | hn
        · exact ha
        · exact h2 n hn
    · refine ⟨a :: l, by simp [List.takeWhile, ha], by simp [List.takeWhile, ha], ?_⟩
      intro n hn
      simp only [List.head?_cons, Option.some.injEq] at hn
      subst hn
      simpa using ha

/-- C6: for every byte sequence, well-formed or not, `ParseWxr` returns a document; there is
    no error result and no panic. The result is what `xml.Unmarshal` left in the structure,
    with or without an error, with the dates filled in. What that is: when the tokens hold
    no root element, the zero value; otherwise split the content of the root element at
    its first child on which the decoder fails (a `channel` element that does not decode
    without error, or another element whose end tag is not delivered): the decoder gets
    past every child before it, `xml.Unmarshal` reports an error exactly when there is such
    a child or the end tag of the root element is not delivered, and what it leaves is
    what it decodes, without error, from the content before that child, namely the
    channels of the `channel` elements before it, in document order; the channel in which
    the failure occurs is cut from the slice by the decoder. For the empty byte sequence
    decoding fails and the result has no channels. For the input `truncatedDoc`, which ends
    inside its second channel, and for `postIdDoc "abc"`, whose second channel holds a
    text that does not coerce, the result is the first channel `A`. -/
theorem C6_always_returns_a_document (env : Env) (data : List UInt8) :
    (∃ r : Wxr, ParseWxr env data = some r ∧
      r = ((xml.Unmarshal (xml.tokens env.lex data) {}).1).withDates env) ∧
    (match xml.root (xml.tokens env.lex data) with
      | none => xml.Unmarshal (xml.tokens env.lex data) {} = ({}, false) ∧
          ParseWxr env data = some {}
      | some rootEl =>
          (∃ post, rootEl.content = xml.beforeFailure rootEl.content ++ post ∧
            (∀ n ∈ xml.beforeFailure rootEl.content, xml.rootChildOk n = true) ∧
            (∀ n, post.head? = some n → xml.rootChildOk n = false)) ∧
          (xml.Unmarshal (xml.tokens env.lex data) {}).2 =
            (rootEl.content.all xml.rootChildOk && rootEl.ended) ∧
          xml.unmarshalStruct Wxr.typeInfo {} rootEl.start
              (xml.beforeFailure rootEl.content) true =
            ((xml.Unmarshal (xml.tokens env.lex data) {}).1, true) ∧
          (xml.Unmarshal (xml.tokens env.lex data) {}).1.Channels =
            (xml.named "channel" (xml.beforeFailure rootEl.content)).map Channel.decode ∧
          ParseWxr env data =
            some ⟨(xml.named "channel" (xml.beforeFailure rootEl.content)).map
              (fun el => (Channel.decode el).withDates env)⟩) ∧
    (xml.Unmarshal (xml.tokens env.lex []) {}).2 = false ∧
    ParseWxr env [] = some { Channels := [] } ∧
    ((xml.Unmarshal (xml.tokens truncatedEnv.lex [60]) {}).2 = false ∧
      (ParseWxr truncatedEnv [60]).map (fun r => r.Channels.map (fun c => c.Title)) =
        some ["A"]) ∧
    ((xml.Unmarshal (xml.tokens postIdEnv.lex [60, 62]) {}).2 = false ∧
      (ParseWxr postIdEnv [60, 62]).map (fun r => r.Channels.map (fun c => c.Title)) =
        some ["A"]) := by
  refine ⟨⟨_, ParseWxr_eq env data, rfl⟩, ?_, rfl, rfl, ⟨by decide, by decide⟩,
    ⟨by decide, by decide⟩⟩
  have hP := ParseWxr_eq env data
  unfold decoded at hP
  rw [Unmarshal_root] at hP ⊢
  cases hr : xml.root (xml.tokens env.lex data) with
  | none =>
    rw [hr] at hP
    exact ⟨rfl, hP⟩
  | some rootEl =>
    rw [hr] at hP
    simp only [] at hP ⊢
    obtain ⟨h1, h2, h3⟩ := unmarshalStruct_Wxr_beforeFailure rootEl.start rootEl.content
      rootEl.ended
    refine ⟨takeWhile_split _ _, h2, h1, h3, ?_⟩
    rw [hP]
    simp only [Wxr.withDates, h3, List.map_map]
    rfl

/-! ### Post meta entries -/

/-- Every item of the result of `ParseWxr` (item `m` of channel `n`) comes from the
    `m`-th `item` child element of the `n`-th `channel` element, and its `PostMetas` are the
    `postmeta` child elements of that item element, one entry per element, in document
    order: there are exactly as many entries as elements, and entry `k` has as `Key` the
    text of the `meta_key` child and as `Value` the text of the `meta_value` child of the
    `k`-th `postmeta` element, whatever the keys of the other entries are. In the document
    `postMetaDoc` the two `postmeta` elements with the key `color` give two entries, with
    the values `red` and `blue`. -/
theorem postmetas_kept_in_document_order (env : Env) (data : List UInt8) :
    (∃ r : Wxr, ParseWxr env data = some r ∧
      ∀ (n m : Nat) (c : Channel) (i : Item),
        r.Channels[n]? = some c → c.Items[m]? = some i →
        ∃ rootEl chEl itEl, xml.root (xml.tokens env.lex data) = some rootEl ∧
          (xml.named "channel" rootEl.content)[n]? = some chEl ∧
          (xml.named "item" chEl.content)[m]? = some itEl ∧
          i.PostMetas.length = (xml.named "postmeta" itEl.content).length ∧
          ∀ (k : Nat) (pmEl : xml.Elem),
            (xml.named "postmeta" itEl.content)[k]? = some pmEl →
            ∃ pm : PostMeta, i.PostMetas[k]? = some pm ∧
              pm.Key = xml.lastText (xml.named "meta_key" pmEl.content) ∧
              pm.Value = xml.lastText (xml.named "meta_value" pmEl.content)) ∧
    (ParseWxr postMetaEnv [60]).map (fun r => r.Channels.map (fun c =>
      c.Items.map (fun i => i.PostMetas.map (fun pm => (pm.Key, pm.Value))))) =
      some [[[("_edit_last", "1"), ("color", "red"), ("color", "blue")]]] := by
  refine ⟨⟨_, ParseWxr_eq env data, ?_⟩, by decide⟩
  intro n m c i hc hi
  obtain ⟨rootEl, chEl, itEl, i0, h1, h2, h3, h4, rfl⟩ := result_item env data n m c i hc hi
  have h5 := (Item_fold _ _ _ _ h4).2.2.2.2.2.2.2.2.2.2.2.2.2.2.2.2.2.2.2.2.2.2.1
  have h6 := (Item_elems_ok _ _ _ _ h4).2.1
  rw [fold_map] at h5
  rw [filter_bindsTo_named] at h6
  refine ⟨rootEl, chEl, itEl, h1, h2, h3, ?_, ?_⟩
  · simp [Item.withDates, h5]
  · intro k pmEl hk
    have h7 : xml.unmarshalStruct PostMeta.typeInfo {} pmEl.start pmEl.content
        pmEl.ended = (PostMeta.decode pmEl, true) :=
      Prod.ext rfl (h6 pmEl (List.getElem?_mem hk))
    obtain ⟨t1, t2⟩ := PostMeta_fold _ _ _ _ h7
    rw [fold_lastText] at t1 t2
    refine ⟨PostMeta.decode pmEl, ?_, t1, t2⟩
    simp [Item.withDates, h5, hk]

/-! ### The dates of items and comments -/

/-- Every comment of an item decoded without error, at index `k` of the item with its dates
    filled in, is the `k`-th `comment` child element of the item element, decoded without
    error, with its dates filled in. -/
theorem item_comment (env : Env) (s : xml.StartElement) (c : List xml.Node) (e : Bool)
    (i0 : Item) (k : Nat) (cm : Comment)
    (h : xml.unmarshalStruct Item.typeInfo {} s c e = (i0, true))
    (hk : (i0.withDates env).Comments[k]? = some cm) :
    ∃ cmEl k0, (xml.named "comment" c)[k]? = some cmEl ∧
      xml.unmarshalStruct Comment.typeInfo {} cmEl.start cmEl.content cmEl.ended =
        (k0, true) ∧
      cm = k0.withDates env := by
  have h5 := (Item_fold _ _ _ _ h).2.2.2.2.2.2.2.2.2.2.2.2.2.2.2.2.2.2.2.2.2.2.2
  have h6 := (Item_elems_ok _ _ _ _ h).2.2
  rw [fold_map] at h5
  rw [filter_bindsTo_named] at h6
  simp only [Item.withDates, h5, List.getElem?_map, Option.map_eq_some'] at hk
  obtain ⟨k1, ⟨cmEl, hel, rfl⟩, rfl⟩ := hk
  exact ⟨cmEl, _, hel, Prod.ext rfl (h6 cmEl (List.getElem?_mem hel)), rfl⟩

/-- C12: every item of the result of `ParseWxr` (item `m` of channel `n`) comes from the
    `m`-th `item` element of the `n`-th `channel` element; its `PostDate` and `PostDateGmt`
    are the parse, under the one layout `ISODATEFORMAT` and by the same function, of the
    text of its `post_date` and of its `post_date_gmt` child element, so when the two texts
    are equal the two timestamps are equal. Likewise every comment of the item (comment
    `k`) comes from the `k`-th `comment` element of the item element, and its `Date` and
    `DateGmt` are the parse of the text of `comment_date` and of `comment_date_gmt`, equal
    when the texts are equal. In the document `commentDoc`, read where the local zone is
    two hours east of UTC, the first item and its first comment have equal texts and equal
    timestamps, and the others have the timestamps of their own texts. -/
theorem C12_gmt_fields_parsed_identically (env : Env) (data : List UInt8) :
    (∃ r : Wxr, ParseWxr env data = some r ∧
      ∀ (n m : Nat) (c : Channel) (i : Item),
        r.Channels[n]? = some c → c.Items[m]? = some i →
        ∃ rootEl chEl itEl, xml.root (xml.tokens env.lex data) = some rootEl ∧
          (xml.named "channel" rootEl.content)[n]? = some chEl ∧
          (xml.named "item" chEl.content)[m]? = some itEl ∧
          i.PostDateString = xml.lastText (xml.named "post_date" itEl.content) ∧
          i.PostDateGmtString = xml.lastText (xml.named "post_date_gmt" itEl.content) ∧
          i.PostDate = parseDate env ISODATEFORMAT i.PostDateString ∧
          i.PostDateGmt = parseDate env ISODATEFORMAT i.PostDateGmtString ∧
          (i.PostDateString = i.PostDateGmtString → i.PostDate = i.PostDateGmt) ∧
          ∀ (k : Nat) (cm : Comment), i.Comments[k]? = some cm →
            ∃ cmEl, (xml.named "comment" itEl.content)[k]? = some cmEl ∧
              cm.DateString = xml.lastText (xml.named "comment_date" cmEl.content) ∧
              cm.DateGmtString = xml.lastText (xml.named "comment_date_gmt" cmEl.content) ∧
              cm.Date = parseDate env ISODATEFORMAT cm.DateString ∧
              cm.DateGmt = parseDate env ISODATEFORMAT cm.DateGmtString ∧
              (cm.DateString = cm.DateGmtString → cm.Date = cm.DateGmt)) ∧
    (ParseWxr commentEnv [60]).map (fun r => r.Channels.map (fun c => c.Items.map (fun i =>
      (i.PostDateString, i.PostDateGmtString, i.PostDate.Unix, i.PostDateGmt.Unix)))) =
      some [[("2014-07-06 23:32:34", "2014-07-06 23:32:34", 1404689554, 1404689554),
         ("2014-07-07 01:32:34", "2014-07-06 23:32:34", 1404696754, 1404689554)], []] ∧
    (ParseWxr commentEnv [60]).map (fun r => r.Channels.flatMap (fun c => c.Items.flatMap (fun i =>
      i.Comments.map (fun cm =>
        (cm.DateString, cm.DateGmtString, cm.Date.Unix, cm.DateGmt.Unix))))) =
      some [("2014-07-07 08:00:00", "2014-07-07 08:00:00", 1404720000, 1404720000),
        ("2014-07-07 10:15:30", "2014-07-07 08:15:30", 1404728130, 1404720930)] := by
  refine ⟨⟨_, ParseWxr_eq env data, ?_⟩, by decide, by decide⟩
  intro n m c i hc hi
  obtain ⟨rootEl, chEl, itEl, i0, h1, h2, h3, h4, rfl⟩ := result_item env data n m c i hc hi
  obtain ⟨_, _, _, _, _, _, _, _, _, t9, t10, _⟩ := Item_fold _ _ _ _ h4
  rw [fold_lastText] at t9 t10
  refine ⟨rootEl, chEl, itEl, h1, h2, h3, t9, t10, rfl, rfl, ?_, ?_⟩
  · intro hs
    simp only [Item.withDates] at hs ⊢
    rw [hs]
  · intro k cm hk
    obtain ⟨cmEl, k0, g1, g2, rfl⟩ := item_comment env _ _ _ i0 k cm h4 hk
    obtain ⟨_, _, _, _, _, s5, s6, _⟩ := Comment_fold _ _ _ _ g2
    rw [fold_lastText] at s5 s6
    refine ⟨cmEl, g1, s5, s6, rfl, rfl, ?_⟩
    intro hs
    simp only [Comment.withDates] at hs ⊢
    rw [hs]

/-! ### `time.Parse` under `ISODATEFORMAT` -/

theorem skip_dash (v : List Char) : time.skip ('-' :: v) ['-'] = some v := by
  simp [time.skip, time.skipFrom]

theorem parseStd_zeroMonth (st : time.ParseState) (m : Nat) (h1 : 1 ≤ m) (h2 : m ≤ 12)
    (rest : List Char) :
    time.parseStd time.Std.stdZeroMonth st (twoDigits m rest) =
      some ({ st with month := (m : Int) }, rest) := by
  simp only [time.parseStd, getnum_twoDigits m (by omega)]
  have h3 : ¬ ((m : Int) ≤ 0 ∨ 12 < (m : Int)) := by omega
  simp only [h3, if_false]

/-- The seconds at the end of the text: no fractional second. -/
theorem parseStd_zeroSecond_end (st : time.ParseState) (n : Nat) (h : n < 60) :
    time.parseStd time.Std.stdZeroSecond st (twoDigits n []) =
      some ({ st with sec := (n : Int) }, []) := by
  simp only [time.parseStd, getnum_twoDigits n (by omega)]
  have h1 : ¬ ((n : Int) < 0 ∨ 60 ≤ (n : Int)) := by omega
  simp only [h1, if_false]

/-- The loop of `time.Parse` under `ISODATEFORMAT` on a well-formed text: no offset is
    read, `zoneOffset` keeps its start value -1. -/
theorem parseLoop_ISODATEFORMAT (year mon day hh mm ss : Nat)
    (hyear : year < 10000) (hmon1 : 1 ≤ mon) (hmon2 : mon ≤ 12) (hday : day < 100)
    (hhh : hh < 24) (hmm : mm < 60) (hss : ss < 60) :
    time.parseLoop ISODATEFORMAT {} (formatISO year mon day hh mm ss).toList =
      some { year := year, month := mon, day := day, hour := hh, min := mm, sec := ss,
             nsec := 0, zoneOffset := -1 } := by
  simp only [formatISO, String.toList, ISODATEFORMAT, time.parseLoop]
  rw [skip_nil]
  simp only [parseStd_longYear _ year hyear]
  rw [skip_dash]
  simp only [parseStd_zeroMonth _ mon hmon1 hmon2]
  rw [skip_dash]
  simp only [parseStd_zeroDay _ day hday]
  rw [skip_space _ (head_twoDigits hh (by omega) _)]
  simp only [parseStd_hour _ hh hhh]
  rw [skip_colon]
  simp only [parseStd_zeroMinute _ mm hmm]
  rw [skip_colon]
  simp only [parseStd_zeroSecond_end _ ss hss]
  rfl

/-- `time.Parse` under `ISODATEFORMAT` on the text `YYYY-MM-DD HH:MM:SS` of a valid date
    and time of day: no error, and the result is `time.Date` of the numbers read, at UTC,
    whatever the local zone is. -/
theorem Parse_ISODATEFORMAT (lo : Int → Int) (year mon day hh mm ss : Nat)
    (hyear : year < 10000) (hmon1 : 1 ≤ mon) (hmon2 : mon ≤ 12) (hday1 : 1 ≤ day)
    (hday2 : day ≤ daysInMonth year mon) (hhh : hh < 24) (hmm : mm < 60) (hss : ss < 60) :
    time.Parse lo ISODATEFORMAT (formatISO year mon day hh mm ss) =
      (time.Date year mon day hh mm ss 0, false) := by
  have hday3 : day < 100 := by
    have : daysInMonth year mon ≤ 31 := by
      unfold daysInMonth
      split_ifs <;> omega
    omega
  have hloop := parseLoop_ISODATEFORMAT year mon day hh mm ss hyear hmon1 hmon2 hday3 hhh
    hmm hss
  have hdi := daysIn_eq year mon hmon1 hmon2
  unfold time.Parse
  rw [hloop]
  simp only []
  have hm : ¬ ((mon : Int) < 0) := by omega
  have hd : ¬ ((day : Int) < 0) := by omega
  simp only [hm, hd, if_false, hdi]
  have hv : ¬ ((day : Int) < 1 ∨ (day : Int) > (daysInMonth year mon : Int)) := by omega
  simp only [hv, if_false, ne_eq, not_true_eq_false]

theorem Date_loc (y m d h mi s n : Int) : (time.Date y m d h mi s n).loc = time.Location.UTC := by
  unfold time.Date
  rfl

/-- C13: for every item of the result of `ParseWxr` whose raw `post_date` or
    `post_date_gmt` string, and every comment whose raw `comment_date` or
    `comment_date_gmt` string, is the text `YYYY-MM-DD HH:MM:SS` of a valid calendar date
    (year 0 to 9999, month 1 to 12, day 1 to the length of the month) and time of day
    (hour below 24, minute and second below 60), the timestamp is in UTC and its Unix time
    is the number of seconds from January 1, 1970 00:00:00 UTC to that wall-clock reading
    taken as UTC: no offset is read or applied, whatever the local zone of the process is.
    `2014-07-06 23:32:34` gives 1404689554. -/
theorem C13_iso_dates_read_at_offset_zero (env : Env) (data : List UInt8)
    (year mon day hh mm ss : Nat)
    (hyear : year < 10000) (hmon1 : 1 ≤ mon) (hmon2 : mon ≤ 12) (hday1 : 1 ≤ day)
    (hday2 : day ≤ daysInMonth year mon) (hhh : hh < 24) (hmm : mm < 60) (hss : ss < 60) :
    (∃ r : Wxr, ParseWxr env data = some r ∧
      ∀ (n m : Nat) (c : Channel) (i : Item),
        r.Channels[n]? = some c → c.Items[m]? = some i →
        (i.PostDateString = formatISO year mon day hh mm ss →
          i.PostDate.Unix = epochSecondsUTC year mon day hh mm ss ∧
          i.PostDate.loc = time.Location.UTC) ∧
        (i.PostDateGmtString = formatISO year mon day hh mm ss →
          i.PostDateGmt.Unix = epochSecondsUTC year mon day hh mm ss ∧
          i.PostDateGmt.loc = time.Location.UTC) ∧
        ∀ (k : Nat) (cm : Comment), i.Comments[k]? = some cm →
          (cm.DateString = formatISO year mon day hh mm ss →
            cm.Date.Unix = epochSecondsUTC year mon day hh mm ss ∧
            cm.Date.loc = time.Location.UTC) ∧
          (cm.DateGmtString = formatISO year mon day hh mm ss →
            cm.DateGmt.Unix = epochSecondsUTC year mon day hh mm ss ∧
            cm.DateGmt.loc = time.Location.UTC)) ∧
    formatISO 2014 7 6 23 32 34 = "2014-07-06 23:32:34" ∧
    (time.Parse env.localOffset ISODATEFORMAT "2014-07-06 23:32:34").1.Unix = 1404689554 := by
  have hP : ∀ lo, (time.Parse lo ISODATEFORMAT (formatISO year mon day hh mm ss)).1.Unix =
        epochSecondsUTC year mon day hh mm ss ∧
      (time.Parse lo ISODATEFORMAT (formatISO year mon day hh mm ss)).1.loc =
        time.Location.UTC := by
    intro lo
    have hU := Date_Unix year mon day hh mm ss hmon1 hmon2 hday1 hhh hmm hss
    have hL := Date_loc year mon day hh mm ss 0
    rw [Parse_ISODATEFORMAT lo year mon day hh mm ss hyear hmon1 hmon2 hday1 hday2 hhh hmm
      hss]
    simp only []
    exact ⟨hU, hL⟩
  refine ⟨⟨_, ParseWxr_eq env data, ?_⟩, by decide, ?_⟩
  · intro n m c i hc hi
    simp only [Wxr.withDates, List.getElem?_map, Option.map_eq_some'] at hc
    obtain ⟨c0, _, rfl⟩ := hc
    simp only [Channel.withDates, List.getElem?_map, Option.map_eq_some'] at hi
    obtain ⟨i0, _, rfl⟩ := hi
    refine ⟨?_, ?_, ?_⟩
    · intro hs
      simp only [Item.withDates, parseDate] at hs ⊢
      rw [hs]
      exact hP _
    · intro hs
      simp only [Item.withDates, parseDate] at hs ⊢
      rw [hs]
      exact hP _
    · intro k cm hk
      simp only [Item.withDates, List.getElem?_map, Option.map_eq_some'] at hk
      obtain ⟨k0, _, rfl⟩ := hk
      refine ⟨?_, ?_⟩
      · intro hs
        simp only [Comment.withDates, parseDate] at hs ⊢
        rw [hs]
        exact hP _
      · intro hs
        simp only [Comment.withDates, parseDate] at hs ⊢
        rw [hs]
        exact hP _
  · have h := Parse_ISODATEFORMAT env.localOffset 2014 7 6 23 32 34 (by decide) (by decide)
      (by decide) (by decide) (by decide) (by decide) (by decide) (by decide)
    have hf : formatISO 2014 7 6 23 32 34 = "2014-07-06 23:32:34" := by decide
    rw [hf] at h
    rw [h]
    simp only []
    rw [Date_Unix 2014 7 6 23 32 34 (by decide) (by decide) (by decide) (by decide)
      (by decide) (by decide), epochSeconds_example]

/-- C13 at the document `commentDoc`, read where the local zone is two hours east of UTC:
    the first item carries the `post_date` and `post_date_gmt` text `2014-07-06 23:32:34`
    and both timestamps are the Unix time 1404689554, in UTC. -/
theorem C13_iso_dates_read_at_offset_zero_witness :
    (2014 < 10000 ∧ 1 ≤ 7 ∧ 7 ≤ 12 ∧ 1 ≤ 6 ∧ 6 ≤ daysInMonth 2014 7 ∧ 23 < 24 ∧ 32 < 60 ∧
      34 < 60) ∧
    ((∃ r : Wxr, ParseWxr commentEnv [60] = some r ∧
      ∀ (n m : Nat) (c : Channel) (i : Item),
        r.Channels[n]? = some c → c.Items[m]? = some i →
        (i.PostDateString = formatISO 2014 7 6 23 32 34 →
          i.PostDate.Unix = epochSecondsUTC 2014 7 6 23 32 34 ∧
          i.PostDate.loc = time.Location.UTC) ∧
        (i.PostDateGmtString = formatISO 2014 7 6 23 32 34 →
          i.PostDateGmt.Unix = epochSecondsUTC 2014 7 6 23 32 34 ∧
          i.PostDateGmt.loc = time.Location.UTC) ∧
        ∀ (k : Nat) (cm : Comment), i.Comments[k]? = some cm →
          (cm.DateString = formatISO 2014 7 6 23 32 34 →
            cm.Date.Unix = epochSecondsUTC 2014 7 6 23 32 34 ∧
            cm.Date.loc = time.Location.UTC) ∧
          (cm.DateGmtString = formatISO 2014 7 6 23 32 34 →
            cm.DateGmt.Unix = epochSecondsUTC 2014 7 6 23 32 34 ∧
            cm.DateGmt.loc = time.Location.UTC)) ∧
    formatISO 2014 7 6 23 32 34 = "2014-07-06 23:32:34" ∧
    (time.Parse commentEnv.localOffset ISODATEFORMAT "2014-07-06 23:32:34").1.Unix =
      1404689554) ∧
    (ParseWxr commentEnv [60]).map (fun r => r.Channels.map (fun c => c.Items.map (fun i =>
      (i.PostDateString, i.PostDate.Unix, i.PostDate.loc, i.PostDateGmt.Unix)))) =
      some [[("2014-07-06 23:32:34", 1404689554, time.Location.UTC, 1404689554),
         ("2014-07-07 01:32:34", 1404696754, time.Location.UTC, 1404689554)], []] :=
  ⟨by decide,
    C13_iso_dates_read_at_offset_zero commentEnv [60] 2014 7 6 23 32 34 (by decide)
      (by decide) (by decide) (by decide) (by decide) (by decide) (by decide) (by decide),
    by decide⟩

/-! ### The date loop as a whole -/

/-- C14: the date loop of `ParseWxr`, run on any structure `w` (so on every structure the
    XML decoding step leaves), returns a structure `r` with as many channels as `w`; the
    channel at each index is the channel of `w` at that index with nothing but `PubDate`
    and the elements of `Items` replaced; it has as many items, and the item at each index
    is the item of `w` with nothing but `PubDate`, `PostDate`, `PostDateGmt` and the
    elements of `Comments` replaced; it has as many comments, and the comment at each index
    is the comment of `w` with nothing but `Date` and `DateGmt` replaced. So the number and
    order of channels, items and comments, every other field (the authors, categories,
    tags, item categories and post meta among them) and the six raw date strings are as
    before the loop. -/
theorem C14_date_loop_changes_timestamps_only (env : Env) (w : Wxr) :
    (∃ r : Wxr, parseDateStrings env w = some r ∧
      r.Channels.length = w.Channels.length ∧
      ∀ (n : Nat) (c0 : Channel), w.Channels[n]? = some c0 →
        ∃ c : Channel, r.Channels[n]? = some c ∧
          c = { c0 with PubDate := c.PubDate, Items := c.Items } ∧
          c.Items.length = c0.Items.length ∧
          ∀ (m : Nat) (i0 : Item), c0.Items[m]? = some i0 →
            ∃ i : Item, c.Items[m]? = some i ∧
              i = { i0 with PubDate := i.PubDate, PostDate := i.PostDate,
                            PostDateGmt := i.PostDateGmt, Comments := i.Comments } ∧
              i.Comments.length = i0.Comments.length ∧
              ∀ (k : Nat) (k0 : Comment), i0.Comments[k]? = some k0 →
                ∃ cm : Comment, i.Comments[k]? = some cm ∧
                  cm = { k0 with Date := cm.Date, DateGmt := cm.DateGmt }) ∧
    (∀ data : List UInt8, ParseWxr env data = parseDateStrings env (decoded env data)) := by
  refine ⟨⟨_, parseDateStrings_eq env w, by simp [Wxr.withDates], ?_⟩, fun _ => rfl⟩
  intro n c0 hc
  refine ⟨c0.withDates env, by simp [Wxr.withDates, hc], rfl, by simp [Channel.withDates], ?_⟩
  intro m i0 hi
  refine ⟨i0.withDates env, by simp [Channel.withDates, hi], rfl, by simp [Item.withDates], ?_⟩
  intro k k0 hk
  exact ⟨k0.withDates env, by simp [Item.withDates, hk], rfl⟩

theorem Comment_withDates_withDates (env : Env) (k : Comment) :
    (k.withDates env).withDates env = k.withDates env := rfl

theorem Item_withDates_withDates (env : Env) (i : Item) :
    (i.withDates env).withDates env = i.withDates env := by
  simp only [Item.withDates, List.map_map]
  congr 1

theorem Channel_withDates_withDates (env : Env) (c : Channel) :
    (c.withDates env).withDates env = c.withDates env := by
  have h : (Item.withDates env) ∘ (Item.withDates env) = Item.withDates env :=
    funext (Item_withDates_withDates env)
  simp only [Channel.withDates, List.map_map, h]

/-- Filling in the dates of a structure whose dates are filled in changes nothing. -/
theorem Wxr_withDates_withDates (env : Env) (w : Wxr) :
    (w.withDates env).withDates env = w.withDates env := by
  have h : (Channel.withDates env) ∘ (Channel.withDates env) = Channel.withDates env :=
    funext (Channel_withDates_withDates env)
  simp only [Wxr.withDates, List.map_map, h]

/-- C15: for every input, running the date loop of `ParseWxr` a second time on the result
    of `ParseWxr` returns that result again; and the same holds for the date loop run
    twice on any structure. -/
theorem C15_date_loop_idempotent (env : Env) (data : List UInt8) :
    (∃ r : Wxr, ParseWxr env data = some r ∧ parseDateStrings env r = some r) ∧
    (∀ w : Wxr, ∃ r : Wxr, parseDateStrings env w = some r ∧
      parseDateStrings env r = some r) := by
  have h : ∀ w : Wxr, ∃ r : Wxr, parseDateStrings env w = some r ∧
      parseDateStrings env r = some r := by
    intro w
    refine ⟨_, parseDateStrings_eq env w, ?_⟩
    rw [parseDateStrings_eq, Wxr_withDates_withDates]
  exact ⟨h (decoded env data), h⟩

/-! ### Index safety of the date loop -/

/-- An assignment through `s[i]` panics exactly when `i` is not below the length of `s`. -/
theorem setAt_isSome {α : Type} (g : α → Option α) :
    ∀ (l : List α) (i : Nat),
      (setAt l i g).isSome = true ↔ ∃ a, l[i]? = some a ∧ (g a).isSome = true := by
  intro l
  induction l with
  | nil => intro i; simp [setAt]
  | cons x l ih =>
    intro i
    cases i with
    | zero =>
      cases hg : g x <;> simp [setAt, hg]
    | succ i =>
      have h := ih i
      cases hs : setAt l i g with
      | none =>
        rw [hs] at h
        simp only [setAt, hs, List.getElem?_cons_succ]
        exact h
      | some l1 =>
        rw [hs] at h
        simp only [setAt, hs, List.getElem?_cons_succ]
        exact h

theorem getElem?_isSome_iff {α : Type} (l : List α) (i : Nat) :
    (∃ a, l[i]? = some a) ↔ i < l.length := by
  constructor
  · rintro ⟨a, h⟩
    by_contra hn
    rw [List.getElem?_eq_none (by omega)] at h
    cases h
  · intro h
    exact ⟨l[i], List.getElem?_eq_getElem h⟩

theorem atChannel_isSome (w : Wxr) (ci : Nat) (f : Channel → Option Channel) :
    (w.atChannel ci f).isSome = true ↔
      ∃ c, w.Channels[ci]? = some c ∧ (f c).isSome = true := by
  rw [← setAt_isSome f w.Channels ci]
  unfold Wxr.atChannel
  cases setAt w.Channels ci f <;> simp

theorem atItem_isSome (c : Channel) (ii : Nat) (f : Item → Option Item) :
    (c.atItem ii f).isSome = true ↔ ∃ i, c.Items[ii]? = some i ∧ (f i).isSome = true := by
  rw [← setAt_isSome f c.Items ii]
  unfold Channel.atItem
  cases setAt c.Items ii f <;> simp

theorem atComment_isSome (i : Item) (ki : Nat) (f : Comment → Option Comment) :
    (i.atComment ki f).isSome = true ↔
      ∃ k, i.Comments[ki]? = some k ∧ (f k).isSome = true := by
  rw [← setAt_isSome f i.Comments ki]
  unfold Item.atComment
  cases setAt i.Comments ki f <;> simp

/-- A range loop runs its body once for each index below `n`, in increasing order. -/
theorem forRangeFrom_eq_foldlM {σ : Type} (body : Nat → σ → Option σ) :
    ∀ (n i : Nat) (s : σ),
      forRangeFrom body n i s = (List.range' i n).foldlM (fun s j => body j s) s := by
  intro n
  induction n with
  | zero => intro i s; rfl
  | succ n ih =>
    intro i s
    simp only [forRangeFrom, List.range'_succ, List.foldlM_cons]
    cases h : body i s with
    | none => rfl
    | some s1 => simp [ih]

/-- C16: the date loop of `ParseWxr`, run on any structure `w` (so on every decoded
    structure, also one with a channel without items or an item without comments), never
    panics: it returns a structure, namely `w` with the dates of every channel, item and
    comment filled in. In the model every assignment through an index is checked, and it
    fails exactly when an index is not below the length of its collection: an assignment
    below `Channels[ci]` succeeds exactly when `ci` is below the number of channels, one
    below `Channels[ci].Items[ii]` exactly when moreover `ii` is below the number of items
    of that channel, and one below `Channels[ci].Items[ii].Comments[ki]` exactly when
    moreover `ki` is below the number of comments of that item; so a run without panic is
    a run in which every index was in bounds. Every range loop runs its body once for each
    index below the length it ranges over, in increasing order, and then ends. In the
    document `commentDoc` the first channel has an item with two comments and an item
    without comments, and the second channel has no items. -/
theorem C16_date_loop_indices_in_bounds (env : Env) (w : Wxr) :
    (∃ r : Wxr, parseDateStrings env w = some r ∧ r = w.withDates env ∧
      r.Channels.length = w.Channels.length) ∧
    (∀ (ci : Nat) (g : Channel → Channel),
      (w.atChannel ci (fun c => some (g c))).isSome = true ↔ ci < w.Channels.length) ∧
    (∀ (ci ii : Nat) (g : Item → Item),
      (w.setItem ci ii g).isSome = true ↔
        ∃ c, w.Channels[ci]? = some c ∧ ii < c.Items.length) ∧
    (∀ (ci ii ki : Nat) (g : Comment → Comment),
      (w.setComment ci ii ki g).isSome = true ↔
        ∃ c i, w.Channels[ci]? = some c ∧ c.Items[ii]? = some i ∧
          ki < i.Comments.length) ∧
    (∀ (σ : Type) (n : Nat) (body : Nat → σ → Option σ) (s : σ),
      forRange n body s = (List.range n).foldlM (fun s j => body j s) s) ∧
    (ParseWxr commentEnv [60]).map (fun r => r.Channels.map (fun c =>
      c.Items.map (fun i => i.Comments.length))) = some [[2, 0], []] := by
  refine ⟨⟨_, parseDateStrings_eq env w, rfl, by simp [Wxr.withDates]⟩, ?_, ?_, ?_, ?_,
    by decide⟩
  · intro ci g
    rw [atChannel_isSome, ← getElem?_isSome_iff]
    simp
  · intro ci ii g
    unfold Wxr.setItem
    rw [atChannel_isSome]
    simp only [atItem_isSome, ← getElem?_isSome_iff]
    simp
  · intro ci ii ki g
    unfold Wxr.setComment
    rw [atChannel_isSome]
    simp only [atItem_isSome, atComment_isSome, ← getElem?_isSome_iff]
    simp
  · intro σ n body s
    unfold forRange
    rw [forRangeFrom_eq_foldlM, List.range_eq_range']

/-! ### Decoding two documents that differ in one place -/

theorem unmarshalPath_alike {σ : Type} (E : σ → σ) (a b : σ) (s : xml.StartElement)
    (c1 c2 : List xml.Node) (e : Bool) :
    ∀ (fields : List (xml.FieldInfo σ)),
      (∀ f ∈ fields, f.binds s →
        (f.unmarshal a s c1 e).2 = (f.unmarshal b s c2 e).2 ∧
        E (f.unmarshal a s c1 e).1 = E (f.unmarshal b s c2 e).1) →
      (xml.unmarshalPath fields a s c1 e = none ∧ xml.unmarshalPath fields b s c2 e = none) ∨
      (∃ ra rb, xml.unmarshalPath fields a s c1 e = some ra ∧
        xml.unmarshalPath fields b s c2 e = some rb ∧ ra.2 = rb.2 ∧ E ra.1 = E rb.1) := by
  intro fields
  induction fields with
  | nil => intro _; exact Or.inl ⟨rfl, rfl⟩
  | cons f fs ih =>
    intro h
    have ih1 := ih (fun g hg => h g (List.mem_cons_of_mem _ hg))
    simp only [xml.unmarshalPath]
    by_cases hns : f.xmlns ≠ "" ∧ f.xmlns ≠ s.Name.Space
    · simp only [hns, ne_eq, not_false_eq_true, and_self, if_true]
      exact ih1
    · simp only [hns, if_false]
      by_cases hname : f.name = s.Name.Local
      · simp only [hname, if_true]
        have hb : f.binds s := by
          refine ⟨?_, hname⟩
          by_cases h0 : f.xmlns = ""
          · exact Or.inl h0
          · by_cases h1 : f.xmlns = s.Name.Space
            · exact Or.inr h1
            · exact absurd ⟨h0, h1⟩ hns
        obtain ⟨h1, h2⟩ := h f (List.mem_cons_self _ _) hb
        exact Or.inr ⟨_, _, rfl, rfl, h1, h2⟩
      · simp only [hname, if_false]
        exact ih1

/-- The struct loop over two contents whose nodes are alike up to `E`, from two structs
    equal up to `E`: the same error, and structs equal up to `E`. -/
theorem structLoop_alike {σ : Type} (ti : xml.TypeInfo σ) (E : σ → σ) :
    ∀ (c1 c2 : List xml.Node), List.Forall₂ (xml.Alike ti E) c1 c2 →
      ∀ (a b : σ) (d1 d2 : String), E a = E b →
        (xml.structLoop ti a d1 c1).2.2 = (xml.structLoop ti b d2 c2).2.2 ∧
        E (xml.structLoop ti a d1 c1).1 = E (xml.structLoop ti b d2 c2).1 := by
  intro c1 c2 h
  induction h with
  | nil => intro a b d1 d2 hab; exact ⟨rfl, hab⟩
  | @cons n1 n2 l1 l2 hn _ ih =>
    intro a b d1 d2 hab
    cases n1 with
    | CharData x =>
      cases n2 with
      | CharData y => simp only [xml.structLoop]; exact ih a b _ _ hab
      | Other => exact absurd hn (by simp [xml.Alike])
      | Element s c e => exact absurd hn (by simp [xml.Alike])
    | Other =>
      cases n2 with
      | CharData y => exact absurd hn (by simp [xml.Alike])
      | Other => simp only [xml.structLoop]; exact ih a b _ _ hab
      | Element s c e => exact absurd hn (by simp [xml.Alike])
    | Element s1 c1 e1 =>
      cases n2 with
      | CharData y => exact absurd hn (by simp [xml.Alike])
      | Other => exact absurd hn (by simp [xml.Alike])
      | Element s2 c2 e2 =>
        simp only [xml.Alike] at hn
        obtain ⟨hs, he, hf⟩ := hn
        subst hs
        subst he
        simp only [xml.structLoop]
        rcases unmarshalPath_alike E a b s1 c1 c2 e1 ti.fields
          (fun f hfm hb => hf f hfm hb a b hab) with ⟨h1, h2⟩ | ⟨ra, rb, h1, h2, h3, h4⟩
        · rw [h1, h2]
          simp only []
          by_cases he : e1 = true
          · simp only [he, if_true]; exact ih a b _ _ hab
          · simp only [he]; exact ⟨rfl, hab⟩
        · rw [h1, h2]
          obtain ⟨ra1, ra2⟩ := ra
          obtain ⟨rb1, rb2⟩ := rb
          simp only at h3 h4
          subst h3
          simp only []
          by_cases hok : ra2 = true
          · simp only [hok, if_true]; exact ih ra1 rb1 _ _ h4
          · simp only [hok]; exact ⟨rfl, h4⟩

/-- Decoding two elements with the same start tag and end whose contents are alike up to
    `E`, into a struct type without attribute and character data fields: the same error,
    and structs equal up to `E`. -/
theorem unmarshalStruct_alike {σ : Type} (ti : xml.TypeInfo σ) (E : σ → σ)
    (hattrs : ti.attrs = []) (hchar : ti.chardata = none) (sv : σ) (s : xml.StartElement)
    (c1 c2 : List xml.Node) (e : Bool) (h : List.Forall₂ (xml.Alike ti E) c1 c2) :
    (xml.unmarshalStruct ti sv s c1 e).2 = (xml.unmarshalStruct ti sv s c2 e).2 ∧
    E (xml.unmarshalStruct ti sv s c1 e).1 = E (xml.unmarshalStruct ti sv s c2 e).1 := by
  obtain ⟨h1, h2⟩ := structLoop_alike ti E c1 c2 h sv sv "" "" rfl
  unfold xml.unmarshalStruct
  rw [hattrs, assignAttrs_nil]
  simp only [hchar]
  cases hl1 : xml.structLoop ti sv "" c1 with
  | mk v1 rest1 =>
    obtain ⟨d1, ok1⟩ := rest1
    cases hl2 : xml.structLoop ti sv "" c2 with
    | mk v2 rest2 =>
      obtain ⟨d2, ok2⟩ := rest2
      rw [hl1, hl2] at h1 h2
      simp only at h1 h2
      subst h1
      cases ok1 <;> cases e <;> simp [h2]

/-- A field of the uniform kind treats two structs equal up to `E` alike when storing
    commutes with `E`. -/
theorem field_alike {σ τ : Type} (E : σ → σ) (xmlns name : String)
    (value : xml.StartElement → List xml.Node → Bool → Option τ) (store : σ → τ → σ)
    (hE : ∀ a x, E (store a x) = E (store (E a) x))
    (a b : σ) (s : xml.StartElement) (c : List xml.Node) (e : Bool) (hab : E a = E b) :
    ((xml.field xmlns name value store).unmarshal a s c e).2 =
      ((xml.field xmlns name value store).unmarshal b s c e).2 ∧
    E ((xml.field xmlns name value store).unmarshal a s c e).1 =
      E ((xml.field xmlns name value store).unmarshal b s c e).1 := by
  simp only [xml.field]
  cases value s c e with
  | none => exact ⟨rfl, hab⟩
  | some x =>
    refine ⟨rfl, ?_⟩
    simp only []
    rw [hE a x, hE b x, hab]

/-- Every node is alike itself when every field treats structs equal up to `E` alike. -/
theorem alike_refl {σ : Type} (ti : xml.TypeInfo σ) (E : σ → σ)
    (hcongr : ∀ f ∈ ti.fields, ∀ a b s c e, E a = E b →
      (f.unmarshal a s c e).2 = (f.unmarshal b s c e).2 ∧
      E (f.unmarshal a s c e).1 = E (f.unmarshal b s c e).1) :
    ∀ n : xml.Node, xml.Alike ti E n n := by
  intro n
  cases n with
  | CharData x => simp [xml.Alike]
  | Other => simp [xml.Alike]
  | Element s c e =>
    simp only [xml.Alike, true_and]
    exact fun f hf _ a b hab => hcongr f hf a b s c e hab

theorem named_cons_element (nm : String) (st : xml.StartElement) (cc : List xml.Node)
    (e : Bool) (ns : List xml.Node) :
    xml.named nm (xml.Node.Element st cc e :: ns) =
      if st.Name.Local = nm then ⟨st, cc, e⟩ :: xml.named nm ns else xml.named nm ns := by
  by_cases h : st.Name.Local = nm <;> simp [xml.named, xml.elements, xml.byName, h]

theorem named_cons_chardata (nm : String) (t : String) (ns : List xml.Node) :
    xml.named nm (xml.Node.CharData t :: ns) = xml.named nm ns := by
  simp [xml.named, xml.elements]

theorem named_cons_other (nm : String) (ns : List xml.Node) :
    xml.named nm (xml.Node.Other :: ns) = xml.named nm ns := by
  simp [xml.named, xml.elements]

/-- The elements named `nm` after `setText`: the same elements with the content `s`. -/
theorem named_setText (nm s : String) : ∀ c : List xml.Node,
    xml.named nm (xml.setText nm s c) =
      (xml.named nm c).map (fun el => ⟨el.start, [xml.Node.CharData s], el.ended⟩) := by
  intro c
  induction c with
  | nil => rfl
  | cons n ns ih =>
    cases n with
    | CharData t => simpa [xml.setText, named_cons_chardata] using ih
    | Other => simpa [xml.setText, named_cons_other] using ih
    | Element st cc e =>
      by_cases h : st.Name.Local = nm
      · simp [xml.setText, named_cons_element, h, ih]
      · simp [xml.setText, named_cons_element, h, ih]

theorem lastText_setText (nm s : String) (c : List xml.Node) (h : xml.named nm c ≠ []) :
    xml.lastText (xml.named nm (xml.setText nm s c)) = s := by
  rw [named_setText]
  unfold xml.lastText
  rw [List.getLast?_map]
  cases hl : (xml.named nm c).getLast? with
  | none => exact absurd (List.getLast?_eq_none_iff.mp hl) h
  | some el => simp [xml.text]

/-- The elements named `nm` after `atChild`: the `k`-th one has its content changed. -/
theorem named_atChild (nm : String) (g : List xml.Node → List xml.Node) :
    ∀ (c : List xml.Node) (k : Nat),
      xml.named nm (xml.atChild nm g k c) =
        modifyAt (xml.named nm c) k (fun el => ⟨el.start, g el.content, el.ended⟩) := by
  intro c
  induction c with
  | nil => intro k; rfl
  | cons n ns ih =>
    intro k
    cases n with
    | CharData t => simpa [xml.atChild, named_cons_chardata] using ih k
    | Other => simpa [xml.atChild, named_cons_other] using ih k
    | Element st cc e =>
      by_cases h : st.Name.Local = nm
      · cases k with
        | zero => simp [xml.atChild, named_cons_element, h, modifyAt]
        | succ k => simp [xml.atChild, named_cons_element, h, modifyAt, ih]
      · simp [xml.atChild, named_cons_element, h, ih]

theorem forall2_setText {σ : Type} (ti : xml.TypeInfo σ) (E : σ → σ) (nm v s : String)
    (hrefl : ∀ n, xml.Alike ti E n n)
    (hedit : ∀ (st : xml.StartElement) (e : Bool), st.Name.Local = nm →
      xml.Alike ti E (xml.Node.Element st [xml.Node.CharData v] e)
        (xml.Node.Element st [xml.Node.CharData s] e)) :
    ∀ c : List xml.Node,
      List.Forall₂ (xml.Alike ti E) (xml.setText nm v c) (xml.setText nm s c) := by
  intro c
  induction c with
  | nil => exact List.Forall₂.nil
  | cons n ns ih =>
    cases n with
    | CharData t => exact List.Forall₂.cons (hrefl _) ih
    | Other => exact List.Forall₂.cons (hrefl _) ih
    | Element st cc e =>
      by_cases h : st.Name.Local = nm
      · simp only [xml.setText, h, if_true]
        exact List.Forall₂.cons (hedit st e h) ih
      · simp only [xml.setText, h, if_false]
        exact List.Forall₂.cons (hrefl _) ih

theorem forall2_refl_alike {σ : Type} (ti : xml.TypeInfo σ) (E : σ → σ)
    (hrefl : ∀ n, xml.Alike ti E n n) :
    ∀ c : List xml.Node, List.Forall₂ (xml.Alike ti E) c c := by
  intro c
  induction c with
  | nil => exact List.Forall₂.nil
  | cons n ns ih => exact List.Forall₂.cons (hrefl n) ih

theorem forall2_atChild {σ : Type} (ti : xml.TypeInfo σ) (E : σ → σ) (nm : String)
    (gv gs : List xml.Node → List xml.Node) (hrefl : ∀ n, xml.Alike ti E n n) :
    ∀ (c : List xml.Node) (k : Nat),
      (∀ el, (xml.named nm c)[k]? = some el →
        xml.Alike ti E (xml.Node.Element el.start (gv el.content) el.ended)
          (xml.Node.Element el.start (gs el.content) el.ended)) →
      List.Forall₂ (xml.Alike ti E) (xml.atChild nm gv k c) (xml.atChild nm gs k c) := by
  intro c
  induction c with
  | nil => intro k _; exact List.Forall₂.nil
  | cons n ns ih =>
    intro k H
    cases n with
    | CharData t =>
      exact List.Forall₂.cons (hrefl _) (ih k (by simpa [named_cons_chardata] using H))
    | Other =>
      exact List.Forall₂.cons (hrefl _) (ih k (by simpa [named_cons_other] using H))
    | Element st cc e =>
      by_cases h : st.Name.Local = nm
      · cases k with
        | zero =>
          simp only [xml.atChild, h, if_true]
          refine List.Forall₂.cons ?_ (forall2_refl_alike ti E hrefl ns)
          exact H ⟨st, cc, e⟩ (by simp [named_cons_element, h])
        | succ k =>
          simp only [xml.atChild, h, if_true]
          refine List.Forall₂.cons (hrefl _) (ih k ?_)
          intro el hel
          exact H el (by simpa [named_cons_element, h] using hel)
      · simp only [xml.atChild, h, if_false]
        refine List.Forall₂.cons (hrefl _) (ih k ?_)
        intro el hel
        exact H el (by simpa [named_cons_element, h] using hel)

theorem map_modifyAt_at {α β : Type} (F : α → β) (hv hs : α → α) (G : β → β) :
    ∀ (l : List α) (k : Nat), (∀ a, l[k]? = some a → F (hs a) = G (F (hv a))) →
      (modifyAt l k hs).map F = modifyAt ((modifyAt l k hv).map F) k G := by
  intro l
  induction l with
  | nil => intro k _; rfl
  | cons a l ih =>
    intro k H
    cases k with
    | zero => simp [modifyAt, H a (by simp)]
    | succ k =>
      simp only [modifyAt, List.map_cons, List.cons.injEq, true_and]
      exact ih k (fun a ha => H a (by simpa using ha))

theorem mem_modifyAt_at {α : Type} (g : α → α) (l : List α) (k : Nat) (a : α)
    (h : l[k]? = some a) : g a ∈ modifyAt l k g := by
  have h1 : (modifyAt l k g)[k]? = some (g a) := by rw [getElem?_modifyAt, h]; rfl
  exact List.getElem?_mem h1

/-- The field of a leaf: a struct decoded from a content in which every element named `nm`
    has the text `s`, compared with the same content with the text `v`. -/
theorem related_leaf {σ : Type} (ti : xml.TypeInfo σ) (zero : σ) (E : σ → σ)
    (get : σ → String) (set : σ → String → σ) (nm v s : String)
    (hattrs : ti.attrs = []) (hchar : ti.chardata = none)
    (hrefl : ∀ n, xml.Alike ti E n n)
    (hedit : ∀ (st : xml.StartElement) (e : Bool) (x y : String), st.Name.Local = nm →
      xml.Alike ti E (xml.Node.Element st [xml.Node.CharData x] e)
        (xml.Node.Element st [xml.Node.CharData y] e))
    (hfold : ∀ st c e r, xml.unmarshalStruct ti zero st c e = (r, true) →
      get r = xml.lastText (xml.named nm c))
    (heta : ∀ a b t, E a = E b → get b = t → b = set a t)
    (c : List xml.Node) (hplace : xml.named nm c ≠ []) :
    xml.Related ti zero (fun a => set a s) (xml.setText nm v c) (xml.setText nm s c) := by
  intro st e
  obtain ⟨h1, h2⟩ := unmarshalStruct_alike ti E hattrs hchar zero st _ _ e
    (forall2_setText ti E nm v s hrefl (fun st e h => hedit st e v s h) c)
  refine ⟨h1, fun hok => heta _ _ s h2 ?_⟩
  rw [hfold st (xml.setText nm s c) e _ (Prod.ext rfl hok), lastText_setText nm s c hplace]

/-- The slice of an inner level: a struct decoded from a content whose `k`-th element named
    `nm` has its content changed, when decoding that element is related by `G`. -/
theorem related_slice {σ τ : Type} (ti : xml.TypeInfo σ) (zero : σ) (tiT : xml.TypeInfo τ)
    (zeroT : τ) (E : σ → σ) (get : σ → List τ) (set : σ → List τ → σ) (nm : String)
    (G : τ → τ) (gv gs : List xml.Node → List xml.Node)
    (hattrs : ti.attrs = []) (hchar : ti.chardata = none)
    (hrefl : ∀ n, xml.Alike ti E n n)
    (hedit : ∀ (st : xml.StartElement) (e : Bool) (cv cs : List xml.Node),
      st.Name.Local = nm →
      (xml.unmarshalStruct tiT zeroT st cv e).2 = (xml.unmarshalStruct tiT zeroT st cs e).2 →
      xml.Alike ti E (xml.Node.Element st cv e) (xml.Node.Element st cs e))
    (hfold : ∀ st c e r, xml.unmarshalStruct ti zero st c e = (r, true) →
      get r = (xml.named nm c).map
        (fun el => (xml.unmarshalStruct tiT zeroT el.start el.content el.ended).1) ∧
      ∀ el ∈ xml.named nm c,
        (xml.unmarshalStruct tiT zeroT el.start el.content el.ended).2 = true)
    (heta : ∀ a b t, E a = E b → get b = t → b = set a t)
    (c : List xml.Node) (k : Nat)
    (hrel : ∀ el, (xml.named nm c)[k]? = some el →
      xml.Related tiT zeroT G (gv el.content) (gs el.content)) :
    xml.Related ti zero (fun a => set a (modifyAt (get a) k G))
      (xml.atChild nm gv k c) (xml.atChild nm gs k c) := by
  intro st e
  have hnamed : ∀ el, el ∈ xml.named nm c → el.start.Name.Local = nm := by
    intro el hel
    simp only [xml.named, List.mem_filter, xml.byName, decide_eq_true_eq] at hel
    exact hel.2
  obtain ⟨h1, h2⟩ := unmarshalStruct_alike ti E hattrs hchar zero st _ _ e
    (forall2_atChild ti E nm gv gs hrefl c k (fun el hel =>
      hedit el.start el.ended _ _ (hnamed el (List.getElem?_mem hel))
        (hrel el hel el.start el.ended).1))
  refine ⟨h1, fun hok => heta _ _ _ h2 ?_⟩
  obtain ⟨fs, oks⟩ := hfold st (xml.atChild nm gs k c) e _ (Prod.ext rfl hok)
  obtain ⟨fv, _⟩ := hfold st (xml.atChild nm gv k c) e _ (Prod.ext rfl (h1.trans hok))
  rw [fs, fv, named_atChild, named_atChild]
  refine map_modifyAt_at _ _ _ G _ k ?_
  intro el hel
  have hmem := oks _ (by rw [named_atChild]; exact mem_modifyAt_at _ _ k el hel)
  exact (hrel el hel el.start el.ended).2 hmem

theorem string_edit {σ : Type} (E : σ → σ) (nm : String) (store : σ → String → σ)
    (hE : ∀ a x, E (store a x) = E a) (st : xml.StartElement) (e : Bool) (x y : String)
    (a b : σ) (hab : E a = E b) :
    ((xml.stringField nm store).unmarshal a st [xml.Node.CharData x] e).2 =
      ((xml.stringField nm store).unmarshal b st [xml.Node.CharData y] e).2 ∧
    E ((xml.stringField nm store).unmarshal a st [xml.Node.CharData x] e).1 =
      E ((xml.stringField nm store).unmarshal b st [xml.Node.CharData y] e).1 := by
  cases e <;>
    simp [xml.stringField, xml.field, xml.stringValue, xml.leafData, xml.collect, hE, hab]

theorem slice_edit {σ τ : Type} (E : σ → σ) (nm : String) (get : σ → List τ)
    (set : σ → List τ → σ) (zero : τ)
    (elem : τ → xml.StartElement → List xml.Node → Bool → τ × Bool)
    (hE : ∀ a x, E (set a x) = E a) (st : xml.StartElement) (e : Bool)
    (cv cs : List xml.Node) (hok : (elem zero st cv e).2 = (elem zero st cs e).2)
    (a b : σ) (hab : E a = E b) :
    ((xml.sliceField nm get set zero elem).unmarshal a st cv e).2 =
      ((xml.sliceField nm get set zero elem).unmarshal b st cs e).2 ∧
    E ((xml.sliceField nm get set zero elem).unmarshal a st cv e).1 =
      E ((xml.sliceField nm get set zero elem).unmarshal b st cs e).1 := by
  simp only [xml.sliceField, xml.field, xml.elemValue, hok]
  cases (elem zero st cs e).2 <;> simp [hE, hab]

/-! #### The six raw date strings and the two slices on the way to them -/

theorem Channel_alike_PubDateString :
    (∀ n, xml.Alike Channel.typeInfo (fun a : Channel => { a with PubDateString := "" }) n n) ∧
    (∀ (st : xml.StartElement) (e : Bool) (x y : String), st.Name.Local = "pubDate" →
      xml.Alike Channel.typeInfo (fun a : Channel => { a with PubDateString := "" })
        (xml.Node.Element st [xml.Node.CharData x] e)
        (xml.Node.Element st [xml.Node.CharData y] e)) := by
  constructor
  · apply alike_refl
    simp only [Channel.typeInfo, List.forall_mem_cons]
    refine ⟨?_, ?_, ?_, ?_, ?_, ?_, ?_, ?_, ?_, ?_, ?_, ?_, ?_, ?_⟩ <;> first
      | (refine field_alike (fun a : Channel => { a with PubDateString := "" }) _ _ _ _ ?_
         exact fun _ _ => rfl)
      | (intro x hx; cases hx)
  · intro st e x y hname
    simp only [xml.Alike, true_and, Channel.typeInfo, List.forall_mem_cons]
    refine ⟨?_, ?_, ?_, ?_, ?_, ?_, ?_, ?_, ?_, ?_, ?_, ?_, ?_, ?_⟩ <;> first
      | exact fun hb => absurd (hb.2.trans hname) (by decide)
      | (intro _
         refine string_edit (fun a : Channel => { a with PubDateString := "" }) _ _ ?_ st e x y
         exact fun _ _ => rfl)
      | (intro f hf; cases hf)

/-- Decoding a `pubDate` text into a `Channel`: another text in every `pubDate` child changes
    the error nowhere and the struct in `PubDateString` only. -/
theorem Channel_related_PubDateString (v s : String) (c : List xml.Node)
    (hplace : xml.named "pubDate" c ≠ []) :
    xml.Related Channel.typeInfo {} (fun a => { a with PubDateString := s })
      (xml.setText "pubDate" v c) (xml.setText "pubDate" s c) :=
  related_leaf Channel.typeInfo {} (fun a : Channel => { a with PubDateString := "" })
    (fun a => a.PubDateString) (fun a t => { a with PubDateString := t }) "pubDate" v s rfl rfl
    Channel_alike_PubDateString.1 Channel_alike_PubDateString.2
    (fun st c e r h => by
      rw [← fold_lastText]
      exact (Channel_fold st c e r h).2.2.2.1)
    (fun a b t h1 h2 => by
      cases a
      cases b
      simp only [Channel.mk.injEq] at h1 ⊢
      simp only at h2
      simp [h1, h2])
    c hplace

theorem Item_alike_PubDateString :
    (∀ n, xml.Alike Item.typeInfo (fun a : Item => { a with PubDateString := "" }) n n) ∧
    (∀ (st : xml.StartElement) (e : Bool) (x y : String), st.Name.Local = "pubDate" →
      xml.Alike Item.typeInfo (fun a : Item => { a with PubDateString := "" })
        (xml.Node.Element st [xml.Node.CharData x] e)
        (xml.Node.Element st [xml.Node.CharData y] e)) := by
  constructor
  · apply alike_refl
    simp only [Item.typeInfo, List.forall_mem_cons]
    refine ⟨?_, ?_, ?_, ?_, ?_, ?_, ?_, ?_, ?_, ?_, ?_, ?_, ?_, ?_, ?_, ?_, ?_, ?_, ?_, ?_, ?_, ?_, ?_, ?_, ?_⟩ <;> first
      | (refine field_alike (fun a : Item => { a with PubDateString := "" }) _ _ _ _ ?_
         exact fun _ _ => rfl)
      | (intro x hx; cases hx)
  · intro st e x y hname
    simp only [xml.Alike, true_and, Item.typeInfo, List.forall_mem_cons]
    refine ⟨?_, ?_, ?_, ?_, ?_, ?_, ?_, ?_, ?_, ?_, ?_, ?_, ?_, ?_, ?_, ?_, ?_, ?_, ?_, ?_, ?_, ?_, ?_, ?_, ?_⟩ <;> first
      | exact fun hb => absurd (hb.2.trans hname) (by decide)
      | (intro _
         refine string_edit (fun a : Item => { a with PubDateString := "" }) _ _ ?_ st e x y
         exact fun _ _ => rfl)
      | (intro f hf; cases hf)

/-- Decoding a `pubDate` text into a `Item`: another text in every `pubDate` child changes
    the error nowhere and the struct in `PubDateString` only. -/
theorem Item_related_PubDateString (v s : String) (c : List xml.Node)
    (hplace : xml.named "pubDate" c ≠ []) :
    xml.Related Item.typeInfo {} (fun a => { a with PubDateString := s })
      (xml.setText "pubDate" v c) (xml.setText "pubDate" s c) :=
  related_leaf Item.typeInfo {} (fun a : Item => { a with PubDateString := "" })
    (fun a => a.PubDateString) (fun a t => { a with PubDateString := t }) "pubDate" v s rfl rfl
    Item_alike_PubDateString.1 Item_alike_PubDateString.2
    (fun st c e r h => by
      rw [← fold_lastText]
      exact (Item_fold st c e r h).2.2.1)
    (fun a b t h1 h2 => by
      cases a
      cases b
      simp only [Item.mk.injEq] at h1 ⊢
      simp only at h2
      simp [h1, h2])
    c hplace

theorem Item_alike_PostDateString :
    (∀ n, xml.Alike Item.typeInfo (fun a : Item => { a with PostDateString := "" }) n n) ∧
    (∀ (st : xml.StartElement) (e : Bool) (x y : String), st.Name.Local = "post_date" →
      xml.Alike Item.typeInfo (fun a : Item => { a with PostDateString := "" })
        (xml.Node.Element st [xml.Node.CharData x] e)
        (xml.Node.Element st [xml.Node.CharData y] e)) := by
  constructor
  · apply alike_refl
    simp only [Item.typeInfo, List.forall_mem_cons]
    refine ⟨?_, ?_, ?_, ?_, ?_, ?_, ?_, ?_, ?_, ?_, ?_, ?_, ?_, ?_, ?_, ?_, ?_, ?_, ?_, ?_, ?_, ?_, ?_, ?_, ?_⟩ <;> first
      | (refine field_alike (fun a : Item => { a with PostDateString := "" }) _ _ _ _ ?_
         exact fun _ _ => rfl)
      | (intro x hx; cases hx)
  · intro st e x y hname
    simp only [xml.Alike, true_and, Item.typeInfo, List.forall_mem_cons]
    refine ⟨?_, ?_, ?_, ?_, ?_, ?_, ?_, ?_, ?_, ?_, ?_, ?_, ?_, ?_, ?_, ?_, ?_, ?_, ?_, ?_, ?_, ?_, ?_, ?_, ?_⟩ <;> first
      | exact fun hb => absurd (hb.2.trans hname) (by decide)
      | (intro _
         refine string_edit (fun a : Item => { a with PostDateString := "" }) _ _ ?_ st e x y
         exact fun _ _ => rfl)
      | (intro f hf; cases hf)

/-- Decoding a `post_date` text into a `Item`: another text in every `post_date` child changes
    the error nowhere and the struct in `PostDateString` only. -/
theorem Item_related_PostDateString (v s : String) (c : List xml.Node)
    (hplace : xml.named "post_date" c ≠ []) :
    xml.Related Item.typeInfo {} (fun a => { a with PostDateString := s })
      (xml.setText "post_date" v c) (xml.setText "post_date" s c) :=
  related_leaf Item.typeInfo {} (fun a : Item => { a with PostDateString := "" })
    (fun a => a.PostDateString) (fun a t => { a with PostDateString := t }) "post_date" v s rfl rfl
    Item_alike_PostDateString.1 Item_alike_PostDateString.2
    (fun st c e r h => by
      rw [← fold_lastText]
      exact (Item_fold st c e r h).2.2.2.2.2.2.2.2.2.1)
    (fun a b t h1 h2 => by
      cases a
      cases b
      simp only [Item.mk.injEq] at h1 ⊢
      simp only at h2
      simp [h1, h2])
    c hplace

theorem Item_alike_PostDateGmtString :
    (∀ n, xml.Alike Item.typeInfo (fun a : Item => { a with PostDateGmtString := "" }) n n) ∧
    (∀ (st : xml.StartElement) (e : Bool) (x y : String), st.Name.Local = "post_date_gmt" →
      xml.Alike Item.typeInfo (fun a : Item => { a with PostDateGmtString := "" })
        (xml.Node.Element st [xml.Node.CharData x] e)
        (xml.Node.Element st [xml.Node.CharData y] e)) := by
  constructor
  · apply alike_refl
    simp only [Item.typeInfo, List.forall_mem_cons]
    refine ⟨?_, ?_, ?_, ?_, ?_, ?_, ?_, ?_, ?_, ?_, ?_, ?_, ?_, ?_, ?_, ?_, ?_, ?_, ?_, ?_, ?_, ?_, ?_, ?_, ?_⟩ <;> first
      | (refine field_alike (fun a : Item => { a with PostDateGmtString := "" }) _ _ _ _ ?_
         exact fun _ _ => rfl)
      | (intro x hx; cases hx)
  · intro st e x y hname
    simp only [xml.Alike, true_and, Item.typeInfo, List.forall_mem_cons]
    refine ⟨?_, ?_, ?_, ?_, ?_, ?_, ?_, ?_, ?_, ?_, ?_, ?_, ?_, ?_, ?_, ?_, ?_, ?_, ?_, ?_, ?_, ?_, ?_, ?_, ?_⟩ <;> first
      | exact fun hb => absurd (hb.2.trans hname) (by decide)
      | (intro _
         refine string_edit (fun a : Item => { a with PostDateGmtString := "" }) _ _ ?_ st e x y
         exact fun _ _ => rfl)
      | (intro f hf; cases hf)

/-- Decoding a `post_date_gmt` text into a `Item`: another text in every `post_date_gmt` child changes
    the error nowhere and the struct in `PostDateGmtString` only. -/
theorem Item_related_PostDateGmtString (v s : String) (c : List xml.Node)
    (hplace : xml.named "post_date_gmt" c ≠ []) :
    xml.Related Item.typeInfo {} (fun a => { a with PostDateGmtString := s })
      (xml.setText "post_date_gmt" v c) (xml.setText "post_date_gmt" s c) :=
  related_leaf Item.typeInfo {} (fun a : Item => { a with PostDateGmtString := "" })
    (fun a => a.PostDateGmtString) (fun a t => { a with PostDateGmtString := t }) "post_date_gmt" v s rfl rfl
    Item_alike_PostDateGmtString.1 Item_alike_PostDateGmtString.2
    (fun st c e r h => by
      rw [← fold_lastText]
      exact (Item_fold st c e r h).2.2.2.2.2.2.2.2.2.2.1)
    (fun a b t h1 h2 => by
      cases a
      cases b
      simp only [Item.mk.injEq] at h1 ⊢
      simp only at h2
      simp [h1, h2])
    c hplace

theorem Comment_alike_DateString :
    (∀ n, xml.Alike Comment.typeInfo (fun a : Comment => { a with DateString := "" }) n n) ∧
    (∀ (st : xml.StartElement) (e : Bool) (x y : String), st.Name.Local = "comment_date" →
      xml.Alike Comment.typeInfo (fun a : Comment => { a with DateString := "" })
        (xml.Node.Element st [xml.Node.CharData x] e)
        (xml.Node.Element st [xml.Node.CharData y] e)) := by
  constructor
  · apply alike_refl
    simp only [Comment.typeInfo, List.forall_mem_cons]
    refine ⟨?_, ?_, ?_, ?_, ?_, ?_, ?_, ?_, ?_, ?_, ?_, ?_, ?_⟩ <;> first
      | (refine field_alike (fun a : Comment => { a with DateString := "" }) _ _ _ _ ?_
         exact fun _ _ => rfl)
      | (intro x hx; cases hx)
  · intro st e x y hname
    simp only [xml.Alike, true_and, Comment.typeInfo, List.forall_mem_cons]
    refine ⟨?_, ?_, ?_, ?_, ?_, ?_, ?_, ?_, ?_, ?_, ?_, ?_, ?_⟩ <;> first
      | exact fun hb => absurd (hb.2.trans hname) (by decide)
      | (intro _
         refine string_edit (fun a : Comment => { a with DateString := "" }) _ _ ?_ st e x y
         exact fun _ _ => rfl)
      | (intro f hf; cases hf)

/-- Decoding a `comment_date` text into a `Comment`: another text in every `comment_date` child changes
    the error nowhere and the struct in `DateString` only. -/
theorem Comment_related_DateString (v s : String) (c : List xml.Node)
    (hplace : xml.named "comment_date" c ≠ []) :
    xml.Related Comment.typeInfo {} (fun a => { a with DateString := s })
      (xml.setText "comment_date" v c) (xml.setText "comment_date" s c) :=
  related_leaf Comment.typeInfo {} (fun a : Comment => { a with DateString := "" })
    (fun a => a.DateString) (fun a t => { a with DateString := t }) "comment_date" v s rfl rfl
    Comment_alike_DateString.1 Comment_alike_DateString.2
    (fun st c e r h => by
      rw [← fold_lastText]
      exact (Comment_fold st c e r h).2.2.2.2.2.1)
    (fun a b t h1 h2 => by
      cases a
      cases b
      simp only [Comment.mk.injEq] at h1 ⊢
      simp only at h2
      simp [h1, h2])
    c hplace

theorem Comment_alike_DateGmtString :
    (∀ n, xml.Alike Comment.typeInfo (fun a : Comment => { a with DateGmtString := "" }) n n) ∧
    (∀ (st : xml.StartElement) (e : Bool) (x y : String), st.Name.Local = "comment_date_gmt" →
      xml.Alike Comment.typeInfo (fun a : Comment => { a with DateGmtString := "" })
        (xml.Node.Element st [xml.Node.CharData x] e)
        (xml.Node.Element st [xml.Node.CharData y] e)) := by
  constructor
  · apply alike_refl
    simp only [Comment.typeInfo, List.forall_mem_cons]
    refine ⟨?_, ?_, ?_, ?_, ?_, ?_, ?_, ?_, ?_, ?_, ?_, ?_, ?_⟩ <;> first
      | (refine field_alike (fun a : Comment => { a with DateGmtString := "" }) _ _ _ _ ?_
         exact fun _ _ => rfl)
      | (intro x hx; cases hx)
  · intro st e x y hname
    simp only [xml.Alike, true_and, Comment.typeInfo, List.forall_mem_cons]
    refine ⟨?_, ?_, ?_, ?_, ?_, ?_, ?_, ?_, ?_, ?_, ?_, ?_, ?_⟩ <;> first
      | exact fun hb => absurd (hb.2.trans hname) (by decide)
      | (intro _
         refine string_edit (fun a : Comment => { a with DateGmtString := "" }) _ _ ?_ st e x y
         exact fun _ _ => rfl)
      | (intro f hf; cases hf)

/-- Decoding a `comment_date_gmt` text into a `Comment`: another text in every `comment_date_gmt` child changes
    the error nowhere and the struct in `DateGmtString` only. -/
theorem Comment_related_DateGmtString (v s : String) (c : List xml.Node)
    (hplace : xml.named "comment_date_gmt" c ≠ []) :
    xml.Related Comment.typeInfo {} (fun a => { a with DateGmtString := s })
      (xml.setText "comment_date_gmt" v c) (xml.setText "comment_date_gmt" s c) :=
  related_leaf Comment.typeInfo {} (fun a : Comment => { a with DateGmtString := "" })
    (fun a => a.DateGmtString) (fun a t => { a with DateGmtString := t }) "comment_date_gmt" v s rfl rfl
    Comment_alike_DateGmtString.1 Comment_alike_DateGmtString.2
    (fun st c e r h => by
      rw [← fold_lastText]
      exact (Comment_fold st c e r h).2.2.2.2.2.2.1)
    (fun a b t h1 h2 => by
      cases a
      cases b
      simp only [Comment.mk.injEq] at h1 ⊢
      simp only at h2
      simp [h1, h2])
    c hplace

theorem Channel_alike_Items :
    (∀ n, xml.Alike Channel.typeInfo (fun a : Channel => { a with Items := [] }) n n) ∧
    (∀ (st : xml.StartElement) (e : Bool) (cv cs : List xml.Node), st.Name.Local = "item" →
      (xml.unmarshalStruct Item.typeInfo {} st cv e).2 =
        (xml.unmarshalStruct Item.typeInfo {} st cs e).2 →
      xml.Alike Channel.typeInfo (fun a : Channel => { a with Items := [] })
        (xml.Node.Element st cv e) (xml.Node.Element st cs e)) := by
  constructor
  · apply alike_refl
    simp only [Channel.typeInfo, List.forall_mem_cons]
    refine ⟨?_, ?_, ?_, ?_, ?_, ?_, ?_, ?_, ?_, ?_, ?_, ?_, ?_, ?_⟩ <;> first
      | (refine field_alike (fun a : Channel => { a with Items := [] }) _ _ _ _ ?_
         exact fun _ _ => rfl)
      | (intro x hx; cases hx)
  · intro st e cv cs hname hok
    simp only [xml.Alike, true_and, Channel.typeInfo, List.forall_mem_cons]
    refine ⟨?_, ?_, ?_, ?_, ?_, ?_, ?_, ?_, ?_, ?_, ?_, ?_, ?_, ?_⟩ <;> first
      | exact fun hb => absurd (hb.2.trans hname) (by decide)
      | (intro _
         refine slice_edit (fun a : Channel => { a with Items := [] }) _ _ _ _ _ ?_ st e cv cs hok
         exact fun _ _ => rfl)
      | (intro f hf; cases hf)

/-- Decoding into a `Channel`: a change of the content of the `k`-th `item` child that changes
    the decoded `Item` by `G` changes the struct in `Items[k]` only. -/
theorem Channel_related_Items (G : Item → Item) (gv gs : List xml.Node → List xml.Node)
    (c : List xml.Node) (k : Nat)
    (hrel : ∀ el, (xml.named "item" c)[k]? = some el →
      xml.Related Item.typeInfo {} G (gv el.content) (gs el.content)) :
    xml.Related Channel.typeInfo {} (fun a => { a with Items := modifyAt a.Items k G })
      (xml.atChild "item" gv k c) (xml.atChild "item" gs k c) :=
  related_slice Channel.typeInfo {} Item.typeInfo {} (fun a : Channel => { a with Items := [] })
    (fun a => a.Items) (fun a t => { a with Items := t }) "item" G gv gs rfl rfl
    Channel_alike_Items.1 Channel_alike_Items.2
    (fun st c e r h => by
      constructor
      · have hf := (Channel_fold st c e r h).2.2.2.2.2.2.2.2.2.2.2.2
        rw [fold_map] at hf
        exact hf
      · have hok := (Channel_elems_ok st c e r h).2.2.2
        rw [filter_bindsTo_named] at hok
        exact hok)
    (fun a b t h1 h2 => by
      cases a
      cases b
      simp only [Channel.mk.injEq] at h1 ⊢
      simp only at h2
      simp [h1, h2])
    c k hrel

theorem Item_alike_Comments :
    (∀ n, xml.Alike Item.typeInfo (fun a : Item => { a with Comments := [] }) n n) ∧
    (∀ (st : xml.StartElement) (e : Bool) (cv cs : List xml.Node), st.Name.Local = "comment" →
      (xml.unmarshalStruct Comment.typeInfo {} st cv e).2 =
        (xml.unmarshalStruct Comment.typeInfo {} st cs e).2 →
      xml.Alike Item.typeInfo (fun a : Item => { a with Comments := [] })
        (xml.Node.Element st cv e) (xml.Node.Element st cs e)) := by
  constructor
  · apply alike_refl
    simp only [Item.typeInfo, List.forall_mem_cons]
    refine ⟨?_, ?_, ?_, ?_, ?_, ?_, ?_, ?_, ?_, ?_, ?_, ?_, ?_, ?_, ?_, ?_, ?_, ?_, ?_, ?_, ?_, ?_, ?_, ?_, ?_⟩ <;> first
      | (refine field_alike (fun a : Item => { a with Comments := [] }) _ _ _ _ ?_
         exact fun _ _ => rfl)
      | (intro x hx; cases hx)
  · intro st e cv cs hname hok
    simp only [xml.Alike, true_and, Item.typeInfo, List.forall_mem_cons]
    refine ⟨?_, ?_, ?_, ?_, ?_, ?_, ?_, ?_, ?_, ?_, ?_, ?_, ?_, ?_, ?_, ?_, ?_, ?_, ?_, ?_, ?_, ?_, ?_, ?_, ?_⟩ <;> first
      | exact fun hb => absurd (hb.2.trans hname) (by decide)
      | (intro _
         refine slice_edit (fun a : Item => { a with Comments := [] }) _ _ _ _ _ ?_ st e cv cs hok
         exact fun _ _ => rfl)
      | (intro f hf; cases hf)

/-- Decoding into a `Item`: a change of the content of the `k`-th `comment` child that changes
    the decoded `Comment` by `G` changes the struct in `Comments[k]` only. -/
theorem Item_related_Comments (G : Comment → Comment) (gv gs : List xml.Node → List xml.Node)
    (c : List xml.Node) (k : Nat)
    (hrel : ∀ el, (xml.named "comment" c)[k]? = some el →
      xml.Related Comment.typeInfo {} G (gv el.content) (gs el.content)) :
    xml.Related Item.typeInfo {} (fun a => { a with Comments := modifyAt a.Comments k G })
      (xml.atChild "comment" gv k c) (xml.atChild "comment" gs k c) :=
  related_slice Item.typeInfo {} Comment.typeInfo {} (fun a : Item => { a with Comments := [] })
    (fun a => a.Comments) (fun a t => { a with Comments := t }) "comment" G gv gs rfl rfl
    Item_alike_Comments.1 Item_alike_Comments.2
    (fun st c e r h => by
      constructor
      · have hf := (Item_fold st c e r h).2.2.2.2.2.2.2.2.2.2.2.2.2.2.2.2.2.2.2.2.2.2.2
        rw [fold_map] at hf
        exact hf
      · have hok := (Item_elems_ok st c e r h).2.2
        rw [filter_bindsTo_named] at hok
        exact hok)
    (fun a b t h1 h2 => by
      cases a
      cases b
      simp only [Item.mk.injEq] at h1 ⊢
      simp only at h2
      simp [h1, h2])
    c k hrel

theorem root_atRoot (g : List xml.Node → List xml.Node) : ∀ doc : List xml.Node,
    xml.root (xml.atRoot g doc) =
      (xml.root doc).map (fun el => ⟨el.start, g el.content, el.ended⟩) := by
  intro doc
  induction doc with
  | nil => rfl
  | cons n ns ih =>
    cases n with
    | CharData t => simpa [xml.atRoot, xml.root] using ih
    | Other => simpa [xml.atRoot, xml.root] using ih
    | Element st cc e => rfl

/-- The channels `xml.Unmarshal` stores, for two contents of the root element that differ
    in the content of the `ci`-th `channel` element. -/
theorem channels_atChild (G : Channel → Channel) (gv gs : List xml.Node → List xml.Node) :
    ∀ (c : List xml.Node) (ci : Nat),
      (∀ el, (xml.named "channel" c)[ci]? = some el →
        xml.Related Channel.typeInfo {} G (gv el.content) (gs el.content)) →
      (xml.named "channel" (xml.beforeFailure (xml.atChild "channel" gs ci c))).map
          Channel.decode =
        modifyAt ((xml.named "channel"
          (xml.beforeFailure (xml.atChild "channel" gv ci c))).map Channel.decode) ci G := by
  intro c
  induction c with
  | nil => intro ci _; rfl
  | cons n ns ih =>
    intro ci H
    cases n with
    | CharData t =>
      have h := ih ci (by simpa [named_cons_chardata] using H)
      simp only [xml.beforeFailure] at h
      simpa [xml.atChild, xml.beforeFailure, List.takeWhile, xml.rootChildOk,
        named_cons_chardata] using h
    | Other =>
      have h := ih ci (by simpa [named_cons_other] using H)
      simp only [xml.beforeFailure] at h
      simpa [xml.atChild, xml.beforeFailure, List.takeWhile, xml.rootChildOk,
        named_cons_other] using h
    | Element st cc e =>
      by_cases hn : st.Name.Local = "channel"
      · cases ci with
        | zero =>
          obtain ⟨h1, h2⟩ := H ⟨st, cc, e⟩ (by simp [named_cons_element, hn]) st e
          simp only at h1 h2
          cases hok : (xml.unmarshalStruct Channel.typeInfo {} st (gs cc) e).2 with
          | false =>
            simp [xml.atChild, hn, xml.beforeFailure, List.takeWhile, xml.rootChildOk,
              hok, h1, xml.named, xml.elements, modifyAt]
          | true =>
            have h3 := h2 hok
            simp [xml.atChild, hn, xml.beforeFailure, List.takeWhile, xml.rootChildOk,
              hok, h1, named_cons_element, modifyAt, Channel.decode, h3]
        | succ ci =>
          have h := ih ci (fun el hel => H el (by simpa [named_cons_element, hn] using hel))
          simp only [xml.beforeFailure] at h
          cases hok : (xml.unmarshalStruct Channel.typeInfo {} st cc e).2 with
          | false =>
            simp [xml.atChild, hn, xml.beforeFailure, List.takeWhile, xml.rootChildOk,
              hok, xml.named, xml.elements, modifyAt]
          | true =>
            simp [xml.atChild, hn, xml.beforeFailure, List.takeWhile, xml.rootChildOk,
              hok, named_cons_element, modifyAt, h]
      · have h := ih ci (fun el hel => H el (by simpa [named_cons_element, hn] using hel))
        simp only [xml.beforeFailure] at h
        cases e with
        | false =>
          simp [xml.atChild, hn, xml.beforeFailure, List.takeWhile, xml.rootChildOk,
            xml.named, xml.elements, modifyAt]
        | true =>
          simp [xml.atChild, hn, xml.beforeFailure, List.takeWhile, xml.rootChildOk,
            named_cons_element, h]

theorem Wxr_alike_Channels :
    (∀ n, xml.Alike Wxr.typeInfo (fun a : Wxr => { a with Channels := [] }) n n) ∧
    (∀ (st : xml.StartElement) (e : Bool) (cv cs : List xml.Node), st.Name.Local = "channel" →
      (xml.unmarshalStruct Channel.typeInfo {} st cv e).2 =
        (xml.unmarshalStruct Channel.typeInfo {} st cs e).2 →
      xml.Alike Wxr.typeInfo (fun a : Wxr => { a with Channels := [] })
        (xml.Node.Element st cv e) (xml.Node.Element st cs e)) := by
  constructor
  · apply alike_refl
    intro f hf
    simp only [Wxr.typeInfo, List.mem_singleton] at hf
    subst hf
    refine field_alike (fun a : Wxr => { a with Channels := [] }) _ _ _ _ ?_
    exact fun _ _ => rfl
  · intro st e cv cs hname hok
    refine (show _ ∧ _ ∧ _ from ⟨rfl, rfl, ?_⟩)
    intro f hf _
    simp only [Wxr.typeInfo, List.mem_singleton] at hf
    subst hf
    refine slice_edit (fun a : Wxr => { a with Channels := [] }) _ _ _ _ _ ?_ st e cv cs hok
    exact fun _ _ => rfl

/-- What `xml.Unmarshal` leaves in the struct, with or without error, for two documents
    that differ in the content of the `ci`-th `channel` element of the root element; and
    the error it reports is the same for both. -/
theorem Unmarshal_atRoot (G : Channel → Channel) (gv gs : List xml.Node → List xml.Node)
    (doc : List xml.Node) (ci : Nat)
    (hrel : ∀ rootEl el, xml.root doc = some rootEl →
      (xml.named "channel" rootEl.content)[ci]? = some el →
      xml.Related Channel.typeInfo {} G (gv el.content) (gs el.content)) :
    (xml.Unmarshal (xml.atRoot (xml.atChild "channel" gs ci) doc) {}).1 =
      ((xml.Unmarshal (xml.atRoot (xml.atChild "channel" gv ci) doc) {}).1).modChannel
        ci G ∧
    (xml.Unmarshal (xml.atRoot (xml.atChild "channel" gv ci) doc) {}).2 =
      (xml.Unmarshal (xml.atRoot (xml.atChild "channel" gs ci) doc) {}).2 := by
  have hext : ∀ a b : Wxr, a.Channels = b.Channels → a = b := by
    intro a b h
    cases a
    cases b
    simpa using h
  simp only [Unmarshal_root, root_atRoot]
  cases hr : xml.root doc with
  | none => exact ⟨rfl, rfl⟩
  | some rootEl =>
    constructor
    · apply hext
      simp only [Option.map_some', Wxr.modChannel]
      rw [(unmarshalStruct_Wxr_beforeFailure _ _ _).2.2,
        (unmarshalStruct_Wxr_beforeFailure _ _ _).2.2]
      exact channels_atChild G gv gs rootEl.content ci (fun el hel => hrel rootEl el hr hel)
    · have hnamed : ∀ el, el ∈ xml.named "channel" rootEl.content →
          el.start.Name.Local = "channel" := by
        intro el hel
        simp only [xml.named, List.mem_filter, xml.byName, decide_eq_true_eq] at hel
        exact hel.2
      simp only [Option.map_some']
      exact (unmarshalStruct_alike Wxr.typeInfo _ rfl rfl {} rootEl.start _ _ rootEl.ended
        (forall2_atChild Wxr.typeInfo _ "channel" gv gs Wxr_alike_Channels.1
          rootEl.content ci (fun el hel =>
            Wxr_alike_Channels.2 el.start el.ended _ _ (hnamed el (List.getElem?_mem hel))
              (hrel rootEl el hr hel el.start el.ended).1))).1

theorem childContent_some (nm : String) (k : Nat) (c : List xml.Node) (el : xml.Elem)
    (h : (xml.named nm c)[k]? = some el) : xml.childContent nm k c = some el.content := by
  simp [xml.childContent, h]

/-- The structure `xml.Unmarshal` leaves for a document with the text `s` in the place of a
    date field is the structure for the document with the text `v` there, with that raw
    date string replaced by `s`; and the error it reports is the same for both. -/
theorem Unmarshal_withDateText (f : DateField) (v s : String) (doc : List xml.Node)
    (hplace : 0 < (xml.dateElements f doc).length) :
    (xml.Unmarshal (xml.withDateText f s doc) {}).1 =
      ((xml.Unmarshal (xml.withDateText f v doc) {}).1).setDateString f s ∧
    (xml.Unmarshal (xml.withDateText f v doc) {}).2 =
      (xml.Unmarshal (xml.withDateText f s doc) {}).2 := by
  cases f with
  | channelPubDate ci =>
    refine Unmarshal_atRoot _ _ _ doc ci (fun rootEl el hr hel => ?_)
    refine Channel_related_PubDateString v s el.content (fun h0 => ?_)
    simp [xml.dateElements, hr, childContent_some _ _ _ _ hel, DateField.tag, h0] at hplace
  | itemPubDate ci ii =>
    refine Unmarshal_atRoot _ _ _ doc ci (fun rootEl el hr hel => ?_)
    refine Channel_related_Items _ _ _ el.content ii (fun el2 hel2 => ?_)
    refine Item_related_PubDateString v s el2.content (fun h0 => ?_)
    simp [xml.dateElements, hr, childContent_some _ _ _ _ hel,
      childContent_some _ _ _ _ hel2, DateField.tag, h0] at hplace
  | itemPostDate ci ii =>
    refine Unmarshal_atRoot _ _ _ doc ci (fun rootEl el hr hel => ?_)
    refine Channel_related_Items _ _ _ el.content ii (fun el2 hel2 => ?_)
    refine Item_related_PostDateString v s el2.content (fun h0 => ?_)
    simp [xml.dateElements, hr, childContent_some _ _ _ _ hel,
      childContent_some _ _ _ _ hel2, DateField.tag, h0] at hplace
  | itemPostDateGmt ci ii =>
    refine Unmarshal_atRoot _ _ _ doc ci (fun rootEl el hr hel => ?_)
    refine Channel_related_Items _ _ _ el.content ii (fun el2 hel2 => ?_)
    refine Item_related_PostDateGmtString v s el2.content (fun h0 => ?_)
    simp [xml.dateElements, hr, childContent_some _ _ _ _ hel,
      childContent_some _ _ _ _ hel2, DateField.tag, h0] at hplace
  | commentDate ci ii ki =>
    refine Unmarshal_atRoot _ _ _ doc ci (fun rootEl el hr hel => ?_)
    refine Channel_related_Items _ _ _ el.content ii (fun el2 hel2 => ?_)
    refine Item_related_Comments _ _ _ el2.content ki (fun el3 hel3 => ?_)
    refine Comment_related_DateString v s el3.content (fun h0 => ?_)
    simp [xml.dateElements, hr, childContent_some _ _ _ _ hel,
      childContent_some _ _ _ _ hel2, childContent_some _ _ _ _ hel3, DateField.tag,
      h0] at hplace
  | commentDateGmt ci ii ki =>
    refine Unmarshal_atRoot _ _ _ doc ci (fun rootEl el hr hel => ?_)
    refine Channel_related_Items _ _ _ el.content ii (fun el2 hel2 => ?_)
    refine Item_related_Comments _ _ _ el2.content ki (fun el3 hel3 => ?_)
    refine Comment_related_DateGmtString v s el3.content (fun h0 => ?_)
    simp [xml.dateElements, hr, childContent_some _ _ _ _ hel,
      childContent_some _ _ _ _ hel2, childContent_some _ _ _ _ hel3, DateField.tag,
      h0] at hplace

theorem channelAt_withDates (env : Env) (w : Wxr) (ci : Nat) :
    (w.withDates env).channelAt ci = (w.channelAt ci).map (Channel.withDates env) := by
  simp [Wxr.channelAt, Wxr.withDates]

theorem itemAt_withDates (env : Env) (w : Wxr) (ci ii : Nat) :
    (w.withDates env).itemAt ci ii = (w.itemAt ci ii).map (Item.withDates env) := by
  simp only [Wxr.itemAt, Wxr.withDates, List.getElem?_map]
  cases w.Channels[ci]? with
  | none => rfl
  | some c => simp [Channel.withDates]

theorem commentAt_withDates (env : Env) (w : Wxr) (ci ii ki : Nat) :
    (w.withDates env).commentAt ci ii ki =
      (w.commentAt ci ii ki).map (Comment.withDates env) := by
  simp only [Wxr.commentAt, itemAt_withDates]
  cases w.itemAt ci ii with
  | none => rfl
  | some i => simp [Item.withDates]

/-- The date loop leaves the raw date strings as they are. -/
theorem dateString_withDates (env : Env) (w : Wxr) (f : DateField) :
    (w.withDates env).dateString f = w.dateString f := by
  cases f <;>
    simp only [Wxr.dateString, channelAt_withDates, itemAt_withDates, commentAt_withDates,
      Option.map_map] <;> rfl

/-- After the date loop every timestamp is the parse of its raw date string. -/
theorem timestamp_withDates (env : Env) (w : Wxr) (f : DateField) :
    (w.withDates env).timestamp f =
      (w.dateString f).map (fun str => parseDate env f.layout str) := by
  cases f <;>
    simp only [Wxr.dateString, Wxr.timestamp, channelAt_withDates, itemAt_withDates,
      commentAt_withDates, Option.map_map] <;> rfl

theorem dateString_setDateString (w : Wxr) (f : DateField) (s : String) :
    (w.setDateString f s).dateString f = (w.dateString f).map (fun _ => s) := by
  cases f <;>
    simp only [Wxr.dateString, Wxr.setDateString, channelAt_modChannel, itemAt_modItem,
      commentAt_modComment, Option.map_map] <;> rfl

theorem childContent_atChild (nm : String) (g : List xml.Node → List xml.Node) (k : Nat)
    (c : List xml.Node) :
    xml.childContent nm k (xml.atChild nm g k c) = (xml.childContent nm k c).map g := by
  simp only [xml.childContent, named_atChild, getElem?_modifyAt, Option.map_map]
  rfl

theorem length_named_setText (nm s : String) (c : List xml.Node) :
    (xml.named nm (xml.setText nm s c)).length = (xml.named nm c).length := by
  rw [named_setText, List.length_map]

/-- Putting a text in the place of a date field keeps the date elements of the place in
    number. -/
theorem dateElements_withDateText (f : DateField) (s : String) (doc : List xml.Node) :
    (xml.dateElements f (xml.withDateText f s doc)).length =
      (xml.dateElements f doc).length := by
  unfold xml.dateElements xml.withDateText
  rw [root_atRoot]
  cases xml.root doc with
  | none => rfl
  | some rootEl =>
    cases f with
    | channelPubDate ci =>
      simp only [Option.map_some', xml.dateEdit, childContent_atChild, DateField.tag]
      cases xml.childContent "channel" ci rootEl.content with
      | none => rfl
      | some cc => simp [length_named_setText]
    | itemPubDate ci ii =>
      simp only [Option.map_some', xml.dateEdit, childContent_atChild, DateField.tag]
      cases xml.childContent "channel" ci rootEl.content with
      | none => rfl
      | some cc =>
        simp only [Option.map_some', Option.some_bind, childContent_atChild]
        cases xml.childContent "item" ii cc with
        | none => rfl
        | some ic => simp [length_named_setText]
    | itemPostDate ci ii =>
      simp only [Option.map_some', xml.dateEdit, childContent_atChild, DateField.tag]
      cases xml.childContent "channel" ci rootEl.content with
      | none => rfl
      | some cc =>
        simp only [Option.map_some', Option.some_bind, childContent_atChild]
        cases xml.childContent "item" ii cc with
        | none => rfl
        | some ic => simp [length_named_setText]
    | itemPostDateGmt ci ii =>
      simp only [Option.map_some', xml.dateEdit, childContent_atChild, DateField.tag]
      cases xml.childContent "channel" ci rootEl.content with
      | none => rfl
      | some cc =>
        simp only [Option.map_some', Option.some_bind, childContent_atChild]
        cases xml.childContent "item" ii cc with
        | none => rfl
        | some ic => simp [length_named_setText]
    | commentDate ci ii ki =>
      simp only [Option.map_some', xml.dateEdit, childContent_atChild, DateField.tag]
      cases xml.childContent "channel" ci rootEl.content with
      | none => rfl
      | some cc =>
        simp only [Option.map_some', Option.some_bind, childContent_atChild]
        cases xml.childContent "item" ii cc with
        | none => rfl
        | some ic =>
          simp only [Option.map_some', Option.some_bind, childContent_atChild]
          cases xml.childContent "comment" ki ic with
          | none => rfl
          | some kc => simp [length_named_setText]
    | commentDateGmt ci ii ki =>
      simp only [Option.map_some', xml.dateEdit, childContent_atChild, DateField.tag]
      cases xml.childContent "channel" ci rootEl.content with
      | none => rfl
      | some cc =>
        simp only [Option.map_some', Option.some_bind, childContent_atChild]
        cases xml.childContent "item" ii cc with
        | none => rfl
        | some ic =>
          simp only [Option.map_some', Option.some_bind, childContent_atChild]
          cases xml.childContent "comment" ki ic with
          | none => rfl
          | some kc => simp [length_named_setText]

theorem channel_of_ok (s : xml.StartElement) (c : List xml.Node) (e : Bool)
    (hok : (xml.unmarshalStruct Wxr.typeInfo {} s c e).2 = true) (ci : Nat) (el : xml.Elem)
    (hel : (xml.named "channel" c)[ci]? = some el) :
    (xml.unmarshalStruct Wxr.typeInfo {} s c e).1.Channels[ci]? = some (Channel.decode el) ∧
    (xml.unmarshalStruct Channel.typeInfo {} el.start el.content el.ended).2 = true := by
  have hw : xml.unmarshalStruct Wxr.typeInfo {} s c e =
      ((xml.unmarshalStruct Wxr.typeInfo {} s c e).1, true) := Prod.ext rfl hok
  have h3 := Wxr_fold _ _ _ _ hw
  have h4 := Wxr_elems_ok _ _ _ _ hw
  rw [fold_map] at h3
  rw [filter_bindsTo_named] at h4
  exact ⟨by rw [h3, List.getElem?_map, hel]; rfl, h4 el (List.getElem?_mem hel)⟩

theorem item_of_ok (el : xml.Elem)
    (hok : (xml.unmarshalStruct Channel.typeInfo {} el.start el.content el.ended).2 = true)
    (ii : Nat) (el2 : xml.Elem) (hel : (xml.named "item" el.content)[ii]? = some el2) :
    (Channel.decode el).Items[ii]? = some (Item.decode el2) ∧
    (xml.unmarshalStruct Item.typeInfo {} el2.start el2.content el2.ended).2 = true := by
  have hw : xml.unmarshalStruct Channel.typeInfo {} el.start el.content el.ended =
      (Channel.decode el, true) := Prod.ext rfl hok
  have h3 := (Channel_fold _ _ _ _ hw).2.2.2.2.2.2.2.2.2.2.2.2
  have h4 := (Channel_elems_ok _ _ _ _ hw).2.2.2
  rw [fold_map] at h3
  rw [filter_bindsTo_named] at h4
  exact ⟨by rw [h3, List.getElem?_map, hel]; rfl, h4 el2 (List.getElem?_mem hel)⟩

theorem comment_of_ok (el : xml.Elem)
    (hok : (xml.unmarshalStruct Item.typeInfo {} el.start el.content el.ended).2 = true)
    (ki : Nat) (el2 : xml.Elem) (hel : (xml.named "comment" el.content)[ki]? = some el2) :
    (Item.decode el).Comments[ki]? = some (Comment.decode el2) := by
  have hw : xml.unmarshalStruct Item.typeInfo {} el.start el.content el.ended =
      (Item.decode el, true) := Prod.ext rfl hok
  have h3 := (Item_fold _ _ _ _ hw).2.2.2.2.2.2.2.2.2.2.2.2.2.2.2.2.2.2.2.2.2.2.2
  rw [fold_map] at h3
  rw [h3, List.getElem?_map, hel]
  rfl

theorem childContent_eq_some (nm : String) (k : Nat) (c cc : List xml.Node)
    (h : xml.childContent nm k c = some cc) :
    ∃ el, (xml.named nm c)[k]? = some el ∧ el.content = cc := by
  simpa [xml.childContent] using h

/-- In the structure decoded from a document without error, the entity of a date field
    whose element is in the document is present. -/
theorem dateString_of_ok (f : DateField) (doc : List xml.Node)
    (hok : (xml.Unmarshal doc {}).2 = true)
    (hplace : 0 < (xml.dateElements f doc).length) :
    ∃ str, (xml.Unmarshal doc {}).1.dateString f = some str := by
  rw [Unmarshal_root] at hok ⊢
  unfold xml.dateElements at hplace
  cases hr : xml.root doc with
  | none => simp [hr] at hok
  | some rootEl =>
    simp only [hr] at hok hplace ⊢
    cases f with
    | channelPubDate ci =>
      simp only at hplace
      cases hc : xml.childContent "channel" ci rootEl.content with
      | none => simp [hc] at hplace
      | some cc =>
        obtain ⟨el, hel, _⟩ := childContent_eq_some _ _ _ _ hc
        obtain ⟨h1, _⟩ := channel_of_ok _ _ _ hok ci el hel
        simp [Wxr.dateString, Wxr.channelAt, h1]
    | itemPubDate ci ii =>
      simp only at hplace
      cases hc : xml.childContent "channel" ci rootEl.content with
      | none => simp [hc] at hplace
      | some cc =>
        obtain ⟨el, hel, rfl⟩ := childContent_eq_some _ _ _ _ hc
        obtain ⟨h1, ok1⟩ := channel_of_ok _ _ _ hok ci el hel
        cases hi : xml.childContent "item" ii el.content with
        | none => simp [hc, hi] at hplace
        | some ic =>
          obtain ⟨el2, hel2, _⟩ := childContent_eq_some _ _ _ _ hi
          obtain ⟨h2, _⟩ := item_of_ok el ok1 ii el2 hel2
          simp [Wxr.dateString, Wxr.itemAt, h1, h2]
    | itemPostDate ci ii =>
      simp only at hplace
      cases hc : xml.childContent "channel" ci rootEl.content with
      | none => simp [hc] at hplace
      | some cc =>
        obtain ⟨el, hel, rfl⟩ := childContent_eq_some _ _ _ _ hc
        obtain ⟨h1, ok1⟩ := channel_of_ok _ _ _ hok ci el hel
        cases hi : xml.childContent "item" ii el.content with
        | none => simp [hc, hi] at hplace
        | some ic =>
          obtain ⟨el2, hel2, _⟩ := childContent_eq_some _ _ _ _ hi
          obtain ⟨h2, _⟩ := item_of_ok el ok1 ii el2 hel2
          simp [Wxr.dateString, Wxr.itemAt, h1, h2]
    | itemPostDateGmt ci ii =>
      simp only at hplace
      cases hc : xml.childContent "channel" ci rootEl.content with
      | none => simp [hc] at hplace
      | some cc =>
        obtain ⟨el, hel, rfl⟩ := childContent_eq_some _ _ _ _ hc
        obtain ⟨h1, ok1⟩ := channel_of_ok _ _ _ hok ci el hel
        cases hi : xml.childContent "item" ii el.content with
        | none => simp [hc, hi] at hplace
        | some ic =>
          obtain ⟨el2, hel2, _⟩ := childContent_eq_some _ _ _ _ hi
          obtain ⟨h2, _⟩ := item_of_ok el ok1 ii el2 hel2
          simp [Wxr.dateString, Wxr.itemAt, h1, h2]
    | commentDate ci ii ki =>
      simp only at hplace
      cases hc : xml.childContent "channel" ci rootEl.content with
      | none => simp [hc] at hplace
      | some cc =>
        obtain ⟨el, hel, rfl⟩ := childContent_eq_some _ _ _ _ hc
        obtain ⟨h1, ok1⟩ := channel_of_ok _ _ _ hok ci el hel
        cases hi : xml.childContent "item" ii el.content with
        | none => simp [hc, hi] at hplace
        | some ic =>
          obtain ⟨el2, hel2, rfl⟩ := childContent_eq_some _ _ _ _ hi
          obtain ⟨h2, ok2⟩ := item_of_ok el ok1 ii el2 hel2
          cases hk : xml.childContent "comment" ki el2.content with
          | none => simp [hc, hi, hk] at hplace
          | some kc =>
            obtain ⟨el3, hel3, _⟩ := childContent_eq_some _ _ _ _ hk
            have h3 := comment_of_ok el2 ok2 ki el3 hel3
            simp [Wxr.dateString, Wxr.commentAt, Wxr.itemAt, h1, h2, h3]
    | commentDateGmt ci ii ki =>
      simp only at hplace
      cases hc : xml.childContent "channel" ci rootEl.content with
      | none => simp [hc] at hplace
      | some cc =>
        obtain ⟨el, hel, rfl⟩ := childContent_eq_some _ _ _ _ hc
        obtain ⟨h1, ok1⟩ := channel_of_ok _ _ _ hok ci el hel
        cases hi : xml.childContent "item" ii el.content with
        | none => simp [hc, hi] at hplace
        | some ic =>
          obtain ⟨el2, hel2, rfl⟩ := childContent_eq_some _ _ _ _ hi
          obtain ⟨h2, ok2⟩ := item_of_ok el ok1 ii el2 hel2
          cases hk : xml.childContent "comment" ki el2.content with
          | none => simp [hc, hi, hk] at hplace
          | some kc =>
            obtain ⟨el3, hel3, _⟩ := childContent_eq_some _ _ _ _ hk
            have h3 := comment_of_ok el2 ok2 ki el3 hel3
            simp [Wxr.dateString, Wxr.commentAt, Wxr.itemAt, h1, h2, h3]

/-- C2: take a document `doc`, one of the six date fields whose element the document holds
    (`hplace`), and two inputs whose tokens are `doc` with the text `v` and with the text
    `s` in the place of that field, nothing else changed (`hdata`, `hdata1`), where
    `time.Parse` rejects `s` under the field's layout (the empty text is rejected under
    both layouts). `ParseWxr` returns a result for both inputs, without an error, and the
    whole result for the input with `s` is the result for the input with `v` with just
    that raw string replaced by `s` and that timestamp by the zero time. `xml.Unmarshal`
    reports an error for both inputs or for neither, and when it reports none the field is
    in the result, with the raw string `s` and the zero time. -/
theorem C2_bad_date_affects_only_its_field (env : Env) (doc : List xml.Node)
    (data data1 : List UInt8) (f : DateField) (v s : String)
    (hbad : (time.Parse env.localOffset f.layout s).2 = true)
    (hplace : 0 < (xml.dateElements f doc).length)
    (hdata : xml.tokens env.lex data = xml.withDateText f v doc)
    (hdata1 : xml.tokens env.lex data1 = xml.withDateText f s doc) :
    ∃ r r1 : Wxr, ParseWxr env data = some r ∧ ParseWxr env data1 = some r1 ∧
      r1 = (r.setDateString f s).setTimestamp f time.Time.zero ∧
      (∀ t, r1.timestamp f = some t → t = time.Time.zero) ∧
      (xml.Unmarshal (xml.tokens env.lex data) {}).2 =
        (xml.Unmarshal (xml.tokens env.lex data1) {}).2 ∧
      ((xml.Unmarshal (xml.tokens env.lex data1) {}).2 = true →
        r1.dateString f = some s ∧ r1.timestamp f = some time.Time.zero) ∧
      (time.Parse env.localOffset f.layout "").2 = true := by
  have hU := Unmarshal_withDateText f v s doc hplace
  have hdec : decoded env data1 = (decoded env data).setDateString f s := by
    unfold decoded
    rw [hdata, hdata1]
    exact hU.1
  refine ⟨_, _, ParseWxr_eq env data, ParseWxr_eq env data1, ?_, ?_, ?_, ?_, ?_⟩
  · rw [hdec]
    exact withDates_setDateString env _ f s hbad
  · intro t ht
    rw [hdec, withDates_setDateString env _ f s hbad] at ht
    exact timestamp_setTimestamp _ f _ _ ht
  · rw [hdata, hdata1]
    exact hU.2
  · intro hok
    rw [hdata1] at hok
    obtain ⟨str, hstr⟩ := dateString_of_ok f _ hok
      (by rw [dateElements_withDateText]; exact hplace)
    have hd1 : (decoded env data1).dateString f = some str := by
      unfold decoded
      rw [hdata1]
      exact hstr
    have hs : str = s := by
      rw [hdec, dateString_setDateString] at hd1
      cases hd : (decoded env data).dateString f with
      | none => simp [hd] at hd1
      | some x =>
        simp only [hd, Option.map_some', Option.some.injEq] at hd1
        exact hd1.symm
    subst hs
    constructor
    · rw [dateString_withDates, hd1]
    · rw [timestamp_withDates, hd1]
      simp only [Option.map_some', parseDate]
      rw [Parse_error_zero _ _ _ hbad]
  · cases f <;> rfl

/-- C2 at the document `datedDoc`, whose channel, item and comment carry other fields
    beside their dates, with a well-formed `comment_date` and with the text `garbage`:
    `time.Parse` rejects `garbage`, the comment has a `comment_date` element, the two
    inputs are the document with the one text and with the other, and the results differ
    in that raw string and its timestamp only. In the result for `garbage` every other
    field is populated and every other timestamp is parsed. -/
theorem C2_bad_date_affects_only_its_field_witness :
    (time.Parse datedEnv.localOffset (DateField.commentDate 0 0 0).layout "garbage").2 = true ∧
    0 < (xml.dateElements (DateField.commentDate 0 0 0) (datedDoc "")).length ∧
    xml.tokens datedEnv.lex [60] =
      xml.withDateText (DateField.commentDate 0 0 0) "2014-07-07 10:00:00" (datedDoc "") ∧
    xml.tokens datedEnv.lex [60, 62] =
      xml.withDateText (DateField.commentDate 0 0 0) "garbage" (datedDoc "") ∧
    (∃ r r1 : Wxr, ParseWxr datedEnv [60] = some r ∧ ParseWxr datedEnv [60, 62] = some r1 ∧
      r1 = (r.setDateString (DateField.commentDate 0 0 0) "garbage").setTimestamp
        (DateField.commentDate 0 0 0) time.Time.zero ∧
      (∀ t, r1.timestamp (DateField.commentDate 0 0 0) = some t → t = time.Time.zero) ∧
      (xml.Unmarshal (xml.tokens datedEnv.lex [60]) {}).2 =
        (xml.Unmarshal (xml.tokens datedEnv.lex [60, 62]) {}).2 ∧
      ((xml.Unmarshal (xml.tokens datedEnv.lex [60, 62]) {}).2 = true →
        r1.dateString (DateField.commentDate 0 0 0) = some "garbage" ∧
        r1.timestamp (DateField.commentDate 0 0 0) = some time.Time.zero) ∧
      (time.Parse datedEnv.localOffset (DateField.commentDate 0 0 0).layout "").2 = true) ∧
    (xml.Unmarshal (xml.tokens datedEnv.lex [60, 62]) {}).2 = true ∧
    (ParseWxr datedEnv [60, 62]).map (fun r => r.Channels.map (fun c =>
      (c.Title, c.Link, decide (c.PubDate = time.Time.zero)))) =
      some [("Blog", "http://blog.example", false)] ∧
    (ParseWxr datedEnv [60, 62]).map (fun r => r.Channels.flatMap (fun c => c.Items.map (fun i =>
      (i.Title, i.PostId, decide (i.PubDate = time.Time.zero),
        decide (i.PostDate = time.Time.zero), decide (i.PostDateGmt = time.Time.zero))))) =
      some [("Post", 7, false, false, false)] ∧
    (ParseWxr datedEnv [60, 62]).map (fun r => r.Channels.flatMap (fun c =>
      c.Items.flatMap (fun i => i.Comments.map (fun k =>
        (k.Id, k.Author, k.DateString, decide (k.Date = time.Time.zero),
          decide (k.DateGmt = time.Time.zero)))))) =
      some [(1, "Ann", "garbage", true, false)] ∧
    (ParseWxr datedEnv [60]).map (fun r => r.Channels.flatMap (fun c =>
      c.Items.flatMap (fun i => i.Comments.map (fun k =>
        (k.Id, k.Author, k.DateString, decide (k.Date = time.Time.zero),
          decide (k.DateGmt = time.Time.zero)))))) =
      some [(1, "Ann", "2014-07-07 10:00:00", false, false)] :=
  ⟨by decide, by decide, rfl, rfl,
    C2_bad_date_affects_only_its_field datedEnv (datedDoc "") [60] [60, 62]
      (DateField.commentDate 0 0 0) "2014-07-07 10:00:00" "garbage" (by decide) (by decide)
      rfl rfl,
    by decide, by decide, by decide, by decide, by decide⟩
